import Mathlib

/-!
# Graphics-Engine: a shallow embedding of the rasterizer core

The definitions below follow the C++ sources (`EmptyCanvas.h`, `EmptyCanvas.cpp`,
`Blitter.h`, `Polygon.h`, `GMatrix.cpp`).  Conventions of the embedding:

* C `int` / `unsigned` values are `Int` / `Nat`.  On premultiplied pixels
  (`R, G, B ≤ A ≤ 255`) every intermediate value of the blend arithmetic is below
  `2 * 255 * 255`, so it is exact both in `int` and in `float`, `255 - A` does not
  wrap, and no wrap-around is modelled.
* C `float` / `double` values are exact rationals (`ℚ`).  Rounding of the floating
  point operations is modelled where a definition takes the rounding functions `fl`
  (for `float`) and `fd` (for `double`) as parameters: `id` is exact arithmetic,
  `roundF32` and `roundF64` are the IEEE 754 roundings.  Every other definition is the
  code over exact arithmetic.
* An element read past the end of a `std::vector` is an unspecified value, given as
  a parameter.
* Mutable objects are passed explicitly: a function returns the new contents of
  what the C++ code mutates.
-/

namespace GraphicsEngine

/-! ## Floating point rounding -/

/-- Rounding of a rational to the nearest integer, a tie to the even one. -/
def roundHalfEven (q : ℚ) : Int :=
  if q - (⌊q⌋ : ℚ) < 1 / 2 then ⌊q⌋
  else if 1 / 2 < q - (⌊q⌋ : ℚ) then ⌊q⌋ + 1
  else if ⌊q⌋ % 2 = 0 then ⌊q⌋ else ⌊q⌋ + 1

/-- Rounding to the nearest number of an IEEE 754 binary format with `p` fraction bits and
least normal exponent `emin`, a tie to the even one, subnormal numbers included: for
`2^e ≤ |x| < 2^(e+1)` the result is the nearest multiple of `2^(max e emin - p)`.  Overflow
to infinity is not modelled; the values used are far below the largest number of the
format. -/
def roundBinary (p : Nat) (emin : Int) (x : ℚ) : ℚ :=
  let e : Int := max (Int.log 2 |x|) emin
  (roundHalfEven (x / (2 : ℚ) ^ (e - (p : Int))) : ℚ) * (2 : ℚ) ^ (e - (p : Int))

/-- The `float` (IEEE 754 binary32) that an operation on `float`s yields from its exact
result, in the default rounding mode. -/
def roundF32 (x : ℚ) : ℚ := roundBinary 23 (-126) x

/-- The `double` (IEEE 754 binary64) that an operation on `double`s yields from its exact
result, in the default rounding mode. -/
def roundF64 (x : ℚ) : ℚ := roundBinary 52 (-1022) x

/-! ## Pixels and colours -/

/-- Modelled from the spec: `GPixel.h` is not among the sources.  A pixel is its four
channels A, R, G, B (packed ARGB, 8 bits each, premultiplied). -/
structure GPixel where
  a : Nat
  r : Nat
  g : Nat
  b : Nat
deriving DecidableEq, Repr

/-- Modelled from the spec: `GPixel_PackARGB(a, r, g, b)` of the missing `GPixel.h`.  The
pixel of the model holds the four arguments of the call as they are; the packing into 8
bits per channel and the contract `R, G, B ≤ A ≤ 255` of the call are not part of it
(`GPixel.premul` states the contract).  On arguments that meet the contract the model is
the packed pixel. -/
def GPixel_PackARGB (a r g b : Nat) : GPixel := ⟨a, r, g, b⟩

/-- Modelled from the spec: channel accessor of the missing `GPixel.h`. -/
def GPixel_GetA (p : GPixel) : Nat := p.a

/-- Modelled from the spec: channel accessor of the missing `GPixel.h`. -/
def GPixel_GetR (p : GPixel) : Nat := p.r

/-- Modelled from the spec: channel accessor of the missing `GPixel.h`. -/
def GPixel_GetG (p : GPixel) : Nat := p.g

/-- Modelled from the spec: channel accessor of the missing `GPixel.h`. -/
def GPixel_GetB (p : GPixel) : Nat := p.b

/-- A premultiplied pixel: `R, G, B ≤ A ≤ 255` (what `GPixel_PackARGB` asserts). -/
def GPixel.premul (p : GPixel) : Prop :=
  p.a ≤ 255 ∧ p.r ≤ p.a ∧ p.g ≤ p.a ∧ p.b ≤ p.a

instance (p : GPixel) : Decidable p.premul := by
  unfold GPixel.premul; infer_instance

/-- Modelled from the spec: `GColor` of the missing `GColor.h`, four unpremultiplied
channels. -/
structure GColor where
  fA : ℚ
  fR : ℚ
  fG : ℚ
  fB : ℚ
deriving DecidableEq

/-- All four channels of the colour lie in `[0, 1]`. -/
def GColor.unit (c : GColor) : Prop :=
  (0 ≤ c.fA ∧ c.fA ≤ 1) ∧ (0 ≤ c.fR ∧ c.fR ≤ 1) ∧ (0 ≤ c.fG ∧ c.fG ≤ 1) ∧
    (0 ≤ c.fB ∧ c.fB ≤ 1)

/-- The twelve Porter-Duff modes of `GBlendMode`, as the `switch` statements of
`EmptyCanvas.h` list them. -/
inductive GBlendMode where
  | kClear | kSrc | kDst | kSrcOver | kDstOver | kSrcIn | kDstIn | kSrcOut | kDstOut
  | kSrcATop | kDstATop | kXor
deriving DecidableEq, Repr

/-- `Div255` of `EmptyCanvas.h`: `((x + 128) * 257) >> 16`. -/
def Div255 (x : Nat) : Nat := ((x + 128) * 257) >>> 16

/-- Conversion of a non-negative `float` to `unsigned` (truncation), as it happens at
the arguments of `GPixel_PackARGB`.  The conversion of a negative value is undefined in
C++; the model gives 0 there. -/
def toUnsigned (q : ℚ) : Nat := ⌊q⌋₊

/-- `color_to_pixel` of `EmptyCanvas.h`, on the colour of the paint. -/
def color_to_pixel (c : GColor) : GPixel :=
  GPixel_PackARGB
    (toUnsigned (c.fA * 255 + 1/2))
    (toUnsigned (c.fA * c.fR * 255 + 1/2))
    (toUnsigned (c.fA * c.fG * 255 + 1/2))
    (toUnsigned (c.fA * c.fB * 255 + 1/2))

/-- `willReturnDst` of `EmptyCanvas.h`. -/
def willReturnDst (blend_mode : GBlendMode) (alpha : ℚ) : Bool :=
  if blend_mode = GBlendMode.kDst ∨
     (blend_mode = GBlendMode.kSrcOver ∧ alpha = 0) ∨
     (blend_mode = GBlendMode.kDstOver ∧ alpha = 0) ∨
     (blend_mode = GBlendMode.kDstOut ∧ alpha = 0) ∨
     (blend_mode = GBlendMode.kDstIn ∧ alpha = 1) then true else false

/-! ## The blend operators -/

/-- `kClear`: 0. -/
def kClear (_src _dst : GPixel) : GPixel := GPixel_PackARGB 0 0 0 0

/-- `kSrc`: S. -/
def kSrc (src _dst : GPixel) : GPixel := src

/-- `kDst`: D. -/
def kDst (_src dst : GPixel) : GPixel := dst

/-- `kSrcOver`: S + (1 - Sa)*D. -/
def kSrcOver (src dst : GPixel) : GPixel :=
  let src_alpha_inverse := 255 - GPixel_GetA src
  GPixel_PackARGB
    (GPixel_GetA src + Div255 (src_alpha_inverse * GPixel_GetA dst))
    (GPixel_GetR src + Div255 (src_alpha_inverse * GPixel_GetR dst))
    (GPixel_GetG src + Div255 (src_alpha_inverse * GPixel_GetG dst))
    (GPixel_GetB src + Div255 (src_alpha_inverse * GPixel_GetB dst))

/-- `kDstOver`: D + (1 - Da)*S. -/
def kDstOver (src dst : GPixel) : GPixel :=
  let dst_alpha_inverse := 255 - GPixel_GetA dst
  GPixel_PackARGB
    (GPixel_GetA dst + Div255 (dst_alpha_inverse * GPixel_GetA src))
    (GPixel_GetR dst + Div255 (dst_alpha_inverse * GPixel_GetR src))
    (GPixel_GetG dst + Div255 (dst_alpha_inverse * GPixel_GetG src))
    (GPixel_GetB dst + Div255 (dst_alpha_inverse * GPixel_GetB src))

/-- `kSrcIn`: Da * S. -/
def kSrcIn (src dst : GPixel) : GPixel :=
  let dst_A := GPixel_GetA dst
  GPixel_PackARGB
    (Div255 (dst_A * GPixel_GetA src))
    (Div255 (dst_A * GPixel_GetR src))
    (Div255 (dst_A * GPixel_GetG src))
    (Div255 (dst_A * GPixel_GetB src))

/-- `kDstIn`: Sa * D. -/
def kDstIn (src dst : GPixel) : GPixel :=
  let src_A := GPixel_GetA src
  GPixel_PackARGB
    (Div255 (src_A * GPixel_GetA dst))
    (Div255 (src_A * GPixel_GetR dst))
    (Div255 (src_A * GPixel_GetG dst))
    (Div255 (src_A * GPixel_GetB dst))

/-- `kSrcOut`: (1 - Da)*S. -/
def kSrcOut (src dst : GPixel) : GPixel :=
  let dst_A_inverse := 255 - GPixel_GetA dst
  GPixel_PackARGB
    (Div255 (dst_A_inverse * GPixel_GetA src))
    (Div255 (dst_A_inverse * GPixel_GetR src))
    (Div255 (dst_A_inverse * GPixel_GetG src))
    (Div255 (dst_A_inverse * GPixel_GetB src))

/-- `kDstOut`: (1 - Sa)*D. -/
def kDstOut (src dst : GPixel) : GPixel :=
  let src_A_inverse := 255 - GPixel_GetA src
  GPixel_PackARGB
    (Div255 (src_A_inverse * GPixel_GetA dst))
    (Div255 (src_A_inverse * GPixel_GetR dst))
    (Div255 (src_A_inverse * GPixel_GetG dst))
    (Div255 (src_A_inverse * GPixel_GetB dst))

/-- `kSrcATop`: Da*S + (1 - Sa)*D. -/
def kSrcATop (src dst : GPixel) : GPixel :=
  let dst_A := GPixel_GetA dst
  let src_A_inverse := 255 - GPixel_GetA src
  GPixel_PackARGB
    (Div255 ((dst_A * GPixel_GetA src) + (src_A_inverse * dst_A)))
    (Div255 ((dst_A * GPixel_GetR src) + (src_A_inverse * GPixel_GetR dst)))
    (Div255 ((dst_A * GPixel_GetG src) + (src_A_inverse * GPixel_GetG dst)))
    (Div255 ((dst_A * GPixel_GetB src) + (src_A_inverse * GPixel_GetB dst)))

/-- `kDstATop`: Sa*D + (1 - Da)*S. -/
def kDstATop (src dst : GPixel) : GPixel :=
  let src_pixel := kSrc src dst
  let src_A := GPixel_GetA src
  let dst_A_inverse := 255 - GPixel_GetA dst
  GPixel_PackARGB
    (Div255 ((src_A * GPixel_GetA dst) + (dst_A_inverse * GPixel_GetA src_pixel)))
    (Div255 ((src_A * GPixel_GetR dst) + (dst_A_inverse * GPixel_GetR src_pixel)))
    (Div255 ((src_A * GPixel_GetG dst) + (dst_A_inverse * GPixel_GetG src_pixel)))
    (Div255 ((src_A * GPixel_GetB dst) + (dst_A_inverse * GPixel_GetB src_pixel)))

/-- `kXor`: (1 - Sa)*D + (1 - Da)*S. -/
def kXor (src dst : GPixel) : GPixel :=
  let src_A_inverse := 255 - GPixel_GetA src
  let dst_A_inverse := 255 - GPixel_GetA dst
  GPixel_PackARGB
    (Div255 (src_A_inverse * GPixel_GetA dst + (dst_A_inverse * GPixel_GetA src)))
    (Div255 (src_A_inverse * GPixel_GetR dst + (dst_A_inverse * GPixel_GetR src)))
    (Div255 (src_A_inverse * GPixel_GetG dst + (dst_A_inverse * GPixel_GetG src)))
    (Div255 (src_A_inverse * GPixel_GetB dst + (dst_A_inverse * GPixel_GetB src)))

/-- The unspecialised closed-form operator that carries the name of the mode. -/
def blendOp : GBlendMode → GPixel → GPixel → GPixel
  | .kClear => kClear
  | .kSrc => kSrc
  | .kDst => kDst
  | .kSrcOver => kSrcOver
  | .kDstOver => kDstOver
  | .kSrcIn => kSrcIn
  | .kDstIn => kDstIn
  | .kSrcOut => kSrcOut
  | .kDstOut => kDstOut
  | .kSrcATop => kSrcATop
  | .kDstATop => kDstATop
  | .kXor => kXor

/-- The alpha-specialised dispatch shared by `get_blendmode_pixel` and `get_blendmode`
of `EmptyCanvas.h`: the two `switch` statements are the same text, and differ only in
how the four flags are computed. -/
def blend_switch (src_A_is_one src_A_is_zero dst_A_is_one dst_A_is_zero : Bool) :
    GBlendMode → GPixel → GPixel → GPixel
  | .kXor =>
    if src_A_is_one && dst_A_is_one then kClear
    else if src_A_is_one && dst_A_is_zero then kSrc
    else if src_A_is_one then kSrcOut
    else if dst_A_is_one then kDstOut
    else kXor
  | .kDstATop =>
    if src_A_is_one && dst_A_is_one then kDst
    else if src_A_is_zero && dst_A_is_zero then kSrc
    else if dst_A_is_one then kDstIn
    else kDstATop
  | .kSrcATop =>
    if src_A_is_one && dst_A_is_one then kSrc
    else if src_A_is_one then kSrcIn
    else if dst_A_is_zero then kDst
    else kSrcATop
  | .kDstOver =>
    if dst_A_is_zero then kSrc
    else if dst_A_is_one then kDst
    else kDstOver
  | .kSrcOver =>
    if src_A_is_one then kSrc else kSrcOver
  | .kSrcOut =>
    if dst_A_is_one || src_A_is_zero then kClear
    else if dst_A_is_zero then kSrc
    else kSrcOut
  | .kDstOut =>
    if src_A_is_one then kClear else kDstOut
  | .kSrcIn =>
    if dst_A_is_zero || src_A_is_zero then kClear
    else if dst_A_is_one then kSrc
    else kSrcIn
  | .kDstIn =>
    if src_A_is_zero then kClear else kDstIn
  | .kClear => kClear
  | .kSrc => kSrc
  | .kDst => kDst

/-- `get_blendmode_pixel` of `EmptyCanvas.h`: the flags come from the two pixels. -/
def get_blendmode_pixel (src dst : GPixel) (blend_mode : GBlendMode) : GPixel :=
  let src_A_is_one := decide (GPixel_GetA src = 255)
  let src_A_is_zero := decide (GPixel_GetA src = 0)
  let dst_A_is_one := decide (GPixel_GetA dst = 255)
  let dst_A_is_zero := decide (GPixel_GetA dst = 0)
  blend_switch src_A_is_one src_A_is_zero dst_A_is_one dst_A_is_zero blend_mode src dst

/-! ## Points and matrices -/

/-- Modelled from the spec: `GPoint` of the missing `GPoint.h`. -/
structure GPoint where
  fX : ℚ
  fY : ℚ
deriving DecidableEq

instance : Inhabited GPoint := ⟨⟨0, 0⟩⟩

/-- Modelled from the spec: `GRect` of the missing `GRect.h`. -/
structure GRect where
  fLeft : ℚ
  fTop : ℚ
  fRight : ℚ
  fBottom : ℚ
deriving DecidableEq

/-- Modelled from the spec: the six coefficients `fMat[SX..TY]` of the missing
`GMatrix.h`, in the order of the enumeration `SX, KX, TX, KY, SY, TY` (indices 0..5). -/
structure GMatrix where
  SX : ℚ
  KX : ℚ
  TX : ℚ
  KY : ℚ
  SY : ℚ
  TY : ℚ
deriving DecidableEq

namespace GMatrix

/-- `GMatrix::GMatrix()`: the identity. -/
def identity : GMatrix := ⟨1, 0, 0, 0, 1, 0⟩

/-- `GMatrix::Translate`. -/
def Translate (tx ty : ℚ) : GMatrix := ⟨1, 0, tx, 0, 1, ty⟩

/-- `GMatrix::Scale`. -/
def Scale (sx sy : ℚ) : GMatrix := ⟨sx, 0, 0, 0, sy, 0⟩

/-- `GMatrix::Concat`. -/
def Concat (a b : GMatrix) : GMatrix :=
  ⟨a.SX * b.SX + a.KX * b.KY, a.SX * b.KX + a.KX * b.SY, a.SX * b.TX + a.KX * b.TY + a.TX,
   a.KY * b.SX + a.SY * b.KY, a.KY * b.KX + a.SY * b.SY, a.KY * b.TX + a.SY * b.TY + a.TY⟩

/-- Modelled from the spec: `preConcat` of the missing `GMatrix.h`,
`CTM' = CTM * matrix`. -/
def preConcat (self matrix : GMatrix) : GMatrix := Concat self matrix

/-- `GMatrix::invert`.  The second argument is the matrix `inverse` points to; the
result is the returned flag and the contents of `*inverse` afterwards. -/
def invert (self : GMatrix) (inverse : GMatrix) : Bool × GMatrix :=
  let det := self.SX * self.SY - self.KX * self.KY
  if det = 0 then (false, inverse)
  else
    let inverse_det := 1 / det
    let a := self.SY * inverse_det
    let b := -self.KX * inverse_det
    let c := (self.KX * self.TY - self.SY * self.TX) * inverse_det
    let d := -self.KY * inverse_det
    let e := self.SX * inverse_det
    let f := (self.KY * self.TX - self.SX * self.TY) * inverse_det
    (true, ⟨a, b, c, d, e, f⟩)

/-- `GMatrix::invert` with the rounding of its floating point operations: `fl` rounds the
result of an operation on `float`s and converts a `double` to `float`, `fd` rounds the
result of an operation on `double`s.  The entries are `float`s, so `det` is computed in
`float` and then widened; `inverse_det` and the products with it are `double`s.
`GMatrix.invert` is the case of exact arithmetic, `fl = fd = id`. -/
def invertRounded (fl fd : ℚ → ℚ) (self : GMatrix) (inverse : GMatrix) : Bool × GMatrix :=
  let det := fl (fl (self.SX * self.SY) - fl (self.KX * self.KY))
  if det = 0 then (false, inverse)
  else
    let inverse_det := fd (1 / det)
    let a := fl (fd (self.SY * inverse_det))
    let b := fl (fd (-self.KX * inverse_det))
    let c := fl (fd (fl (fl (self.KX * self.TY) - fl (self.SY * self.TX)) * inverse_det))
    let d := fl (fd (-self.KY * inverse_det))
    let e := fl (fd (self.SX * inverse_det))
    let f := fl (fd (fl (fl (self.KY * self.TX) - fl (self.SX * self.TY)) * inverse_det))
    (true, ⟨a, b, c, d, e, f⟩)

/-- The body of the loop of `GMatrix::mapPoints`, for one point. -/
def mapPoint (self : GMatrix) (p : GPoint) : GPoint :=
  ⟨self.SX * p.fX + self.KX * p.fY + self.TX, self.KY * p.fX + self.SY * p.fY + self.TY⟩

/-- `GMatrix::mapPoints`: the contents of `dst[0..count)` afterwards. -/
def mapPoints (self : GMatrix) (src : List GPoint) (count : Nat) : List GPoint :=
  (List.range count).map (fun i => self.mapPoint (src.getD i default))

end GMatrix

/-! ## Shaders, paints, bitmaps -/

/-- Modelled from the spec: the shader capability of the missing `GShader.h`.
`setContext ctm` is `none` when the call returns false, and otherwise the row
producer `shadeRow x y count` that the shader is then set up for. -/
structure GShader where
  isOpaque : Bool
  setContext : GMatrix → Option (Int → Int → Nat → List GPixel)

/-- Modelled from the spec: `GPaint` of the missing `GPaint.h`: a colour, a blend mode
and an optional shader. -/
structure GPaint where
  fColor : GColor
  fMode : GBlendMode
  fShader : Option GShader

/-- `GPaint::getAlpha`. -/
def GPaint.getAlpha (p : GPaint) : ℚ := p.fColor.fA

/-- `GPaint::getBlendMode`. -/
def GPaint.getBlendMode (p : GPaint) : GBlendMode := p.fMode

/-- `get_blendmode` of `EmptyCanvas.h`: the source flags come from the paint's
(float) alpha, the destination flags from the pixel. -/
def get_blendmode (src : GPaint) (dst : GPixel) : GPixel → GPixel → GPixel :=
  let blend_mode := src.getBlendMode
  let src_A_is_one := decide (src.getAlpha = 1)
  let src_A_is_zero := decide (src.getAlpha = 0)
  let dst_A_is_one := decide (GPixel_GetA dst = 255)
  let dst_A_is_zero := decide (GPixel_GetA dst = 0)
  blend_switch src_A_is_one src_A_is_zero dst_A_is_one dst_A_is_zero blend_mode

/-- Modelled from the spec: `GBitmap` of the missing `GBitmap.h`: width, height and
the pixel that `getAddr(x, y)` points to. -/
structure GBitmap where
  width : Int
  height : Int
  pix : Int → Int → GPixel

/-- Assignment through `*bit_map.getAddr(x, y) = p`. -/
def GBitmap.setPixel (bm : GBitmap) (x y : Int) (p : GPixel) : GBitmap :=
  { bm with pix := fun x' y' => if x' = x ∧ y' = y then p else bm.pix x' y' }

/-! ## The blitter (`Blitter.h`) -/

/-- The fields of `Blitter` that change while blitting, and the ones `blit` reads.
`blend_ptr = none` is the null function pointer. -/
structure Blitter where
  local_dest_set : Bool
  blend_ptr : Option (GPixel → GPixel → GPixel)
  local_dst : GPixel
  local_src : GPaint
  local_src_pixel : GPixel
  ctm : GMatrix

/-- The constructor `Blitter(_src, _bit_map, _ctm)`; the bitmap is passed to `blit`. -/
def Blitter.make (_src : GPaint) (_ctm : GMatrix) : Blitter :=
  { local_dest_set := false
    blend_ptr := none
    local_dst := GPixel_PackARGB 0 0 0 0
    local_src := _src
    local_src_pixel := color_to_pixel _src.fColor
    ctm := _ctm }

/-- `Blitter::set_blend_mode`: the blitter afterwards. -/
def Blitter.set_blend_mode (self : Blitter) (dst : GPixel) : Blitter :=
  if !self.local_dest_set || GPixel_GetA self.local_dst != GPixel_GetA dst then
    { self with
      local_dest_set := true
      local_dst := dst
      blend_ptr := some (get_blendmode self.local_src dst) }
  else self

/-- One turn of the loop of the constant-colour path of `Blitter::blit`, at pixel
`(x, y)`.  Calling a null `blend_ptr` is the failure `none`. -/
def Blitter.blitPixel (self : Blitter) (bit_map : GBitmap) (y x : Int) :
    Option (Blitter × GBitmap) :=
  let dst := bit_map.pix x y
  let self1 := self.set_blend_mode dst
  match self1.blend_ptr with
  | none => none
  | some blend => some (self1, bit_map.setPixel x y (blend self1.local_src_pixel dst))

/-- The loop `for (int x = start_x; x < end_x; x++)` of the constant-colour path, with
`n` turns left and `x` the current column. -/
def Blitter.blitConst (y : Int) : Nat → Int → Blitter → GBitmap → Option (Blitter × GBitmap)
  | 0, _, self, bit_map => some (self, bit_map)
  | n + 1, x, self, bit_map =>
    match self.blitPixel bit_map y x with
    | none => none
    | some (self1, bit_map1) => Blitter.blitConst y n (x + 1) self1 bit_map1

/-- The loop of the shader path of `Blitter::blit`: `new_pixels` is the row the shader
produced, `k` the offset `x - start_x`. -/
def Blitter.blitShaded (mode : GBlendMode) (y : Int) (new_pixels : List GPixel) :
    Nat → Nat → Int → GBitmap → GBitmap
  | 0, _, _, bit_map => bit_map
  | n + 1, k, x, bit_map =>
    let new_src := new_pixels.getD k (GPixel_PackARGB 0 0 0 0)
    let dst := bit_map.pix x y
    Blitter.blitShaded mode y new_pixels n (k + 1) (x + 1)
      (bit_map.setPixel x y (get_blendmode_pixel new_src dst mode))

/-- The shader context when the paint has a shader and its `setContext(ctm)` succeeds. -/
def Blitter.shaderRow (self : Blitter) : Option (Int → Int → Nat → List GPixel) :=
  match self.local_src.fShader with
  | none => none
  | some shader => shader.setContext self.ctm

/-- `Blitter::blit(y, start_x, end_x)`: the pixels `start_x ≤ x < end_x` of row `y`. -/
def Blitter.blit (self : Blitter) (bit_map : GBitmap) (y start_x end_x : Int) :
    Option (Blitter × GBitmap) :=
  match self.shaderRow with
  | some shadeRow =>
    let count := end_x - start_x
    let new_pixels := shadeRow start_x y count.toNat
    some (self, Blitter.blitShaded self.local_src.getBlendMode y new_pixels count.toNat 0
      start_x bit_map)
  | none => Blitter.blitConst y (end_x - start_x).toNat start_x self bit_map

/-! ## Edges (`Polygon.h`) -/

/-- Modelled from the spec: `GRoundToInt` of the missing `GMath.h`,
`floor(x + 0.5)`. -/
def GRoundToInt (x : ℚ) : Int := ⌊x + 1/2⌋

/-- The C library function `round`: to the nearest integer, halves away from zero. -/
def cround (x : ℚ) : ℚ := if 0 ≤ x then (⌊x + 1/2⌋ : Int) else (⌈x - 1/2⌉ : Int)

/-- `struct Edge` of `Polygon.h`. -/
structure Edge where
  min_y : Int
  max_y : Int
  w : Int
  m : ℚ
  x : ℚ
deriving DecidableEq

/-- The constructor `Edge(_min_y, _max_y, _m, _x, _w, bit_map)`, without its
assertions. -/
def Edge.make (_min_y _max_y _m _x : ℚ) (_w : Int) : Edge :=
  { min_y := GRoundToInt _min_y
    max_y := GRoundToInt _max_y
    m := _m
    x := _x
    w := _w }

/-- `Edge::legal_y`. -/
def Edge.legal_y (e : Edge) (y : Int) : Bool := decide (e.min_y ≤ y) && decide (y < e.max_y)

/-- `calculate_x` of `Polygon.h`. -/
def calculate_x (slope : ℚ) (point : GPoint) : ℚ :=
  let h := cround point.fY - point.fY + 1/2
  point.fX + slope * h

/-- `is_horizontal` of `Polygon.h`. -/
def is_horizontal (y1 y2 : ℚ) : Bool := decide (GRoundToInt y1 = GRoundToInt y2)

/-- The body of the loop of `find_edges` for index `i`: the vector `edges` afterwards.
Every `continue` is the vector returned as it stands. -/
def find_edges_body (edges : List Edge) (pts : List GPoint) (count : Nat) (bit_map : GBitmap)
    (connect_end : Bool) (i : Nat) : List Edge :=
  let next_i := if i + 1 ≥ count ∧ connect_end = true then 0 else i + 1
  let p := pts.getD i default
  let q := pts.getD next_i default
  let width : ℚ := bit_map.width
  let height : ℚ := bit_map.height
  if is_horizontal p.fY q.fY then edges else
  let m := (q.fX - p.fX) / (q.fY - p.fY)
  let b := p.fX - m * p.fY
  let w : Int := if q.fY > p.fY then 1 else -1
  let top_point := if p.fY < q.fY then p else q
  let bottom_point := if p.fY < q.fY then q else p
  if (top_point.fY < 0 ∧ bottom_point.fY < 0) ∨
      (top_point.fY > height ∧ bottom_point.fY > height) then edges else
  let top_point : GPoint := if top_point.fY < 0 then ⟨b, 0⟩ else top_point
  let bottom_point : GPoint :=
    if bottom_point.fY > height then ⟨m * height + b, height⟩ else bottom_point
  if is_horizontal top_point.fY bottom_point.fY then edges else
  if (top_point.fX < 0 ∧ bottom_point.fX < 0) ∨
      (top_point.fX > width ∧ bottom_point.fX > width) then
    let bounding_x : Int := if top_point.fX < 0 then 0 else bit_map.width
    edges ++ [Edge.make top_point.fY bottom_point.fY 0 bounding_x w]
  else
  let left_point := if top_point.fX > bottom_point.fX then bottom_point else top_point
  let right_point := if top_point.fX > bottom_point.fX then top_point else bottom_point
  let left_intersection := -b / m
  let edges1 :=
    if left_point.fX < 0 then
      let edge_min_y := min left_point.fY left_intersection
      let edge_max_y := max left_point.fY left_intersection
      if !is_horizontal edge_min_y edge_max_y then
        edges ++ [Edge.make edge_min_y edge_max_y 0 0 w]
      else edges
    else edges
  let left_point : GPoint := if left_point.fX < 0 then ⟨0, left_intersection⟩ else left_point
  let right_intersection := (width - b) / m
  let edges2 :=
    if right_point.fX > width then
      let edge_min_y := min right_point.fY right_intersection
      let edge_max_y := max right_point.fY right_intersection
      if !is_horizontal edge_min_y edge_max_y then
        edges1 ++ [Edge.make edge_min_y edge_max_y 0 width w]
      else edges1
    else edges1
  let right_point : GPoint :=
    if right_point.fX > width then ⟨width, right_intersection⟩ else right_point
  let min_y := min left_point.fY right_point.fY
  let max_y := max left_point.fY right_point.fY
  if is_horizontal min_y max_y then edges2 else
  let top_point := if left_point.fY = min_y then left_point else right_point
  let x := calculate_x m top_point
  edges2 ++ [Edge.make min_y max_y m x w]

/-- `find_edges`: the loop `for (int i = 0; i < count; i++)`. -/
def find_edges (edges : List Edge) (pts : List GPoint) (count : Nat) (bit_map : GBitmap)
    (connect_end : Bool) : List Edge :=
  (List.range count).foldl
    (fun acc i => find_edges_body acc pts count bit_map connect_end i) edges

/-- `sortEdges` of `Polygon.h`. -/
def sortEdges (edge1 edge2 : Edge) : Bool :=
  if edge1.min_y < edge2.min_y then true
  else if edge2.min_y < edge1.min_y then false
  else if edge1.x < edge2.x then true
  else if edge2.x < edge1.x then false
  else decide (edge1.m < edge2.m)

/-- Insertion of one edge into a list sorted by `sortEdges`. -/
def insertEdge (e : Edge) : List Edge → List Edge
  | [] => [e]
  | f :: fs => if sortEdges e f then e :: f :: fs else f :: insertEdge e fs

/-- The call `std::sort(edges.begin(), edges.end(), sortEdges)`, as an insertion sort. -/
def sortEdgeList : List Edge → List Edge
  | [] => []
  | e :: es => insertEdge e (sortEdgeList es)

/-! ## The canvas (`EmptyCanvas.cpp`) -/

/-- The state of `EmptyCanvas`: the flag, the bitmap and the matrix stack `ctm`, whose
head is `ctm.top()`. -/
structure EmptyCanvas where
  has_called_save : Bool
  bit_map : GBitmap
  ctm : List GMatrix

namespace EmptyCanvas

/-- The constructor `EmptyCanvas(device)`: the stack holds one identity matrix. -/
def make (device : GBitmap) : EmptyCanvas :=
  { has_called_save := false, bit_map := device, ctm := [GMatrix.identity] }

/-- `EmptyCanvas::save`.  `top()` of an empty stack is the failure `none`. -/
def save (c : EmptyCanvas) : Option EmptyCanvas :=
  match c.ctm with
  | [] => none
  | top :: rest => some { c with has_called_save := true, ctm := top :: top :: rest }

/-- `EmptyCanvas::restore`.  `pop()` of an empty stack is the failure `none`. -/
def restore (c : EmptyCanvas) : Option EmptyCanvas :=
  if c.has_called_save then
    match c.ctm with
    | [] => none
    | _ :: rest => some { c with has_called_save := false, ctm := rest }
  else some c

/-- `EmptyCanvas::concat`. -/
def concat (c : EmptyCanvas) (matrix : GMatrix) : Option EmptyCanvas :=
  match c.ctm with
  | [] => none
  | top :: rest => some { c with ctm := top.preConcat matrix :: rest }

/-- The loop `for (int y = 0; y < bit_map.height(); y++)` of `drawPaint`, with `n`
rows left: each row is `blitter.blit(y, 0, bit_map.width() - 1)`. -/
def drawPaintRows : Nat → Int → Blitter → GBitmap → Option (Blitter × GBitmap)
  | 0, _, blitter, bit_map => some (blitter, bit_map)
  | n + 1, y, blitter, bit_map =>
    match blitter.blit bit_map y 0 (bit_map.width - 1) with
    | none => none
    | some (blitter1, bit_map1) => drawPaintRows n (y + 1) blitter1 bit_map1

/-- `EmptyCanvas::drawPaint`. -/
def drawPaint (c : EmptyCanvas) (src : GPaint) : Option EmptyCanvas :=
  if src.fShader.isNone && willReturnDst src.getBlendMode src.getAlpha then some c
  else
    match c.ctm with
    | [] => none
    | top :: _ =>
      let blitter := Blitter.make src top
      match drawPaintRows c.bit_map.height.toNat 0 blitter c.bit_map with
      | none => none
      | some (_, bit_map1) => some { c with bit_map := bit_map1 }

/-- The local variables of the scanline loop of `drawConvexPolygon`. -/
structure ConvexLoop where
  e0 : Edge
  e1 : Edge
  i : Nat
  blitter : Blitter
  bit_map : GBitmap

/-- The element `edges[i]`; an index past the end reads `oob i`, a value the program
does not control. -/
def edgeAt (edges : List Edge) (oob : Nat → Edge) (i : Nat) : Edge :=
  edges.getD i (oob i)

/-- One turn of the scanline loop of `drawConvexPolygon`, at row `y` (assertions
left out). -/
def convexRow (edges : List Edge) (oob : Nat → Edge) (y : Int) (s : ConvexLoop) :
    Option ConvexLoop :=
  let x0 := GRoundToInt s.e0.x
  let x1 := GRoundToInt s.e1.x
  match s.blitter.blit s.bit_map y x0 x1 with
  | none => none
  | some (blitter1, bit_map1) =>
    let i1 := if s.e0.legal_y (y + 1) then s.i else s.i + 1
    let e0 := if s.e0.legal_y (y + 1) then { s.e0 with x := s.e0.x + s.e0.m }
      else edgeAt edges oob i1
    let i2 := if s.e1.legal_y (y + 1) then i1 else i1 + 1
    let e1 := if s.e1.legal_y (y + 1) then { s.e1 with x := s.e1.x + s.e1.m }
      else edgeAt edges oob i2
    some { e0 := e0, e1 := e1, i := i2, blitter := blitter1, bit_map := bit_map1 }

/-- The loop `for (int y = global_top; y < global_bottom; y++)`, with `n` rows left. -/
def convexRows (edges : List Edge) (oob : Nat → Edge) : Nat → Int → ConvexLoop →
    Option ConvexLoop
  | 0, _, s => some s
  | n + 1, y, s =>
    match convexRow edges oob y s with
    | none => none
    | some s1 => convexRows edges oob n (y + 1) s1

/-- `EmptyCanvas::drawConvexPolygon`. -/
def drawConvexPolygon (c : EmptyCanvas) (org_points : List GPoint) (count : Nat)
    (src : GPaint) (oob : Nat → Edge) : Option EmptyCanvas :=
  if willReturnDst src.getBlendMode src.getAlpha && src.fShader.isNone then some c
  else
    match c.ctm with
    | [] => none
    | top :: _ =>
      let points := top.mapPoints org_points count
      let edges := sortEdgeList (find_edges [] points count c.bit_map true)
      if edges.isEmpty then some c
      else
        let e0 := edgeAt edges oob 0
        let e1 := edgeAt edges oob 1
        let blitter := Blitter.make src top
        let global_top := GRoundToInt (edgeAt edges oob 0).min_y
        let global_bottom := (edgeAt edges oob (edges.length - 1)).max_y
        match convexRows edges oob (global_bottom - global_top).toNat global_top
            { e0 := e0, e1 := e1, i := 1, blitter := blitter, bit_map := c.bit_map } with
        | none => none
        | some s => some { c with bit_map := s.bit_map }

/-- `EmptyCanvas::drawRect`. -/
def drawRect (c : EmptyCanvas) (rect : GRect) (src : GPaint) (oob : Nat → Edge) :
    Option EmptyCanvas :=
  if src.fShader.isNone && willReturnDst src.getBlendMode src.getAlpha then some c
  else
    let points : List GPoint :=
      [⟨rect.fLeft, rect.fTop⟩, ⟨rect.fRight, rect.fTop⟩, ⟨rect.fRight, rect.fBottom⟩,
       ⟨rect.fLeft, rect.fBottom⟩]
    c.drawConvexPolygon points 4 src oob

/-- The canvas calls on the matrix stack. -/
inductive StackCall where
  | save
  | restore
  | concat (matrix : GMatrix)

/-- One call applied to the canvas. -/
def call (c : EmptyCanvas) : StackCall → Option EmptyCanvas
  | .save => c.save
  | .restore => c.restore
  | .concat matrix => c.concat matrix

/-- A sequence of calls applied from left to right. -/
def calls (c : EmptyCanvas) : List StackCall → Option EmptyCanvas
  | [] => some c
  | k :: ks =>
    match c.call k with
    | none => none
    | some c1 => c1.calls ks

end EmptyCanvas

/-- A bitmap of the given size with every pixel `(0, 0, 0, 0)`. -/
def GBitmap.cleared (width height : Int) : GBitmap :=
  { width := width, height := height, pix := fun _ _ => GPixel_PackARGB 0 0 0 0 }

/-! ## Point arithmetic and Bézier curves (`Bezier.cpp`) -/

/-- Modelled from the spec: `operator+` of the missing `GPoint.h`, componentwise. -/
instance : Add GPoint := ⟨fun p q => ⟨p.fX + q.fX, p.fY + q.fY⟩⟩

/-- Modelled from the spec: `operator-` of the missing `GPoint.h`, componentwise. -/
instance : Sub GPoint := ⟨fun p q => ⟨p.fX - q.fX, p.fY - q.fY⟩⟩

/-- Modelled from the spec: the product of a float and a point of the missing
`GPoint.h` (written `s * P` or `P * s` in the sources), componentwise. -/
instance : SMul ℚ GPoint := ⟨fun s p => ⟨s * p.fX, s * p.fY⟩⟩

/-- The composition `ceil(sqrt(q))` of the C library on a rational `q`, computed exactly:
the least natural number `n` with `q ≤ n * n`. -/
def ceilSqrt (q : ℚ) : Nat := if q ≤ 0 then 0 else Nat.sqrt (⌈q⌉₊ - 1) + 1

/-- The expression `ceil(k * sqrt(c * E.length()))` for non-negative constants `k`, `c`,
with `E.length() = sqrt(fX * fX + fY * fY)` (modelled from the spec: `length` of the
missing `GPoint.h` is the Euclidean norm).  The square roots are irrational, so the
value is computed exactly as the least `n` with `(k * k * c)^2 * (fX^2 + fY^2) ≤ n^4`. -/
def ceilMulSqrtLength (k c : ℚ) (E : GPoint) : Nat :=
  ceilSqrt (ceilSqrt ((k ^ 2 * c) ^ 2 * (E.fX ^ 2 + E.fY ^ 2)))

/-- `quadSegments` of `Bezier.cpp`: `ceil(2 * sqrt(E.length()))`. -/
def quadSegments (pts : List GPoint) : Nat :=
  let A := pts.getD 0 default
  let B := pts.getD 1 default
  let C := pts.getD 2 default
  let E : GPoint := (1 / 4 : ℚ) • ((-1 : ℚ) • A + (2 : ℚ) • B - C)
  ceilMulSqrtLength 2 1 E

/-- `cubicSegments` of `Bezier.cpp`: `ceil(sqrt(3 * E.length()))`, with `P` computed as
the source does, `-1*A + 2*B + C`. -/
def cubicSegments (pts : List GPoint) : Nat :=
  let A := pts.getD 0 default
  let B := pts.getD 1 default
  let C := pts.getD 2 default
  let D := pts.getD 3 default
  let P : GPoint := (-1 : ℚ) • A + (2 : ℚ) • B + C
  let Q : GPoint := (-1 : ℚ) • B + (2 : ℚ) • C - D
  let x := max |P.fX| |Q.fX|
  let y := max |P.fY| |Q.fY|
  let E : GPoint := ⟨x, y⟩
  ceilMulSqrtLength 1 3 E

/-- `calculateQuad` of `Bezier.cpp`. -/
def calculateQuad (A B C : GPoint) (t : ℚ) : GPoint :=
  ((1 - t) ^ 2) • A + (2 * t * (1 - t)) • B + (t ^ 2) • C

/-- `calculateCubic` of `Bezier.cpp`. -/
def calculateCubic (A B C D : GPoint) (t : ℚ) : GPoint :=
  ((1 - t) ^ 3) • A + (3 * t * (1 - t) ^ 2) • B + (3 * t ^ 2 * (1 - t)) • C + (t ^ 3) • D

/-- `createQuadPts` of `Bezier.cpp`.  The array `quadPts` is a function of the index;
the result is the array after the call. -/
def createQuadPts (pts : List GPoint) (quadPts : Nat → GPoint) (count : Nat) :
    Nat → GPoint :=
  let A := pts.getD 0 default
  let B := pts.getD 1 default
  let C := pts.getD 2 default
  let quadPts0 := Function.update quadPts 0 A
  let inverse_count : ℚ := (count : ℚ)⁻¹
  let quadPts1 := (List.range' 1 (count - 1)).foldl
    (fun (acc : Nat → GPoint) (i : Nat) =>
      Function.update acc i (calculateQuad A B C ((i : ℚ) * inverse_count))) quadPts0
  Function.update quadPts1 count C

/-- `createCubicPts` of `Bezier.cpp`. -/
def createCubicPts (pts : List GPoint) (cubicPts : Nat → GPoint) (count : Nat) :
    Nat → GPoint :=
  let A := pts.getD 0 default
  let B := pts.getD 1 default
  let C := pts.getD 2 default
  let D := pts.getD 3 default
  let cubicPts0 := Function.update cubicPts 0 A
  let inverse_count : ℚ := (count : ℚ)⁻¹
  let cubicPts1 := (List.range' 1 (count - 1)).foldl
    (fun (acc : Nat → GPoint) (i : Nat) =>
      Function.update acc i (calculateCubic A B C D ((i : ℚ) * inverse_count))) cubicPts0
  Function.update cubicPts1 count D

/-- The `case GPath::kQuad` of the edge collection of `EmptyCanvas::drawPath`: the
vector `edges` afterwards.  `quadPts` is the uninitialised array of `numOfEdges + 1`
points. -/
def drawPath_kQuad (edges : List Edge) (pts : List GPoint) (quadPts : Nat → GPoint)
    (bit_map : GBitmap) : List Edge :=
  let numOfEdges := quadSegments pts
  let quadPts1 := createQuadPts pts quadPts numOfEdges
  find_edges edges ((List.range (numOfEdges + 1)).map quadPts1) numOfEdges bit_map false

/-! ## Paths (`GPath.cpp`) -/

/-- Modelled from the spec: `GRect::MakeLTRB` of the missing `GRect.h`. -/
def GRect.MakeLTRB (l t r b : ℚ) : GRect := ⟨l, t, r, b⟩

/-- Modelled from the spec: `GRect::MakeXYWH` of the missing `GRect.h`. -/
def GRect.MakeXYWH (x y w h : ℚ) : GRect := ⟨x, y, x + w, y + h⟩

/-- Modelled from the spec: the point storage `fPts` of `GPath` (missing `GPath.h`). -/
structure GPath where
  fPts : List GPoint

/-- The four local variables of the loop of `GPath::bounds`. -/
structure BoundsLoop where
  min_x : ℚ
  max_x : ℚ
  min_y : ℚ
  max_y : ℚ

/-- The body of the loop of `GPath::bounds` for the point `p = fPts[i]`: four `if`
statements in the order of the source (the fourth assigns `max_x`). -/
def GPath.boundsStep (s : BoundsLoop) (p : GPoint) : BoundsLoop :=
  let s1 := if s.min_x > p.fX then { s with min_x := p.fX } else s
  let s2 := if s1.max_x < p.fX then { s1 with max_x := p.fX } else s1
  let s3 := if s2.min_y > p.fY then { s2 with min_y := p.fY } else s2
  if s3.max_y < p.fY then { s3 with max_x := p.fY } else s3

/-- `GPath::bounds`. -/
def GPath.bounds (self : GPath) : GRect :=
  if self.fPts.isEmpty then GRect.MakeXYWH 0 0 0 0
  else
    let s := self.fPts.foldl GPath.boundsStep ⟨0, 0, 0, 0⟩
    GRect.MakeLTRB s.min_x s.max_y s.max_x s.min_y

/-- `GPath::ChopQuadAt`: the contents of `dst[0..5)` afterwards. -/
def GPath.ChopQuadAt (src : List GPoint) (t : ℚ) : List GPoint :=
  let A := src.getD 0 default
  let B := src.getD 1 default
  let C := src.getD 2 default
  let AB := (1 - t) • A + t • B
  let BC := (1 - t) • B + t • C
  [A, AB, calculateQuad A B C t, BC, C]

/-- `GPath::ChopCubicAt`: the contents of `dst[0..7)` afterwards. -/
def GPath.ChopCubicAt (src : List GPoint) (t : ℚ) : List GPoint :=
  let A := src.getD 0 default
  let B := src.getD 1 default
  let C := src.getD 2 default
  let D := src.getD 3 default
  let AB := (1 - t) • A + t • B
  let BC := (1 - t) • B + t • C
  let CD := (1 - t) • C + t • D
  [A, AB, (1 - t) • AB + t • BC, calculateCubic A B C D t, (1 - t) • BC + t • CD, BC, D]

/-- The segment count of a cubic as the specification words it: the same
`ceil(sqrt(3 * E.length()))`, but with `P = -A + 2B - C`. -/
def cubicSegmentsSpec (pts : List GPoint) : Nat :=
  let A := pts.getD 0 default
  let B := pts.getD 1 default
  let C := pts.getD 2 default
  let D := pts.getD 3 default
  let P : GPoint := (-1 : ℚ) • A + (2 : ℚ) • B - C
  let Q : GPoint := (-1 : ℚ) • B + (2 : ℚ) • C - D
  let x := max |P.fX| |Q.fX|
  let y := max |P.fY| |Q.fY|
  let E : GPoint := ⟨x, y⟩
  ceilMulSqrtLength 1 3 E

/-! ## Circles (`GPath::addCircle`)

`addCircle` computes with `tan(pi/8)` and `sqrt(2)/2`, which are not rational, so this
part of the path is embedded over an arbitrary field `K`: the definitions run on `ℚ`, and
the theorems about the circle instantiate them on `ℝ` with the constants of the source. -/

/-- Modelled from the spec: `GPoint` of the missing `GPoint.h`, with coordinates in `K`. -/
structure GPointOver (K : Type) where
  fX : K
  fY : K

/-- Modelled from the spec: the verbs of `GPath` (missing `GPath.h`) that are stored in a
path. -/
inductive GPathVerb where
  | kMove | kLine | kQuad | kCubic
deriving DecidableEq, Repr

/-- Modelled from the spec: `GPath::Direction` of the missing `GPath.h`. -/
inductive Direction where
  | kCW_Direction | kCCW_Direction
deriving DecidableEq, Repr

/-- Modelled from the spec: the points and the verbs of a `GPath` (missing `GPath.h`),
with coordinates in `K`. -/
structure GPathOver (K : Type) where
  fPts : List (GPointOver K)
  fVerbs : List GPathVerb

namespace GPathOver

variable {K : Type}

/-- Modelled from the spec: `GPath::moveTo` of the missing `GPath.h` appends one point
and the verb `kMove`. -/
def moveTo (self : GPathOver K) (p : GPointOver K) : GPathOver K :=
  { fPts := self.fPts ++ [p], fVerbs := self.fVerbs ++ [GPathVerb.kMove] }

/-- Modelled from the spec: `GPath::quadTo` of the missing `GPath.h` appends two points
and the verb `kQuad`. -/
def quadTo (self : GPathOver K) (p1 p2 : GPointOver K) : GPathOver K :=
  { fPts := self.fPts ++ [p1, p2], fVerbs := self.fVerbs ++ [GPathVerb.kQuad] }

/-- The product `m * GPoint::Make(x, y)` with the matrix
`m = { radius, 0, center.fX, 0, radius, center.fY }` of `addCircle`. -/
def circlePoint [Field K] (center : GPointOver K) (radius : K) (x y : K) : GPointOver K :=
  ⟨radius * x + 0 * y + center.fX, 0 * x + radius * y + center.fY⟩

/-- `GPath::addCircle`; `h` and `s` are its two constants, in the source
`tan(M_PI/8)` and `sqrt(2)*0.5f`. -/
def addCircle [Field K] (self : GPathOver K) (center : GPointOver K) (radius : K)
    (direction : Direction) (h s : K) : GPathOver K :=
  let m := circlePoint center radius
  let path := self.moveTo (m 1 0)
  if direction = Direction.kCW_Direction then
    let path := path.quadTo (m 1 h) (m s s)
    let path := path.quadTo (m h 1) (m 0 1)
    let path := path.quadTo (m (-h) 1) (m (-s) s)
    let path := path.quadTo (m (-1) h) (m (-1) 0)
    let path := path.quadTo (m (-1) (-h)) (m (-s) (-s))
    let path := path.quadTo (m (-h) (-1)) (m 0 (-1))
    let path := path.quadTo (m h (-1)) (m s (-s))
    path.quadTo (m 1 (-h)) (m 1 0)
  else
    let path := path.quadTo (m 1 (-h)) (m s (-s))
    let path := path.quadTo (m h (-1)) (m 0 (-1))
    let path := path.quadTo (m (-h) (-1)) (m (-s) (-s))
    let path := path.quadTo (m (-1) (-h)) (m (-1) 0)
    let path := path.quadTo (m (-1) h) (m (-s) s)
    let path := path.quadTo (m (-h) 1) (m 0 1)
    let path := path.quadTo (m h 1) (m s s)
    path.quadTo (m 1 h) (m 1 0)

end GPathOver

/-! ## The shaders (`CanvasGradient.cpp`, `TriColorShader.cpp`, `CanvasShader.cpp`,
`ProxyShader.cpp`, `ComposeShader.cpp`) -/

instance : Inhabited GColor := ⟨⟨0, 0, 0, 0⟩⟩

/-- Modelled from the spec: `GShader::TileMode` of the missing `GShader.h`. -/
inductive TileMode where
  | kClamp | kRepeat | kMirror
deriving DecidableEq, Repr

/-- Conversion of a `float` to `int`: truncation towards zero. -/
def truncToInt (q : ℚ) : Int := if 0 ≤ q then ⌊q⌋ else ⌈q⌉

/-- The element `colors[i]` of a colour array; an index outside the array reads
`oob i`, a value the program does not control. -/
def colorAt (colors : List GColor) (oob : Int → GColor) (i : Int) : GColor :=
  if 0 ≤ i ∧ i < colors.length then colors.getD i.toNat default else oob i

/-- The fields of `CanvasGradient`. -/
structure CanvasGradient where
  n : Nat
  colors : List GColor
  ctm : GMatrix
  local_matrix : GMatrix
  tile_mode : TileMode

namespace CanvasGradient

/-- The constructor `CanvasGradient(p0, p1, _colors, _count, mode)`: the first `_count`
colours are copied, the local matrix is built from `p1 - p0` and `p0`. -/
def make (p0 p1 : GPoint) (_colors : List GColor) (_count : Nat) (mode : TileMode) :
    CanvasGradient :=
  let dx := p1.fX - p0.fX
  let dy := p1.fY - p0.fY
  { n := _count
    colors := (List.range _count).map (fun i => _colors.getD i default)
    ctm := GMatrix.identity
    local_matrix := ⟨dx, -dy, p0.fX, dy, dx, p0.fY⟩
    tile_mode := mode }

/-- `CanvasGradient::isOpaque`: false as soon as some `colors[i].fA` is zero. -/
def isOpaque (self : CanvasGradient) : Bool :=
  (List.range self.n).all (fun i => decide ((self.colors.getD i default).fA ≠ 0))

/-- `CanvasGradient::setContext`: the returned flag and the shader afterwards. -/
def setContext (self : CanvasGradient) (new_ctm : GMatrix) : Bool × CanvasGradient :=
  let det := new_ctm.SX * new_ctm.SY - new_ctm.KX * new_ctm.KY
  if det ≠ 0 then (true, { self with ctm := new_ctm }) else (false, self)

/-- `mirror` of `CanvasGradient.cpp`. -/
def mirror (x : ℚ) : ℚ :=
  let x1 := x - (⌊x⌋ : ℚ)
  let x2 := x1 - (⌊x1⌋ : ℚ)
  if Int.tmod (GRoundToInt x2) 2 ≠ 0 then 1 - x2 else x2

/-- `repeat` of `CanvasGradient.cpp`. -/
def «repeat» (x : ℚ) : ℚ :=
  let x1 := x - (⌊x⌋ : ℚ)
  let x2 := x1 - (⌊x1⌋ : ℚ)
  x2

/-- `CanvasGradient::mixColors`. -/
def mixColors (factor1 factor2 : ℚ) (color1 color2 : GColor) : GColor :=
  ⟨color1.fA * factor1 + color2.fA * factor2,
   color1.fR * factor1 + color2.fR * factor2,
   color1.fG * factor1 + color2.fG * factor2,
   color1.fB * factor1 + color2.fB * factor2⟩

/-- The gradient parameter after the tile mode and the clamping of the body of the loop
of `shadeRow`: the `fX` of `P` that `t` is computed from, for the mapped `fX`. -/
def tiled (self : CanvasGradient) (px : ℚ) : ℚ :=
  let px1 :=
    if self.tile_mode = TileMode.kMirror then mirror px
    else if self.tile_mode = TileMode.kRepeat then «repeat» px
    else px
  if px1 ≥ 1 then 9999999 / 10000000
  else if px1 < 0 then 0
  else px1

/-- The body of the loop of `CanvasGradient::shadeRow` for the pixel centre `(fx, fy)`:
the pixel stored in `row[i]`. -/
def shadePixel (self : CanvasGradient) (oob : Int → GColor) (inverse_matrix : GMatrix)
    (fx fy : ℚ) : GPixel :=
  let P := inverse_matrix.mapPoint ⟨fx, fy⟩
  let px := self.tiled P.fX
  let t := px * (((self.n : Int) - 1 : Int) : ℚ)
  let index := truncToInt t
  let t1 := t - (index : ℚ)
  let color := mixColors (1 - t1) t1 (colorAt self.colors oob index)
    (colorAt self.colors oob (index + 1))
  color_to_pixel color

/-- The body of the loop of `CanvasGradient::shadeRow` under checked array accesses:
`none` when `colors[index]` or `colors[index + 1]` lies outside the `n` elements that the
constructor allocated, else the pixel stored in `row[i]`. -/
def shadePixelChecked (self : CanvasGradient) (inverse_matrix : GMatrix) (fx fy : ℚ) :
    Option GPixel :=
  let P := inverse_matrix.mapPoint ⟨fx, fy⟩
  let px := self.tiled P.fX
  let t := px * (((self.n : Int) - 1 : Int) : ℚ)
  let index := truncToInt t
  let t1 := t - (index : ℚ)
  if 0 ≤ index ∧ index + 1 < (self.n : Int) then
    some (color_to_pixel (mixColors (1 - t1) t1 (self.colors.getD index.toNat default)
      (self.colors.getD (index + 1).toNat default)))
  else none

/-- The loop of `CanvasGradient::shadeRow`, with `k` pixels left and `fx` the current
centre. -/
def shadeLoop (self : CanvasGradient) (oob : Int → GColor) (inverse_matrix : GMatrix)
    (fy : ℚ) : Nat → ℚ → List GPixel
  | 0, _ => []
  | k + 1, fx =>
    self.shadePixel oob inverse_matrix fx fy :: shadeLoop self oob inverse_matrix fy k (fx + 1)

/-- The matrix `inverse_matrix` of `shadeRow`: `ctm * local_matrix`, inverted in place
(left as it is when `invert` returns false). -/
def inverseMatrix (self : CanvasGradient) : GMatrix :=
  let inverse_matrix := GMatrix.Concat self.ctm self.local_matrix
  (inverse_matrix.invert inverse_matrix).2

/-- `CanvasGradient::shadeRow`: the contents of `row[0..count)` afterwards. -/
def shadeRow (self : CanvasGradient) (oob : Int → GColor) (x y : Int) (count : Nat) :
    List GPixel :=
  let fx : ℚ := (x : ℚ) + 1 / 2
  let fy : ℚ := (y : ℚ) + 1 / 2
  self.shadeLoop oob self.inverseMatrix fy count fx

end CanvasGradient

/-- The fields of `TriColorShader`. -/
structure TriColorShader where
  pts : List GPoint
  colors : List GColor
  local_matrix : GMatrix
  inverse_matrix : GMatrix
  ctm : GMatrix
  delta_color : GColor

namespace TriColorShader

/-- The constructor `TriColorShader(_pts, _colors)`; the members it does not set are
given their default values. -/
def make (_pts : List GPoint) (_colors : List GColor) : TriColorShader :=
  let p0 := _pts.getD 0 default
  let p1 := _pts.getD 1 default
  let p2 := _pts.getD 2 default
  { pts := _pts
    colors := _colors
    local_matrix := ⟨(p1 - p0).fX, (p2 - p0).fX, p0.fX, (p1 - p0).fY, (p2 - p0).fY, p0.fY⟩
    inverse_matrix := GMatrix.identity
    ctm := GMatrix.identity
    delta_color := default }

/-- `TriColorShader::isOpaque`: false as soon as one of the three alphas is zero. -/
def isOpaque (self : TriColorShader) : Bool :=
  (List.range 3).all (fun i => decide ((self.colors.getD i default).fA ≠ 0))

/-- `TriColorShader::setContext`: the returned flag and the shader afterwards. -/
def setContext (self : TriColorShader) (new_ctm : GMatrix) : Bool × TriColorShader :=
  let det := new_ctm.SX * new_ctm.SY - new_ctm.KX * new_ctm.KY
  if det = 0 then (false, self)
  else
    let inverse_matrix0 := GMatrix.Concat new_ctm self.local_matrix
    let inverse_matrix := (inverse_matrix0.invert inverse_matrix0).2
    let c0 := self.colors.getD 0 default
    let c1 := self.colors.getD 1 default
    let c2 := self.colors.getD 2 default
    let a := inverse_matrix.SX
    let d := inverse_matrix.KY
    let A := (-a - d) * c0.fA + a * c1.fA + d * c2.fA
    let R := (-a - d) * c0.fR + a * c1.fR + d * c2.fR
    let G := (-a - d) * c0.fG + a * c1.fG + d * c2.fG
    let B := (-a - d) * c0.fB + a * c1.fB + d * c2.fB
    (true, { self with
      inverse_matrix := inverse_matrix
      delta_color := ⟨A, R, G, B⟩
      ctm := new_ctm })

/-- The colour `c` before the loop of `TriColorShader::shadeRow`. -/
def initialColor (self : TriColorShader) (x y : Int) : GColor :=
  let c0 := self.colors.getD 0 default
  let c1 := self.colors.getD 1 default
  let c2 := self.colors.getD 2 default
  let fx : ℚ := (x : ℚ) + 1 / 2
  let fy : ℚ := (y : ℚ) + 1 / 2
  let P := self.inverse_matrix.mapPoint ⟨fx, fy⟩
  let A := (1 - P.fX - P.fY) * c0.fA + P.fX * c1.fA + P.fY * c2.fA
  let R := (1 - P.fX - P.fY) * c0.fR + P.fX * c1.fR + P.fY * c2.fR
  let G := (1 - P.fX - P.fY) * c0.fG + P.fX * c1.fG + P.fY * c2.fG
  let B := (1 - P.fX - P.fY) * c0.fB + P.fX * c1.fB + P.fY * c2.fB
  ⟨A, R, G, B⟩

/-- The loop of `TriColorShader::shadeRow`, with `k` pixels left and `c` the current
colour. -/
def shadeLoop (delta_color : GColor) : Nat → GColor → List GPixel
  | 0, _ => []
  | k + 1, c =>
    color_to_pixel c ::
      shadeLoop delta_color k
        ⟨delta_color.fA + c.fA, delta_color.fR + c.fR, delta_color.fG + c.fG,
         delta_color.fB + c.fB⟩

/-- `TriColorShader::shadeRow`: the contents of `row[0..count)` afterwards. -/
def shadeRow (self : TriColorShader) (x y : Int) (count : Nat) : List GPixel :=
  shadeLoop self.delta_color count (self.initialColor x y)

end TriColorShader

/-- The fields of `CanvasShader`, the bitmap shader. -/
structure CanvasShader where
  bit_map : GBitmap
  inverse_width : ℚ
  inverse_height : ℚ
  local_matrix : GMatrix
  tile_mode : TileMode
  ctm : GMatrix

namespace CanvasShader

/-- The constructor `CanvasShader(device, matrix, mode)`. -/
def make (device : GBitmap) (matrix : GMatrix) (mode : TileMode) : CanvasShader :=
  { bit_map := device
    inverse_width := 1 / (device.width : ℚ)
    inverse_height := 1 / (device.height : ℚ)
    local_matrix := matrix
    tile_mode := mode
    ctm := GMatrix.identity }

/-- `CanvasShader::setContext`: the returned flag and the shader afterwards. -/
def setContext (self : CanvasShader) (new_ctm : GMatrix) : Bool × CanvasShader :=
  let det := new_ctm.SX * new_ctm.SY - new_ctm.KX * new_ctm.KY
  if det = 0 then (false, self) else (true, { self with ctm := new_ctm })

end CanvasShader

/-- Modelled from the spec: `GFloorToInt` of the missing `GMath.h`, `floor(x)`. -/
def GFloorToInt (x : ℚ) : Int := ⌊x⌋

namespace CanvasShader

/-- `CanvasShader::pin`. -/
def pin (value : ℚ) (min max : Int) : ℚ :=
  if value > max then max
  else if value < min then min
  else value

/-- `CanvasShader::repeat`. -/
def «repeat» (coord inverse_dimension dimension : ℚ) : ℚ :=
  let coord1 := coord * inverse_dimension
  let coord2 := coord1 - (⌊coord1⌋ : ℚ)
  let coord3 := coord2 - (⌊coord2⌋ : ℚ)
  coord3 * dimension

/-- `CanvasShader::mirror`; the cast `(int)(coord)` truncates towards zero. -/
def mirror (coord inverse_dimension dimension : ℚ) : ℚ :=
  let coord1 := coord * inverse_dimension
  if Int.tmod (truncToInt coord1) 2 ≠ 0 then
    let coord2 := coord1 - (⌊coord1⌋ : ℚ)
    let coord3 := coord2 - (⌊coord2⌋ : ℚ)
    let coord4 := 1 - coord3
    coord4 * dimension
  else
    let coord2 := coord1 - (⌊coord1⌋ : ℚ)
    let coord3 := coord2 - (⌊coord2⌋ : ℚ)
    coord3 * dimension

/-- The point `P` of the body of the loop of `CanvasShader::shadeRow` after the tile mode
and the pinning to `[0, width - 1] x [0, height - 1]`. -/
def tiledPoint (self : CanvasShader) (P : GPoint) : GPoint :=
  let width : ℚ := self.bit_map.width
  let height : ℚ := self.bit_map.height
  let P1 : GPoint :=
    if self.tile_mode = TileMode.kRepeat then
      ⟨«repeat» P.fX self.inverse_width width, «repeat» P.fY self.inverse_height height⟩
    else if self.tile_mode = TileMode.kMirror then
      ⟨mirror P.fX self.inverse_width width, mirror P.fY self.inverse_height height⟩
    else P
  ⟨pin P1.fX 0 (self.bit_map.width - 1), pin P1.fY 0 (self.bit_map.height - 1)⟩

/-- The two arguments of `bit_map.getAddr` in the body of the loop of
`CanvasShader::shadeRow`, for the pixel centre `(fx, fy)`. -/
def texel (self : CanvasShader) (inverse_matrix : GMatrix) (fx fy : ℚ) : Int × Int :=
  let P := self.tiledPoint (inverse_matrix.mapPoint ⟨fx, fy⟩)
  (GFloorToInt P.fX, GFloorToInt P.fY)

/-- The body of the loop of `CanvasShader::shadeRow`: the pixel stored in `row[i]`. -/
def shadePixel (self : CanvasShader) (inverse_matrix : GMatrix) (fx fy : ℚ) : GPixel :=
  self.bit_map.pix (self.texel inverse_matrix fx fy).1 (self.texel inverse_matrix fx fy).2

/-- The loop of `CanvasShader::shadeRow`, with `k` pixels left and `fx` the current
centre. -/
def shadeLoop (self : CanvasShader) (inverse_matrix : GMatrix) (fy : ℚ) :
    Nat → ℚ → List GPixel
  | 0, _ => []
  | k + 1, fx => self.shadePixel inverse_matrix fx fy :: shadeLoop self inverse_matrix fy k (fx + 1)

/-- The matrix `inverse_matrix` of `CanvasShader::shadeRow`: `ctm * local_matrix`,
inverted in place (left as it is when `invert` returns false). -/
def inverseMatrix (self : CanvasShader) : GMatrix :=
  let inverse_matrix := GMatrix.Concat self.ctm self.local_matrix
  (inverse_matrix.invert inverse_matrix).2

/-- `CanvasShader::shadeRow`: the contents of `row[0..count)` afterwards. -/
def shadeRow (self : CanvasShader) (x y : Int) (count : Nat) : List GPixel :=
  let fx : ℚ := (x : ℚ) + 1 / 2
  let fy : ℚ := (y : ℚ) + 1 / 2
  self.shadeLoop self.inverseMatrix fy count fx

end CanvasShader

/-- The fields of `ProxyShader`. -/
structure ProxyShader where
  realShader : GShader
  pts : List GPoint
  coords : List GPoint

namespace ProxyShader

/-- The matrix `P` of `ProxyShader::setContext`. -/
def matrixP (self : ProxyShader) : GMatrix :=
  let p0 := self.pts.getD 0 default
  let p1 := self.pts.getD 1 default
  let p2 := self.pts.getD 2 default
  ⟨(p1 - p0).fX, (p2 - p0).fX, p0.fX, (p1 - p0).fY, (p2 - p0).fY, p0.fY⟩

/-- The matrix `S` of `ProxyShader::setContext`, before `S.invert(&S)`. -/
def matrixS (self : ProxyShader) : GMatrix :=
  let s0 := self.coords.getD 0 default
  let s1 := self.coords.getD 1 default
  let s2 := self.coords.getD 2 default
  ⟨(s1 - s0).fX, (s2 - s0).fX, s0.fX, (s1 - s0).fY, (s2 - s0).fY, s0.fY⟩

/-- The argument `new_ctm * P * S` of the call of the real shader, `S` being the matrix
after `S.invert(&S)`. -/
def contextMatrix (self : ProxyShader) (new_ctm : GMatrix) : GMatrix :=
  let P := self.matrixP
  let S := (self.matrixS.invert self.matrixS).2
  GMatrix.Concat (GMatrix.Concat new_ctm P) S

/-- `ProxyShader::setContext`: `none` when it returns false, else the row producer of
the real shader. -/
def setContext (self : ProxyShader) (new_ctm : GMatrix) :
    Option (Int → Int → Nat → List GPixel) :=
  let det := new_ctm.SX * new_ctm.SY - new_ctm.KX * new_ctm.KY
  if det = 0 then none else self.realShader.setContext (self.contextMatrix new_ctm)

end ProxyShader

/-- `modulate` of `ComposeShader.cpp`. -/
def modulate (pixel1 pixel2 : GPixel) : GPixel :=
  let A := Div255 (GPixel_GetA pixel1 * GPixel_GetA pixel2)
  let R := Div255 (GPixel_GetR pixel1 * GPixel_GetR pixel2)
  let G := Div255 (GPixel_GetG pixel1 * GPixel_GetG pixel2)
  let B := Div255 (GPixel_GetB pixel1 * GPixel_GetB pixel2)
  GPixel_PackARGB A R G B

/-- The fields of `ComposeShader`. -/
structure ComposeShader where
  colorShader : GShader
  gradientShader : GShader

namespace ComposeShader

/-- `ComposeShader::isOpaque`. -/
def isOpaque (self : ComposeShader) : Bool :=
  self.colorShader.isOpaque && self.gradientShader.isOpaque

/-- `ComposeShader::shadeRow`, for the row producers of the two sub-shaders: `tmp` is
the row of the colour shader, `row` the one of the gradient shader, and `row[i]` becomes
`modulate(tmp[i], row[i])` for `i < count`. -/
def shadeRow (colorRow gradientRow : Int → Int → Nat → List GPixel) (x y : Int)
    (count : Nat) : List GPixel :=
  let tmp := colorRow x y count
  let row := gradientRow x y count
  (List.range count).map
    (fun i => modulate (tmp.getD i (GPixel_PackARGB 0 0 0 0))
      (row.getD i (GPixel_PackARGB 0 0 0 0)))

/-- `ComposeShader::setContext`: `none` when it returns false (the gradient shader is
asked only when the colour shader succeeded), else the row producer. -/
def setContext (self : ComposeShader) (new_ctm : GMatrix) :
    Option (Int → Int → Nat → List GPixel) :=
  match self.colorShader.setContext new_ctm with
  | none => none
  | some colorRow =>
    match self.gradientShader.setContext new_ctm with
    | none => none
    | some gradientRow => some (ComposeShader.shadeRow colorRow gradientRow)

end ComposeShader

/-! ## Meshes, quads and the scanline loop of `drawPath` (`EmptyCanvas.cpp`, `Polygon.h`) -/

/-- Modelled from the spec: `operator*(float, GPoint)` of the missing `GPoint.h`,
componentwise, each product rounded by `fl`. -/
def GPoint.scaleRounded (fl : ℚ → ℚ) (c : ℚ) (p : GPoint) : GPoint :=
  ⟨fl (c * p.fX), fl (c * p.fY)⟩

/-- Modelled from the spec: `operator+(GPoint, GPoint)` of the missing `GPoint.h`,
componentwise, each sum rounded by `fl`. -/
def GPoint.addRounded (fl : ℚ → ℚ) (p q : GPoint) : GPoint :=
  ⟨fl (p.fX + q.fX), fl (p.fY + q.fY)⟩

/-- `pointAt` of `Polygon.h`; `fl` rounds the result of each operation on `float`s (`id`
for exact arithmetic). -/
def pointAt (fl : ℚ → ℚ) (A B C D : GPoint) (u v : ℚ) : GPoint :=
  GPoint.addRounded fl
    (GPoint.addRounded fl
      (GPoint.addRounded fl
        (GPoint.scaleRounded fl (fl (fl (1 - u) * fl (1 - v))) A)
        (GPoint.scaleRounded fl (fl (u * fl (1 - v))) B))
      (GPoint.scaleRounded fl (fl (u * v)) C))
    (GPoint.scaleRounded fl (fl (v * fl (1 - u))) D)

/-- One channel of the colour of `colorAt`:
`coeff1 * x1 + coeff2 * x2 + coeff3 * x3 + coeff4 * x4`, each operation rounded by `fl`. -/
def Polygon.colorAtChannel (fl : ℚ → ℚ) (coeff1 coeff2 coeff3 coeff4 x1 x2 x3 x4 : ℚ) : ℚ :=
  fl (fl (fl (fl (coeff1 * x1) + fl (coeff2 * x2)) + fl (coeff3 * x3)) + fl (coeff4 * x4))

/-- `colorAt` of `Polygon.h`; `fl` rounds the result of each operation on `float`s (`id`
for exact arithmetic). -/
def Polygon.colorAt (fl : ℚ → ℚ) (color1 color2 color3 color4 : GColor) (u v : ℚ) : GColor :=
  let coeff1 := fl (fl (1 - u) * fl (1 - v))
  let coeff2 := fl (u * fl (1 - v))
  let coeff3 := fl (u * v)
  let coeff4 := fl (v * fl (1 - u))
  ⟨Polygon.colorAtChannel fl coeff1 coeff2 coeff3 coeff4 color1.fA color2.fA color3.fA
      color4.fA,
   Polygon.colorAtChannel fl coeff1 coeff2 coeff3 coeff4 color1.fR color2.fR color3.fR
      color4.fR,
   Polygon.colorAtChannel fl coeff1 coeff2 coeff3 coeff4 color1.fG color2.fG color3.fG
      color4.fG,
   Polygon.colorAtChannel fl coeff1 coeff2 coeff3 coeff4 color1.fB color2.fB color3.fB
      color4.fB⟩

/-- The shader object `GCreateTriColorShader` returns, seen through the `GShader`
interface. -/
def TriColorShader.toGShader (self : TriColorShader) : GShader :=
  { isOpaque := self.isOpaque
    setContext := fun new_ctm =>
      if (self.setContext new_ctm).1 then some (self.setContext new_ctm).2.shadeRow else none }

/-- The shader object `GCreateProxyShader` returns, seen through the `GShader` interface:
`isOpaque` and `shadeRow` delegate to the real shader. -/
def ProxyShader.toGShader (self : ProxyShader) : GShader :=
  { isOpaque := self.realShader.isOpaque
    setContext := self.setContext }

/-- The shader object `GCreateComposeShader` returns, seen through the `GShader`
interface. -/
def ComposeShader.toGShader (self : ComposeShader) : GShader :=
  { isOpaque := self.isOpaque
    setContext := self.setContext }

namespace EmptyCanvas

/-- The element `verts[indices[n]]` (also for `colors` and `texs`).  The indices are the
caller's; one outside the array reads the default value here. -/
def meshAt {α : Type} [Inhabited α] (xs : List α) (indices : List Int) (n : Nat) : α :=
  xs.getD (indices.getD n 0).toNat default

/-- The part of the body of the loop of `drawMesh` that picks the shader of `paint`:
`none` is a failed `assert(paint.getShader() != nullptr)` (or a null real shader handed to
the proxy shader); `colors` and `texs` are `none` for null pointers. -/
def meshPaint (verts : List GPoint) (colors : Option (List GColor))
    (texs : Option (List GPoint)) (indices : List Int) (orig_paint paint : GPaint) (n : Nat) :
    Option GPaint :=
  let pts : List GPoint :=
    [meshAt verts indices (n + 0), meshAt verts indices (n + 1), meshAt verts indices (n + 2)]
  match colors, texs with
  | some colors, some texs =>
    let triColors : List GColor :=
      [meshAt colors indices (n + 0), meshAt colors indices (n + 1),
       meshAt colors indices (n + 2)]
    let proxyCoords : List GPoint :=
      [meshAt texs indices (n + 0), meshAt texs indices (n + 1), meshAt texs indices (n + 2)]
    match paint.fShader, orig_paint.fShader with
    | some _, some realShader =>
      let tri_shader := TriColorShader.make pts triColors
      let proxy_shader : ProxyShader :=
        { realShader := realShader, pts := pts, coords := proxyCoords }
      let compose_shader : ComposeShader :=
        { colorShader := proxy_shader.toGShader, gradientShader := tri_shader.toGShader }
      some { paint with fShader := some compose_shader.toGShader }
    | _, _ => none
  | some colors, none =>
    let triColors : List GColor :=
      [meshAt colors indices (n + 0), meshAt colors indices (n + 1),
       meshAt colors indices (n + 2)]
    let tri_shader := TriColorShader.make pts triColors
    some { paint with fShader := some tri_shader.toGShader }
  | none, some texs =>
    let proxyCoords : List GPoint :=
      [meshAt texs indices (n + 0), meshAt texs indices (n + 1), meshAt texs indices (n + 2)]
    match paint.fShader, orig_paint.fShader with
    | some _, some realShader =>
      let proxy_shader : ProxyShader :=
        { realShader := realShader, pts := pts, coords := proxyCoords }
      some { paint with fShader := some proxy_shader.toGShader }
    | _, _ => none
  | none, none => some paint

/-- The loop `for (int i = 0; i < count; ++i)` of `drawMesh`, with `k` triangles left, `n`
the current offset into `indices` and `paint` the local copy of the paint. -/
def drawMeshLoop (verts : List GPoint) (colors : Option (List GColor))
    (texs : Option (List GPoint)) (indices : List Int) (orig_paint : GPaint)
    (oob : Nat → Edge) : Nat → Nat → GPaint → EmptyCanvas → Option EmptyCanvas
  | 0, _, _, c => some c
  | k + 1, n, paint, c =>
    match meshPaint verts colors texs indices orig_paint paint n with
    | none => none
    | some paint1 =>
      let pts : List GPoint :=
        [meshAt verts indices (n + 0), meshAt verts indices (n + 1),
         meshAt verts indices (n + 2)]
      match c.drawConvexPolygon pts 3 paint1 oob with
      | none => none
      | some c1 => drawMeshLoop verts colors texs indices orig_paint oob k (n + 3) paint1 c1

/-- `EmptyCanvas::drawMesh`. -/
def drawMesh (c : EmptyCanvas) (verts : List GPoint) (colors : Option (List GColor))
    (texs : Option (List GPoint)) (count : Nat) (indices : List Int) (orig_paint : GPaint)
    (oob : Nat → Edge) : Option EmptyCanvas :=
  if colors.isNone && texs.isNone then some c
  else drawMeshLoop verts colors texs indices orig_paint oob count 0 orig_paint c

/-- The arrays `indices`, `newVerts`, `vertColors`, `vertTexs` that the loops of `drawQuad`
fill, and the counter `i`; an array is the list of the elements written so far (the writes
go to the successive positions `j++` and `i`). -/
structure QuadArrays where
  i : Int
  indices : List Int
  newVerts : List GPoint
  vertColors : List GColor
  vertTexs : List GPoint

/-- The body of the inner loop of `drawQuad` for the loop counters `v` and `u` (`float`s
with whole values, exact for `level < 2^24`).  `fl` rounds the result of each operation on
`float`s and converts a `double` to `float`; `fd` rounds the quotient `1 / count` to the
`double` that `pow(count, -1)` returns.  Exact arithmetic is `fl = fd = id`. -/
def drawQuadBody (fl fd : ℚ → ℚ) (verts : List GPoint) (colors : Option (List GColor))
    (texs : Option (List GPoint)) (level : Nat) (v u : Nat) (s : QuadArrays) : QuadArrays :=
  let width : Int := (level : Int) + 2
  let count : Int := (level : Int) + 1
  let inverse_count : ℚ := fl (fd (1 / (count : ℚ)))
  let inverse_v : ℚ := fl ((v : ℚ) * inverse_count)
  let inverse_u : ℚ := fl ((u : ℚ) * inverse_count)
  let indices :=
    if (u : ℚ) ≠ 0 ∧ (v : ℚ) ≠ (count : ℚ) then
      s.indices ++ [s.i, s.i + width - 1, s.i - 1, s.i, s.i + width, s.i + width - 1]
    else s.indices
  let vertColors :=
    match colors with
    | some colors =>
      s.vertColors ++ [Polygon.colorAt fl (colors.getD 0 default) (colors.getD 1 default)
        (colors.getD 2 default) (colors.getD 3 default) inverse_u inverse_v]
    | none => s.vertColors
  let vertTexs :=
    match texs with
    | some texs =>
      s.vertTexs ++ [pointAt fl (texs.getD 0 default) (texs.getD 1 default)
        (texs.getD 2 default) (texs.getD 3 default) inverse_u inverse_v]
    | none => s.vertTexs
  let newVerts :=
    s.newVerts ++ [pointAt fl (verts.getD 0 default) (verts.getD 1 default)
      (verts.getD 2 default) (verts.getD 3 default) inverse_u inverse_v]
  { i := s.i + 1, indices := indices, newVerts := newVerts, vertColors := vertColors,
    vertTexs := vertTexs }

/-- The two nested loops `for (float v = 0; v <= count; v++)`,
`for (float u = 0; u <= count; u++)` of `drawQuad`. -/
def drawQuadArrays (fl fd : ℚ → ℚ) (verts : List GPoint) (colors : Option (List GColor))
    (texs : Option (List GPoint)) (level : Nat) : QuadArrays :=
  (List.range (level + 2)).foldl
    (fun s v =>
      (List.range (level + 2)).foldl
        (fun s u => drawQuadBody fl fd verts colors texs level v u s) s)
    { i := 0, indices := [], newVerts := [], vertColors := [], vertTexs := [] }

/-- The value `numOfTri` of `drawQuad`, for `level ≥ 0`. -/
def drawQuadNumOfTri (level : Nat) : Nat :=
  let numOfQuads := (level + 1) ^ 2
  numOfQuads * 2

/-- `EmptyCanvas::drawQuad`, for `level ≥ 0`; `fl` and `fd` are the roundings of
`drawQuadBody`. -/
def drawQuad (fl fd : ℚ → ℚ) (c : EmptyCanvas) (verts : List GPoint)
    (colors : Option (List GColor)) (texs : Option (List GPoint)) (level : Nat)
    (paint : GPaint) (oob : Nat → Edge) : Option EmptyCanvas :=
  if colors.isNone && texs.isNone then some c
  else
    let s := drawQuadArrays fl fd verts colors texs level
    c.drawMesh s.newVerts (colors.map (fun _ => s.vertColors))
      (texs.map (fun _ => s.vertTexs)) (drawQuadNumOfTri level) s.indices paint oob

end EmptyCanvas

/-- `sortEdgesByX` of `Polygon.h`. -/
def sortEdgesByX (edge1 edge2 : Edge) : Bool := decide (edge1.x < edge2.x)

/-- Insertion of one edge into a list sorted by `sortEdgesByX`. -/
def insertEdgeByX (e : Edge) : List Edge → List Edge
  | [] => [e]
  | f :: fs => if sortEdgesByX e f then e :: f :: fs else f :: insertEdgeByX e fs

/-- The call `std::sort(first, last, sortEdgesByX)`, as an insertion sort. -/
def sortEdgeListByX : List Edge → List Edge
  | [] => []
  | e :: es => insertEdgeByX e (sortEdgeListByX es)

namespace EmptyCanvas

/-- The local variables of the first `while` loop of a row of the scanline loop of
`drawPath`: `done` is `edges[0..i)`, and `w`, `start_x`, the blitter and the bitmap. -/
structure ScanLoop where
  done : List Edge
  w : Int
  start_x : Int
  blitter : Blitter
  bit_map : GBitmap

/-- The first `while` loop of row `y`, `while (i < count && edges[i].min_y <= y)`, run on
`edges[i..count)`: the final locals and the part of the vector from the final `i` on;
`none` is a failed `assert(start_x <= end_x)` (or a blit without a blend function). -/
def scanActive (y : Int) : List Edge → ScanLoop → Option (ScanLoop × List Edge)
  | [], s => some (s, [])
  | currentEdge :: rest, s =>
    if currentEdge.min_y ≤ y then
      let start_x := if s.w = 0 then GRoundToInt currentEdge.x else s.start_x
      let w := s.w + currentEdge.w
      let blitted : Option (Blitter × GBitmap) :=
        if w = 0 then
          if start_x ≤ GRoundToInt currentEdge.x then
            s.blitter.blit s.bit_map y start_x (GRoundToInt currentEdge.x)
          else none
        else some (s.blitter, s.bit_map)
      match blitted with
      | none => none
      | some (blitter1, bit_map1) =>
        if y + 1 = currentEdge.max_y then
          scanActive y rest
            { done := s.done, w := w, start_x := start_x, blitter := blitter1,
              bit_map := bit_map1 }
        else
          scanActive y rest
            { done := s.done ++ [{ currentEdge with x := currentEdge.x + currentEdge.m }],
              w := w, start_x := start_x, blitter := blitter1, bit_map := bit_map1 }
    else some (s, currentEdge :: rest)

/-- One turn of the scanline loop of `drawPath`, at row `y`: the edge vector, the blitter
and the bitmap afterwards.  The second `while` loop steps over the edges with
`min_y <= y + 1`, and the edges before the final `i` are sorted by `sortEdgesByX`. -/
def scanRow (y : Int) (edges : List Edge) (blitter : Blitter) (bit_map : GBitmap) :
    Option (List Edge × Blitter × GBitmap) :=
  match scanActive y edges
      { done := [], w := 0, start_x := 0, blitter := blitter, bit_map := bit_map } with
  | none => none
  | some (s, rest) =>
    let future := rest.takeWhile (fun e => decide (e.min_y ≤ y + 1))
    let later := rest.dropWhile (fun e => decide (e.min_y ≤ y + 1))
    some (sortEdgeListByX (s.done ++ future) ++ later, s.blitter, s.bit_map)

/-- The scanline loop `for (int y = ...; count > 0; y++)` of `drawPath`, with at most
`fuel` turns (`none` also when they do not suffice).  Next to the blitter and the bitmap
the result lists the edge vector at the beginning of each turn of the loop. -/
def scanRows : Nat → Int → List Edge → Blitter → GBitmap →
    Option (List (List Edge) × Blitter × GBitmap)
  | _, _, [], blitter, bit_map => some ([], blitter, bit_map)
  | 0, _, _ :: _, _, _ => none
  | fuel + 1, y, e :: es, blitter, bit_map =>
    match scanRow y (e :: es) blitter bit_map with
    | none => none
    | some (edges1, blitter1, bit_map1) =>
      match scanRows fuel (y + 1) edges1 blitter1 bit_map1 with
      | none => none
      | some (trace, blitter2, bit_map2) => some ((e :: es) :: trace, blitter2, bit_map2)

end EmptyCanvas

/-! ## Auxiliary notions for the proofs -/

/-- The pixel the constant-colour path writes over the destination `dst`: the
specialised function picked for `dst`, applied to the paint's pixel and `dst`. -/
def constBlend (src : GPaint) (dst : GPixel) : GPixel :=
  get_blendmode src dst (color_to_pixel src.fColor) dst

/-- The cache of the blitter is coherent: once `local_dest_set` holds, `blend_ptr` is
the function `get_blendmode` picks for `local_dst`, and `local_src_pixel` is the pixel
of the paint (as the constructor sets it). -/
def Blitter.coherent (self : Blitter) : Prop :=
  (self.local_dest_set = true →
    self.blend_ptr = some (get_blendmode self.local_src self.local_dst)) ∧
  self.local_src_pixel = color_to_pixel self.local_src.fColor

/-- The three assertions of the constructor of `Edge`. -/
def Edge.assertsHold (e : Edge) (bit_map : GBitmap) : Prop :=
  e.min_y < e.max_y ∧ (0 ≤ e.min_y ∧ e.max_y ≤ bit_map.height) ∧
    (0 ≤ e.x ∧ e.x ≤ (bit_map.width : ℚ))

/-- The last part of the body of the loop of `find_edges`, from the border edge of the
left point on, as a function of the slope, the intercept, the winding and the two
points sorted from left to right. -/
def find_edges_sorted (edges : List Edge) (m b : ℚ) (w : Int) (left_point right_point : GPoint)
    (bit_map : GBitmap) : List Edge :=
  let width : ℚ := bit_map.width
  let left_intersection := -b / m
  let edges1 :=
    if left_point.fX < 0 then
      let edge_min_y := min left_point.fY left_intersection
      let edge_max_y := max left_point.fY left_intersection
      if !is_horizontal edge_min_y edge_max_y then
        edges ++ [Edge.make edge_min_y edge_max_y 0 0 w]
      else edges
    else edges
  let left_point : GPoint := if left_point.fX < 0 then ⟨0, left_intersection⟩ else left_point
  let right_intersection := (width - b) / m
  let edges2 :=
    if right_point.fX > width then
      let edge_min_y := min right_point.fY right_intersection
      let edge_max_y := max right_point.fY right_intersection
      if !is_horizontal edge_min_y edge_max_y then
        edges1 ++ [Edge.make edge_min_y edge_max_y 0 width w]
      else edges1
    else edges1
  let right_point : GPoint :=
    if right_point.fX > width then ⟨width, right_intersection⟩ else right_point
  let min_y := min left_point.fY right_point.fY
  let max_y := max left_point.fY right_point.fY
  if is_horizontal min_y max_y then edges2 else
  let top_point := if left_point.fY = min_y then left_point else right_point
  let x := calculate_x m top_point
  edges2 ++ [Edge.make min_y max_y m x w]

/-- The part of the body of the loop of `find_edges` after the clipping in `y`, as a
function of the slope, the intercept, the winding and the two clipped points. -/
def find_edges_clipped (edges : List Edge) (m b : ℚ) (w : Int) (top_point bottom_point : GPoint)
    (bit_map : GBitmap) : List Edge :=
  let width : ℚ := bit_map.width
  if (top_point.fX < 0 ∧ bottom_point.fX < 0) ∨
      (top_point.fX > width ∧ bottom_point.fX > width) then
    let bounding_x : Int := if top_point.fX < 0 then 0 else bit_map.width
    edges ++ [Edge.make top_point.fY bottom_point.fY 0 bounding_x w]
  else
  let left_point := if top_point.fX > bottom_point.fX then bottom_point else top_point
  let right_point := if top_point.fX > bottom_point.fX then top_point else bottom_point
  find_edges_sorted edges m b w left_point right_point bit_map

/-- The colour `(1 - Px - Py) * c0 + Px * c1 + Py * c2` that `TriColorShader::shadeRow`
evaluates for its first pixel, as a function of the point `P`. -/
def TriColorShader.barycentric (self : TriColorShader) (P : GPoint) : GColor :=
  let c0 := self.colors.getD 0 default
  let c1 := self.colors.getD 1 default
  let c2 := self.colors.getD 2 default
  ⟨(1 - P.fX - P.fY) * c0.fA + P.fX * c1.fA + P.fY * c2.fA,
   (1 - P.fX - P.fY) * c0.fR + P.fX * c1.fR + P.fY * c2.fR,
   (1 - P.fX - P.fY) * c0.fG + P.fX * c1.fG + P.fY * c2.fG,
   (1 - P.fX - P.fY) * c0.fB + P.fX * c1.fB + P.fY * c2.fB⟩

/-- The colour `c` of the loop of `TriColorShader::shadeRow` after `i` turns. -/
def TriColorShader.loopColor (delta_color : GColor) : Nat → GColor → GColor
  | 0, c => c
  | i + 1, c =>
    TriColorShader.loopColor delta_color i
      ⟨delta_color.fA + c.fA, delta_color.fR + c.fR, delta_color.fG + c.fG,
       delta_color.fB + c.fB⟩

/-- The direct barycentric evaluation as the specification words it:
`c0 + u * (c1 - c0) + v * (c2 - c0)`, channel by channel. -/
def barycentricSpec (c0 c1 c2 : GColor) (u v : ℚ) : GColor :=
  ⟨c0.fA + u * (c1.fA - c0.fA) + v * (c2.fA - c0.fA),
   c0.fR + u * (c1.fR - c0.fR) + v * (c2.fR - c0.fR),
   c0.fG + u * (c1.fG - c0.fG) + v * (c2.fG - c0.fG),
   c0.fB + u * (c1.fB - c0.fB) + v * (c2.fB - c0.fB)⟩

/-- A sequence of calls `blit(y, start_x, end_x)` handled by one blitter, from left to
right. -/
def Blitter.blits : List (Int × Int × Int) → Blitter → GBitmap → Option (Blitter × GBitmap)
  | [], self, bit_map => some (self, bit_map)
  | (y, start_x, end_x) :: calls, self, bit_map =>
    match self.blit bit_map y start_x end_x with
    | none => none
    | some (self1, bit_map1) => Blitter.blits calls self1 bit_map1

/-- The span `start_x ≤ x < end_x` of row `y` blended as the specification words it: the
unspecialised closed-form operator of the mode on the source pixel and the old
destination. -/
def blitSpec (mode : GBlendMode) (src : GPixel) (bit_map : GBitmap) (y start_x end_x : Int) :
    GBitmap :=
  { bit_map with
    pix := fun x1 y1 =>
      if y1 = y ∧ start_x ≤ x1 ∧ x1 < end_x then blendOp mode src (bit_map.pix x1 y1)
      else bit_map.pix x1 y1 }

/-- A sequence of spans blended as the specification words it, from left to right. -/
def blitsSpec (mode : GBlendMode) (src : GPixel) : List (Int × Int × Int) → GBitmap → GBitmap
  | [], bit_map => bit_map
  | (y, start_x, end_x) :: calls, bit_map =>
    blitsSpec mode src calls (blitSpec mode src bit_map y start_x end_x)

/-- Every pixel of the bitmap is premultiplied. -/
def GBitmap.premul (bit_map : GBitmap) : Prop := ∀ x y, (bit_map.pix x y).premul

namespace EmptyCanvas

/-- The six entries of `indices` written for the vertex `i` (the top-right corner of a
sub-quad) of a grid of `width` columns. -/
def quadIndices (width i : Int) : List Int :=
  [i, i + width - 1, i - 1, i, i + width, i + width - 1]

/-- The vertex written for the loop counters `v`, `u`. -/
def quadVertex (fl fd : ℚ → ℚ) (verts : List GPoint) (level v u : Nat) : GPoint :=
  pointAt fl (verts.getD 0 default) (verts.getD 1 default) (verts.getD 2 default)
    (verts.getD 3 default) (fl ((u : ℚ) * fl (fd (1 / (((level : Int) + 1 : Int) : ℚ)))))
    (fl ((v : ℚ) * fl (fd (1 / (((level : Int) + 1 : Int) : ℚ)))))

/-- The two triangles of the sub-quad in row `b` and column `a` of the grid, as the
specification words them: (top-right, bottom-left, top-left) and (top-right, bottom-right,
bottom-left), vertex `(u, v)` of the grid having the index `v * (level + 2) + u`. -/
def quadTriangles (level b a : Nat) : List Int :=
  let topLeft : Int := ((b * (level + 2) + a : Nat) : Int)
  let topRight : Int := ((b * (level + 2) + (a + 1) : Nat) : Int)
  let bottomLeft : Int := (((b + 1) * (level + 2) + a : Nat) : Int)
  let bottomRight : Int := (((b + 1) * (level + 2) + (a + 1) : Nat) : Int)
  [topRight, bottomLeft, topLeft, topRight, bottomRight, bottomLeft]

end EmptyCanvas

/-- The edge as it stands in the vector at the beginning of row `y` of the scanline loop
of `drawPath`: `x` was advanced by `m` once for each row from `min_y` on. -/
def Edge.advanceTo (y : Int) (e : Edge) : Edge :=
  { e with x := e.x + ((max (y - e.min_y) 0 : Int) : ℚ) * e.m }

/-- The edges that are still to end at the beginning of row `y` (`y < max_y`), each
advanced to row `y`. -/
def edgesAtRow (edges : List Edge) (y : Int) : List Edge :=
  (edges.filter (fun e => decide (y < e.max_y))).map (Edge.advanceTo y)

/-- What the first `while` loop of row `y` does with one edge of the vector that it
reaches: erased when `y + 1 = max_y`, advanced otherwise. -/
def scanStep (y : Int) (e : Edge) : List Edge :=
  if y + 1 = e.max_y then [] else [{ e with x := e.x + e.m }]

namespace EmptyCanvas

/-- The state at the beginning of row `y`: the vector splits into the edges that have
begun (`min_y ≤ y`), in the order of `x`, and the ones that have not, in the order of
`min_y`. -/
def scanSplit (y : Int) (L : List Edge) : Prop :=
  ∃ A B, L = A ++ B ∧ (∀ e ∈ A, e.min_y ≤ y) ∧ (∀ e ∈ B, y < e.min_y) ∧
    B.Pairwise (fun a b => a.min_y ≤ b.min_y) ∧ A.Pairwise (fun a b => a.x ≤ b.x)

end EmptyCanvas

/-- The sum of the windings `w` of the edges of the vector that are active on row `y`
(`legal_y`). -/
def windingAt (y : Int) (edges : List Edge) : Int :=
  ((edges.filter (fun e => e.legal_y y)).map (fun e => e.w)).sum

/-- Whether row `y` lies at or below the row that the height `a` rounds to, as 1 or 0. -/
def rowReached (a : ℚ) (y : Int) : Int := if GRoundToInt a ≤ y then 1 else 0

/-- The rows between the heights `a` and `c`, in either order: 1 on the rows `y` with
`GRoundToInt (min a c) ≤ y < GRoundToInt (max a c)` and 0 elsewhere. -/
def spanRows (a c : ℚ) (y : Int) : Int := rowReached (min a c) y - rowReached (max a c) y

/-! # Theorems -/

/-! ## Arithmetic of `Div255` -/

theorem Div255_eq_div (x : Nat) : Div255 x = ((x + 128) * 257) / 65536 := by
  unfold Div255
  rw [Nat.shiftRight_eq_div_pow]

theorem Div255_zero : Div255 0 = 0 := by decide

theorem Div255_mul_255 (k : Nat) (hk : k ≤ 255) : Div255 (255 * k) = k := by
  rw [Div255_eq_div]; omega

/-! ## The constant-colour path of the blitter -/

theorem get_blendmode_congr (src : GPaint) (d1 d2 : GPixel)
    (h : GPixel_GetA d1 = GPixel_GetA d2) : get_blendmode src d1 = get_blendmode src d2 := by
  unfold get_blendmode
  rw [h]

theorem Blitter.make_coherent (src : GPaint) (ctm : GMatrix) :
    (Blitter.make src ctm).coherent := by
  constructor
  · intro h
    simp [Blitter.make] at h
  · rfl

theorem Blitter.set_blend_mode_spec (self : Blitter) (dst : GPixel) (h : self.coherent) :
    (self.set_blend_mode dst).blend_ptr = some (get_blendmode self.local_src dst) ∧
    (self.set_blend_mode dst).coherent ∧
    (self.set_blend_mode dst).local_src = self.local_src ∧
    (self.set_blend_mode dst).local_src_pixel = self.local_src_pixel ∧
    (self.set_blend_mode dst).ctm = self.ctm := by
  obtain ⟨h1, h2⟩ := h
  unfold Blitter.set_blend_mode
  split_ifs with hc
  · refine ⟨rfl, ⟨fun _ => rfl, h2⟩, rfl, rfl, rfl⟩
  · simp only [Bool.or_eq_true, Bool.not_eq_true', bne_iff_ne, ne_eq, not_or,
      Bool.not_eq_false, not_not] at hc
    obtain ⟨hs, ha⟩ := hc
    refine ⟨?_, ⟨h1, h2⟩, rfl, rfl, rfl⟩
    rw [h1 hs, get_blendmode_congr _ _ _ ha]

theorem Blitter.blitPixel_spec (self : Blitter) (bit_map : GBitmap) (y x : Int)
    (h : self.coherent) :
    ∃ self1, self.blitPixel bit_map y x =
        some (self1, bit_map.setPixel x y (constBlend self.local_src (bit_map.pix x y))) ∧
      self1.coherent ∧ self1.local_src = self.local_src ∧ self1.ctm = self.ctm := by
  obtain ⟨hp, hc, hs, hx, hm⟩ := self.set_blend_mode_spec (bit_map.pix x y) h
  refine ⟨self.set_blend_mode (bit_map.pix x y), ?_, hc, hs, hm⟩
  unfold Blitter.blitPixel
  simp only [hp, hx, constBlend, h.2]

theorem Blitter.blitConst_spec (y : Int) (n : Nat) :
    ∀ (x : Int) (self : Blitter) (bit_map : GBitmap), self.coherent →
    ∃ self1 bit_map1, Blitter.blitConst y n x self bit_map = some (self1, bit_map1) ∧
      self1.coherent ∧ self1.local_src = self.local_src ∧ self1.ctm = self.ctm ∧
      bit_map1.width = bit_map.width ∧ bit_map1.height = bit_map.height ∧
      ∀ x1 y1, bit_map1.pix x1 y1 =
        if y1 = y ∧ x ≤ x1 ∧ x1 < x + n then constBlend self.local_src (bit_map.pix x1 y1)
        else bit_map.pix x1 y1 := by
  induction n with
  | zero =>
    intro x self bit_map h
    refine ⟨self, bit_map, rfl, h, rfl, rfl, rfl, rfl, ?_⟩
    intro x1 y1
    rw [if_neg]
    simp only [Nat.cast_zero, add_zero]
    omega
  | succ n ih =>
    intro x self bit_map h
    obtain ⟨s1, hb, hc, hs, hm⟩ := self.blitPixel_spec bit_map y x h
    obtain ⟨s2, bm2, hb2, hc2, hs2, hm2, hw2, hh2, hp2⟩ :=
      ih (x + 1) s1 (bit_map.setPixel x y (constBlend self.local_src (bit_map.pix x y))) hc
    refine ⟨s2, bm2, ?_, hc2, hs2.trans hs, hm2.trans hm, hw2, hh2, ?_⟩
    · simp only [Blitter.blitConst, hb, hb2]
    · intro x1 y1
      rw [hp2 x1 y1, hs]
      simp only [GBitmap.setPixel, Nat.cast_add, Nat.cast_one]
      by_cases hy : y1 = y
      · by_cases hx : x1 = x
        · subst hx hy
          simp
        · have h1 : (x + 1 ≤ x1 ∧ x1 < x + 1 + n) ↔ (x ≤ x1 ∧ x1 < x + (n + 1)) := by omega
          simp only [hy, hx, true_and, false_and, if_false, h1]
      · simp [hy]

theorem Blitter.blit_spec (self : Blitter) (bit_map : GBitmap) (y start_x end_x : Int)
    (h : self.coherent) (hsh : self.local_src.fShader = none) :
    ∃ self1 bit_map1, self.blit bit_map y start_x end_x = some (self1, bit_map1) ∧
      self1.coherent ∧ self1.local_src = self.local_src ∧ self1.ctm = self.ctm ∧
      bit_map1.width = bit_map.width ∧ bit_map1.height = bit_map.height ∧
      ∀ x1 y1, bit_map1.pix x1 y1 =
        if y1 = y ∧ start_x ≤ x1 ∧ x1 < end_x then
          constBlend self.local_src (bit_map.pix x1 y1)
        else bit_map.pix x1 y1 := by
  obtain ⟨s1, bm1, hb, hc, hs, hm, hw, hh, hp⟩ :=
    Blitter.blitConst_spec y (end_x - start_x).toNat start_x self bit_map h
  refine ⟨s1, bm1, ?_, hc, hs, hm, hw, hh, ?_⟩
  · simp only [Blitter.blit, Blitter.shaderRow, hsh, hb]
  · intro x1 y1
    rw [hp x1 y1]
    have h1 : (y1 = y ∧ start_x ≤ x1 ∧ x1 < start_x + ((end_x - start_x).toNat : Int)) ↔
        (y1 = y ∧ start_x ≤ x1 ∧ x1 < end_x) := by omega
    simp only [h1]


theorem find_edges_body_horizontal (edges : List Edge) (pts : List GPoint) (count : Nat)
    (bit_map : GBitmap) (connect_end : Bool) (i : Nat) (p q : GPoint)
    (hp : pts.getD i default = p)
    (hq : pts.getD (if i + 1 ≥ count ∧ connect_end = true then 0 else i + 1) default = q)
    (hh : is_horizontal p.fY q.fY = true) :
    find_edges_body edges pts count bit_map connect_end i = edges := by
  unfold find_edges_body
  simp only [hp, hq, hh, if_true]

theorem find_edges_body_inside (edges : List Edge) (pts : List GPoint) (count : Nat)
    (bit_map : GBitmap) (connect_end : Bool) (i : Nat) (p q : GPoint)
    (hp : pts.getD i default = p)
    (hq : pts.getD (if i + 1 ≥ count ∧ connect_end = true then 0 else i + 1) default = q)
    (hh : is_horizontal p.fY q.fY = false)
    (hpx : 0 ≤ p.fX ∧ p.fX ≤ bit_map.width) (hpy : 0 ≤ p.fY ∧ p.fY ≤ bit_map.height)
    (hqx : 0 ≤ q.fX ∧ q.fX ≤ bit_map.width) (hqy : 0 ≤ q.fY ∧ q.fY ≤ bit_map.height) :
    find_edges_body edges pts count bit_map connect_end i =
      edges ++ [Edge.make (min p.fY q.fY) (max p.fY q.fY)
        ((q.fX - p.fX) / (q.fY - p.fY))
        (calculate_x ((q.fX - p.fX) / (q.fY - p.fY)) (if p.fY < q.fY then p else q))
        (if q.fY > p.fY then 1 else -1)] := by
  have hne : p.fY ≠ q.fY := by
    intro h
    rw [h] at hh
    simp [is_horizontal] at hh
  unfold find_edges_body
  simp only [hp, hq, hh]
  have h1 : ¬ (q.fY < 0) := not_lt.mpr hqy.1
  have h2 : ¬ (p.fY < 0) := not_lt.mpr hpy.1
  have h3 : ¬ ((bit_map.height : ℚ) < q.fY) := not_lt.mpr hqy.2
  have h4 : ¬ ((bit_map.height : ℚ) < p.fY) := not_lt.mpr hpy.2
  have h5 : ¬ (q.fX < 0) := not_lt.mpr hqx.1
  have h6 : ¬ (p.fX < 0) := not_lt.mpr hpx.1
  have h7 : ¬ ((bit_map.width : ℚ) < q.fX) := not_lt.mpr hqx.2
  have h8 : ¬ ((bit_map.width : ℚ) < p.fX) := not_lt.mpr hpx.2
  have hh2 : is_horizontal q.fY p.fY = false := by
    simpa [is_horizontal, eq_comm] using hh
  rcases lt_or_gt_of_ne hne with hlt | hgt
  · have hnl : ¬ (q.fY < p.fY) := not_lt.mpr hlt.le
    by_cases hx : q.fX < p.fX
    · simp [hlt, hnl, hx, hh, hh2, h1, h2, h3, h4, h5, h6, h7, h8, min_eq_left hlt.le,
        max_eq_right hlt.le, min_eq_right hlt.le, max_eq_left hlt.le, hne, hlt.ne']
    · simp [hlt, hnl, hx, hh, hh2, h1, h2, h3, h4, h5, h6, h7, h8, min_eq_left hlt.le,
        max_eq_right hlt.le, min_eq_right hlt.le, max_eq_left hlt.le, hne, hlt.ne']
  · have hnl : ¬ (p.fY < q.fY) := not_lt.mpr hgt.le
    have hgt2 : q.fY < p.fY := hgt
    by_cases hx : p.fX < q.fX
    · simp [hgt2, hnl, hx, hh, hh2, h1, h2, h3, h4, h5, h6, h7, h8, min_eq_left hgt2.le,
        max_eq_right hgt2.le, min_eq_right hgt2.le, max_eq_left hgt2.le, hne, hgt2.ne']
    · simp [hgt2, hnl, hx, hh, hh2, h1, h2, h3, h4, h5, h6, h7, h8, min_eq_left hgt2.le,
        max_eq_right hgt2.le, min_eq_right hgt2.le, max_eq_left hgt2.le, hne, hgt2.ne']


theorem GRoundToInt_intCast (k : Int) : GRoundToInt (k : ℚ) = k := by
  unfold GRoundToInt
  rw [Int.floor_eq_iff]
  constructor <;> linarith

theorem GRoundToInt_intCast_sub_half (k : Int) : GRoundToInt ((k : ℚ) - 1/2) = k := by
  unfold GRoundToInt
  rw [Int.floor_eq_iff]
  constructor <;> linarith

theorem cround_zero : cround 0 = 0 := by
  simp only [cround, le_refl, if_true, zero_add]
  have h : ⌊(1 / 2 : ℚ)⌋ = 0 := by
    rw [Int.floor_eq_iff]; constructor <;> norm_num
  rw [h]; rfl

theorem is_horizontal_intCast (a b : Int) :
    is_horizontal (a : ℚ) (b : ℚ) = decide (a = b) := by
  simp [is_horizontal, GRoundToInt_intCast]

theorem EmptyCanvas.convexRows_spec (edges : List Edge) (oob : Nat → Edge) (n : Nat) :
    ∀ (y : Int) (s : EmptyCanvas.ConvexLoop), s.blitter.coherent →
      s.blitter.local_src.fShader = none →
      (0 < n → s.e0.max_y = y + n ∧ s.e0.min_y ≤ y ∧ s.e1.max_y = y + n ∧ s.e1.min_y ≤ y) →
    ∃ s1, EmptyCanvas.convexRows edges oob n y s = some s1 ∧
      s1.bit_map.width = s.bit_map.width ∧ s1.bit_map.height = s.bit_map.height ∧
      ∀ x1 y1, s1.bit_map.pix x1 y1 =
        if y ≤ y1 ∧ y1 < y + n ∧ GRoundToInt (s.e0.x + ((y1 - y : Int) : ℚ) * s.e0.m) ≤ x1 ∧
            x1 < GRoundToInt (s.e1.x + ((y1 - y : Int) : ℚ) * s.e1.m) then
          constBlend s.blitter.local_src (s.bit_map.pix x1 y1)
        else s.bit_map.pix x1 y1 := by
  induction n with
  | zero =>
    intro y s _ _ _
    refine ⟨s, rfl, rfl, rfl, ?_⟩
    intro x1 y1
    rw [if_neg]
    simp only [Nat.cast_zero, add_zero]
    omega
  | succ n ih =>
    intro y s hc hsh hE
    obtain ⟨h0max, h0min, h1max, h1min⟩ := hE (Nat.succ_pos n)
    obtain ⟨b1, bm1, hb, hc1, hs1, _, hw1, hh1, hp1⟩ :=
      s.blitter.blit_spec s.bit_map y (GRoundToInt s.e0.x) (GRoundToInt s.e1.x) hc hsh
    have hl0 : s.e0.legal_y (y + 1) = decide (0 < n) := by
      simp only [Edge.legal_y, h0max, Nat.cast_add, Nat.cast_one]
      by_cases hn : 0 < n
      · simp [hn]; omega
      · simp [hn]
    have hl1 : s.e1.legal_y (y + 1) = decide (0 < n) := by
      simp only [Edge.legal_y, h1max, Nat.cast_add, Nat.cast_one]
      by_cases hn : 0 < n
      · simp [hn]; omega
      · simp [hn]
    have hrow : ∃ s1, EmptyCanvas.convexRow edges oob y s = some s1 ∧ s1.blitter = b1 ∧
        s1.bit_map = bm1 ∧
        (0 < n → s1.e0 = { s.e0 with x := s.e0.x + s.e0.m } ∧
          s1.e1 = { s.e1 with x := s.e1.x + s.e1.m }) := by
      unfold EmptyCanvas.convexRow
      simp only [hb, hl0, hl1]
      refine ⟨_, rfl, rfl, rfl, ?_⟩
      intro hn
      simp [hn]
    obtain ⟨s1, hr, hsb, hsm, hse⟩ := hrow
    have hE1 : 0 < n → s1.e0.max_y = y + 1 + n ∧ s1.e0.min_y ≤ y + 1 ∧
        s1.e1.max_y = y + 1 + n ∧ s1.e1.min_y ≤ y + 1 := by
      intro hn
      obtain ⟨he0, he1⟩ := hse hn
      rw [he0, he1]
      simp only [h0max, h1max, Nat.cast_add, Nat.cast_one]
      omega
    obtain ⟨s2, hr2, hw2, hh2, hp2⟩ := ih (y + 1) s1 (hsb ▸ hc1) (by rw [hsb, hs1]; exact hsh) hE1
    refine ⟨s2, ?_, ?_, ?_, ?_⟩
    · simp only [EmptyCanvas.convexRows, hr, hr2]
    · rw [hw2, hsm, hw1]
    · rw [hh2, hsm, hh1]
    · intro x1 y1
      rw [hp2 x1 y1, hsm, hsb, hs1, hp1 x1 y1]
      by_cases hy : y1 = y
      · subst hy
        simp
      · by_cases hy2 : y + 1 ≤ y1 ∧ y1 < y + 1 + n
        · have hn : 0 < n := by omega
          obtain ⟨he0, he1⟩ := hse hn
          have hx0 : s.e0.x + s.e0.m + ((y1 - (y + 1) : Int) : ℚ) * s.e0.m =
              s.e0.x + ((y1 - y : Int) : ℚ) * s.e0.m := by push_cast; ring
          have hx1 : s.e1.x + s.e1.m + ((y1 - (y + 1) : Int) : ℚ) * s.e1.m =
              s.e1.x + ((y1 - y : Int) : ℚ) * s.e1.m := by push_cast; ring
          have hy3 : y ≤ y1 ∧ y1 < y + ((n + 1 : Nat) : Int) := by
            push_cast; omega
          simp only [he0, he1, hx0, hx1, hy, false_and, if_false, hy2.1, hy2.2, hy3.1, hy3.2,
            true_and]
        · have hy3 : ¬ (y ≤ y1 ∧ y1 < y + ((n + 1 : Nat) : Int)) := by
            push_cast; omega
          have e1 : ∀ (P : Prop), (y + 1 ≤ y1 ∧ y1 < y + 1 + (n : Int) ∧ P) ↔ False := by
            intro P; constructor
            · rintro ⟨a, b, _⟩; exact hy2 ⟨a, b⟩
            · exact False.elim
          have e2 : ∀ (P : Prop), (y ≤ y1 ∧ y1 < y + ((n + 1 : Nat) : Int) ∧ P) ↔ False := by
            intro P; constructor
            · rintro ⟨a, b, _⟩; exact hy3 ⟨a, b⟩
            · exact False.elim
          simp only [e1, e2, if_false, hy, false_and]


theorem constBlend_solid_srcOver (src : GPaint) (dst : GPixel)
    (hmode : src.fMode = GBlendMode.kSrcOver) (ha : src.fColor.fA = 1) :
    constBlend src dst = color_to_pixel src.fColor := by
  simp [constBlend, get_blendmode, GPaint.getBlendMode, GPaint.getAlpha, hmode, ha,
    blend_switch, kSrc]

theorem willReturnDst_solid_srcOver (src : GPaint)
    (hmode : src.fMode = GBlendMode.kSrcOver) (ha : src.fColor.fA = 1) :
    willReturnDst src.getBlendMode src.getAlpha = false := by
  simp [willReturnDst, GPaint.getBlendMode, GPaint.getAlpha, hmode, ha]

theorem EmptyCanvas.drawConvexPolygon_two_edges (c : EmptyCanvas) (pts : List GPoint)
    (count : Nat) (src : GPaint) (oob : Nat → Edge) (top : GMatrix) (rest : List GMatrix)
    (L R : Edge)
    (hctm : c.ctm = top :: rest) (hsh : src.fShader = none)
    (hw : willReturnDst src.getBlendMode src.getAlpha = false)
    (hE : sortEdgeList (find_edges [] (top.mapPoints pts count) count c.bit_map true) = [L, R])
    (hmin : L.min_y = R.min_y) (hmax : L.max_y = R.max_y) :
    ∃ c1, c.drawConvexPolygon pts count src oob = some c1 ∧ c1.ctm = c.ctm ∧
      c1.has_called_save = c.has_called_save ∧
      c1.bit_map.width = c.bit_map.width ∧ c1.bit_map.height = c.bit_map.height ∧
      ∀ x1 y1, c1.bit_map.pix x1 y1 =
        if L.min_y ≤ y1 ∧ y1 < L.max_y ∧
            GRoundToInt (L.x + ((y1 - L.min_y : Int) : ℚ) * L.m) ≤ x1 ∧
            x1 < GRoundToInt (R.x + ((y1 - L.min_y : Int) : ℚ) * R.m) then
          constBlend src (c.bit_map.pix x1 y1)
        else c.bit_map.pix x1 y1 := by
  obtain ⟨s1, hr, hw1, hh1, hp1⟩ := EmptyCanvas.convexRows_spec [L, R] oob
    (R.max_y - L.min_y).toNat L.min_y
    { e0 := L, e1 := R, i := 1, blitter := Blitter.make src top, bit_map := c.bit_map }
    (Blitter.make_coherent src top) hsh
    (by
      intro hn
      simp only at hn ⊢
      refine ⟨?_, le_refl _, ?_, hmin.ge⟩ <;> omega)
  refine ⟨{ c with bit_map := s1.bit_map }, ?_, rfl, rfl, hw1, hh1, ?_⟩
  · unfold EmptyCanvas.drawConvexPolygon
    simp only [hw, hctm, hE, Bool.false_and, List.isEmpty_cons, edgeAt, List.getD_cons_zero,
      List.getD_cons_succ, List.length_cons, List.length_nil, GRoundToInt_intCast]
    simp only [Bool.false_eq_true, if_false]
    rw [hr]
  · intro x1 y1
    rw [hp1 x1 y1]
    have h1 : (L.min_y ≤ y1 ∧ y1 < L.min_y + ((R.max_y - L.min_y).toNat : Int)) ↔
        (L.min_y ≤ y1 ∧ y1 < L.max_y) := by omega
    simp only [Blitter.make]
    by_cases hy : L.min_y ≤ y1 ∧ y1 < L.max_y
    · have hy2 := h1.mpr hy
      simp only [hy.1, hy.2, hy2.2, true_and]
    · have hy2 : ¬ (L.min_y ≤ y1 ∧ y1 < L.min_y + ((R.max_y - L.min_y).toNat : Int)) :=
        fun h => hy (h1.mp h)
      have e1 : ∀ (P : Prop), (L.min_y ≤ y1 ∧ y1 < L.max_y ∧ P) ↔ False := by
        intro P; constructor
        · rintro ⟨a, b, _⟩; exact hy ⟨a, b⟩
        · exact False.elim
      have e2 : ∀ (P : Prop),
          (L.min_y ≤ y1 ∧ y1 < L.min_y + ((R.max_y - L.min_y).toNat : Int) ∧ P) ↔ False := by
        intro P; constructor
        · rintro ⟨a, b, _⟩; exact hy2 ⟨a, b⟩
        · exact False.elim
      simp only [e1, e2, if_false]


theorem GMatrix.mapPoint_identity (p : GPoint) : GMatrix.identity.mapPoint p = p := by
  simp [GMatrix.mapPoint, GMatrix.identity]

theorem find_edges_rect (bit_map : GBitmap) (l t r b : Int)
    (hl : 0 ≤ l) (hlr : l < r) (hr : r ≤ bit_map.width)
    (ht : 0 ≤ t) (htb : t < b) (hb : b ≤ bit_map.height) :
    find_edges [] [⟨l, t⟩, ⟨r, t⟩, ⟨r, b⟩, ⟨l, b⟩] 4 bit_map true =
      [{ min_y := t, max_y := b, w := 1, m := 0, x := r },
       { min_y := t, max_y := b, w := -1, m := 0, x := l }] := by
  have hl' : (0 : ℚ) ≤ l := by exact_mod_cast hl
  have hr' : (r : ℚ) ≤ bit_map.width := by exact_mod_cast hr
  have ht' : (0 : ℚ) ≤ t := by exact_mod_cast ht
  have hb' : (b : ℚ) ≤ bit_map.height := by exact_mod_cast hb
  have hlr' : (l : ℚ) < r := by exact_mod_cast hlr
  have htb' : (t : ℚ) < b := by exact_mod_cast htb
  have hrange : List.range 4 = [0, 1, 2, 3] := by decide
  simp only [find_edges, hrange, List.foldl]
  rw [find_edges_body_horizontal [] [⟨l, t⟩, ⟨r, t⟩, ⟨r, b⟩, ⟨l, b⟩] 4 bit_map true 0 ⟨l, t⟩ ⟨r, t⟩ rfl rfl
    (by simp [is_horizontal])]
  rw [find_edges_body_inside [] [⟨l, t⟩, ⟨r, t⟩, ⟨r, b⟩, ⟨l, b⟩] 4 bit_map true 1 ⟨r, t⟩ ⟨r, b⟩ rfl rfl
    (by simp [is_horizontal_intCast, htb.ne])
    ⟨by simp only; linarith, hr'⟩ ⟨ht', by simp only; linarith⟩
    ⟨by simp only; linarith, hr'⟩ ⟨by simp only; linarith, hb'⟩]
  rw [find_edges_body_horizontal _ [⟨l, t⟩, ⟨r, t⟩, ⟨r, b⟩, ⟨l, b⟩] 4 bit_map true 2 ⟨r, b⟩ ⟨l, b⟩ rfl rfl
    (by simp [is_horizontal])]
  rw [find_edges_body_inside _ [⟨l, t⟩, ⟨r, t⟩, ⟨r, b⟩, ⟨l, b⟩] 4 bit_map true 3 ⟨l, b⟩ ⟨l, t⟩ rfl rfl
    (by simp [is_horizontal_intCast, htb.ne'])
    ⟨hl', by simp only; linarith⟩ ⟨by simp only; linarith, hb'⟩
    ⟨hl', by simp only; linarith⟩ ⟨ht', by simp only; linarith⟩]
  simp [Edge.make, calculate_x, min_eq_left htb'.le, max_eq_right htb'.le,
    min_eq_right htb'.le, max_eq_left htb'.le, GRoundToInt_intCast, htb', not_lt.mpr htb'.le]

theorem sortEdgeList_pair_swap (a b : Edge) (hy : a.min_y = b.min_y) (hx : b.x < a.x) :
    sortEdgeList [a, b] = [b, a] := by
  simp [sortEdgeList, insertEdge, sortEdges, hy, hx, not_lt.mpr hx.le]

theorem EmptyCanvas.drawRect_solid (c : EmptyCanvas) (l t r b : Int) (src : GPaint)
    (oob : Nat → Edge) (rest : List GMatrix)
    (hctm : c.ctm = GMatrix.identity :: rest)
    (hl : 0 ≤ l) (hlr : l < r) (hr : r ≤ c.bit_map.width)
    (ht : 0 ≤ t) (htb : t < b) (hb : b ≤ c.bit_map.height)
    (hsh : src.fShader = none) (hmode : src.fMode = GBlendMode.kSrcOver)
    (ha : src.fColor.fA = 1) :
    ∃ c1, c.drawRect ⟨l, t, r, b⟩ src oob = some c1 ∧ c1.ctm = c.ctm ∧
      c1.has_called_save = c.has_called_save ∧
      c1.bit_map.width = c.bit_map.width ∧ c1.bit_map.height = c.bit_map.height ∧
      ∀ x y, c1.bit_map.pix x y =
        if l ≤ x ∧ x < r ∧ t ≤ y ∧ y < b then color_to_pixel src.fColor
        else c.bit_map.pix x y := by
  have hw := willReturnDst_solid_srcOver src hmode ha
  have hpts : GMatrix.identity.mapPoints
      [⟨l, t⟩, ⟨r, t⟩, ⟨r, b⟩, ⟨l, b⟩] 4 = [⟨l, t⟩, ⟨r, t⟩, ⟨r, b⟩, ⟨l, b⟩] := by
    have hrange : List.range 4 = [0, 1, 2, 3] := by decide
    simp [GMatrix.mapPoints, hrange, GMatrix.mapPoint_identity]
  obtain ⟨c1, h1, h2, h3, h4, h5, h6⟩ := EmptyCanvas.drawConvexPolygon_two_edges c
    [⟨l, t⟩, ⟨r, t⟩, ⟨r, b⟩, ⟨l, b⟩] 4 src oob GMatrix.identity rest
    { min_y := t, max_y := b, w := -1, m := 0, x := l }
    { min_y := t, max_y := b, w := 1, m := 0, x := r }
    hctm hsh hw
    (by
      rw [hpts, find_edges_rect c.bit_map l t r b hl hlr hr ht htb hb]
      exact sortEdgeList_pair_swap _ _ rfl (by show (l : ℚ) < r; exact_mod_cast hlr))
    rfl rfl
  refine ⟨c1, ?_, h2, h3, h4, h5, ?_⟩
  · simp only [EmptyCanvas.drawRect, hw, hsh, Bool.and_false, Bool.false_eq_true, if_false]
    exact h1
  · intro x y
    rw [h6 x y, constBlend_solid_srcOver src _ hmode ha]
    simp only [mul_zero, add_zero, GRoundToInt_intCast]
    have : (t ≤ y ∧ y < b ∧ l ≤ x ∧ x < r) ↔ (l ≤ x ∧ x < r ∧ t ≤ y ∧ y < b) := by
      constructor <;> (rintro ⟨a, b, c, d⟩; exact ⟨c, d, a, b⟩)
    simp only [this]


theorem GRoundToInt_zero : GRoundToInt 0 = 0 := by
  simpa using GRoundToInt_intCast 0

theorem find_edges_triangle (bit_map : GBitmap) (n : Int) (hn : 1 ≤ n)
    (hw : bit_map.width = n) (hh : bit_map.height = n) :
    find_edges [] [⟨0, 0⟩, ⟨n, 0⟩, ⟨0, n⟩] 3 bit_map true =
      [{ min_y := 0, max_y := n, w := 1, m := -1, x := (n : ℚ) - 1/2 },
       { min_y := 0, max_y := n, w := -1, m := 0, x := 0 }] := by
  have hn' : (0 : ℚ) < n := by exact_mod_cast (by omega : (0 : Int) < n)
  have hW : (bit_map.width : ℚ) = n := by rw [hw]
  have hH : (bit_map.height : ℚ) = n := by rw [hh]
  have hrange : List.range 3 = [0, 1, 2] := by decide
  have hne : ¬ (0 = n) := by omega
  have hne2 : ¬ (n = 0) := by omega
  simp only [find_edges, hrange, List.foldl]
  rw [find_edges_body_horizontal [] [⟨0, 0⟩, ⟨n, 0⟩, ⟨0, n⟩] 3 bit_map true 0 ⟨0, 0⟩ ⟨n, 0⟩
    rfl rfl (by simp [is_horizontal])]
  rw [find_edges_body_inside [] [⟨0, 0⟩, ⟨n, 0⟩, ⟨0, n⟩] 3 bit_map true 1 ⟨n, 0⟩ ⟨0, n⟩
    rfl rfl (by simp [is_horizontal, GRoundToInt_zero, GRoundToInt_intCast, hne])
    ⟨hn'.le, hW.ge⟩ ⟨le_refl _, by rw [hH]; exact hn'.le⟩
    ⟨le_refl _, by rw [hW]; exact hn'.le⟩ ⟨hn'.le, hH.ge⟩]
  rw [find_edges_body_inside _ [⟨0, 0⟩, ⟨n, 0⟩, ⟨0, n⟩] 3 bit_map true 2 ⟨0, n⟩ ⟨0, 0⟩
    rfl rfl (by simp [is_horizontal, GRoundToInt_zero, GRoundToInt_intCast, hne2])
    ⟨le_refl _, by rw [hW]; exact hn'.le⟩ ⟨hn'.le, hH.ge⟩
    ⟨le_refl _, by rw [hW]; exact hn'.le⟩ ⟨le_refl _, by rw [hH]; exact hn'.le⟩]
  have hdiv : (0 - (n : ℚ)) / ((n : ℚ) - 0) = -1 := by
    rw [sub_zero, zero_sub, neg_div, div_self hn'.ne']
  have hdiv2 : (0 - (n : ℚ)) / (n : ℚ) = -1 := by
    rw [zero_sub, neg_div, div_self hn'.ne']
  simp only [hdiv, hdiv2, List.nil_append, List.singleton_append, sub_self, zero_div, hn', if_true,
    gt_iff_lt, not_lt.mpr hn'.le, if_false, min_eq_left hn'.le, max_eq_right hn'.le,
    min_eq_right hn'.le, max_eq_left hn'.le, Edge.make, GRoundToInt_zero, GRoundToInt_intCast,
    calculate_x, cround_zero, zero_mul, add_zero, sub_zero, zero_add]
  congr 2
  ring

theorem EmptyCanvas.drawTriangle_solid (c : EmptyCanvas) (n : Int) (src : GPaint)
    (oob : Nat → Edge) (rest : List GMatrix)
    (hctm : c.ctm = GMatrix.identity :: rest) (hn : 1 ≤ n)
    (hw : c.bit_map.width = n) (hh : c.bit_map.height = n)
    (hsh : src.fShader = none) (hmode : src.fMode = GBlendMode.kSrcOver)
    (ha : src.fColor.fA = 1) :
    ∃ c1, c.drawConvexPolygon [⟨0, 0⟩, ⟨n, 0⟩, ⟨0, n⟩] 3 src oob = some c1 ∧
      c1.ctm = c.ctm ∧
      ∀ x y, c1.bit_map.pix x y =
        if 0 ≤ x ∧ 0 ≤ y ∧ x + y < n then color_to_pixel src.fColor
        else c.bit_map.pix x y := by
  have hwd := willReturnDst_solid_srcOver src hmode ha
  have hpts : GMatrix.identity.mapPoints
      [⟨0, 0⟩, ⟨n, 0⟩, ⟨0, n⟩] 3 = [⟨0, 0⟩, ⟨n, 0⟩, ⟨0, n⟩] := by
    have hrange : List.range 3 = [0, 1, 2] := by decide
    simp [GMatrix.mapPoints, hrange, GMatrix.mapPoint_identity]
  have hn' : (0 : ℚ) < (n : ℚ) - 1/2 := by
    have : (1 : ℚ) ≤ n := by exact_mod_cast hn
    linarith
  obtain ⟨c1, h1, h2, _, _, _, h6⟩ := EmptyCanvas.drawConvexPolygon_two_edges c
    [⟨0, 0⟩, ⟨n, 0⟩, ⟨0, n⟩] 3 src oob GMatrix.identity rest
    { min_y := 0, max_y := n, w := -1, m := 0, x := 0 }
    { min_y := 0, max_y := n, w := 1, m := -1, x := (n : ℚ) - 1/2 }
    hctm hsh hwd
    (by
      rw [hpts, find_edges_triangle c.bit_map n hn hw hh]
      exact sortEdgeList_pair_swap _ _ rfl hn')
    rfl rfl
  refine ⟨c1, h1, h2, ?_⟩
  intro x y
  rw [h6 x y, constBlend_solid_srcOver src _ hmode ha]
  have hround : GRoundToInt ((n : ℚ) - 1/2 + ((y - 0 : Int) : ℚ) * (-1)) = n - y := by
    have : (n : ℚ) - 1/2 + ((y - 0 : Int) : ℚ) * (-1) = ((n - y : Int) : ℚ) - 1/2 := by
      push_cast; ring
    rw [this, GRoundToInt_intCast_sub_half]
  simp only [mul_zero, add_zero, GRoundToInt_zero, hround]
  have : (0 ≤ y ∧ y < n ∧ 0 ≤ x ∧ x < n - y) ↔ (0 ≤ x ∧ 0 ≤ y ∧ x + y < n) := by omega
  simp only [this]


/-! ## `drawPaint` -/

theorem EmptyCanvas.drawPaintRows_spec (n : Nat) :
    ∀ (y : Int) (blitter : Blitter) (bit_map : GBitmap), blitter.coherent →
      blitter.local_src.fShader = none →
    ∃ blitter1 bit_map1,
      EmptyCanvas.drawPaintRows n y blitter bit_map = some (blitter1, bit_map1) ∧
      bit_map1.width = bit_map.width ∧ bit_map1.height = bit_map.height ∧
      ∀ x1 y1, bit_map1.pix x1 y1 =
        if (y ≤ y1 ∧ y1 < y + n) ∧ 0 ≤ x1 ∧ x1 < bit_map.width - 1 then
          constBlend blitter.local_src (bit_map.pix x1 y1)
        else bit_map.pix x1 y1 := by
  induction n with
  | zero =>
    intro y blitter bit_map _ _
    refine ⟨blitter, bit_map, rfl, rfl, rfl, ?_⟩
    intro x1 y1
    rw [if_neg]
    simp only [Nat.cast_zero, add_zero]
    omega
  | succ n ih =>
    intro y blitter bit_map hc hsh
    obtain ⟨b1, bm1, hb, hc1, hs1, _, hw1, hh1, hp1⟩ :=
      blitter.blit_spec bit_map y 0 (bit_map.width - 1) hc hsh
    obtain ⟨b2, bm2, hb2, hw2, hh2, hp2⟩ := ih (y + 1) b1 bm1 hc1 (by rw [hs1]; exact hsh)
    refine ⟨b2, bm2, ?_, hw2.trans hw1, hh2.trans hh1, ?_⟩
    · simp only [EmptyCanvas.drawPaintRows, hb, hb2]
    · intro x1 y1
      rw [hp2 x1 y1, hs1, hw1, hp1 x1 y1]
      by_cases hy : y1 = y
      · subst hy
        have h1 : ¬ (y1 + 1 ≤ y1 ∧ y1 < y1 + 1 + (n : Int)) := by omega
        have h2 : y1 ≤ y1 ∧ y1 < y1 + ((n + 1 : Nat) : Int) := by push_cast; omega
        simp only [h1, h2, false_and, if_false, true_and]
      · have h1 : (y + 1 ≤ y1 ∧ y1 < y + 1 + (n : Int)) ↔
            (y ≤ y1 ∧ y1 < y + ((n + 1 : Nat) : Int)) := by push_cast; omega
        simp only [hy, false_and, if_false, h1]

theorem EmptyCanvas.drawPaint_spec (c : EmptyCanvas) (src : GPaint)
    (top : GMatrix) (rest : List GMatrix) (hctm : c.ctm = top :: rest)
    (hsh : src.fShader = none)
    (hw : willReturnDst src.getBlendMode src.getAlpha = false) :
    ∃ c1, c.drawPaint src = some c1 ∧ c1.ctm = c.ctm ∧
      ∀ x y, c1.bit_map.pix x y =
        if (0 ≤ y ∧ y < c.bit_map.height) ∧ 0 ≤ x ∧ x < c.bit_map.width - 1 then
          constBlend src (c.bit_map.pix x y)
        else c.bit_map.pix x y := by
  obtain ⟨b1, bm1, hb, _, _, hp⟩ := EmptyCanvas.drawPaintRows_spec c.bit_map.height.toNat 0
    (Blitter.make src top) c.bit_map (Blitter.make_coherent src top) hsh
  refine ⟨{ c with bit_map := bm1 }, ?_, rfl, ?_⟩
  · simp only [EmptyCanvas.drawPaint, hw, hsh, hctm, hb, Option.isNone_none, Bool.and_false,
      Bool.false_eq_true, if_false]
  · intro x y
    rw [hp x y]
    have h1 : (0 ≤ y ∧ y < 0 + (c.bit_map.height.toNat : Int)) ↔
        (0 ≤ y ∧ y < c.bit_map.height) := by omega
    simp only [h1, Blitter.make]

/-! ## The matrix stack -/

/-- The stack invariant of the canvas: the stack is not empty, and the flag is set only
while a pushed copy is on it. -/
theorem EmptyCanvas.call_invariant (c : EmptyCanvas) (k : EmptyCanvas.StackCall)
    (h1 : c.ctm ≠ []) (h2 : c.has_called_save = true → 2 ≤ c.ctm.length) :
    ∃ c1, c.call k = some c1 ∧ c1.ctm ≠ [] ∧
      (c1.has_called_save = true → 2 ≤ c1.ctm.length) ∧ c1.bit_map = c.bit_map := by
  obtain ⟨f, bm, st⟩ := c
  cases st with
  | nil => exact absurd rfl h1
  | cons top rest =>
    cases k with
    | save =>
      refine ⟨_, rfl, ?_, ?_, rfl⟩
      · simp
      · intro _; simp
    | restore =>
      cases f with
      | false =>
        refine ⟨_, rfl, ?_, ?_, rfl⟩
        · simp
        · intro h; simp at h
      | true =>
        have h3 := h2 rfl
        simp only [List.length_cons] at h3
        refine ⟨_, rfl, ?_, ?_, rfl⟩
        · intro h
          simp only at h
          rw [h] at h3
          simp at h3
        · intro h; simp at h
    | concat matrix =>
      refine ⟨_, rfl, ?_, ?_, rfl⟩
      · simp
      · intro h
        have := h2 h
        simpa using this

theorem EmptyCanvas.calls_invariant (ks : List EmptyCanvas.StackCall) :
    ∀ (c : EmptyCanvas), c.ctm ≠ [] → (c.has_called_save = true → 2 ≤ c.ctm.length) →
    ∃ c1, c.calls ks = some c1 ∧ c1.ctm ≠ [] ∧
      (c1.has_called_save = true → 2 ≤ c1.ctm.length) ∧ c1.bit_map = c.bit_map := by
  induction ks with
  | nil =>
    intro c h1 h2
    exact ⟨c, rfl, h1, h2, rfl⟩
  | cons k ks ih =>
    intro c h1 h2
    obtain ⟨c1, hk, h3, h4, h5⟩ := c.call_invariant k h1 h2
    obtain ⟨c2, hks, h6, h7, h8⟩ := ih c1 h3 h4
    refine ⟨c2, ?_, h6, h7, h8.trans h5⟩
    simp only [EmptyCanvas.calls, hk, hks]

theorem EmptyCanvas.reachable_invariant (device : GBitmap) (ks : List EmptyCanvas.StackCall) :
    ∃ c1, (EmptyCanvas.make device).calls ks = some c1 ∧ c1.ctm ≠ [] ∧
      (c1.has_called_save = true → 2 ≤ c1.ctm.length) ∧ c1.bit_map = device :=
  EmptyCanvas.calls_invariant ks (EmptyCanvas.make device) (by simp [EmptyCanvas.make])
    (by intro h; simp [EmptyCanvas.make] at h)

theorem EmptyCanvas.save_concat_restore (c : EmptyCanvas) (matrix : GMatrix)
    (h : c.ctm ≠ []) :
    ∃ c1, c.calls [.save, .concat matrix, .restore] = some c1 ∧ c1.ctm = c.ctm ∧
      c1.bit_map = c.bit_map ∧ c1.has_called_save = false := by
  obtain ⟨f, bm, st⟩ := c
  cases st with
  | nil => exact absurd rfl h
  | cons top rest =>
    exact ⟨_, rfl, rfl, rfl, rfl⟩


/-! ## Pixels of a paint -/

theorem toUnsigned_half : toUnsigned (1 / 2) = 0 := by
  unfold toUnsigned
  rw [Nat.floor_eq_zero]
  norm_num

theorem toUnsigned_255_half : toUnsigned (255 + 1 / 2) = 255 := by
  unfold toUnsigned
  rw [Nat.floor_eq_iff (by norm_num)]
  constructor <;> norm_num

theorem color_to_pixel_red :
    color_to_pixel ⟨1, 1, 0, 0⟩ = GPixel_PackARGB 255 255 0 0 := by
  simp only [color_to_pixel, one_mul, mul_zero, zero_mul, zero_add, toUnsigned_255_half,
    toUnsigned_half]

theorem color_to_pixel_green :
    color_to_pixel ⟨1, 0, 1, 0⟩ = GPixel_PackARGB 255 0 255 0 := by
  simp only [color_to_pixel, one_mul, mul_zero, zero_mul, zero_add, toUnsigned_255_half,
    toUnsigned_half]

theorem color_to_pixel_alpha_zero (c : GColor) (h : c.fA = 0) :
    color_to_pixel c = GPixel_PackARGB 0 0 0 0 := by
  simp only [color_to_pixel, h, zero_mul, zero_add, toUnsigned_half]

theorem color_to_pixel_alpha_one (c : GColor) (h : c.fA = 1) :
    (color_to_pixel c).a = 255 := by
  simp only [color_to_pixel, h, one_mul, toUnsigned_255_half, GPixel_PackARGB]

theorem blendOp_of_willReturnDst (mode : GBlendMode) (c : GColor) (dst : GPixel)
    (hd : dst.premul) (hw : willReturnDst mode c.fA = true) :
    blendOp mode (color_to_pixel c) dst = dst := by
  obtain ⟨da, dr, dg, db⟩ := dst
  simp only [GPixel.premul] at hd
  obtain ⟨hd1, hd2, hd3, hd4⟩ := hd
  cases mode <;> simp [willReturnDst] at hw
  · rfl
  · rw [show blendOp GBlendMode.kSrcOver = kSrcOver from rfl, color_to_pixel_alpha_zero c hw]
    simp only [kSrcOver, GPixel_PackARGB, GPixel_GetA, GPixel_GetR, GPixel_GetG, GPixel_GetB,
      Nat.sub_zero, Nat.zero_add, GPixel.mk.injEq]
    refine ⟨?_, ?_, ?_, ?_⟩ <;> exact Div255_mul_255 _ (by omega)
  · rw [show blendOp GBlendMode.kDstOver = kDstOver from rfl, color_to_pixel_alpha_zero c hw]
    simp [kDstOver, GPixel_PackARGB, GPixel_GetA, GPixel_GetR, GPixel_GetG, GPixel_GetB,
      Div255_zero]
  · have ha := color_to_pixel_alpha_one c hw
    rw [show blendOp GBlendMode.kDstIn = kDstIn from rfl]
    simp only [kDstIn, GPixel_PackARGB, GPixel_GetA, GPixel_GetR, GPixel_GetG, GPixel_GetB,
      ha, GPixel.mk.injEq]
    refine ⟨?_, ?_, ?_, ?_⟩ <;> exact Div255_mul_255 _ (by omega)
  · rw [show blendOp GBlendMode.kDstOut = kDstOut from rfl, color_to_pixel_alpha_zero c hw]
    simp only [kDstOut, GPixel_PackARGB, GPixel_GetA, GPixel_GetR, GPixel_GetG, GPixel_GetB,
      Nat.sub_zero, GPixel.mk.injEq]
    refine ⟨?_, ?_, ?_, ?_⟩ <;> exact Div255_mul_255 _ (by omega)

theorem get_blendmode_of_willReturnDst (src : GPaint) (dst : GPixel)
    (hd : dst.premul) (hw : willReturnDst src.getBlendMode src.getAlpha = true) :
    get_blendmode src dst (color_to_pixel src.fColor) dst = dst := by
  have hop := blendOp_of_willReturnDst src.fMode src.fColor dst hd hw
  obtain ⟨c, mode, sh⟩ := src
  obtain ⟨da, dr, dg, db⟩ := dst
  simp only [GPixel.premul] at hd
  obtain ⟨hd1, hd2, hd3, hd4⟩ := hd
  simp only [GPaint.getBlendMode, GPaint.getAlpha] at hw hop ⊢
  cases mode <;> simp [willReturnDst] at hw
  · rfl
  · have h10 : ¬ (c.fA = 1) := by rw [hw]; norm_num
    simp only [get_blendmode, GPaint.getBlendMode, GPaint.getAlpha, blend_switch, h10,
      decide_False, Bool.false_eq_true, if_false]
    exact hop
  · simp only [get_blendmode, GPaint.getBlendMode, GPaint.getAlpha, blend_switch, GPixel_GetA,
      decide_eq_true_eq]
    split_ifs with h1 h2
    · subst h1
      simp only [Nat.le_zero_eq] at hd2 hd3 hd4
      subst hd2 hd3 hd4
      rw [color_to_pixel_alpha_zero c hw]
      rfl
    · rfl
    · exact hop
  · have h10 : ¬ (c.fA = 0) := by rw [hw]; norm_num
    simp only [get_blendmode, GPaint.getBlendMode, GPaint.getAlpha, blend_switch, h10,
      decide_False, Bool.false_eq_true, if_false]
    exact hop
  · have h10 : ¬ (c.fA = 1) := by rw [hw]; norm_num
    simp only [get_blendmode, GPaint.getBlendMode, GPaint.getAlpha, blend_switch, h10,
      decide_False, Bool.false_eq_true, if_false]
    exact hop


/-! ## The dispatcher against the closed forms -/

theorem get_blendmode_pixel_blendOp (mode : GBlendMode) (src dst : GPixel)
    (hs : src.premul) (hd : dst.premul) :
    get_blendmode_pixel src dst mode = blendOp mode src dst := by
  obtain ⟨sa, sr, sg, sb⟩ := src
  obtain ⟨da, dr, dg, db⟩ := dst
  simp only [GPixel.premul] at hs hd
  obtain ⟨hs1, hs2, hs3, hs4⟩ := hs
  obtain ⟨hd1, hd2, hd3, hd4⟩ := hd
  cases mode <;>
    simp only [get_blendmode_pixel, blend_switch, blendOp, GPixel_GetA, GPixel_GetR,
      GPixel_GetG, GPixel_GetB, Bool.and_eq_true, Bool.or_eq_true, decide_eq_true_eq] <;>
    split_ifs <;>
    (try casesm* _ ∨ _, _ ∧ _) <;>
    (try subst_vars) <;>
    (try simp only [Nat.le_zero_eq] at hs2 hs3 hs4 hd2 hd3 hd4) <;>
    (try subst_vars) <;>
    simp only [kClear, kSrc, kDst, kSrcOver, kDstOver, kSrcIn, kDstIn, kSrcOut, kDstOut,
      kSrcATop, kDstATop, kXor, GPixel_PackARGB, GPixel_GetA, GPixel_GetR,
      GPixel_GetG, GPixel_GetB, GPixel.mk.injEq, Nat.sub_self, Nat.zero_mul, Nat.mul_zero,
      Nat.sub_zero, Nat.add_zero, Nat.zero_add, Div255_zero, Div255_eq_div] <;>
    (try (refine ⟨?_, ?_, ?_, ?_⟩ <;> first | trivial | omega))

/-! # The claims -/

/-- C1 (defect in the code): `drawPaint` does not fill the rightmost column.  On the
10x10 bitmap cleared to 0, with the colour (A=1, R=1, G=0, B=0) and SrcOver, the call
succeeds, pixel (8, 0) becomes (0xFF, 0xFF, 0, 0), and pixel (9, 0) of the last column
is still (0, 0, 0, 0): the row is blitted as `blit(y, 0, width - 1)`, whose end is
exclusive. -/
theorem drawPaint_leaves_last_column :
    ∃ c1, (EmptyCanvas.make (GBitmap.cleared 10 10)).drawPaint
        { fColor := ⟨1, 1, 0, 0⟩, fMode := GBlendMode.kSrcOver, fShader := none } = some c1 ∧
      c1.bit_map.pix 8 0 = GPixel_PackARGB 255 255 0 0 ∧
      c1.bit_map.pix 9 0 = GPixel_PackARGB 0 0 0 0 := by
  obtain ⟨c1, h1, _, h3⟩ := EmptyCanvas.drawPaint_spec
    (EmptyCanvas.make (GBitmap.cleared 10 10))
    { fColor := ⟨1, 1, 0, 0⟩, fMode := GBlendMode.kSrcOver, fShader := none }
    GMatrix.identity [] rfl rfl (willReturnDst_solid_srcOver _ rfl rfl)
  refine ⟨c1, h1, ?_, ?_⟩
  · rw [h3 8 0, constBlend_solid_srcOver _ _ rfl rfl]
    exact color_to_pixel_red
  · rw [h3 9 0]
    simp only [EmptyCanvas.make, GBitmap.cleared]
    norm_num

/-- C2: with the identity CTM on top of the stack, `drawRect` of a rectangle with integer
edges `0 ≤ l < r ≤ W`, `0 ≤ t < b ≤ H` and an opaque, shader-less SrcOver paint succeeds and
sets exactly the pixels with `l ≤ x < r`, `t ≤ y < b` to `color_to_pixel` of the paint;
every other pixel keeps its value. -/
theorem drawRect_fills_exactly_rect (c : EmptyCanvas) (l t r b : Int) (src : GPaint)
    (oob : Nat → Edge) (rest : List GMatrix)
    (hctm : c.ctm = GMatrix.identity :: rest)
    (hl : 0 ≤ l) (hlr : l < r) (hr : r ≤ c.bit_map.width)
    (ht : 0 ≤ t) (htb : t < b) (hb : b ≤ c.bit_map.height)
    (hsh : src.fShader = none) (hmode : src.fMode = GBlendMode.kSrcOver)
    (ha : src.fColor.fA = 1) :
    ∃ c1, c.drawRect ⟨l, t, r, b⟩ src oob = some c1 ∧
      ∀ x y, c1.bit_map.pix x y =
        if l ≤ x ∧ x < r ∧ t ≤ y ∧ y < b then color_to_pixel src.fColor
        else c.bit_map.pix x y := by
  obtain ⟨c1, h1, _, _, _, _, h6⟩ :=
    EmptyCanvas.drawRect_solid c l t r b src oob rest hctm hl hlr hr ht htb hb hsh hmode ha
  exact ⟨c1, h1, h6⟩

/-- Witness of C2 (scenario B): `drawRect({1,1,4,4})` with opaque red on the cleared 8x8
bitmap paints (1,1) and (3,3) red and leaves (0,0), (4,4), (4,1) at 0. -/
theorem drawRect_fills_exactly_rect_witness :
    ∃ c1, (EmptyCanvas.make (GBitmap.cleared 8 8)).drawRect
        ⟨((1 : Int) : ℚ), ((1 : Int) : ℚ), ((4 : Int) : ℚ), ((4 : Int) : ℚ)⟩
        { fColor := ⟨1, 1, 0, 0⟩, fMode := GBlendMode.kSrcOver, fShader := none }
        (fun _ => ⟨0, 0, 0, 0, 0⟩) = some c1 ∧
      c1.bit_map.pix 1 1 = GPixel_PackARGB 255 255 0 0 ∧
      c1.bit_map.pix 3 3 = GPixel_PackARGB 255 255 0 0 ∧
      c1.bit_map.pix 0 0 = GPixel_PackARGB 0 0 0 0 ∧
      c1.bit_map.pix 4 4 = GPixel_PackARGB 0 0 0 0 ∧
      c1.bit_map.pix 4 1 = GPixel_PackARGB 0 0 0 0 := by
  obtain ⟨c1, h1, h2⟩ := drawRect_fills_exactly_rect
    (EmptyCanvas.make (GBitmap.cleared 8 8)) 1 1 4 4
    { fColor := ⟨1, 1, 0, 0⟩, fMode := GBlendMode.kSrcOver, fShader := none }
    (fun _ => ⟨0, 0, 0, 0, 0⟩) [] rfl (by decide) (by decide) (by decide) (by decide)
    (by decide) (by decide) rfl rfl rfl
  have hred := color_to_pixel_red
  refine ⟨c1, h1, ?_, ?_, ?_, ?_, ?_⟩
  · rw [h2 1 1, hred]; decide
  · rw [h2 3 3, hred]; decide
  · rw [h2 0 0]; decide
  · rw [h2 4 4]; decide
  · rw [h2 4 1]; decide


/-- C3: with the identity CTM on top of the stack, `drawConvexPolygon` of the triangle
(0,0), (n,0), (0,n), `n ≥ 1`, with an opaque shader-less SrcOver paint on a cleared
n x n bitmap succeeds, and afterwards pixel `(x, y)` of the bitmap holds the paint's
pixel if `x + y < n` and is still 0 otherwise. -/
theorem drawConvexPolygon_triangle (c : EmptyCanvas) (n : Int) (src : GPaint)
    (oob : Nat → Edge) (rest : List GMatrix)
    (hctm : c.ctm = GMatrix.identity :: rest) (hn : 1 ≤ n)
    (hw : c.bit_map.width = n) (hh : c.bit_map.height = n)
    (hclear : ∀ x y, 0 ≤ x → x < n → 0 ≤ y → y < n →
      c.bit_map.pix x y = GPixel_PackARGB 0 0 0 0)
    (hsh : src.fShader = none) (hmode : src.fMode = GBlendMode.kSrcOver)
    (ha : src.fColor.fA = 1) :
    ∃ c1, c.drawConvexPolygon [⟨0, 0⟩, ⟨n, 0⟩, ⟨0, n⟩] 3 src oob = some c1 ∧
      ∀ x y, 0 ≤ x → x < n → 0 ≤ y → y < n →
        c1.bit_map.pix x y =
          if x + y < n then color_to_pixel src.fColor else GPixel_PackARGB 0 0 0 0 := by
  obtain ⟨c1, h1, _, h3⟩ :=
    EmptyCanvas.drawTriangle_solid c n src oob rest hctm hn hw hh hsh hmode ha
  refine ⟨c1, h1, ?_⟩
  intro x y hx0 hx1 hy0 hy1
  rw [h3 x y, hclear x y hx0 hx1 hy0 hy1]
  simp only [hx0, hy0, true_and]

/-- Witness of C3 (scenario C): the triangle (0,0), (4,0), (0,4) in opaque green on the
cleared 4x4 bitmap paints (0,0) and (1,1) and leaves (2,2) and (3,3) at 0. -/
theorem drawConvexPolygon_triangle_witness :
    ∃ c1, (EmptyCanvas.make (GBitmap.cleared 4 4)).drawConvexPolygon
        [⟨0, 0⟩, ⟨((4 : Int) : ℚ), 0⟩, ⟨0, ((4 : Int) : ℚ)⟩] 3
        { fColor := ⟨1, 0, 1, 0⟩, fMode := GBlendMode.kSrcOver, fShader := none }
        (fun _ => ⟨0, 0, 0, 0, 0⟩) = some c1 ∧
      c1.bit_map.pix 0 0 = GPixel_PackARGB 255 0 255 0 ∧
      c1.bit_map.pix 1 1 = GPixel_PackARGB 255 0 255 0 ∧
      c1.bit_map.pix 2 2 = GPixel_PackARGB 0 0 0 0 ∧
      c1.bit_map.pix 3 3 = GPixel_PackARGB 0 0 0 0 := by
  obtain ⟨c1, h1, h2⟩ := drawConvexPolygon_triangle
    (EmptyCanvas.make (GBitmap.cleared 4 4)) 4
    { fColor := ⟨1, 0, 1, 0⟩, fMode := GBlendMode.kSrcOver, fShader := none }
    (fun _ => ⟨0, 0, 0, 0, 0⟩) [] rfl (by decide) rfl rfl (fun _ _ _ _ _ _ => rfl)
    rfl rfl rfl
  have hgreen := color_to_pixel_green
  refine ⟨c1, h1, ?_, ?_, ?_, ?_⟩
  · rw [h2 0 0 (by decide) (by decide) (by decide) (by decide), hgreen]; decide
  · rw [h2 1 1 (by decide) (by decide) (by decide) (by decide), hgreen]; decide
  · rw [h2 2 2 (by decide) (by decide) (by decide) (by decide)]; decide
  · rw [h2 3 3 (by decide) (by decide) (by decide) (by decide)]; decide

/-- C4: for every blend mode and all premultiplied pixels `src`, `dst`, the
alpha-specialised dispatcher `get_blendmode_pixel src dst mode` returns the same pixel as
the unspecialised closed-form operator of that mode applied to `(src, dst)`. -/
theorem dispatcher_agrees_with_closed_form (mode : GBlendMode) (src dst : GPixel)
    (hs : src.premul) (hd : dst.premul) :
    get_blendmode_pixel src dst mode = blendOp mode src dst :=
  get_blendmode_pixel_blendOp mode src dst hs hd

/-- Witness of C4: Xor of an opaque source over a half-transparent destination, where the
dispatcher takes the `kSrcOut` shortcut. -/
theorem dispatcher_agrees_with_closed_form_witness :
    get_blendmode_pixel ⟨255, 10, 20, 30⟩ ⟨128, 5, 6, 7⟩ GBlendMode.kXor =
      blendOp GBlendMode.kXor ⟨255, 10, 20, 30⟩ ⟨128, 5, 6, 7⟩ :=
  dispatcher_agrees_with_closed_form GBlendMode.kXor ⟨255, 10, 20, 30⟩ ⟨128, 5, 6, 7⟩
    (by decide) (by decide)

/-- C5 (defect in the code): nested save/restore does not bring the CTM back.  On a fresh
canvas, `save(); save(); concat(Translate(2,0)); restore(); concat(Translate(3,0));
restore()` ends with the stack `[Translate(3,0), identity]`: the second `restore()` finds
`has_called_save` already cleared and pops nothing, so the CTM is `Translate(3,0)`, not
the identity, and the stack depth is 2, not 1. -/
theorem nested_restore_keeps_inner_ctm :
    ∃ c1, (EmptyCanvas.make (GBitmap.cleared 1 1)).calls
        [.save, .save, .concat (GMatrix.Translate 2 0), .restore,
         .concat (GMatrix.Translate 3 0), .restore] = some c1 ∧
      c1.ctm = [GMatrix.Translate 3 0, GMatrix.identity] ∧
      c1.ctm.head? ≠ some GMatrix.identity ∧ c1.ctm.length = 2 := by
  refine ⟨_, rfl, ?_, ?_, ?_⟩
  · simp [GMatrix.preConcat, GMatrix.Concat, GMatrix.identity, GMatrix.Translate]
  · simp [GMatrix.preConcat, GMatrix.Concat, GMatrix.identity, GMatrix.Translate]
  · rfl

/-- C6: from every canvas state reachable by save/restore/concat calls and for every matrix
M, the sequence `save(); concat(M); restore()` succeeds and leaves the matrix stack (depth
and every entry) as it was before the `save()`. -/
theorem save_concat_restore_keeps_stack (device : GBitmap) (ks : List EmptyCanvas.StackCall)
    (c : EmptyCanvas) (matrix : GMatrix)
    (hreach : (EmptyCanvas.make device).calls ks = some c) :
    ∃ c1, c.calls [.save, .concat matrix, .restore] = some c1 ∧ c1.ctm = c.ctm := by
  obtain ⟨c0, h0, hne, _, _⟩ := EmptyCanvas.reachable_invariant device ks
  rw [hreach] at h0
  cases Option.some.inj h0
  obtain ⟨c1, h1, h2, _, _⟩ := EmptyCanvas.save_concat_restore c matrix hne
  exact ⟨c1, h1, h2⟩

/-- Witness of C6 (scenario F): on a fresh 4x4 canvas, after `save();
concat(Translate(2,0)); restore()` the stack is the single identity again, and a following
`drawRect({0,0,1,1})` in opaque blue paints pixel (0,0). -/
theorem save_concat_restore_keeps_stack_witness :
    ∃ c1 c2, (EmptyCanvas.make (GBitmap.cleared 4 4)).calls
        [.save, .concat (GMatrix.Translate 2 0), .restore] = some c1 ∧
      c1.ctm = [GMatrix.identity] ∧
      c1.drawRect ⟨((0 : Int) : ℚ), ((0 : Int) : ℚ), ((1 : Int) : ℚ), ((1 : Int) : ℚ)⟩
        { fColor := ⟨1, 0, 0, 1⟩, fMode := GBlendMode.kSrcOver, fShader := none }
        (fun _ => ⟨0, 0, 0, 0, 0⟩) = some c2 ∧
      c2.bit_map.pix 0 0 = GPixel_PackARGB 255 0 0 255 := by
  obtain ⟨c1, h1, h2⟩ := save_concat_restore_keeps_stack (GBitmap.cleared 4 4) []
    (EmptyCanvas.make (GBitmap.cleared 4 4)) (GMatrix.Translate 2 0) rfl
  have hb : c1.bit_map = GBitmap.cleared 4 4 := by
    have := Option.some.inj h1
    rw [← this]
    rfl
  obtain ⟨c2, h3, _, _, _, _, h4⟩ := EmptyCanvas.drawRect_solid c1 0 0 1 1
    { fColor := ⟨1, 0, 0, 1⟩, fMode := GBlendMode.kSrcOver, fShader := none }
    (fun _ => ⟨0, 0, 0, 0, 0⟩) [] h2 (by decide) (by decide) (by rw [hb]; decide)
    (by decide) (by decide) (by rw [hb]; decide) rfl rfl rfl
  refine ⟨c1, c2, h1, h2, h3, ?_⟩
  rw [h4 0 0, if_pos (by decide)]
  simp only [color_to_pixel, one_mul, mul_zero, zero_mul, zero_add, mul_one,
    toUnsigned_255_half, toUnsigned_half]


/-- C7: every sequence of save/restore/concat calls on a fresh canvas runs without ever
taking `top()` or `pop()` of an empty stack, the stack it reaches is not empty (the CTM
exists), and whenever that stack has depth 1 (no save outstanding) a further `restore()`
leaves the canvas, hence the matrix stack, unchanged. -/
theorem restore_at_depth_one_is_noop (device : GBitmap) (ks : List EmptyCanvas.StackCall) :
    ∃ c, (EmptyCanvas.make device).calls ks = some c ∧ c.ctm ≠ [] ∧
      (c.ctm.length = 1 → c.restore = some c) := by
  obtain ⟨c, h1, h2, h3, _⟩ := EmptyCanvas.reachable_invariant device ks
  refine ⟨c, h1, h2, ?_⟩
  intro hlen
  have hf : c.has_called_save = false := by
    cases hs : c.has_called_save with
    | false => rfl
    | true =>
      have := h3 hs
      omega
  simp only [EmptyCanvas.restore, hf, Bool.false_eq_true, if_false]

/-- Witness of C7: after `save(); concat(Translate(2,0)); restore(); restore()` on a fresh
canvas (one restore too many) the stack is the single identity matrix, and one more
`restore()` changes nothing. -/
theorem restore_at_depth_one_is_noop_witness :
    ∃ c, (EmptyCanvas.make (GBitmap.cleared 1 1)).calls
        [.save, .concat (GMatrix.Translate 2 0), .restore, .restore] = some c ∧
      c.ctm = [GMatrix.identity] ∧ c.restore = some c := by
  obtain ⟨c, h1, _, h3⟩ := restore_at_depth_one_is_noop (GBitmap.cleared 1 1)
    [.save, .concat (GMatrix.Translate 2 0), .restore, .restore]
  have hc : c.ctm = [GMatrix.identity] := by
    have := Option.some.inj h1
    rw [← this]
  exact ⟨c, h1, hc, h3 (by rw [hc]; rfl)⟩

/-- C8: whenever `willReturnDst(mode, alpha)` holds for the paint, blending the paint's
pixel `color_to_pixel(paint)` into any premultiplied destination `dst` yields exactly
`dst`, both with the closed-form operator of the mode and with the specialised function
the blitter would have picked; so the early return of the draw calls skips no change. -/
theorem willReturnDst_blend_is_dst (src : GPaint) (dst : GPixel) (hd : dst.premul)
    (hw : willReturnDst src.getBlendMode src.getAlpha = true) :
    blendOp src.getBlendMode (color_to_pixel src.fColor) dst = dst ∧
      get_blendmode src dst (color_to_pixel src.fColor) dst = dst :=
  ⟨blendOp_of_willReturnDst src.fMode src.fColor dst hd hw,
   get_blendmode_of_willReturnDst src dst hd hw⟩

/-- Witness of C8: DstIn with an opaque colour over the pixel (200, 100, 50, 25). -/
theorem willReturnDst_blend_is_dst_witness :
    willReturnDst GBlendMode.kDstIn 1 = true ∧
      blendOp GBlendMode.kDstIn (color_to_pixel ⟨1, 1, 0, 0⟩) ⟨200, 100, 50, 25⟩ =
        ⟨200, 100, 50, 25⟩ ∧
      get_blendmode { fColor := ⟨1, 1, 0, 0⟩, fMode := GBlendMode.kDstIn, fShader := none }
        ⟨200, 100, 50, 25⟩ (color_to_pixel ⟨1, 1, 0, 0⟩) ⟨200, 100, 50, 25⟩ =
        ⟨200, 100, 50, 25⟩ :=
  have hw : willReturnDst GBlendMode.kDstIn 1 = true := by simp [willReturnDst]
  ⟨hw, willReturnDst_blend_is_dst
    { fColor := ⟨1, 1, 0, 0⟩, fMode := GBlendMode.kDstIn, fShader := none }
    ⟨200, 100, 50, 25⟩ (by decide) hw⟩

/-- C9: for every `0 ≤ x ≤ 255 * 255`, `Div255 x = ((x + 128) * 257) >> 16` is
`floor((2x + 255) / 510)`, it is the integer nearest to `x / 255` (it differs from
`x / 255` by less than one half), and when `x = 255 * k` it is `k`. -/
theorem Div255_is_rounded_division (x : Nat) (hx : x ≤ 255 * 255) :
    Div255 x = (2 * x + 255) / 510 ∧
      |(x : ℚ) / 255 - (Div255 x : ℚ)| < 1 / 2 ∧
      ∀ k : Nat, x = 255 * k → Div255 x = k := by
  have h1 : Div255 x = (2 * x + 255) / 510 := by
    rw [Div255_eq_div]; omega
  refine ⟨h1, ?_, ?_⟩
  · have hlo : 510 * Div255 x < 2 * x + 255 := by rw [h1]; omega
    have hhi : 2 * x < 510 * Div255 x + 255 := by rw [h1]; omega
    have hlo' : (510 : ℚ) * (Div255 x : ℚ) < 2 * (x : ℚ) + 255 := by exact_mod_cast hlo
    have hhi' : 2 * (x : ℚ) < 510 * (Div255 x : ℚ) + 255 := by exact_mod_cast hhi
    have hx' : (x : ℚ) / 255 = (2 * (x : ℚ)) * (1 / 510) := by ring
    rw [abs_lt, hx']
    constructor <;> linarith
  · intro k hk
    subst hk
    exact Div255_mul_255 k (by omega)

/-- Witness of C9: `x = 255 * 255`, the largest product of two channels. -/
theorem Div255_is_rounded_division_witness :
    Div255 (255 * 255) = (2 * (255 * 255) + 255) / 510 ∧
      |((255 * 255 : Nat) : ℚ) / 255 - (Div255 (255 * 255) : ℚ)| < 1 / 2 ∧
      ∀ k : Nat, 255 * 255 = 255 * k → Div255 (255 * 255) = k :=
  Div255_is_rounded_division (255 * 255) (le_refl _)


/-! ## Floating point rounding -/

theorem roundHalfEven_eq (q : ℚ) (n : Int) (h1 : (n : ℚ) - 1 / 2 < q)
    (h2 : q < (n : ℚ) + 1 / 2) : roundHalfEven q = n := by
  unfold roundHalfEven
  by_cases hq : (n : ℚ) ≤ q
  · have hf : ⌊q⌋ = n := by
      rw [Int.floor_eq_iff]
      constructor
      · exact hq
      · linarith
    rw [hf, if_pos (by linarith)]
  · have hf : ⌊q⌋ = n - 1 := by
      rw [Int.floor_eq_iff]
      push_cast
      constructor
      · linarith
      · linarith
    have h3 : ¬ (q - ((n - 1 : Int) : ℚ) < 1 / 2) := by
      push_cast
      linarith
    have h4 : 1 / 2 < q - ((n - 1 : Int) : ℚ) := by
      push_cast
      linarith
    rw [hf, if_neg h3, if_pos h4]
    ring

theorem roundBinary_zero (p : Nat) (emin : Int) : roundBinary p emin 0 = 0 := by
  unfold roundBinary
  have h : roundHalfEven (0 / (2 : ℚ) ^ (max (Int.log 2 |(0 : ℚ)|) emin - (p : Int))) = 0 := by
    apply roundHalfEven_eq <;> simp
  simp only [h]
  simp

theorem roundBinary_eq (p : Nat) (emin : Int) (x : ℚ) (e n : Int) (hx : x ≠ 0)
    (he : emin ≤ e) (hlo : e = emin ∨ (2 : ℚ) ^ e ≤ |x|) (hhi : |x| < (2 : ℚ) ^ (e + 1))
    (h1 : (n : ℚ) - 1 / 2 < x / (2 : ℚ) ^ (e - (p : Int)))
    (h2 : x / (2 : ℚ) ^ (e - (p : Int)) < (n : ℚ) + 1 / 2) :
    roundBinary p emin x = (n : ℚ) * (2 : ℚ) ^ (e - (p : Int)) := by
  have hpos : 0 < |x| := abs_pos.mpr hx
  have hlog1 : Int.log 2 |x| < e + 1 :=
    (Int.lt_zpow_iff_log_lt (by norm_num) hpos).mp (by exact_mod_cast hhi)
  have hmax : max (Int.log 2 |x|) emin = e := by
    rcases hlo with hlo | hlo
    · subst hlo
      exact max_eq_right (by omega)
    · have hlog2 : e ≤ Int.log 2 |x| :=
        (Int.zpow_le_iff_le_log (by norm_num) hpos).mp (by exact_mod_cast hlo)
      have : Int.log 2 |x| = e := by omega
      rw [this]
      exact max_eq_left he
  unfold roundBinary
  simp only [hmax]
  rw [roundHalfEven_eq _ n h1 h2]

theorem roundF32_zero : roundF32 0 = 0 := roundBinary_zero 23 (-126)

theorem roundF32_eq (x : ℚ) (e n : Int) (hx : x ≠ 0) (he : -126 ≤ e)
    (hlo : e = -126 ∨ (2 : ℚ) ^ e ≤ |x|) (hhi : |x| < (2 : ℚ) ^ (e + 1))
    (h1 : (n : ℚ) - 1 / 2 < x / (2 : ℚ) ^ (e - 23))
    (h2 : x / (2 : ℚ) ^ (e - 23) < (n : ℚ) + 1 / 2) :
    roundF32 x = (n : ℚ) * (2 : ℚ) ^ (e - 23) :=
  roundBinary_eq 23 (-126) x e n hx he hlo hhi h1 h2

theorem roundF64_eq (x : ℚ) (e n : Int) (hx : x ≠ 0) (he : -1022 ≤ e)
    (hlo : e = -1022 ∨ (2 : ℚ) ^ e ≤ |x|) (hhi : |x| < (2 : ℚ) ^ (e + 1))
    (h1 : (n : ℚ) - 1 / 2 < x / (2 : ℚ) ^ (e - 52))
    (h2 : x / (2 : ℚ) ^ (e - 52) < (n : ℚ) + 1 / 2) :
    roundF64 x = (n : ℚ) * (2 : ℚ) ^ (e - 52) :=
  roundBinary_eq 52 (-1022) x e n hx he hlo hhi h1 h2

/-- A product of two `float`s below half of the least subnormal number `2^-149` is rounded
to 0. -/
theorem roundF32_underflow (x : ℚ) (h : |x| < (2 : ℚ) ^ (-150 : Int)) : roundF32 x = 0 := by
  by_cases hx : x = 0
  · rw [hx, roundF32_zero]
  · have hq : (0 : ℚ) < (2 : ℚ) ^ ((-126 : Int) - 23) := by positivity
    have habs := abs_lt.mp h
    have h150 : (2 : ℚ) ^ (-150 : Int) = (2 : ℚ) ^ ((-126 : Int) - 23) * (1 / 2) := by
      rw [show ((-126 : Int) - 23) = -150 + 1 by norm_num, zpow_add₀ (by norm_num)]
      norm_num
    have := roundF32_eq x (-126) 0 hx (le_refl _) (Or.inl rfl)
      (lt_trans h (zpow_lt_zpow_right₀ (by norm_num) (by norm_num)))
      (by
        rw [lt_div_iff₀ hq]
        push_cast
        rw [h150] at habs
        linarith [habs.1])
      (by
        rw [div_lt_iff₀ hq]
        push_cast
        rw [h150] at habs
        linarith [habs.2])
    rw [this]
    simp

theorem GMatrix.invertRounded_id (M inverse : GMatrix) :
    M.invertRounded id id inverse = M.invert inverse := rfl

theorem GMatrix.invertRounded_fst_iff (fl fd : ℚ → ℚ) (M inverse : GMatrix) :
    (M.invertRounded fl fd inverse).1 = false ↔
      fl (fl (M.SX * M.SY) - fl (M.KX * M.KY)) = 0 := by
  unfold GMatrix.invertRounded
  by_cases h : fl (fl (M.SX * M.SY) - fl (M.KX * M.KY)) = 0
  · simp [h]
  · simp [h]

theorem GMatrix.invertRounded_snd (fl fd : ℚ → ℚ) (M inverse : GMatrix)
    (h : (M.invertRounded fl fd inverse).1 = false) :
    (M.invertRounded fl fd inverse).2 = inverse := by
  have h0 := (GMatrix.invertRounded_fst_iff fl fd M inverse).mp h
  unfold GMatrix.invertRounded
  simp [h0]

/-- C10 (counterexample): under `float` arithmetic `GMatrix::invert` returns false for the
matrix `Scale(2^-100, 2^-100)`, whose entries are `float`s and whose determinant
`SX*SY - KX*KY = 2^-200` is not 0: the product `SX*SY` is below the least subnormal `float`
and is rounded to 0, so the computed `det` is 0. -/
theorem invert_false_for_nonzero_determinant :
    roundF32 ((1 / 2) ^ 100) = (1 / 2) ^ 100 ∧
    ((GMatrix.Scale ((1 / 2) ^ 100) ((1 / 2) ^ 100)).invertRounded roundF32 roundF64
      (GMatrix.Translate 1 2)).1 = false ∧
    (GMatrix.Scale ((1 / 2) ^ 100) ((1 / 2) ^ 100)).SX *
        (GMatrix.Scale ((1 / 2) ^ 100) ((1 / 2) ^ 100)).SY -
      (GMatrix.Scale ((1 / 2) ^ 100) ((1 / 2) ^ 100)).KX *
        (GMatrix.Scale ((1 / 2) ^ 100) ((1 / 2) ^ 100)).KY ≠ 0 := by
  refine ⟨?_, ?_, ?_⟩
  · rw [roundF32_eq ((1 / 2) ^ 100) (-100) (2 ^ 23) (by positivity) (by norm_num)
      (Or.inr (by norm_num [abs_of_pos])) (by norm_num [abs_of_pos]) (by norm_num)
      (by norm_num)]
    norm_num
  · rw [GMatrix.invertRounded_fst_iff]
    have h1 : roundF32 ((GMatrix.Scale ((1 / 2) ^ 100) ((1 / 2) ^ 100)).SX *
        (GMatrix.Scale ((1 / 2) ^ 100) ((1 / 2) ^ 100)).SY) = 0 := by
      apply roundF32_underflow
      norm_num [GMatrix.Scale, abs_of_pos]
    have h2 : roundF32 ((GMatrix.Scale ((1 / 2) ^ 100) ((1 / 2) ^ 100)).KX *
        (GMatrix.Scale ((1 / 2) ^ 100) ((1 / 2) ^ 100)).KY) = 0 := by
      simp only [GMatrix.Scale, mul_zero]
      exact roundF32_zero
    rw [h1, h2, sub_zero, roundF32_zero]
  · norm_num [GMatrix.Scale]

/-- C10 (amended): for every matrix and whatever the rounding of the `float` and `double`
operations is, `GMatrix::invert` returns false exactly when the determinant as the code
computes it, `fl(fl(SX*SY) - fl(KX*KY))`, is 0, and then the matrix behind the `inverse`
pointer is what it was; over exact arithmetic the computed determinant is `SX*SY - KX*KY`,
so there `invert` returns false exactly when `SX*SY - KX*KY = 0`. -/
theorem invert_false_iff_computed_det_zero (fl fd : ℚ → ℚ) (M inverse : GMatrix) :
    (((M.invertRounded fl fd inverse).1 = false ↔
        fl (fl (M.SX * M.SY) - fl (M.KX * M.KY)) = 0) ∧
      ((M.invertRounded fl fd inverse).1 = false →
        (M.invertRounded fl fd inverse).2 = inverse)) ∧
    (M.invertRounded id id inverse = M.invert inverse ∧
      ((M.invert inverse).1 = false ↔ M.SX * M.SY - M.KX * M.KY = 0) ∧
      ((M.invert inverse).1 = false → (M.invert inverse).2 = inverse)) := by
  refine ⟨⟨GMatrix.invertRounded_fst_iff fl fd M inverse,
    GMatrix.invertRounded_snd fl fd M inverse⟩, rfl, ?_, ?_⟩
  · exact GMatrix.invertRounded_fst_iff id id M inverse
  · exact GMatrix.invertRounded_snd id id M inverse

/-! ## Matrices -/

theorem GMatrix.invert_of_det_ne_zero (M inverse : GMatrix)
    (h : M.SX * M.SY - M.KX * M.KY ≠ 0) :
    (M.invert inverse).1 = true ∧
      GMatrix.Concat (M.invert inverse).2 M = GMatrix.identity ∧
      GMatrix.Concat M (M.invert inverse).2 = GMatrix.identity := by
  unfold GMatrix.invert
  simp only [h, if_false, GMatrix.Concat, GMatrix.identity, GMatrix.mk.injEq, true_and]
  refine ⟨⟨?_, ?_, ?_, ?_, ?_, ?_⟩, ⟨?_, ?_, ?_, ?_, ?_, ?_⟩⟩ <;> field_simp <;> ring

theorem GMatrix.mapPoint_Concat (A B : GMatrix) (p : GPoint) :
    (GMatrix.Concat A B).mapPoint p = A.mapPoint (B.mapPoint p) := by
  simp only [GMatrix.mapPoint, GMatrix.Concat, GPoint.mk.injEq]
  constructor <;> ring

theorem GMatrix.getD_mapPoints (M : GMatrix) (src : List GPoint) (count i : Nat)
    (hi : i < count) :
    (M.mapPoints src count).getD i default = M.mapPoint (src.getD i default) := by
  unfold GMatrix.mapPoints
  rw [List.getD_eq_getElem _ _ (by simpa using hi)]
  simp

theorem GMatrix.mapPoints_Concat (A B : GMatrix) (src : List GPoint) (count : Nat) :
    (GMatrix.Concat A B).mapPoints src count = A.mapPoints (B.mapPoints src count) count := by
  unfold GMatrix.mapPoints
  apply List.map_congr_left
  intro i hi
  rw [List.mem_range] at hi
  have := GMatrix.getD_mapPoints B src count i hi
  unfold GMatrix.mapPoints at this
  rw [this, GMatrix.mapPoint_Concat]

theorem GMatrix.mapPoints_identity (src : List GPoint) :
    GMatrix.identity.mapPoints src src.length = src := by
  unfold GMatrix.mapPoints
  apply List.ext_getElem
  · simp
  · intro i h1 h2
    simp [GMatrix.mapPoint_identity, List.getElem?_eq_getElem h2]

/-! ## Bézier curves -/

theorem GPoint.add_def (p q : GPoint) : p + q = ⟨p.fX + q.fX, p.fY + q.fY⟩ := rfl

theorem GPoint.sub_def (p q : GPoint) : p - q = ⟨p.fX - q.fX, p.fY - q.fY⟩ := rfl

theorem GPoint.smul_def (s : ℚ) (p : GPoint) : s • p = ⟨s * p.fX, s * p.fY⟩ := rfl

theorem calculateQuad_zero (A B C : GPoint) : calculateQuad A B C 0 = A := by
  simp [calculateQuad, GPoint.add_def, GPoint.smul_def]

theorem calculateQuad_one (A B C : GPoint) : calculateQuad A B C 1 = C := by
  simp [calculateQuad, GPoint.add_def, GPoint.smul_def]

theorem calculateCubic_zero (A B C D : GPoint) : calculateCubic A B C D 0 = A := by
  simp [calculateCubic, GPoint.add_def, GPoint.smul_def]

theorem calculateCubic_one (A B C D : GPoint) : calculateCubic A B C D 1 = D := by
  simp [calculateCubic, GPoint.add_def, GPoint.smul_def]

theorem GPath.ChopQuadAt_first (A B C : GPoint) (t s : ℚ) :
    calculateQuad A ((1 - t) • A + t • B) (calculateQuad A B C t) s =
      calculateQuad A B C (s * t) := by
  simp only [calculateQuad, GPoint.add_def, GPoint.smul_def, GPoint.mk.injEq]
  constructor <;> ring

theorem GPath.ChopQuadAt_second (A B C : GPoint) (t s : ℚ) :
    calculateQuad (calculateQuad A B C t) ((1 - t) • B + t • C) C s =
      calculateQuad A B C (t + s * (1 - t)) := by
  simp only [calculateQuad, GPoint.add_def, GPoint.smul_def, GPoint.mk.injEq]
  constructor <;> ring

theorem GPath.ChopCubicAt_first (A B C D : GPoint) (t s : ℚ) :
    calculateCubic A ((1 - t) • A + t • B)
        ((1 - t) • ((1 - t) • A + t • B) + t • ((1 - t) • B + t • C))
        (calculateCubic A B C D t) s =
      calculateCubic A B C D (s * t) := by
  simp only [calculateCubic, GPoint.add_def, GPoint.smul_def, GPoint.mk.injEq]
  constructor <;> ring


theorem foldl_update_apply (f : Nat → GPoint) (l : List Nat) :
    ∀ (q : Nat → GPoint) (j : Nat),
      (l.foldl (fun (acc : Nat → GPoint) (i : Nat) => Function.update acc i (f i)) q) j =
        if j ∈ l then f j else q j := by
  induction l with
  | nil => intro q j; simp
  | cons i l ih =>
    intro q j
    rw [List.foldl_cons, ih]
    by_cases hj : j ∈ l
    · simp [hj]
    · by_cases hji : j = i
      · subst hji
        simp [hj]
      · simp [hj, hji, Function.update_noteq hji]

theorem createQuadPts_spec (A B C : GPoint) (quadPts : Nat → GPoint) (count : Nat)
    (h : 1 ≤ count) (j : Nat) :
    createQuadPts [A, B, C] quadPts count j =
      if j ≤ count then calculateQuad A B C ((j : ℚ) / (count : ℚ)) else quadPts j := by
  have hc : (count : ℚ) ≠ 0 := by exact_mod_cast (by omega : count ≠ 0)
  unfold createQuadPts
  simp only [List.getD_cons_zero, List.getD_cons_succ]
  by_cases hj : j = count
  · subst hj
    simp [div_self hc, calculateQuad_one]
  · rw [Function.update_noteq hj,
      foldl_update_apply (fun i => calculateQuad A B C ((i : ℚ) * (count : ℚ)⁻¹))]
    simp only [List.mem_range'_1]
    by_cases hj0 : j = 0
    · subst hj0
      simp [calculateQuad_zero]
    · by_cases hlt : j < count
      · have h1 : 1 ≤ j ∧ j < 1 + (count - 1) := by omega
        simp [h1, hlt.le, div_eq_mul_inv]
      · have h1 : ¬ (1 ≤ j ∧ j < 1 + (count - 1)) := by omega
        have h2 : ¬ (j ≤ count) := by omega
        simp [h1, h2, Function.update_noteq hj0]

theorem createCubicPts_spec (A B C D : GPoint) (cubicPts : Nat → GPoint) (count : Nat)
    (h : 1 ≤ count) (j : Nat) :
    createCubicPts [A, B, C, D] cubicPts count j =
      if j ≤ count then calculateCubic A B C D ((j : ℚ) / (count : ℚ)) else cubicPts j := by
  have hc : (count : ℚ) ≠ 0 := by exact_mod_cast (by omega : count ≠ 0)
  unfold createCubicPts
  simp only [List.getD_cons_zero, List.getD_cons_succ]
  by_cases hj : j = count
  · subst hj
    simp [div_self hc, calculateCubic_one]
  · rw [Function.update_noteq hj,
      foldl_update_apply (fun i => calculateCubic A B C D ((i : ℚ) * (count : ℚ)⁻¹))]
    simp only [List.mem_range'_1]
    by_cases hj0 : j = 0
    · subst hj0
      simp [calculateCubic_zero]
    · by_cases hlt : j < count
      · have h1 : 1 ≤ j ∧ j < 1 + (count - 1) := by omega
        simp [h1, hlt.le, div_eq_mul_inv]
      · have h1 : ¬ (1 ≤ j ∧ j < 1 + (count - 1)) := by omega
        have h2 : ¬ (j ≤ count) := by omega
        simp [h1, h2, Function.update_noteq hj0]

theorem createQuadPts_zero (A B C : GPoint) (quadPts : Nat → GPoint) (j : Nat) :
    createQuadPts [A, B, C] quadPts 0 j = if j = 0 then C else quadPts j := by
  unfold createQuadPts
  simp only [List.getD_cons_zero, List.getD_cons_succ, Nat.zero_sub, List.range'_zero,
    List.foldl_nil, Function.update_idem]
  by_cases hj : j = 0
  · subst hj; simp
  · simp [hj, Function.update_noteq hj]

/-! ## `ceil(sqrt(.))` on rationals and on reals -/

theorem ceilSqrt_le (q : ℚ) (n : Nat) : ceilSqrt q ≤ n ↔ q ≤ (n : ℚ) ^ 2 := by
  unfold ceilSqrt
  split_ifs with h
  · simp only [Nat.zero_le, true_iff]
    exact h.trans (sq_nonneg _)
  · have hpos : 0 < q := not_le.mp h
    have hk : 1 ≤ ⌈q⌉₊ := Nat.one_le_iff_ne_zero.mpr (by
      intro h0
      rw [Nat.ceil_eq_zero] at h0
      exact h h0)
    rw [Nat.succ_le_iff, Nat.sqrt_lt]
    have : ⌈q⌉₊ - 1 < n * n ↔ ⌈q⌉₊ ≤ n * n := by omega
    rw [this, Nat.ceil_le]
    push_cast
    rw [sq]

theorem ceilSqrt_ceilSqrt_le (q : ℚ) (n : Nat) :
    ceilSqrt (ceilSqrt q) ≤ n ↔ q ≤ (n : ℚ) ^ 4 := by
  rw [ceilSqrt_le]
  have h1 : ((ceilSqrt q : Nat) : ℚ) ≤ (n : ℚ) ^ 2 ↔ ceilSqrt q ≤ n ^ 2 := by
    rw [← Nat.cast_pow, Nat.cast_le]
  rw [h1, ceilSqrt_le]
  push_cast
  rw [← pow_mul]


theorem mul_sqrt_eq_sqrt (a y : ℝ) (ha : 0 ≤ a) : a * Real.sqrt y = Real.sqrt (a ^ 2 * y) := by
  rw [Real.sqrt_mul (sq_nonneg a) y, Real.sqrt_sq ha]

theorem mul_sqrt_mul_sqrt_le (k c s : ℝ) (hk : 0 ≤ k) (hc : 0 ≤ c) (n : Nat) :
    k * Real.sqrt (c * Real.sqrt s) ≤ (n : ℝ) ↔ (k ^ 2 * c) ^ 2 * s ≤ (n : ℝ) ^ 4 := by
  have hn : (0 : ℝ) ≤ (n : ℝ) := Nat.cast_nonneg n
  have hkc : 0 ≤ k ^ 2 * c := mul_nonneg (sq_nonneg k) hc
  rw [mul_sqrt_eq_sqrt k _ hk, ← mul_assoc, mul_sqrt_eq_sqrt (k ^ 2 * c) s hkc,
    Real.sqrt_le_left hn, Real.sqrt_le_left (sq_nonneg _), ← pow_mul]

theorem ceilMulSqrtLength_eq (k c : ℚ) (hk : 0 ≤ k) (hc : 0 ≤ c) (E : GPoint) :
    ((ceilMulSqrtLength k c E : Nat) : ℤ) =
      ⌈(k : ℝ) * Real.sqrt ((c : ℝ) * Real.sqrt ((E.fX : ℝ) ^ 2 + (E.fY : ℝ) ^ 2))⌉ := by
  have hk' : (0 : ℝ) ≤ (k : ℝ) := by exact_mod_cast hk
  have hc' : (0 : ℝ) ≤ (c : ℝ) := by exact_mod_cast hc
  have hx : 0 ≤ (k : ℝ) * Real.sqrt ((c : ℝ) * Real.sqrt ((E.fX : ℝ) ^ 2 + (E.fY : ℝ) ^ 2)) :=
    mul_nonneg hk' (Real.sqrt_nonneg _)
  rw [← Int.natCast_ceil_eq_ceil hx, Nat.cast_inj]
  apply eq_of_forall_ge_iff
  intro n
  rw [Nat.ceil_le, mul_sqrt_mul_sqrt_le _ _ _ hk' hc', ceilMulSqrtLength, ceilSqrt_ceilSqrt_le]
  have : (((k ^ 2 * c) ^ 2 * (E.fX ^ 2 + E.fY ^ 2) : ℚ) : ℝ) =
      ((k : ℝ) ^ 2 * (c : ℝ)) ^ 2 * ((E.fX : ℝ) ^ 2 + (E.fY : ℝ) ^ 2) := by push_cast; ring
  rw [← this]
  have h4 : ((n : ℝ)) ^ 4 = (((n : ℚ) ^ 4 : ℚ) : ℝ) := by push_cast; ring
  rw [h4, Rat.cast_le]


theorem ceilMulSqrtLength_eq_zero (k c : ℚ) : ceilMulSqrtLength k c ⟨0, 0⟩ = 0 := by
  apply Nat.le_zero.mp
  rw [ceilMulSqrtLength, ceilSqrt_ceilSqrt_le]
  norm_num

theorem quadSegments_midpoint (A C : GPoint) :
    quadSegments [A, (1 / 2 : ℚ) • (A + C), C] = 0 := by
  have hE : (1 / 4 : ℚ) • ((-1 : ℚ) • A + (2 : ℚ) • ((1 / 2 : ℚ) • (A + C)) - C) =
      (⟨0, 0⟩ : GPoint) := by
    simp only [GPoint.add_def, GPoint.sub_def, GPoint.smul_def, GPoint.mk.injEq]
    constructor <;> ring
  simp only [quadSegments, List.getD_cons_zero, List.getD_cons_succ, hE,
    ceilMulSqrtLength_eq_zero]

theorem quadSegments_eq_ceil (A B C : GPoint) :
    ((quadSegments [A, B, C] : Nat) : ℤ) =
      ⌈2 * Real.sqrt (Real.sqrt
        (((-(A.fX : ℝ) + 2 * (B.fX : ℝ) - (C.fX : ℝ)) / 4) ^ 2 +
         ((-(A.fY : ℝ) + 2 * (B.fY : ℝ) - (C.fY : ℝ)) / 4) ^ 2))⌉ := by
  simp only [quadSegments, List.getD_cons_zero, List.getD_cons_succ]
  rw [ceilMulSqrtLength_eq 2 1 (by norm_num) (by norm_num)]
  simp only [GPoint.add_def, GPoint.sub_def, GPoint.smul_def]
  push_cast
  have hx : ∀ a b c : ℝ, 1 / 4 * (-1 * a + 2 * b - c) = (-a + 2 * b - c) / 4 := by
    intro a b c; ring
  rw [one_mul, hx, hx]

theorem cubicSegments_eq_ceil (A B C D : GPoint) :
    ((cubicSegments [A, B, C, D] : Nat) : ℤ) =
      ⌈Real.sqrt (3 * Real.sqrt
        ((max |(-(A.fX : ℝ) + 2 * (B.fX : ℝ) + (C.fX : ℝ))|
              |(-(B.fX : ℝ) + 2 * (C.fX : ℝ) - (D.fX : ℝ))|) ^ 2 +
         (max |(-(A.fY : ℝ) + 2 * (B.fY : ℝ) + (C.fY : ℝ))|
              |(-(B.fY : ℝ) + 2 * (C.fY : ℝ) - (D.fY : ℝ))|) ^ 2))⌉ := by
  simp only [cubicSegments, List.getD_cons_zero, List.getD_cons_succ]
  rw [ceilMulSqrtLength_eq 1 3 (by norm_num) (by norm_num)]
  simp only [GPoint.add_def, GPoint.sub_def, GPoint.smul_def]
  push_cast
  simp only [one_mul, neg_mul]

theorem ceilMulSqrtLength_one_three_four : ceilMulSqrtLength 1 3 ⟨4, 0⟩ = 4 := by
  apply le_antisymm
  · rw [ceilMulSqrtLength, ceilSqrt_ceilSqrt_le]
    norm_num
  · by_contra hlt
    have h3 : ceilMulSqrtLength 1 3 ⟨4, 0⟩ ≤ 3 := by omega
    rw [ceilMulSqrtLength, ceilSqrt_ceilSqrt_le] at h3
    norm_num at h3

/-! # The claims, continued -/

/-- C11: over exact arithmetic, for every matrix `M` with `SX*SY - KX*KY ≠ 0`,
`M.invert(&I)` returns true and the matrix `I` it writes satisfies
`Concat(I, M) = identity` and `Concat(M, I) = identity`. -/
theorem invert_is_two_sided_inverse (M inverse : GMatrix)
    (h : M.SX * M.SY - M.KX * M.KY ≠ 0) :
    (M.invert inverse).1 = true ∧
      GMatrix.Concat (M.invert inverse).2 M = GMatrix.identity ∧
      GMatrix.Concat M (M.invert inverse).2 = GMatrix.identity :=
  GMatrix.invert_of_det_ne_zero M inverse h

/-- Witness of C11: the matrix `[2 1 3; 1 1 5]` of determinant 1. -/
theorem invert_is_two_sided_inverse_witness :
    ((⟨2, 1, 3, 1, 1, 5⟩ : GMatrix).invert GMatrix.identity).1 = true ∧
      GMatrix.Concat ((⟨2, 1, 3, 1, 1, 5⟩ : GMatrix).invert GMatrix.identity).2
        ⟨2, 1, 3, 1, 1, 5⟩ = GMatrix.identity ∧
      GMatrix.Concat ⟨2, 1, 3, 1, 1, 5⟩
        ((⟨2, 1, 3, 1, 1, 5⟩ : GMatrix).invert GMatrix.identity).2 = GMatrix.identity :=
  invert_is_two_sided_inverse ⟨2, 1, 3, 1, 1, 5⟩ GMatrix.identity (by norm_num)

/-- C12: over exact arithmetic, mapping a point (or an array of points) with
`Concat(A, B)` is mapping it with `B` and then with `A`, and the default-constructed
identity matrix maps every point (and every array of points) to itself. -/
theorem concat_maps_as_composition (A B : GMatrix) (p : GPoint) (src : List GPoint)
    (count : Nat) :
    (GMatrix.Concat A B).mapPoint p = A.mapPoint (B.mapPoint p) ∧
      (GMatrix.Concat A B).mapPoints src count =
        A.mapPoints (B.mapPoints src count) count ∧
      GMatrix.identity.mapPoint p = p ∧
      GMatrix.identity.mapPoints src src.length = src :=
  ⟨GMatrix.mapPoint_Concat A B p, GMatrix.mapPoints_Concat A B src count,
   GMatrix.mapPoint_identity p, GMatrix.mapPoints_identity src⟩

/-- C13 (defect in the code): `GPath::bounds` does not return the bounding box.  For the
path whose only point is (1, 2) it returns left = 0, top = 0, right = 2, bottom = 0: the
extremes start at 0 instead of at the first point, the fourth `if` assigns the y value to
`max_x`, and `MakeLTRB` receives `max_y` as top and `min_y` as bottom.  The point is not
inside (its y = 2 exceeds bottom = 0) and left is not the minimum x = 1. -/
theorem bounds_of_single_point :
    GPath.bounds ⟨[⟨1, 2⟩]⟩ = ⟨0, 0, 2, 0⟩ ∧
      ¬ ((2 : ℚ) ≤ (GPath.bounds ⟨[⟨1, 2⟩]⟩).fBottom) ∧
      (GPath.bounds ⟨[⟨1, 2⟩]⟩).fLeft ≠ 1 := by
  have h : GPath.bounds ⟨[⟨1, 2⟩]⟩ = ⟨0, 0, 2, 0⟩ := by
    norm_num [GPath.bounds, GPath.boundsStep, GRect.MakeLTRB]
  refine ⟨h, ?_, ?_⟩
  · rw [h]; norm_num
  · rw [h]; norm_num

/-- C14: over exact arithmetic, with `dst = ChopQuadAt(src, t)` for `src = (A, B, C)`, the
first quadratic `dst[0..2]` at parameter `s` is the original at `s*t`, the second
quadratic `dst[2..4]` at `s` is the original at `t + s*(1-t)`, and the shared point
`dst[2]` is `calculateQuad(A, B, C, t)`. -/
theorem chopQuadAt_halves (A B C : GPoint) (t s : ℚ) :
    calculateQuad ((GPath.ChopQuadAt [A, B, C] t).getD 0 default)
        ((GPath.ChopQuadAt [A, B, C] t).getD 1 default)
        ((GPath.ChopQuadAt [A, B, C] t).getD 2 default) s =
      calculateQuad A B C (s * t) ∧
    calculateQuad ((GPath.ChopQuadAt [A, B, C] t).getD 2 default)
        ((GPath.ChopQuadAt [A, B, C] t).getD 3 default)
        ((GPath.ChopQuadAt [A, B, C] t).getD 4 default) s =
      calculateQuad A B C (t + s * (1 - t)) ∧
    (GPath.ChopQuadAt [A, B, C] t).getD 2 default = calculateQuad A B C t := by
  simp only [GPath.ChopQuadAt, List.getD_cons_zero, List.getD_cons_succ]
  exact ⟨GPath.ChopQuadAt_first A B C t s, GPath.ChopQuadAt_second A B C t s, trivial⟩

/-- C15: over exact arithmetic, the first sub-cubic `dst[0..3]` written by `ChopCubicAt`
evaluated at `s` is the original cubic evaluated at `s*t`. -/
theorem chopCubicAt_first_half (A B C D : GPoint) (t s : ℚ) :
    calculateCubic ((GPath.ChopCubicAt [A, B, C, D] t).getD 0 default)
        ((GPath.ChopCubicAt [A, B, C, D] t).getD 1 default)
        ((GPath.ChopCubicAt [A, B, C, D] t).getD 2 default)
        ((GPath.ChopCubicAt [A, B, C, D] t).getD 3 default) s =
      calculateCubic A B C D (s * t) := by
  simp only [GPath.ChopCubicAt, List.getD_cons_zero, List.getD_cons_succ]
  exact GPath.ChopCubicAt_first A B C D t s

/-- C16 (defect in the code): the second sub-cubic written by `ChopCubicAt` is not the
original on `t..1`, because `dst[5]` is `BC` where de Casteljau needs `CD`.  For
A = B = C = (0,0), D = (1,0) and t = 1/2 the code writes dst[5] = (0,0) (CD is (1/2,0)),
and the sub-cubic `dst[3..6]` at s = 1/2 is (15/64, 0) while the original at
t + s*(1-t) = 3/4 is (27/64, 0). -/
theorem chopCubicAt_second_half_differs :
    (GPath.ChopCubicAt [⟨0, 0⟩, ⟨0, 0⟩, ⟨0, 0⟩, ⟨1, 0⟩] (1 / 2)).getD 5 default = ⟨0, 0⟩ ∧
    calculateCubic
        ((GPath.ChopCubicAt [⟨0, 0⟩, ⟨0, 0⟩, ⟨0, 0⟩, ⟨1, 0⟩] (1 / 2)).getD 3 default)
        ((GPath.ChopCubicAt [⟨0, 0⟩, ⟨0, 0⟩, ⟨0, 0⟩, ⟨1, 0⟩] (1 / 2)).getD 4 default)
        ((GPath.ChopCubicAt [⟨0, 0⟩, ⟨0, 0⟩, ⟨0, 0⟩, ⟨1, 0⟩] (1 / 2)).getD 5 default)
        ((GPath.ChopCubicAt [⟨0, 0⟩, ⟨0, 0⟩, ⟨0, 0⟩, ⟨1, 0⟩] (1 / 2)).getD 6 default)
        (1 / 2) = ⟨15 / 64, 0⟩ ∧
    calculateCubic ⟨0, 0⟩ ⟨0, 0⟩ ⟨0, 0⟩ ⟨1, 0⟩ (1 / 2 + 1 / 2 * (1 - 1 / 2)) = ⟨27 / 64, 0⟩ := by
  simp only [GPath.ChopCubicAt, List.getD_cons_zero, List.getD_cons_succ, calculateCubic,
    GPoint.add_def, GPoint.smul_def, GPoint.mk.injEq]
  norm_num


/-- C17: over exact arithmetic, for every `count ≥ 1`, `createQuadPts` writes exactly the
entries `quadPts[0..count]`, with `quadPts[i] = calculateQuad(A, B, C, i/count)` (so the
first is `A` and the last is `C`) and every other entry of the array untouched, and
`createCubicPts` does the same with `calculateCubic` and last entry `D`. -/
theorem create_points_samples (A B C D : GPoint) (out : Nat → GPoint) (count : Nat)
    (h : 1 ≤ count) :
    (∀ j, createQuadPts [A, B, C] out count j =
        if j ≤ count then calculateQuad A B C ((j : ℚ) / (count : ℚ)) else out j) ∧
      createQuadPts [A, B, C] out count 0 = A ∧
      createQuadPts [A, B, C] out count count = C ∧
    (∀ j, createCubicPts [A, B, C, D] out count j =
        if j ≤ count then calculateCubic A B C D ((j : ℚ) / (count : ℚ)) else out j) ∧
      createCubicPts [A, B, C, D] out count 0 = A ∧
      createCubicPts [A, B, C, D] out count count = D := by
  have hc : (count : ℚ) ≠ 0 := by exact_mod_cast (by omega : count ≠ 0)
  refine ⟨createQuadPts_spec A B C out count h, ?_, ?_,
    createCubicPts_spec A B C D out count h, ?_, ?_⟩
  · rw [createQuadPts_spec A B C out count h 0, if_pos (Nat.zero_le _)]
    simp [calculateQuad_zero]
  · rw [createQuadPts_spec A B C out count h count, if_pos (le_refl _), div_self hc,
      calculateQuad_one]
  · rw [createCubicPts_spec A B C D out count h 0, if_pos (Nat.zero_le _)]
    simp [calculateCubic_zero]
  · rw [createCubicPts_spec A B C D out count h count, if_pos (le_refl _), div_self hc,
      calculateCubic_one]

/-- Witness of C17: two segments on the quadratic (0,0), (1,2), (2,0) and on the cubic
(0,0), (1,2), (2,0), (3,3): the middle sample is the curve at 1/2, the ends are the end
controls. -/
theorem create_points_samples_witness :
    createQuadPts [⟨0, 0⟩, ⟨1, 2⟩, ⟨2, 0⟩] (fun _ => ⟨7, 7⟩) 2 1 = ⟨1, 1⟩ ∧
      createQuadPts [⟨0, 0⟩, ⟨1, 2⟩, ⟨2, 0⟩] (fun _ => ⟨7, 7⟩) 2 0 = ⟨0, 0⟩ ∧
      createQuadPts [⟨0, 0⟩, ⟨1, 2⟩, ⟨2, 0⟩] (fun _ => ⟨7, 7⟩) 2 2 = ⟨2, 0⟩ ∧
      createQuadPts [⟨0, 0⟩, ⟨1, 2⟩, ⟨2, 0⟩] (fun _ => ⟨7, 7⟩) 2 3 = ⟨7, 7⟩ ∧
      createCubicPts [⟨0, 0⟩, ⟨1, 2⟩, ⟨2, 0⟩, ⟨3, 3⟩] (fun _ => ⟨7, 7⟩) 2 2 = ⟨3, 3⟩ := by
  obtain ⟨h1, h2, h3, _, _, h6⟩ := create_points_samples ⟨0, 0⟩ ⟨1, 2⟩ ⟨2, 0⟩ ⟨3, 3⟩
    (fun _ => ⟨7, 7⟩) 2 (by decide)
  refine ⟨?_, h2, h3, ?_, h6⟩
  · rw [h1 1, if_pos (by decide)]
    simp only [calculateQuad, GPoint.add_def, GPoint.smul_def, GPoint.mk.injEq]
    norm_num
  · rw [h1 3, if_neg (by decide)]

/-- C18 (defect in the code): a quadratic whose control point is the midpoint of its ends
is dropped.  For A = (0,0), B = (1,1), C = (2,2), `quadSegments` returns n = 0; then
`createQuadPts(pts, out, 0)` writes the single sample `out[0]`, first `A` and then `C`
over it, so the samples begin with C = (2,2), not with A; and the `kQuad` case of
`drawPath` hands `find_edges` a count of 0, which adds no edge joining A to C. -/
theorem midpoint_quad_is_dropped (quadPts : Nat → GPoint) (edges : List Edge)
    (bit_map : GBitmap) :
    quadSegments [⟨0, 0⟩, ⟨1, 1⟩, ⟨2, 2⟩] = 0 ∧
      createQuadPts [⟨0, 0⟩, ⟨1, 1⟩, ⟨2, 2⟩] quadPts 0 0 = ⟨2, 2⟩ ∧
      drawPath_kQuad edges [⟨0, 0⟩, ⟨1, 1⟩, ⟨2, 2⟩] quadPts bit_map = edges := by
  have hB : (⟨1, 1⟩ : GPoint) = (1 / 2 : ℚ) • ((⟨0, 0⟩ : GPoint) + ⟨2, 2⟩) := by
    simp only [GPoint.add_def, GPoint.smul_def, GPoint.mk.injEq]
    norm_num
  have hn : quadSegments [⟨0, 0⟩, ⟨1, 1⟩, ⟨2, 2⟩] = 0 := by
    rw [hB]
    exact quadSegments_midpoint ⟨0, 0⟩ ⟨2, 2⟩
  refine ⟨hn, ?_, ?_⟩
  · rw [createQuadPts_zero, if_pos rfl]
  · simp only [drawPath_kQuad, hn, find_edges, List.range_zero, List.foldl_nil]

/-- C19: over the reals, `quadSegments` returns `ceil(sqrt(|E| / T))` with `T = 1/4` and
`E = (-A + 2B - C)/4`, `|E|` the Euclidean norm, which is `ceil(2 * sqrt(|E|))`. -/
theorem quadSegments_formula (A B C : GPoint) :
    ((quadSegments [A, B, C] : Nat) : ℤ) =
      ⌈Real.sqrt (Real.sqrt
        (((-(A.fX : ℝ) + 2 * (B.fX : ℝ) - (C.fX : ℝ)) / 4) ^ 2 +
         ((-(A.fY : ℝ) + 2 * (B.fY : ℝ) - (C.fY : ℝ)) / 4) ^ 2) / (1 / 4))⌉ ∧
    ((quadSegments [A, B, C] : Nat) : ℤ) =
      ⌈2 * Real.sqrt (Real.sqrt
        (((-(A.fX : ℝ) + 2 * (B.fX : ℝ) - (C.fX : ℝ)) / 4) ^ 2 +
         ((-(A.fY : ℝ) + 2 * (B.fY : ℝ) - (C.fY : ℝ)) / 4) ^ 2))⌉ := by
  refine ⟨?_, quadSegments_eq_ceil A B C⟩
  rw [quadSegments_eq_ceil A B C, mul_sqrt_eq_sqrt 2 _ (by norm_num)]
  congr 2
  ring

/-- C20 (defect in the code): `cubicSegments` computes `P` as `-A + 2B + C`, while its own
comment and the specification have `P = -A + 2B - C`.  For the evenly spaced straight
cubic A = (0,0), B = (1,0), C = (2,0), D = (3,0) the stated formula gives
`ceil(sqrt(3 * 0)) = 0` (P = Q = 0), but the code has P = (4,0), E = (4,0) and returns
`ceil(sqrt(12)) = 4`. -/
theorem cubicSegments_uses_plus_C :
    cubicSegments [⟨0, 0⟩, ⟨1, 0⟩, ⟨2, 0⟩, ⟨3, 0⟩] = 4 ∧
      cubicSegmentsSpec [⟨0, 0⟩, ⟨1, 0⟩, ⟨2, 0⟩, ⟨3, 0⟩] = 0 := by
  constructor
  · have hE : (⟨max |((-1 : ℚ) • (⟨0, 0⟩ : GPoint) + (2 : ℚ) • ⟨1, 0⟩ + ⟨2, 0⟩).fX|
          |((-1 : ℚ) • (⟨1, 0⟩ : GPoint) + (2 : ℚ) • ⟨2, 0⟩ - ⟨3, 0⟩).fX|,
        max |((-1 : ℚ) • (⟨0, 0⟩ : GPoint) + (2 : ℚ) • ⟨1, 0⟩ + ⟨2, 0⟩).fY|
          |((-1 : ℚ) • (⟨1, 0⟩ : GPoint) + (2 : ℚ) • ⟨2, 0⟩ - ⟨3, 0⟩).fY|⟩ : GPoint) =
        ⟨4, 0⟩ := by
      simp only [GPoint.add_def, GPoint.sub_def, GPoint.smul_def, GPoint.mk.injEq]
      norm_num
    simp only [cubicSegments, List.getD_cons_zero, List.getD_cons_succ, hE,
      ceilMulSqrtLength_one_three_four]
  · have hE : (⟨max |((-1 : ℚ) • (⟨0, 0⟩ : GPoint) + (2 : ℚ) • ⟨1, 0⟩ - ⟨2, 0⟩).fX|
          |((-1 : ℚ) • (⟨1, 0⟩ : GPoint) + (2 : ℚ) • ⟨2, 0⟩ - ⟨3, 0⟩).fX|,
        max |((-1 : ℚ) • (⟨0, 0⟩ : GPoint) + (2 : ℚ) • ⟨1, 0⟩ - ⟨2, 0⟩).fY|
          |((-1 : ℚ) • (⟨1, 0⟩ : GPoint) + (2 : ℚ) • ⟨2, 0⟩ - ⟨3, 0⟩).fY|⟩ : GPoint) =
        ⟨0, 0⟩ := by
      simp only [GPoint.add_def, GPoint.sub_def, GPoint.smul_def, GPoint.mk.injEq]
      norm_num
    simp only [cubicSegmentsSpec, List.getD_cons_zero, List.getD_cons_succ, hE,
      ceilMulSqrtLength_eq_zero]


/-! ## The assertions of the edge constructor -/

theorem find_edges_body_eq (edges : List Edge) (pts : List GPoint) (count : Nat)
    (bit_map : GBitmap) (connect_end : Bool) (i : Nat) :
    find_edges_body edges pts count bit_map connect_end i =
      (let next_i := if i + 1 ≥ count ∧ connect_end = true then 0 else i + 1
       let p := pts.getD i default
       let q := pts.getD next_i default
       let height : ℚ := bit_map.height
       if is_horizontal p.fY q.fY then edges else
       let m := (q.fX - p.fX) / (q.fY - p.fY)
       let b := p.fX - m * p.fY
       let w : Int := if q.fY > p.fY then 1 else -1
       let top_point := if p.fY < q.fY then p else q
       let bottom_point := if p.fY < q.fY then q else p
       if (top_point.fY < 0 ∧ bottom_point.fY < 0) ∨
           (top_point.fY > height ∧ bottom_point.fY > height) then edges else
       let top_point : GPoint := if top_point.fY < 0 then ⟨b, 0⟩ else top_point
       let bottom_point : GPoint :=
         if bottom_point.fY > height then ⟨m * height + b, height⟩ else bottom_point
       if is_horizontal top_point.fY bottom_point.fY then edges else
       find_edges_clipped edges m b w top_point bottom_point bit_map) := rfl


theorem GRoundToInt_mono {a b : ℚ} (h : a ≤ b) : GRoundToInt a ≤ GRoundToInt b := by
  unfold GRoundToInt
  exact Int.floor_le_floor (by linarith)

theorem GRoundToInt_nonneg {a : ℚ} (h : 0 ≤ a) : 0 ≤ GRoundToInt a := by
  unfold GRoundToInt
  rw [Int.floor_nonneg]
  linarith

theorem GRoundToInt_le_of_le_intCast {a : ℚ} {k : Int} (h : a ≤ k) : GRoundToInt a ≤ k := by
  unfold GRoundToInt
  have : ⌊a + 1 / 2⌋ < k + 1 := by
    rw [Int.floor_lt]
    push_cast
    linarith
  omega

theorem Edge.make_assertsHold (bit_map : GBitmap) (y0 y1 m x : ℚ) (w : Int)
    (h0 : 0 ≤ y0) (h01 : y0 ≤ y1) (h1 : y1 ≤ bit_map.height)
    (hne : is_horizontal y0 y1 = false) (hx0 : 0 ≤ x) (hx1 : x ≤ bit_map.width) :
    (Edge.make y0 y1 m x w).assertsHold bit_map := by
  have hne' : GRoundToInt y0 ≠ GRoundToInt y1 := by
    simpa [is_horizontal] using hne
  refine ⟨?_, ⟨?_, ?_⟩, hx0, hx1⟩
  · exact lt_of_le_of_ne (GRoundToInt_mono h01) hne'
  · exact GRoundToInt_nonneg h0
  · exact GRoundToInt_le_of_le_intCast h1

theorem Edge.make_min_max_assertsHold (bit_map : GBitmap) (y0 y1 m x : ℚ) (w : Int)
    (h0 : 0 ≤ y0) (h0' : 0 ≤ y1) (h1 : y0 ≤ bit_map.height) (h1' : y1 ≤ bit_map.height)
    (hne : is_horizontal (min y0 y1) (max y0 y1) = false)
    (hx0 : 0 ≤ x) (hx1 : x ≤ bit_map.width) :
    (Edge.make (min y0 y1) (max y0 y1) m x w).assertsHold bit_map :=
  Edge.make_assertsHold bit_map _ _ m x w (le_min h0 h0') min_le_max (max_le h1 h1') hne hx0 hx1

/-- On a line `x = m*y + b` with `m ≠ 0`, the ordinate at which the line takes the value
`c` lies between the ordinates of two points whose abscissas enclose `c`. -/
theorem crossing_between (m b c y1 y2 : ℚ) (hm : m ≠ 0)
    (h1 : m * y1 + b ≤ c) (h2 : c ≤ m * y2 + b) :
    min y1 y2 ≤ (c - b) / m ∧ (c - b) / m ≤ max y1 y2 := by
  have hc : m * ((c - b) / m) + b = c := by field_simp
  rcases lt_or_gt_of_ne hm with hneg | hpos
  · have ha : y2 ≤ (c - b) / m := by
      by_contra hlt
      push_neg at hlt
      have := mul_lt_mul_of_neg_left hlt hneg
      linarith
    have hb : (c - b) / m ≤ y1 := by
      by_contra hlt
      push_neg at hlt
      have := mul_lt_mul_of_neg_left hlt hneg
      linarith
    exact ⟨le_trans (min_le_right _ _) ha, le_trans hb (le_max_left _ _)⟩
  · have ha : y1 ≤ (c - b) / m := by
      by_contra hlt
      push_neg at hlt
      have := mul_lt_mul_of_pos_left hlt hpos
      linarith
    have hb : (c - b) / m ≤ y2 := by
      by_contra hlt
      push_neg at hlt
      have := mul_lt_mul_of_pos_left hlt hpos
      linarith
    exact ⟨le_trans (min_le_left _ _) ha, le_trans hb (le_max_right _ _)⟩

theorem cround_of_nonneg {y : ℚ} (h : 0 ≤ y) : cround y = (GRoundToInt y : ℚ) := by
  simp [cround, h, GRoundToInt]

/-- The abscissa `calculate_x` gives on the line `x = m*y + b` for the upper of two
points with different rounded ordinates lies between the abscissas of the two points. -/
theorem calculate_x_between (m b yt yb lo hi : ℚ) (hy0 : 0 ≤ yt) (hyt : yt ≤ yb)
    (hne : GRoundToInt yt ≠ GRoundToInt yb)
    (ht0 : lo ≤ m * yt + b) (ht1 : m * yt + b ≤ hi)
    (hb0 : lo ≤ m * yb + b) (hb1 : m * yb + b ≤ hi) :
    lo ≤ calculate_x m ⟨m * yt + b, yt⟩ ∧ calculate_x m ⟨m * yt + b, yt⟩ ≤ hi := by
  have hlt : GRoundToInt yt < GRoundToInt yb := lt_of_le_of_ne (GRoundToInt_mono hyt) hne
  have hk1 : ((GRoundToInt yt : Int) : ℚ) ≤ yt + 1 / 2 := by
    unfold GRoundToInt; exact Int.floor_le _
  have hk2 : yt + 1 / 2 < ((GRoundToInt yt : Int) : ℚ) + 1 := by
    unfold GRoundToInt; exact Int.lt_floor_add_one _
  have hk3 : ((GRoundToInt yb : Int) : ℚ) ≤ yb + 1 / 2 := by
    unfold GRoundToInt; exact Int.floor_le _
  have hk4 : ((GRoundToInt yt : Int) : ℚ) + 1 ≤ (GRoundToInt yb : Int) := by
    exact_mod_cast hlt
  have hx : calculate_x m ⟨m * yt + b, yt⟩ = m * ((GRoundToInt yt : ℚ) + 1 / 2) + b := by
    simp only [calculate_x, cround_of_nonneg hy0]
    ring
  rw [hx]
  have hs1 : yt ≤ (GRoundToInt yt : ℚ) + 1 / 2 := by linarith
  have hs2 : (GRoundToInt yt : ℚ) + 1 / 2 ≤ yb := by linarith
  rcases le_or_lt 0 m with hm | hm
  · have h1 := mul_le_mul_of_nonneg_left hs1 hm
    have h2 := mul_le_mul_of_nonneg_left hs2 hm
    constructor <;> linarith
  · have h1 := mul_le_mul_of_nonpos_left hs1 hm.le
    have h2 := mul_le_mul_of_nonpos_left hs2 hm.le
    constructor <;> linarith


theorem border_edge_asserts (edges : List Edge) (bit_map : GBitmap) (ya yb x : ℚ) (w : Int)
    (ha0 : 0 ≤ ya) (ha1 : ya ≤ bit_map.height) (hb0 : 0 ≤ yb) (hb1 : yb ≤ bit_map.height)
    (hx0 : 0 ≤ x) (hx1 : x ≤ bit_map.width) :
    ∀ e ∈ (if (!is_horizontal (min ya yb) (max ya yb)) = true then
        edges ++ [Edge.make (min ya yb) (max ya yb) 0 x w] else edges),
      e ∈ edges ∨ e.assertsHold bit_map := by
  intro e he
  split_ifs at he with hh
  · rw [List.mem_append, List.mem_singleton] at he
    rcases he with he | he
    · exact Or.inl he
    · right
      rw [he]
      exact Edge.make_min_max_assertsHold bit_map ya yb 0 x w ha0 hb0 ha1 hb1
        (by simpa using hh) hx0 hx1
  · exact Or.inl he

theorem final_edge_asserts (edges : List Edge) (bit_map : GBitmap) (m b : ℚ) (w : Int)
    (L R : GPoint) (hL : L.fX = m * L.fY + b) (hR : R.fX = m * R.fY + b)
    (hLy0 : 0 ≤ L.fY) (hLy1 : L.fY ≤ bit_map.height)
    (hRy0 : 0 ≤ R.fY) (hRy1 : R.fY ≤ bit_map.height)
    (hLx0 : 0 ≤ L.fX) (hLx1 : L.fX ≤ bit_map.width)
    (hRx0 : 0 ≤ R.fX) (hRx1 : R.fX ≤ bit_map.width) :
    ∀ e ∈ (if is_horizontal (min L.fY R.fY) (max L.fY R.fY) = true then edges
        else edges ++ [Edge.make (min L.fY R.fY) (max L.fY R.fY) m
          (calculate_x m (if L.fY = min L.fY R.fY then L else R)) w]),
      e ∈ edges ∨ e.assertsHold bit_map := by
  intro e he
  split_ifs at he with hh h2
  · exact Or.inl he
  · -- the left point is the upper one
    rw [List.mem_append, List.mem_singleton] at he
    rcases he with he | he
    · exact Or.inl he
    right
    rw [he]
    have hle : L.fY ≤ R.fY := by rw [h2]; exact min_le_right _ _
    have hne : GRoundToInt L.fY ≠ GRoundToInt R.fY := by
      simpa [is_horizontal, min_eq_left hle, max_eq_right hle] using hh
    have hLeq : L = ⟨m * L.fY + b, L.fY⟩ := by
      cases L; simp only [GPoint.mk.injEq, and_true]; exact hL
    have hx := calculate_x_between m b L.fY R.fY 0 bit_map.width hLy0 hle hne
      (by rw [← hL]; exact hLx0) (by rw [← hL]; exact hLx1)
      (by rw [← hR]; exact hRx0) (by rw [← hR]; exact hRx1)
    rw [← hLeq] at hx
    exact Edge.make_min_max_assertsHold bit_map L.fY R.fY m _ w hLy0 hRy0 hLy1 hRy1
      (by simpa using hh) hx.1 hx.2
  · -- the right point is the upper one
    rw [List.mem_append, List.mem_singleton] at he
    rcases he with he | he
    · exact Or.inl he
    right
    rw [he]
    have hle : R.fY ≤ L.fY := by
      by_contra hlt
      push_neg at hlt
      exact h2 (min_eq_left hlt.le).symm
    have hne : GRoundToInt R.fY ≠ GRoundToInt L.fY := by
      have := hh
      simp only [is_horizontal, min_eq_right hle, max_eq_left hle, decide_eq_true_eq] at this
      exact this
    have hReq : R = ⟨m * R.fY + b, R.fY⟩ := by
      cases R; simp only [GPoint.mk.injEq, and_true]; exact hR
    have hx := calculate_x_between m b R.fY L.fY 0 bit_map.width hRy0 hle hne
      (by rw [← hR]; exact hRx0) (by rw [← hR]; exact hRx1)
      (by rw [← hL]; exact hLx0) (by rw [← hL]; exact hLx1)
    rw [← hReq] at hx
    exact Edge.make_min_max_assertsHold bit_map L.fY R.fY m _ w hLy0 hRy0 hLy1 hRy1
      (by simpa using hh) hx.1 hx.2


theorem slope_ne_zero_of_ne (m b : ℚ) (L R : GPoint) (hL : L.fX = m * L.fY + b)
    (hR : R.fX = m * R.fY + b) (hne : L.fX ≠ R.fX) : m ≠ 0 := by
  intro h0
  apply hne
  rw [hL, hR, h0]
  ring

theorem find_edges_sorted_asserts (edges : List Edge) (bit_map : GBitmap) (m b : ℚ) (w : Int)
    (L R : GPoint) (hW : 0 ≤ bit_map.width)
    (hL : L.fX = m * L.fY + b) (hR : R.fX = m * R.fY + b)
    (hLy0 : 0 ≤ L.fY) (hLy1 : L.fY ≤ bit_map.height)
    (hRy0 : 0 ≤ R.fY) (hRy1 : R.fY ≤ bit_map.height)
    (hR0 : 0 ≤ R.fX) (hLW : L.fX ≤ bit_map.width) :
    ∀ e ∈ find_edges_sorted edges m b w L R bit_map, e ∈ edges ∨ e.assertsHold bit_map := by
  have hW' : (0 : ℚ) ≤ bit_map.width := by exact_mod_cast hW
  -- the crossing with the left border
  have hleft : L.fX < 0 → m * (-b / m) + b = 0 ∧ 0 ≤ -b / m ∧ -b / m ≤ bit_map.height := by
    intro hl
    have hm : m ≠ 0 := slope_ne_zero_of_ne m b L R hL hR (by linarith)
    have hc := crossing_between m b 0 L.fY R.fY hm (by rw [← hL]; exact hl.le)
      (by rw [← hR]; exact hR0)
    rw [zero_sub] at hc
    refine ⟨by field_simp; ring, le_trans (le_min hLy0 hRy0) hc.1,
      le_trans hc.2 (max_le hLy1 hRy1)⟩
  -- the crossing with the right border
  have hright : (bit_map.width : ℚ) < R.fX →
      m * (((bit_map.width : ℚ) - b) / m) + b = bit_map.width ∧
      0 ≤ ((bit_map.width : ℚ) - b) / m ∧ ((bit_map.width : ℚ) - b) / m ≤ bit_map.height := by
    intro hr
    have hm : m ≠ 0 := slope_ne_zero_of_ne m b L R hL hR (by linarith)
    have hc := crossing_between m b bit_map.width L.fY R.fY hm (by rw [← hL]; exact hLW)
      (by rw [← hR]; exact hr.le)
    refine ⟨by field_simp, le_trans (le_min hLy0 hRy0) hc.1, le_trans hc.2 (max_le hLy1 hRy1)⟩
  intro e he
  by_cases hl : L.fX < 0
  · obtain ⟨hl1, hl2, hl3⟩ := hleft hl
    by_cases hr : (bit_map.width : ℚ) < R.fX
    · obtain ⟨hr1, hr2, hr3⟩ := hright hr
      simp only [find_edges_sorted, hl, hr, if_true, gt_iff_lt] at he
      rcases final_edge_asserts _ bit_map m b w ⟨0, -b / m⟩
        ⟨bit_map.width, ((bit_map.width : ℚ) - b) / m⟩ hl1.symm hr1.symm hl2 hl3 hr2 hr3
        (le_refl _) hW' hW' (le_refl _) e he with h | h
      · rcases border_edge_asserts _ bit_map R.fY (((bit_map.width : ℚ) - b) / m)
          bit_map.width w hRy0 hRy1 hr2 hr3 hW' (le_refl _) e h with h | h
        · exact border_edge_asserts _ bit_map L.fY (-b / m) 0 w hLy0 hLy1 hl2 hl3
            (le_refl _) hW' e h
        · exact Or.inr h
      · exact Or.inr h
    · simp only [find_edges_sorted, hl, hr, if_true, if_false, gt_iff_lt] at he
      rcases final_edge_asserts _ bit_map m b w ⟨0, -b / m⟩ R hl1.symm hR hl2 hl3 hRy0 hRy1
        (le_refl _) hW' hR0 (not_lt.mp hr) e he with h | h
      · exact border_edge_asserts _ bit_map L.fY (-b / m) 0 w hLy0 hLy1 hl2 hl3
          (le_refl _) hW' e h
      · exact Or.inr h
  · by_cases hr : (bit_map.width : ℚ) < R.fX
    · obtain ⟨hr1, hr2, hr3⟩ := hright hr
      simp only [find_edges_sorted, hl, hr, if_true, if_false, gt_iff_lt] at he
      rcases final_edge_asserts _ bit_map m b w L
        ⟨bit_map.width, ((bit_map.width : ℚ) - b) / m⟩ hL hr1.symm hLy0 hLy1 hr2 hr3
        (not_lt.mp hl) hLW hW' (le_refl _) e he with h | h
      · exact border_edge_asserts _ bit_map R.fY (((bit_map.width : ℚ) - b) / m)
          bit_map.width w hRy0 hRy1 hr2 hr3 hW' (le_refl _) e h
      · exact Or.inr h
    · simp only [find_edges_sorted, hl, hr, if_false, gt_iff_lt] at he
      exact final_edge_asserts _ bit_map m b w L R hL hR hLy0 hLy1 hRy0 hRy1
        (not_lt.mp hl) hLW hR0 (not_lt.mp hr) e he


theorem find_edges_clipped_asserts (edges : List Edge) (bit_map : GBitmap) (m b : ℚ) (w : Int)
    (T B : GPoint) (hW : 0 ≤ bit_map.width)
    (hT : T.fX = m * T.fY + b) (hB : B.fX = m * B.fY + b)
    (hTy0 : 0 ≤ T.fY) (hTB : T.fY ≤ B.fY) (hBy1 : B.fY ≤ bit_map.height)
    (hne : is_horizontal T.fY B.fY = false) :
    ∀ e ∈ find_edges_clipped edges m b w T B bit_map, e ∈ edges ∨ e.assertsHold bit_map := by
  have hW' : (0 : ℚ) ≤ bit_map.width := by exact_mod_cast hW
  intro e he
  unfold find_edges_clipped at he
  simp only [gt_iff_lt] at he
  by_cases hoob : (T.fX < 0 ∧ B.fX < 0) ∨
      ((bit_map.width : ℚ) < T.fX ∧ (bit_map.width : ℚ) < B.fX)
  · -- both points are out of bounds on the same side
    rw [if_pos hoob, List.mem_append, List.mem_singleton] at he
    rcases he with he | he
    · exact Or.inl he
    right
    rw [he]
    apply Edge.make_assertsHold bit_map T.fY B.fY 0 _ w hTy0 hTB hBy1 hne
    · split_ifs
      · simp
      · exact hW'
    · split_ifs
      · simpa using hW'
      · exact le_refl _
  · rw [if_neg hoob] at he
    by_cases hsw : B.fX < T.fX
    · -- the bottom point is the left one
      simp only [hsw, if_true] at he
      have hR0 : 0 ≤ T.fX := by
        by_contra h
        push_neg at h
        exact hoob (Or.inl ⟨h, lt_trans hsw h⟩)
      have hLW : B.fX ≤ bit_map.width := by
        by_contra h
        push_neg at h
        exact hoob (Or.inr ⟨lt_trans h hsw, h⟩)
      exact find_edges_sorted_asserts edges bit_map m b w B T hW hB hT
        (le_trans hTy0 hTB) hBy1 hTy0 (le_trans hTB hBy1) hR0 hLW e he
    · -- the top point is the left one
      simp only [hsw, if_false] at he
      have hle : T.fX ≤ B.fX := not_lt.mp hsw
      have hR0 : 0 ≤ B.fX := by
        by_contra h
        push_neg at h
        exact hoob (Or.inl ⟨lt_of_le_of_lt hle h, h⟩)
      have hLW : T.fX ≤ bit_map.width := by
        by_contra h
        push_neg at h
        exact hoob (Or.inr ⟨h, lt_of_lt_of_le h hle⟩)
      exact find_edges_sorted_asserts edges bit_map m b w T B hW hT hB
        hTy0 (le_trans hTB hBy1) (le_trans hTy0 hTB) hBy1 hR0 hLW e he

/-- The part of the body of `find_edges` between the slope and the clipped points, for a
segment from the upper point `T` to the lower point `B` on the line `x = m*y + b`. -/
theorem find_edges_yclip_asserts (edges : List Edge) (bit_map : GBitmap) (m b : ℚ) (w : Int)
    (T B : GPoint) (hW : 0 ≤ bit_map.width) (hH : 0 ≤ bit_map.height)
    (hT : T.fX = m * T.fY + b) (hB : B.fX = m * B.fY + b) (hTB : T.fY ≤ B.fY) :
    ∀ e ∈ (if (T.fY < 0 ∧ B.fY < 0) ∨
          (T.fY > (bit_map.height : ℚ) ∧ B.fY > (bit_map.height : ℚ)) then edges
        else if is_horizontal (if T.fY < 0 then (⟨b, 0⟩ : GPoint) else T).fY
            (if B.fY > (bit_map.height : ℚ) then
              (⟨m * (bit_map.height : ℚ) + b, bit_map.height⟩ : GPoint) else B).fY = true
          then edges
        else find_edges_clipped edges m b w (if T.fY < 0 then (⟨b, 0⟩ : GPoint) else T)
          (if B.fY > (bit_map.height : ℚ) then
            (⟨m * (bit_map.height : ℚ) + b, bit_map.height⟩ : GPoint) else B) bit_map),
      e ∈ edges ∨ e.assertsHold bit_map := by
  have hH' : (0 : ℚ) ≤ bit_map.height := by exact_mod_cast hH
  intro e he
  by_cases hskip : (T.fY < 0 ∧ B.fY < 0) ∨
      (T.fY > (bit_map.height : ℚ) ∧ B.fY > (bit_map.height : ℚ))
  · rw [if_pos hskip] at he
    exact Or.inl he
  rw [if_neg hskip] at he
  by_cases ht : T.fY < 0
  · have hB0 : 0 ≤ B.fY := by
      by_contra h
      push_neg at h
      exact hskip (Or.inl ⟨ht, h⟩)
    by_cases hb : B.fY > (bit_map.height : ℚ)
    · simp only [ht, hb, if_true] at he
      split_ifs at he with hhor
      · exact Or.inl he
      · exact find_edges_clipped_asserts edges bit_map m b w _ _ hW (by simp) (by simp)
          (le_refl _) hH' (le_refl _) (Bool.eq_false_iff.mpr hhor) e he
    · simp only [ht, hb, if_true, if_false] at he
      split_ifs at he with hhor
      · exact Or.inl he
      · exact find_edges_clipped_asserts edges bit_map m b w _ _ hW (by simp) hB
          (le_refl _) hB0 (not_lt.mp hb) (Bool.eq_false_iff.mpr hhor) e he
  · have hT0 : 0 ≤ T.fY := not_lt.mp ht
    by_cases hb : B.fY > (bit_map.height : ℚ)
    · have hTH : T.fY ≤ bit_map.height := by
        by_contra h
        push_neg at h
        exact hskip (Or.inr ⟨h, hb⟩)
      simp only [ht, hb, if_true, if_false] at he
      split_ifs at he with hhor
      · exact Or.inl he
      · exact find_edges_clipped_asserts edges bit_map m b w _ _ hW hT (by simp)
          hT0 hTH (le_refl _) (Bool.eq_false_iff.mpr hhor) e he
    · simp only [ht, hb, if_false] at he
      split_ifs at he with hhor
      · exact Or.inl he
      · exact find_edges_clipped_asserts edges bit_map m b w _ _ hW hT hB
          hT0 hTB (not_lt.mp hb) (Bool.eq_false_iff.mpr hhor) e he

theorem find_edges_body_asserts (edges : List Edge) (pts : List GPoint) (count : Nat)
    (bit_map : GBitmap) (connect_end : Bool) (i : Nat)
    (hW : 0 ≤ bit_map.width) (hH : 0 ≤ bit_map.height) :
    ∀ e ∈ find_edges_body edges pts count bit_map connect_end i,
      e ∈ edges ∨ e.assertsHold bit_map := by
  intro e he
  rw [find_edges_body_eq] at he
  simp only at he
  generalize pts.getD i default = p at he
  generalize pts.getD (if i + 1 ≥ count ∧ connect_end = true then 0 else i + 1) default = q
    at he
  by_cases hhor : is_horizontal p.fY q.fY = true
  · rw [if_pos hhor] at he
    exact Or.inl he
  · rw [if_neg hhor] at he
    have hne : p.fY ≠ q.fY := by
      intro h
      apply hhor
      simp [is_horizontal, h]
    have hd : q.fY - p.fY ≠ 0 := sub_ne_zero.mpr (Ne.symm hne)
    have hp : p.fX = (q.fX - p.fX) / (q.fY - p.fY) * p.fY +
        (p.fX - (q.fX - p.fX) / (q.fY - p.fY) * p.fY) := by ring
    have hq : q.fX = (q.fX - p.fX) / (q.fY - p.fY) * q.fY +
        (p.fX - (q.fX - p.fX) / (q.fY - p.fY) * p.fY) := by
      field_simp
      ring
    by_cases hlt : p.fY < q.fY
    · simp only [hlt, if_true] at he
      exact find_edges_yclip_asserts edges bit_map _ _ _ p q hW hH hp hq hlt.le e he
    · simp only [hlt, if_false] at he
      exact find_edges_yclip_asserts edges bit_map _ _ _ q p hW hH hq hp (not_lt.mp hlt) e he

theorem find_edges_asserts (pts : List GPoint) (count : Nat) (bit_map : GBitmap)
    (connect_end : Bool) (hW : 0 ≤ bit_map.width) (hH : 0 ≤ bit_map.height)
    (edges : List Edge) (hedges : ∀ e ∈ edges, e.assertsHold bit_map) :
    ∀ e ∈ find_edges edges pts count bit_map connect_end, e.assertsHold bit_map := by
  unfold find_edges
  generalize List.range count = l
  induction l generalizing edges with
  | nil => simpa using hedges
  | cons i l ih =>
    rw [List.foldl_cons]
    apply ih
    intro e he
    rcases find_edges_body_asserts edges pts count bit_map connect_end i hW hH e he with h | h
    · exact hedges e h
    · exact h


/-! ## The order of the edges -/

theorem sortEdges_iff (e1 e2 : Edge) :
    sortEdges e1 e2 = true ↔
      (e1.min_y < e2.min_y ∨
        (e1.min_y = e2.min_y ∧ (e1.x < e2.x ∨ (e1.x = e2.x ∧ e1.m < e2.m)))) := by
  unfold sortEdges
  split_ifs with h1 h2 h3 h4
  · simp [h1]
  · have : ¬ e1.min_y = e2.min_y := by omega
    simp [h1, this]
  · have : e1.min_y = e2.min_y := by omega
    simp [h1, this, h3]
  · have : e1.min_y = e2.min_y := by omega
    have h5 : ¬ e1.x = e2.x := ne_of_gt h4
    simp [h1, this, h3, h5]
  · have : e1.min_y = e2.min_y := by omega
    have h5 : e1.x = e2.x := le_antisymm (not_lt.mp h4) (not_lt.mp h3)
    simp [h1, this, h5]

theorem sortEdges_iff_lex (e1 e2 : Edge) :
    sortEdges e1 e2 = true ↔
      toLex (e1.min_y, toLex (e1.x, e1.m)) < toLex (e2.min_y, toLex (e2.x, e2.m)) := by
  rw [sortEdges_iff, Prod.Lex.lt_iff, Prod.Lex.lt_iff]

theorem sortEdges_incomparable_iff (e1 e2 : Edge) :
    (sortEdges e1 e2 = false ∧ sortEdges e2 e1 = false) ↔
      (e1.min_y = e2.min_y ∧ e1.x = e2.x ∧ e1.m = e2.m) := by
  rw [← Bool.not_eq_true, ← Bool.not_eq_true, sortEdges_iff_lex, sortEdges_iff_lex,
    not_lt, not_lt]
  constructor
  · rintro ⟨h1, h2⟩
    have h := le_antisymm h2 h1
    have h' := toLex.injective h
    simp only [Prod.mk.injEq] at h'
    have h'' := toLex.injective h'.2
    simp only [Prod.mk.injEq] at h''
    exact ⟨h'.1, h''.1, h''.2⟩
  · rintro ⟨h1, h2, h3⟩
    rw [h1, h2, h3]
    exact ⟨le_refl _, le_refl _⟩

/-! ## The circle -/

theorem sqrt_two_half_sq : (Real.sqrt 2 * (1 / 2)) ^ 2 + (Real.sqrt 2 * (1 / 2)) ^ 2 = 1 := by
  rw [mul_pow, Real.sq_sqrt (by norm_num)]
  norm_num

theorem circlePoint_distance (c : GPointOver ℝ) (r a b : ℝ) (hr : 0 ≤ r)
    (hab : a ^ 2 + b ^ 2 = 1) :
    Real.sqrt (((GPathOver.circlePoint c r a b).fX - c.fX) ^ 2 +
      ((GPathOver.circlePoint c r a b).fY - c.fY) ^ 2) = r := by
  have h1 : ((GPathOver.circlePoint c r a b).fX - c.fX) ^ 2 +
      ((GPathOver.circlePoint c r a b).fY - c.fY) ^ 2 = r ^ 2 := by
    have h2 : ((GPathOver.circlePoint c r a b).fX - c.fX) ^ 2 +
        ((GPathOver.circlePoint c r a b).fY - c.fY) ^ 2 = r ^ 2 * (a ^ 2 + b ^ 2) := by
      simp only [GPathOver.circlePoint]
      ring
    rw [h2, hab, mul_one]
  rw [h1, Real.sqrt_sq hr]

theorem circlePoint_one_zero (c : GPointOver ℝ) (r : ℝ) :
    GPathOver.circlePoint c r 1 0 = ⟨c.fX + r, c.fY⟩ := by
  simp only [GPathOver.circlePoint, GPointOver.mk.injEq]
  constructor <;> ring

theorem GPathOver.addCircle_verbs {K : Type} [Field K] (self : GPathOver K)
    (center : GPointOver K) (radius : K) (direction : Direction) (h s : K) :
    (self.addCircle center radius direction h s).fVerbs =
      self.fVerbs ++ GPathVerb.kMove :: List.replicate 8 GPathVerb.kQuad := by
  cases direction <;>
    simp [GPathOver.addCircle, GPathOver.moveTo, GPathOver.quadTo, List.replicate]

theorem GPathOver.addCircle_pts_cw {K : Type} [Field K] (self : GPathOver K)
    (center : GPointOver K) (radius : K) (h s : K) :
    (self.addCircle center radius Direction.kCW_Direction h s).fPts =
      self.fPts ++
        [circlePoint center radius 1 0,
         circlePoint center radius 1 h, circlePoint center radius s s,
         circlePoint center radius h 1, circlePoint center radius 0 1,
         circlePoint center radius (-h) 1, circlePoint center radius (-s) s,
         circlePoint center radius (-1) h, circlePoint center radius (-1) 0,
         circlePoint center radius (-1) (-h), circlePoint center radius (-s) (-s),
         circlePoint center radius (-h) (-1), circlePoint center radius 0 (-1),
         circlePoint center radius h (-1), circlePoint center radius s (-s),
         circlePoint center radius 1 (-h), circlePoint center radius 1 0] := by
  simp [GPathOver.addCircle, GPathOver.moveTo, GPathOver.quadTo]

theorem GPathOver.addCircle_pts_ccw {K : Type} [Field K] (self : GPathOver K)
    (center : GPointOver K) (radius : K) (h s : K) :
    (self.addCircle center radius Direction.kCCW_Direction h s).fPts =
      self.fPts ++
        [circlePoint center radius 1 0,
         circlePoint center radius 1 (-h), circlePoint center radius s (-s),
         circlePoint center radius h (-1), circlePoint center radius 0 (-1),
         circlePoint center radius (-h) (-1), circlePoint center radius (-s) (-s),
         circlePoint center radius (-1) (-h), circlePoint center radius (-1) 0,
         circlePoint center radius (-1) h, circlePoint center radius (-s) s,
         circlePoint center radius (-h) 1, circlePoint center radius 0 1,
         circlePoint center radius h 1, circlePoint center radius s s,
         circlePoint center radius 1 h, circlePoint center radius 1 0] := by
  simp [GPathOver.addCircle, GPathOver.moveTo, GPathOver.quadTo]

theorem addCircle_spec (self : GPathOver ℝ) (c : GPointOver ℝ) (r : ℝ) (hr : 0 ≤ r)
    (direction : Direction) :
    ∃ pts : List (GPointOver ℝ),
      (self.addCircle c r direction (Real.tan (Real.pi / 8)) (Real.sqrt 2 * (1 / 2))).fVerbs =
          self.fVerbs ++ GPathVerb.kMove :: List.replicate 8 GPathVerb.kQuad ∧
      (self.addCircle c r direction (Real.tan (Real.pi / 8)) (Real.sqrt 2 * (1 / 2))).fPts =
          self.fPts ++ pts ∧
      pts.length = 17 ∧
      pts.head? = some ⟨c.fX + r, c.fY⟩ ∧
      pts.getLast? = some ⟨c.fX + r, c.fY⟩ ∧
      ∀ k : Nat, k ≤ 8 → ∃ p : GPointOver ℝ, pts.get? (2 * k) = some p ∧
        Real.sqrt ((p.fX - c.fX) ^ 2 + (p.fY - c.fY) ^ 2) = r := by
  have hs := sqrt_two_half_sq
  have hs2 : (-(Real.sqrt 2 * (1 / 2))) ^ 2 + (Real.sqrt 2 * (1 / 2)) ^ 2 = 1 := by
    rw [neg_sq]; exact hs
  have hs3 : (Real.sqrt 2 * (1 / 2)) ^ 2 + (-(Real.sqrt 2 * (1 / 2))) ^ 2 = 1 := by
    rw [neg_sq]; exact hs
  have hs4 : (-(Real.sqrt 2 * (1 / 2))) ^ 2 + (-(Real.sqrt 2 * (1 / 2))) ^ 2 = 1 := by
    rw [neg_sq]; exact hs
  have d10 := circlePoint_distance c r 1 0 hr (by norm_num)
  have d01 := circlePoint_distance c r 0 1 hr (by norm_num)
  have dm10 := circlePoint_distance c r (-1) 0 hr (by norm_num)
  have d0m1 := circlePoint_distance c r 0 (-1) hr (by norm_num)
  have dss := circlePoint_distance c r _ _ hr hs
  have dms := circlePoint_distance c r _ _ hr hs2
  have dsm := circlePoint_distance c r _ _ hr hs3
  have dmm := circlePoint_distance c r _ _ hr hs4
  cases direction with
  | kCW_Direction =>
    refine ⟨_, GPathOver.addCircle_verbs _ _ _ _ _ _, GPathOver.addCircle_pts_cw _ _ _ _ _,
      rfl, ?_, ?_, ?_⟩
    · simp only [List.head?_cons, circlePoint_one_zero]
    · simp only [List.getLast?_cons_cons, List.getLast?_singleton, circlePoint_one_zero]
    · intro k hk
      interval_cases k
      · exact ⟨_, rfl, d10⟩
      · exact ⟨_, rfl, dss⟩
      · exact ⟨_, rfl, d01⟩
      · exact ⟨_, rfl, dms⟩
      · exact ⟨_, rfl, dm10⟩
      · exact ⟨_, rfl, dmm⟩
      · exact ⟨_, rfl, d0m1⟩
      · exact ⟨_, rfl, dsm⟩
      · exact ⟨_, rfl, d10⟩
  | kCCW_Direction =>
    refine ⟨_, GPathOver.addCircle_verbs _ _ _ _ _ _, GPathOver.addCircle_pts_ccw _ _ _ _ _,
      rfl, ?_, ?_, ?_⟩
    · simp only [List.head?_cons, circlePoint_one_zero]
    · simp only [List.getLast?_cons_cons, List.getLast?_singleton, circlePoint_one_zero]
    · intro k hk
      interval_cases k
      · exact ⟨_, rfl, d10⟩
      · exact ⟨_, rfl, dsm⟩
      · exact ⟨_, rfl, d0m1⟩
      · exact ⟨_, rfl, dmm⟩
      · exact ⟨_, rfl, dm10⟩
      · exact ⟨_, rfl, dms⟩
      · exact ⟨_, rfl, d01⟩
      · exact ⟨_, rfl, dss⟩
      · exact ⟨_, rfl, d10⟩

/-! ## The shaders -/

theorem GMatrix.det_Concat (A B : GMatrix) :
    (GMatrix.Concat A B).SX * (GMatrix.Concat A B).SY -
        (GMatrix.Concat A B).KX * (GMatrix.Concat A B).KY =
      (A.SX * A.SY - A.KX * A.KY) * (B.SX * B.SY - B.KX * B.KY) := by
  simp only [GMatrix.Concat]
  ring

theorem GMatrix.invert_fst_iff (M inverse : GMatrix) :
    (M.invert inverse).1 = true ↔ M.SX * M.SY - M.KX * M.KY ≠ 0 := by
  unfold GMatrix.invert
  by_cases h : M.SX * M.SY - M.KX * M.KY = 0
  · simp [h]
  · simp [h]

theorem GMatrix.invert_Concat_fst_iff (A B inverse : GMatrix) :
    ((GMatrix.Concat A B).invert inverse).1 = true ↔
      (A.SX * A.SY - A.KX * A.KY ≠ 0 ∧ B.SX * B.SY - B.KX * B.KY ≠ 0) := by
  rw [GMatrix.invert_fst_iff, GMatrix.det_Concat, mul_ne_zero_iff]

theorem CanvasGradient.gradient_setContext_iff (self : CanvasGradient) (new_ctm : GMatrix) :
    (self.setContext new_ctm).1 = true ↔
      new_ctm.SX * new_ctm.SY - new_ctm.KX * new_ctm.KY ≠ 0 := by
  unfold CanvasGradient.setContext
  by_cases h : new_ctm.SX * new_ctm.SY - new_ctm.KX * new_ctm.KY = 0
  · simp [h]
  · simp [h]

theorem TriColorShader.triColor_setContext_iff (self : TriColorShader) (new_ctm : GMatrix) :
    (self.setContext new_ctm).1 = true ↔
      new_ctm.SX * new_ctm.SY - new_ctm.KX * new_ctm.KY ≠ 0 := by
  unfold TriColorShader.setContext
  by_cases h : new_ctm.SX * new_ctm.SY - new_ctm.KX * new_ctm.KY = 0
  · simp [h]
  · simp [h]

theorem CanvasShader.bitmap_setContext_iff (self : CanvasShader) (new_ctm : GMatrix) :
    (self.setContext new_ctm).1 = true ↔
      new_ctm.SX * new_ctm.SY - new_ctm.KX * new_ctm.KY ≠ 0 := by
  unfold CanvasShader.setContext
  by_cases h : new_ctm.SX * new_ctm.SY - new_ctm.KX * new_ctm.KY = 0
  · simp [h]
  · simp [h]


theorem toUnsigned_eq (q : ℚ) (k : Nat) (h0 : (k : ℚ) ≤ q) (h1 : q < k + 1) :
    toUnsigned q = k := by
  unfold toUnsigned
  rw [Nat.floor_eq_iff (le_trans (Nat.cast_nonneg k) h0)]
  exact ⟨h0, h1⟩

theorem truncToInt_of_nonneg {q : ℚ} (h : 0 ≤ q) : truncToInt q = ⌊q⌋ := by
  simp only [truncToInt, h, if_true]

theorem truncToInt_eq (q : ℚ) (i : Nat) (h0 : (i : ℚ) ≤ q) (h1 : q < i + 1) :
    truncToInt q = (i : Int) := by
  rw [truncToInt_of_nonneg (le_trans (Nat.cast_nonneg i) h0), Int.floor_eq_iff]
  push_cast
  exact ⟨h0, h1⟩

theorem colorAt_of_lt (colors : List GColor) (oob : Int → GColor) (i : Nat)
    (h : i < colors.length) : colorAt colors oob (i : Int) = colors.getD i default := by
  unfold colorAt
  rw [if_pos ⟨Int.natCast_nonneg i, by exact_mod_cast h⟩, Int.toNat_natCast]

theorem colorAt_of_ge (colors : List GColor) (oob : Int → GColor) (i : Nat)
    (h : colors.length ≤ i) : colorAt colors oob (i : Int) = oob i := by
  unfold colorAt
  rw [if_neg]
  intro h'
  have := h'.2
  omega

namespace CanvasGradient

theorem repeat_of_unit {x : ℚ} (h0 : 0 ≤ x) (h1 : x < 1) : «repeat» x = x := by
  have hf : ⌊x⌋ = 0 := by
    rw [Int.floor_eq_iff]
    exact ⟨by simpa using h0, by simpa using h1⟩
  simp only [«repeat», hf, Int.cast_zero, sub_zero]

theorem mirror_of_lt_half {x : ℚ} (h0 : 0 ≤ x) (h1 : x < 1 / 2) : mirror x = x := by
  have hf : ⌊x⌋ = 0 := by
    rw [Int.floor_eq_iff]
    exact ⟨by simpa using h0, by norm_num; linarith⟩
  have hr : GRoundToInt x = 0 := by
    unfold GRoundToInt
    rw [Int.floor_eq_iff]
    exact ⟨by norm_num; linarith, by norm_num; linarith⟩
  simp only [mirror, hf, Int.cast_zero, sub_zero, hr]
  rfl

theorem mirror_of_ge_half {x : ℚ} (h0 : 1 / 2 ≤ x) (h1 : x < 1) : mirror x = 1 - x := by
  have hf : ⌊x⌋ = 0 := by
    rw [Int.floor_eq_iff]
    exact ⟨by norm_num; linarith, by simpa using h1⟩
  have hr : GRoundToInt x = 1 := by
    unfold GRoundToInt
    rw [Int.floor_eq_iff]
    exact ⟨by norm_num; linarith, by norm_num; linarith⟩
  simp only [mirror, hf, Int.cast_zero, sub_zero, hr]
  rfl

theorem clamp_bounds (v : ℚ) :
    0 ≤ (if v ≥ 1 then (9999999 / 10000000 : ℚ) else if v < 0 then 0 else v) ∧
      (if v ≥ 1 then (9999999 / 10000000 : ℚ) else if v < 0 then 0 else v) < 1 := by
  by_cases h1 : v ≥ 1
  · rw [if_pos h1]; norm_num
  · rw [if_neg h1]
    by_cases h2 : v < 0
    · rw [if_pos h2]; norm_num
    · rw [if_neg h2]; exact ⟨not_lt.mp h2, not_le.mp h1⟩

theorem tiled_nonneg (self : CanvasGradient) (px : ℚ) : 0 ≤ self.tiled px :=
  (clamp_bounds _).1

theorem tiled_lt_one (self : CanvasGradient) (px : ℚ) : self.tiled px < 1 :=
  (clamp_bounds _).2

theorem tiled_of_unit (self : CanvasGradient) (hm : self.tile_mode ≠ TileMode.kMirror)
    (px : ℚ) (h0 : 0 ≤ px) (h1 : px < 1) : self.tiled px = px := by
  have hr := repeat_of_unit h0 h1
  unfold tiled
  simp only [hm, if_false, hr, ite_self]
  rw [if_neg (not_le.mpr h1), if_neg (not_lt.mpr h0)]

theorem tiled_mirror_of_lt_half (self : CanvasGradient)
    (hm : self.tile_mode = TileMode.kMirror) (px : ℚ) (h0 : 0 ≤ px) (h1 : px < 1 / 2) :
    self.tiled px = px := by
  unfold tiled
  simp only [hm, if_true, mirror_of_lt_half h0 h1]
  rw [if_neg (by linarith), if_neg (not_lt.mpr h0)]

theorem tiled_mirror_of_ge_half (self : CanvasGradient)
    (hm : self.tile_mode = TileMode.kMirror) (px : ℚ) (h0 : 1 / 2 ≤ px) (h1 : px < 1) :
    self.tiled px = 1 - px := by
  unfold tiled
  simp only [hm, if_true, mirror_of_ge_half h0 h1]
  rw [if_neg (by linarith), if_neg (by linarith)]

/-- The pixel of the body of the loop when the tiled parameter is `q` and `q * (n - 1)`
lies in `[i, i + 1)` with `i + 1` inside the array. -/
theorem shadePixel_of_tiled (self : CanvasGradient) (oob : Int → GColor) (inv : GMatrix)
    (fx fy q : ℚ) (i : Nat) (hq : self.tiled (inv.mapPoint ⟨fx, fy⟩).fX = q)
    (hi : i + 1 < self.colors.length)
    (h0 : (i : ℚ) ≤ q * (((self.n : Int) - 1 : Int) : ℚ))
    (h1 : q * (((self.n : Int) - 1 : Int) : ℚ) < i + 1) :
    self.shadePixel oob inv fx fy =
      color_to_pixel (mixColors (1 - (q * (((self.n : Int) - 1 : Int) : ℚ) - i))
        (q * (((self.n : Int) - 1 : Int) : ℚ) - i)
        (self.colors.getD i default) (self.colors.getD (i + 1) default)) := by
  have ht := truncToInt_eq _ i h0 h1
  have hc0 := colorAt_of_lt self.colors oob i (by omega)
  have hc1 := colorAt_of_lt self.colors oob (i + 1) hi
  simp only [shadePixel, hq, ht]
  rw [hc0]
  have : ((i : Int) + 1) = ((i + 1 : Nat) : Int) := by push_cast; rfl
  rw [this, hc1]
  simp only [Int.cast_natCast]

theorem shadePixelChecked_of_tiled (self : CanvasGradient) (inv : GMatrix)
    (fx fy q : ℚ) (i : Nat) (hq : self.tiled (inv.mapPoint ⟨fx, fy⟩).fX = q)
    (hi : i + 1 < self.n)
    (h0 : (i : ℚ) ≤ q * (((self.n : Int) - 1 : Int) : ℚ))
    (h1 : q * (((self.n : Int) - 1 : Int) : ℚ) < i + 1) :
    self.shadePixelChecked inv fx fy =
      some (color_to_pixel (mixColors (1 - (q * (((self.n : Int) - 1 : Int) : ℚ) - i))
        (q * (((self.n : Int) - 1 : Int) : ℚ) - i)
        (self.colors.getD i default) (self.colors.getD (i + 1) default))) := by
  have ht := truncToInt_eq _ i h0 h1
  simp only [shadePixelChecked, hq, ht]
  rw [if_pos ⟨Int.natCast_nonneg i, by exact_mod_cast hi⟩]
  have : ((i : Int) + 1) = ((i + 1 : Nat) : Int) := by push_cast; rfl
  rw [this, Int.toNat_natCast, Int.toNat_natCast]
  simp only [Int.cast_natCast]

/-- With at least two colours the tiled parameter selects an index `i` with `i + 1`
inside the array. -/
theorem exists_index (self : CanvasGradient) (hn : 2 ≤ self.n) (q : ℚ) (hq0 : 0 ≤ q)
    (hq1 : q < 1) :
    ∃ i : Nat, i + 1 < self.n ∧ (i : ℚ) ≤ q * (((self.n : Int) - 1 : Int) : ℚ) ∧
      q * (((self.n : Int) - 1 : Int) : ℚ) < i + 1 ∧
      i = ⌊q * (((self.n : Int) - 1 : Int) : ℚ)⌋₊ := by
  have hn1 : (1 : ℚ) ≤ (((self.n : Int) - 1 : Int) : ℚ) := by
    have : (1 : Int) ≤ (self.n : Int) - 1 := by omega
    exact_mod_cast this
  have ht0 : 0 ≤ q * (((self.n : Int) - 1 : Int) : ℚ) := mul_nonneg hq0 (by linarith)
  have ht1 : q * (((self.n : Int) - 1 : Int) : ℚ) < (((self.n : Int) - 1 : Int) : ℚ) := by
    have := mul_lt_mul_of_pos_right hq1 (lt_of_lt_of_le zero_lt_one hn1)
    linarith
  refine ⟨⌊q * (((self.n : Int) - 1 : Int) : ℚ)⌋₊, ?_, Nat.floor_le ht0, Nat.lt_floor_add_one _,
    rfl⟩
  have h2 : ⌊q * (((self.n : Int) - 1 : Int) : ℚ)⌋₊ < self.n - 1 := by
    rw [Nat.floor_lt ht0]
    have : (((self.n - 1 : Nat) : ℚ)) = (((self.n : Int) - 1 : Int) : ℚ) := by
      have h3 : ((self.n - 1 : Nat) : Int) = (self.n : Int) - 1 := by omega
      exact_mod_cast congrArg (fun z : Int => (z : ℚ)) h3
    rw [this]
    exact ht1
  omega

/-- With at least two colours, outside the mirror mode (or below one half in it), a pixel
whose mapped parameter `t` lies in `[0, 1)` gets the mix of `colors[i]` and
`colors[i + 1]` by `(1 - u, u)`, `i = floor(t (n - 1))`, `u = t (n - 1) - i`, and both
reads are inside the array. -/
theorem shadePixel_of_unit_parameter (self : CanvasGradient) (oob : Int → GColor)
    (inv : GMatrix) (fx fy : ℚ) (hn : 2 ≤ self.n) (hlen : self.colors.length = self.n)
    (hmode : self.tile_mode ≠ TileMode.kMirror ∨ (inv.mapPoint ⟨fx, fy⟩).fX < 1 / 2)
    (h0 : 0 ≤ (inv.mapPoint ⟨fx, fy⟩).fX) (h1 : (inv.mapPoint ⟨fx, fy⟩).fX < 1) :
    self.shadePixel oob inv fx fy =
      color_to_pixel (mixColors
        (1 - ((inv.mapPoint ⟨fx, fy⟩).fX * (((self.n : Int) - 1 : Int) : ℚ) -
          (⌊(inv.mapPoint ⟨fx, fy⟩).fX * (((self.n : Int) - 1 : Int) : ℚ)⌋₊ : ℚ)))
        ((inv.mapPoint ⟨fx, fy⟩).fX * (((self.n : Int) - 1 : Int) : ℚ) -
          (⌊(inv.mapPoint ⟨fx, fy⟩).fX * (((self.n : Int) - 1 : Int) : ℚ)⌋₊ : ℚ))
        (self.colors.getD ⌊(inv.mapPoint ⟨fx, fy⟩).fX * (((self.n : Int) - 1 : Int) : ℚ)⌋₊
          default)
        (self.colors.getD
          (⌊(inv.mapPoint ⟨fx, fy⟩).fX * (((self.n : Int) - 1 : Int) : ℚ)⌋₊ + 1) default)) ∧
    self.shadePixelChecked inv fx fy = some (self.shadePixel oob inv fx fy) ∧
    ⌊(inv.mapPoint ⟨fx, fy⟩).fX * (((self.n : Int) - 1 : Int) : ℚ)⌋₊ + 1 < self.n := by
  have hq : self.tiled (inv.mapPoint ⟨fx, fy⟩).fX = (inv.mapPoint ⟨fx, fy⟩).fX := by
    by_cases hm : self.tile_mode = TileMode.kMirror
    · rcases hmode with hmode | hmode
      · exact absurd hm hmode
      · exact tiled_mirror_of_lt_half self hm _ h0 hmode
    · exact tiled_of_unit self hm _ h0 h1
  obtain ⟨i, hi, hi0, hi1, hie⟩ := exists_index self hn _ h0 h1
  rw [← hie]
  have hp := shadePixel_of_tiled self oob inv fx fy _ i hq (by omega) hi0 hi1
  have hc := shadePixelChecked_of_tiled self inv fx fy _ i hq hi hi0 hi1
  exact ⟨hp, by rw [hc, hp], hi⟩

/-- The pixel of a gradient of two colours whose tiled parameter is `q`. -/
theorem shadePixel_two (self : CanvasGradient) (oob : Int → GColor) (inv : GMatrix)
    (fx fy q : ℚ) (hn : self.n = 2) (hlen : self.colors.length = 2)
    (hq : self.tiled (inv.mapPoint ⟨fx, fy⟩).fX = q) (hq0 : 0 ≤ q) (hq1 : q < 1) :
    self.shadePixel oob inv fx fy =
      color_to_pixel (mixColors (1 - q) q (self.colors.getD 0 default)
        (self.colors.getD 1 default)) := by
  have h := shadePixel_of_tiled self oob inv fx fy q 0 hq (by omega)
    (by rw [hn]; norm_num; exact hq0) (by rw [hn]; norm_num; exact hq1)
  rw [h, hn]
  norm_num

end CanvasGradient

theorem color_to_pixel_eq (c : GColor) (a r g b : Nat)
    (ha : (a : ℚ) ≤ c.fA * 255 + 1 / 2 ∧ c.fA * 255 + 1 / 2 < a + 1)
    (hr : (r : ℚ) ≤ c.fA * c.fR * 255 + 1 / 2 ∧ c.fA * c.fR * 255 + 1 / 2 < r + 1)
    (hg : (g : ℚ) ≤ c.fA * c.fG * 255 + 1 / 2 ∧ c.fA * c.fG * 255 + 1 / 2 < g + 1)
    (hb : (b : ℚ) ≤ c.fA * c.fB * 255 + 1 / 2 ∧ c.fA * c.fB * 255 + 1 / 2 < b + 1) :
    color_to_pixel c = GPixel_PackARGB a r g b := by
  unfold color_to_pixel
  rw [toUnsigned_eq _ a ha.1 ha.2, toUnsigned_eq _ r hr.1 hr.2, toUnsigned_eq _ g hg.1 hg.2,
    toUnsigned_eq _ b hb.1 hb.2]

/-- The gradient from red at (0,0) to blue at (4,0) in mirror mode, after
`setContext(identity)`. -/
theorem mirrorGradient_eq :
    ((CanvasGradient.make ⟨0, 0⟩ ⟨4, 0⟩ [⟨1, 1, 0, 0⟩, ⟨1, 0, 0, 1⟩] 2
        TileMode.kMirror).setContext GMatrix.identity).2 =
      { n := 2, colors := [⟨1, 1, 0, 0⟩, ⟨1, 0, 0, 1⟩], ctm := GMatrix.identity,
        local_matrix := ⟨4, 0, 0, 0, 4, 0⟩, tile_mode := TileMode.kMirror } := by
  simp [CanvasGradient.make, CanvasGradient.setContext, GMatrix.identity, List.range,
    List.range.loop]

theorem mirrorGradient_inverseMatrix :
    CanvasGradient.inverseMatrix
      { n := 2, colors := [⟨1, 1, 0, 0⟩, ⟨1, 0, 0, 1⟩], ctm := GMatrix.identity,
        local_matrix := ⟨4, 0, 0, 0, 4, 0⟩, tile_mode := TileMode.kMirror } =
      ⟨1 / 4, 0, 0, 0, 1 / 4, 0⟩ := by
  norm_num [CanvasGradient.inverseMatrix, GMatrix.Concat, GMatrix.invert, GMatrix.identity]

theorem mirrorGradient_row (oob : Int → GColor) :
    (((CanvasGradient.make ⟨0, 0⟩ ⟨4, 0⟩ [⟨1, 1, 0, 0⟩, ⟨1, 0, 0, 1⟩] 2
        TileMode.kMirror).setContext GMatrix.identity).2.shadeRow oob 0 0 4 =
      [GPixel_PackARGB 255 223 0 32, GPixel_PackARGB 255 159 0 96,
       GPixel_PackARGB 255 159 0 96, GPixel_PackARGB 255 223 0 32]) := by
  rw [mirrorGradient_eq]
  simp only [CanvasGradient.shadeRow, mirrorGradient_inverseMatrix, CanvasGradient.shadeLoop]
  rw [CanvasGradient.shadePixel_two _ oob _ _ _ (1 / 8) (by rfl) (by rfl)
      (by
        rw [show (GMatrix.mapPoint ⟨1 / 4, 0, 0, 0, 1 / 4, 0⟩
          ⟨((0 : Int) : ℚ) + 1 / 2, ((0 : Int) : ℚ) + 1 / 2⟩).fX = 1 / 8 by
            norm_num [GMatrix.mapPoint]]
        exact CanvasGradient.tiled_mirror_of_lt_half _ rfl _ (by norm_num) (by norm_num))
      (by norm_num) (by norm_num)]
  rw [CanvasGradient.shadePixel_two _ oob _ _ _ (3 / 8) (by rfl) (by rfl)
      (by
        rw [show (GMatrix.mapPoint ⟨1 / 4, 0, 0, 0, 1 / 4, 0⟩
          ⟨((0 : Int) : ℚ) + 1 / 2 + 1, ((0 : Int) : ℚ) + 1 / 2⟩).fX = 3 / 8 by
            norm_num [GMatrix.mapPoint]]
        exact CanvasGradient.tiled_mirror_of_lt_half _ rfl _ (by norm_num) (by norm_num))
      (by norm_num) (by norm_num)]
  rw [CanvasGradient.shadePixel_two _ oob _ _ _ (3 / 8) (by rfl) (by rfl)
      (by
        rw [show (GMatrix.mapPoint ⟨1 / 4, 0, 0, 0, 1 / 4, 0⟩
          ⟨((0 : Int) : ℚ) + 1 / 2 + 1 + 1, ((0 : Int) : ℚ) + 1 / 2⟩).fX = 5 / 8 by
            norm_num [GMatrix.mapPoint]]
        exact (CanvasGradient.tiled_mirror_of_ge_half _ rfl _ (by norm_num)
          (by norm_num)).trans (by norm_num))
      (by norm_num) (by norm_num)]
  rw [CanvasGradient.shadePixel_two _ oob _ _ _ (1 / 8) (by rfl) (by rfl)
      (by
        rw [show (GMatrix.mapPoint ⟨1 / 4, 0, 0, 0, 1 / 4, 0⟩
          ⟨((0 : Int) : ℚ) + 1 / 2 + 1 + 1 + 1, ((0 : Int) : ℚ) + 1 / 2⟩).fX = 7 / 8 by
            norm_num [GMatrix.mapPoint]]
        exact (CanvasGradient.tiled_mirror_of_ge_half _ rfl _ (by norm_num)
          (by norm_num)).trans (by norm_num))
      (by norm_num) (by norm_num)]
  rw [color_to_pixel_eq _ 255 223 0 32
      (by norm_num [CanvasGradient.mixColors]) (by norm_num [CanvasGradient.mixColors])
      (by norm_num [CanvasGradient.mixColors]) (by norm_num [CanvasGradient.mixColors]),
    color_to_pixel_eq _ 255 159 0 96
      (by norm_num [CanvasGradient.mixColors]) (by norm_num [CanvasGradient.mixColors])
      (by norm_num [CanvasGradient.mixColors]) (by norm_num [CanvasGradient.mixColors])]

theorem CanvasGradient.make_colors_length (p0 p1 : GPoint) (_colors : List GColor)
    (_count : Nat) (mode : TileMode) :
    (CanvasGradient.make p0 p1 _colors _count mode).colors.length = _count := by
  simp [CanvasGradient.make]

/-- With one colour only, `t` is 0 and `index` is 0: the body of the loop mixes
`colors[0]` and `colors[1]` by `(1, 0)`, and `colors[1]` is outside the array. -/
theorem CanvasGradient.shadePixel_single (self : CanvasGradient) (oob : Int → GColor)
    (inv : GMatrix) (fx fy : ℚ) (hn : self.n = 1) (hlen : self.colors.length = 1) :
    self.shadePixel oob inv fx fy =
        color_to_pixel (CanvasGradient.mixColors 1 0 (self.colors.getD 0 default) (oob 1)) ∧
      self.shadePixelChecked inv fx fy = none := by
  have ht : truncToInt (self.tiled (inv.mapPoint ⟨fx, fy⟩).fX *
      (((self.n : Int) - 1 : Int) : ℚ)) = 0 := by
    rw [hn]
    norm_num [truncToInt]
  constructor
  · have hc0 := colorAt_of_lt self.colors oob 0 (by omega)
    have hc1 := colorAt_of_ge self.colors oob 1 (by omega)
    simp only [CanvasGradient.shadePixel, ht]
    rw [hn]
    norm_num
    norm_num at hc0 hc1
    rw [hc0, hc1]
  · simp only [CanvasGradient.shadePixelChecked, ht]
    rw [hn]
    norm_num

theorem CanvasGradient.gradient_shadeLoop_length (self : CanvasGradient) (oob : Int → GColor)
    (inv : GMatrix) (fy : ℚ) (k : Nat) (fx : ℚ) :
    (self.shadeLoop oob inv fy k fx).length = k := by
  induction k generalizing fx with
  | zero => rfl
  | succ k ih => simp [CanvasGradient.shadeLoop, ih]

theorem CanvasGradient.gradient_shadeLoop_getD (self : CanvasGradient) (oob : Int → GColor)
    (inv : GMatrix) (fy : ℚ) (k : Nat) (fx : ℚ) (i : Nat) (hi : i < k) (d : GPixel) :
    (self.shadeLoop oob inv fy k fx).getD i d = self.shadePixel oob inv (fx + i) fy := by
  induction k generalizing fx i with
  | zero => omega
  | succ k ih =>
    cases i with
    | zero => simp [CanvasGradient.shadeLoop]
    | succ i =>
      simp only [CanvasGradient.shadeLoop, List.getD_cons_succ]
      rw [ih (fx + 1) i (by omega)]
      push_cast
      rw [add_assoc, add_comm 1 (i : ℚ)]

theorem CanvasGradient.mixColors_one_zero (c1 c2 : GColor) :
    CanvasGradient.mixColors 1 0 c1 c2 = c1 := by
  simp [CanvasGradient.mixColors]

theorem CanvasGradient.shadeLoop_single (self : CanvasGradient) (oob : Int → GColor)
    (inv : GMatrix) (fy : ℚ) (hn : self.n = 1) (hlen : self.colors.length = 1) (k : Nat)
    (fx : ℚ) :
    self.shadeLoop oob inv fy k fx =
      List.replicate k
        (color_to_pixel (CanvasGradient.mixColors 1 0 (self.colors.getD 0 default) (oob 1))) := by
  induction k generalizing fx with
  | zero => rfl
  | succ k ih =>
    simp only [CanvasGradient.shadeLoop, List.replicate_succ, ih,
      (CanvasGradient.shadePixel_single self oob inv fx fy hn hlen).1]

theorem CanvasGradient.setContext_snd_single (p0 p1 : GPoint) (c : GColor) (mode : TileMode)
    (ctm : GMatrix) :
    ((CanvasGradient.make p0 p1 [c] 1 mode).setContext ctm).2.n = 1 ∧
      ((CanvasGradient.make p0 p1 [c] 1 mode).setContext ctm).2.colors = [c] := by
  unfold CanvasGradient.setContext
  by_cases h : ctm.SX * ctm.SY - ctm.KX * ctm.KY = 0
  · simp [h, CanvasGradient.make, List.range, List.range.loop]
  · simp [h, CanvasGradient.make, List.range, List.range.loop]

theorem gradient_single_colour (p0 p1 : GPoint) (c : GColor) (mode : TileMode)
    (ctm : GMatrix) (oob : Int → GColor) (x y : Int) (count : Nat) :
    ((CanvasGradient.make p0 p1 [c] 1 mode).setContext ctm).2.shadeRow oob x y count =
        List.replicate count (color_to_pixel (CanvasGradient.mixColors 1 0 c (oob 1))) ∧
      (∀ fx fy : ℚ,
        ((CanvasGradient.make p0 p1 [c] 1 mode).setContext ctm).2.shadePixelChecked
          ((CanvasGradient.make p0 p1 [c] 1 mode).setContext ctm).2.inverseMatrix fx fy =
          none) ∧
      color_to_pixel (CanvasGradient.mixColors 1 0 c (oob 1)) = color_to_pixel c := by
  obtain ⟨hn, hc⟩ := CanvasGradient.setContext_snd_single p0 p1 c mode ctm
  have hlen : ((CanvasGradient.make p0 p1 [c] 1 mode).setContext ctm).2.colors.length = 1 := by
    rw [hc]; rfl
  refine ⟨?_, ?_, ?_⟩
  · unfold CanvasGradient.shadeRow
    rw [CanvasGradient.shadeLoop_single _ oob _ _ hn hlen, hc]
    rfl
  · intro fx fy
    exact (CanvasGradient.shadePixel_single _ oob _ fx fy hn hlen).2
  · rw [CanvasGradient.mixColors_one_zero]

/-! ### `isOpaque` with translucent colours -/

theorem halfGradient_row (oob : Int → GColor) :
    (CanvasGradient.make ⟨0, 0⟩ ⟨1, 0⟩ [⟨1 / 2, 1, 0, 0⟩, ⟨1 / 2, 0, 0, 1⟩] 2
        TileMode.kClamp).isOpaque = true ∧
      ((CanvasGradient.make ⟨0, 0⟩ ⟨1, 0⟩ [⟨1 / 2, 1, 0, 0⟩, ⟨1 / 2, 0, 0, 1⟩] 2
        TileMode.kClamp).setContext GMatrix.identity).2.isOpaque = true ∧
      ((CanvasGradient.make ⟨0, 0⟩ ⟨1, 0⟩ [⟨1 / 2, 1, 0, 0⟩, ⟨1 / 2, 0, 0, 1⟩] 2
        TileMode.kClamp).setContext GMatrix.identity).2.shadeRow oob 0 0 1 =
        [GPixel_PackARGB 128 64 0 64] := by
  have hg : ((CanvasGradient.make ⟨0, 0⟩ ⟨1, 0⟩ [⟨1 / 2, 1, 0, 0⟩, ⟨1 / 2, 0, 0, 1⟩] 2
        TileMode.kClamp).setContext GMatrix.identity).2 =
      { n := 2, colors := [⟨1 / 2, 1, 0, 0⟩, ⟨1 / 2, 0, 0, 1⟩], ctm := GMatrix.identity,
        local_matrix := ⟨1, 0, 0, 0, 1, 0⟩, tile_mode := TileMode.kClamp } := by
    simp [CanvasGradient.make, CanvasGradient.setContext, GMatrix.identity, List.range,
      List.range.loop]
  have hinv : CanvasGradient.inverseMatrix
      { n := 2, colors := [⟨1 / 2, 1, 0, 0⟩, ⟨1 / 2, 0, 0, 1⟩], ctm := GMatrix.identity,
        local_matrix := ⟨1, 0, 0, 0, 1, 0⟩, tile_mode := TileMode.kClamp } =
      ⟨1, 0, 0, 0, 1, 0⟩ := by
    norm_num [CanvasGradient.inverseMatrix, GMatrix.Concat, GMatrix.invert, GMatrix.identity]
  refine ⟨?_, ?_, ?_⟩
  · simp [CanvasGradient.isOpaque, CanvasGradient.make, List.range, List.range.loop]
  · rw [hg]
    simp [CanvasGradient.isOpaque, List.range, List.range.loop]
  · rw [hg]
    simp only [CanvasGradient.shadeRow, hinv, CanvasGradient.shadeLoop]
    rw [CanvasGradient.shadePixel_two _ oob _ _ _ (1 / 2) (by rfl) (by rfl)
      (by
        rw [show (GMatrix.mapPoint ⟨1, 0, 0, 0, 1, 0⟩
          ⟨((0 : Int) : ℚ) + 1 / 2, ((0 : Int) : ℚ) + 1 / 2⟩).fX = 1 / 2 by
            norm_num [GMatrix.mapPoint]]
        exact CanvasGradient.tiled_of_unit _ (by decide) _ (by norm_num) (by norm_num))
      (by norm_num) (by norm_num)]
    rw [color_to_pixel_eq _ 128 64 0 64
      (by norm_num [CanvasGradient.mixColors]) (by norm_num [CanvasGradient.mixColors])
      (by norm_num [CanvasGradient.mixColors]) (by norm_num [CanvasGradient.mixColors])]

theorem halfTriColor_eq :
    ((TriColorShader.make [⟨0, 0⟩, ⟨4, 0⟩, ⟨0, 4⟩]
        [⟨1 / 2, 1, 0, 0⟩, ⟨1 / 2, 0, 1, 0⟩, ⟨1 / 2, 0, 0, 1⟩]).setContext
          GMatrix.identity).2 =
      { pts := [⟨0, 0⟩, ⟨4, 0⟩, ⟨0, 4⟩],
        colors := [⟨1 / 2, 1, 0, 0⟩, ⟨1 / 2, 0, 1, 0⟩, ⟨1 / 2, 0, 0, 1⟩],
        local_matrix := ⟨4, 0, 0, 0, 4, 0⟩,
        inverse_matrix := ⟨1 / 4, 0, 0, 0, 1 / 4, 0⟩,
        ctm := GMatrix.identity,
        delta_color := ⟨0, -(1 / 4), 1 / 4, 0⟩ } := by
  norm_num [TriColorShader.make, TriColorShader.setContext, GMatrix.identity,
    GMatrix.Concat, GMatrix.invert, GPoint.sub_def]

theorem halfTriColor_row :
    (TriColorShader.make [⟨0, 0⟩, ⟨4, 0⟩, ⟨0, 4⟩]
        [⟨1 / 2, 1, 0, 0⟩, ⟨1 / 2, 0, 1, 0⟩, ⟨1 / 2, 0, 0, 1⟩]).isOpaque = true ∧
      ((TriColorShader.make [⟨0, 0⟩, ⟨4, 0⟩, ⟨0, 4⟩]
        [⟨1 / 2, 1, 0, 0⟩, ⟨1 / 2, 0, 1, 0⟩, ⟨1 / 2, 0, 0, 1⟩]).setContext
          GMatrix.identity).2.isOpaque = true ∧
      ((TriColorShader.make [⟨0, 0⟩, ⟨4, 0⟩, ⟨0, 4⟩]
        [⟨1 / 2, 1, 0, 0⟩, ⟨1 / 2, 0, 1, 0⟩, ⟨1 / 2, 0, 0, 1⟩]).setContext
          GMatrix.identity).2.shadeRow 1 1 1 = [GPixel_PackARGB 128 32 48 48] := by
  refine ⟨?_, ?_, ?_⟩
  · simp [TriColorShader.isOpaque, TriColorShader.make, List.range, List.range.loop]
  · rw [halfTriColor_eq]
    simp [TriColorShader.isOpaque, List.range, List.range.loop]
  · rw [halfTriColor_eq]
    simp only [TriColorShader.shadeRow, TriColorShader.shadeLoop]
    rw [color_to_pixel_eq _ 128 32 48 48
      (by norm_num [TriColorShader.initialColor, GMatrix.mapPoint])
      (by norm_num [TriColorShader.initialColor, GMatrix.mapPoint])
      (by norm_num [TriColorShader.initialColor, GMatrix.mapPoint])
      (by norm_num [TriColorShader.initialColor, GMatrix.mapPoint])]

theorem color_to_pixel_premul_of_unit (c : GColor) (h : c.unit) : (color_to_pixel c).premul := by
  obtain ⟨⟨ha0, ha1⟩, ⟨hr0, hr1⟩, ⟨hg0, hg1⟩, ⟨hb0, hb1⟩⟩ := h
  have key : ∀ v : ℚ, 0 ≤ v → v ≤ 1 →
      toUnsigned (c.fA * v * 255 + 1 / 2) ≤ toUnsigned (c.fA * 255 + 1 / 2) := by
    intro v hv0 hv1
    unfold toUnsigned
    apply Nat.floor_mono
    have : c.fA * v ≤ c.fA := by
      have := mul_le_mul_of_nonneg_left hv1 ha0
      linarith
    linarith
  refine ⟨?_, key _ hr0 hr1, key _ hg0 hg1, key _ hb0 hb1⟩
  show toUnsigned (c.fA * 255 + 1 / 2) ≤ 255
  unfold toUnsigned
  have : ⌊c.fA * 255 + 1 / 2⌋₊ < 256 := by
    rw [Nat.floor_lt (by linarith)]
    norm_num
    linarith
  omega

theorem unit_combination (w0 w1 w2 v0 v1 v2 : ℚ) (hw0 : 0 ≤ w0) (hw1 : 0 ≤ w1)
    (hw2 : 0 ≤ w2) (hs : w0 + w1 + w2 = 1) (h0 : 0 ≤ v0 ∧ v0 ≤ 1) (h1 : 0 ≤ v1 ∧ v1 ≤ 1)
    (h2 : 0 ≤ v2 ∧ v2 ≤ 1) :
    0 ≤ w0 * v0 + w1 * v1 + w2 * v2 ∧ w0 * v0 + w1 * v1 + w2 * v2 ≤ 1 := by
  have a0 := mul_nonneg hw0 h0.1
  have a1 := mul_nonneg hw1 h1.1
  have a2 := mul_nonneg hw2 h2.1
  have b0 := mul_le_mul_of_nonneg_left h0.2 hw0
  have b1 := mul_le_mul_of_nonneg_left h1.2 hw1
  have b2 := mul_le_mul_of_nonneg_left h2.2 hw2
  constructor <;> linarith

theorem TriColorShader.barycentric_unit (self : TriColorShader) (P : GPoint)
    (h0 : (self.colors.getD 0 default).unit) (h1 : (self.colors.getD 1 default).unit)
    (h2 : (self.colors.getD 2 default).unit)
    (hx : 0 ≤ P.fX) (hy : 0 ≤ P.fY) (hxy : P.fX + P.fY ≤ 1) :
    (self.barycentric P).unit := by
  obtain ⟨a0, r0, g0, b0⟩ := h0
  obtain ⟨a1, r1, g1, b1⟩ := h1
  obtain ⟨a2, r2, g2, b2⟩ := h2
  have hw : 0 ≤ 1 - P.fX - P.fY := by linarith
  have hs : (1 - P.fX - P.fY) + P.fX + P.fY = 1 := by ring
  exact ⟨unit_combination _ _ _ _ _ _ hw hx hy hs a0 a1 a2,
    unit_combination _ _ _ _ _ _ hw hx hy hs r0 r1 r2,
    unit_combination _ _ _ _ _ _ hw hx hy hs g0 g1 g2,
    unit_combination _ _ _ _ _ _ hw hx hy hs b0 b1 b2⟩

theorem TriColorShader.triColor_shadeLoop_getD (delta_color : GColor) (k : Nat) (c : GColor) (i : Nat)
    (hi : i < k) (d : GPixel) :
    (TriColorShader.shadeLoop delta_color k c).getD i d =
      color_to_pixel ⟨c.fA + i * delta_color.fA, c.fR + i * delta_color.fR,
        c.fG + i * delta_color.fG, c.fB + i * delta_color.fB⟩ := by
  induction k generalizing c i with
  | zero => omega
  | succ k ih =>
    cases i with
    | zero => simp [TriColorShader.shadeLoop]
    | succ i =>
      simp only [TriColorShader.shadeLoop, List.getD_cons_succ]
      rw [ih _ i (by omega)]
      congr 1
      simp only [GColor.mk.injEq]
      push_cast
      refine ⟨?_, ?_, ?_, ?_⟩ <;> ring

theorem TriColorShader.initialColor_eq (self : TriColorShader) (x y : Int) :
    self.initialColor x y =
      self.barycentric (self.inverse_matrix.mapPoint ⟨(x : ℚ) + 1 / 2, (y : ℚ) + 1 / 2⟩) := rfl

/-- After a successful `setContext`, the colour of the `i`-th step of the loop of
`shadeRow` is the barycentric colour at the centre of the `i`-th pixel. -/
theorem TriColorShader.triColor_shadeRow_getD (self : TriColorShader) (ctm : GMatrix)
    (hctx : (self.setContext ctm).1 = true) (x y : Int) (count i : Nat) (hi : i < count)
    (d : GPixel) :
    ((self.setContext ctm).2.shadeRow x y count).getD i d =
      color_to_pixel ((self.setContext ctm).2.barycentric
        ((self.setContext ctm).2.inverse_matrix.mapPoint
          ⟨(x : ℚ) + (i : ℚ) + 1 / 2, (y : ℚ) + 1 / 2⟩)) := by
  have hdet : ¬ ctm.SX * ctm.SY - ctm.KX * ctm.KY = 0 :=
    (TriColorShader.triColor_setContext_iff self ctm).mp hctx
  unfold TriColorShader.shadeRow
  rw [TriColorShader.triColor_shadeLoop_getD _ _ _ _ hi, TriColorShader.initialColor_eq]
  congr 1
  simp only [TriColorShader.setContext, hdet, if_false, TriColorShader.barycentric,
    GMatrix.mapPoint, GColor.mk.injEq]
  refine ⟨?_, ?_, ?_, ?_⟩ <;> ring

theorem outsideTriColor_eq :
    ((TriColorShader.make [⟨0, 0⟩, ⟨1, 0⟩, ⟨0, 1⟩]
        [⟨1, 0, 0, 0⟩, ⟨1, 1, 0, 0⟩, ⟨0, 0, 0, 0⟩]).setContext GMatrix.identity).2 =
      { pts := [⟨0, 0⟩, ⟨1, 0⟩, ⟨0, 1⟩],
        colors := [⟨1, 0, 0, 0⟩, ⟨1, 1, 0, 0⟩, ⟨0, 0, 0, 0⟩],
        local_matrix := ⟨1, 0, 0, 0, 1, 0⟩,
        inverse_matrix := ⟨1, 0, 0, 0, 1, 0⟩,
        ctm := GMatrix.identity,
        delta_color := ⟨0, 1, 0, 0⟩ } := by
  norm_num [TriColorShader.make, TriColorShader.setContext, GMatrix.identity,
    GMatrix.Concat, GMatrix.invert, GPoint.sub_def]

theorem outsideTriColor_row :
    ((TriColorShader.make [⟨0, 0⟩, ⟨1, 0⟩, ⟨0, 1⟩]
        [⟨1, 0, 0, 0⟩, ⟨1, 1, 0, 0⟩, ⟨0, 0, 0, 0⟩]).setContext GMatrix.identity).2.shadeRow
        1 0 2 = [GPixel_PackARGB 128 191 0 0, GPixel_PackARGB 128 319 0 0] := by
  rw [outsideTriColor_eq]
  simp only [TriColorShader.shadeRow, TriColorShader.shadeLoop]
  rw [color_to_pixel_eq _ 128 191 0 0
      (by norm_num [TriColorShader.initialColor, GMatrix.mapPoint])
      (by norm_num [TriColorShader.initialColor, GMatrix.mapPoint])
      (by norm_num [TriColorShader.initialColor, GMatrix.mapPoint])
      (by norm_num [TriColorShader.initialColor, GMatrix.mapPoint]),
    color_to_pixel_eq _ 128 319 0 0
      (by norm_num [TriColorShader.initialColor, GMatrix.mapPoint])
      (by norm_num [TriColorShader.initialColor, GMatrix.mapPoint])
      (by norm_num [TriColorShader.initialColor, GMatrix.mapPoint])
      (by norm_num [TriColorShader.initialColor, GMatrix.mapPoint])]

/-! ### `ProxyShader` -/

theorem ProxyShader.matrixS_mapPoint (self : ProxyShader) :
    self.matrixS.mapPoint ⟨0, 0⟩ = self.coords.getD 0 default ∧
      self.matrixS.mapPoint ⟨1, 0⟩ = self.coords.getD 1 default ∧
      self.matrixS.mapPoint ⟨0, 1⟩ = self.coords.getD 2 default := by
  simp only [ProxyShader.matrixS, GMatrix.mapPoint, GPoint.sub_def]
  refine ⟨?_, ?_, ?_⟩
  · cases self.coords.getD 0 default; simp
  · cases self.coords.getD 1 default; simp
  · cases self.coords.getD 2 default; simp

theorem ProxyShader.matrixP_mapPoint (self : ProxyShader) :
    self.matrixP.mapPoint ⟨0, 0⟩ = self.pts.getD 0 default ∧
      self.matrixP.mapPoint ⟨1, 0⟩ = self.pts.getD 1 default ∧
      self.matrixP.mapPoint ⟨0, 1⟩ = self.pts.getD 2 default := by
  simp only [ProxyShader.matrixP, GMatrix.mapPoint, GPoint.sub_def]
  refine ⟨?_, ?_, ?_⟩
  · cases self.pts.getD 0 default; simp
  · cases self.pts.getD 1 default; simp
  · cases self.pts.getD 2 default; simp

theorem ProxyShader.contextMatrix_mapPoint (self : ProxyShader) (ctm : GMatrix)
    (hS : self.matrixS.SX * self.matrixS.SY - self.matrixS.KX * self.matrixS.KY ≠ 0)
    (e : GPoint) :
    (self.contextMatrix ctm).mapPoint (self.matrixS.mapPoint e) =
      ctm.mapPoint (self.matrixP.mapPoint e) := by
  obtain ⟨_, hinv, _⟩ := GMatrix.invert_of_det_ne_zero self.matrixS self.matrixS hS
  unfold ProxyShader.contextMatrix
  simp only
  rw [GMatrix.mapPoint_Concat, GMatrix.mapPoint_Concat, ← GMatrix.mapPoint_Concat _ self.matrixS,
    hinv, GMatrix.mapPoint_identity]

theorem ProxyShader.proxy_setContext_spec (self : ProxyShader) (ctm : GMatrix)
    (hctm : ctm.SX * ctm.SY - ctm.KX * ctm.KY ≠ 0)
    (hS : self.matrixS.SX * self.matrixS.SY - self.matrixS.KX * self.matrixS.KY ≠ 0) :
    self.setContext ctm =
        self.realShader.setContext
          (GMatrix.Concat (GMatrix.Concat ctm self.matrixP)
            (self.matrixS.invert self.matrixS).2) ∧
      GMatrix.Concat (self.matrixS.invert self.matrixS).2 self.matrixS = GMatrix.identity ∧
      GMatrix.Concat self.matrixS (self.matrixS.invert self.matrixS).2 = GMatrix.identity ∧
      ∀ k : Nat, k < 3 →
        (GMatrix.Concat (GMatrix.Concat ctm self.matrixP)
            (self.matrixS.invert self.matrixS).2).mapPoint (self.coords.getD k default) =
          ctm.mapPoint (self.pts.getD k default) := by
  obtain ⟨_, hinv1, hinv2⟩ := GMatrix.invert_of_det_ne_zero self.matrixS self.matrixS hS
  obtain ⟨s0, s1, s2⟩ := ProxyShader.matrixS_mapPoint self
  obtain ⟨p0, p1, p2⟩ := ProxyShader.matrixP_mapPoint self
  refine ⟨?_, hinv1, hinv2, ?_⟩
  · unfold ProxyShader.setContext
    simp only [hctm, if_false]
    rfl
  · intro k hk
    have h := ProxyShader.contextMatrix_mapPoint self ctm hS
    unfold ProxyShader.contextMatrix at h
    simp only at h
    interval_cases k
    · rw [← s0, ← p0]; exact h _
    · rw [← s1, ← p1]; exact h _
    · rw [← s2, ← p2]; exact h _

/-! ### `ComposeShader` -/

theorem modulate_comm (p q : GPixel) : modulate p q = modulate q p := by
  simp only [modulate, Nat.mul_comm]

theorem modulate_white (p : GPixel) (ha : p.a ≤ 255) (hr : p.r ≤ 255) (hg : p.g ≤ 255)
    (hb : p.b ≤ 255) :
    modulate (GPixel_PackARGB 255 255 255 255) p = p ∧
      modulate p (GPixel_PackARGB 255 255 255 255) = p := by
  have h : modulate (GPixel_PackARGB 255 255 255 255) p = p := by
    simp only [modulate, GPixel_GetA, GPixel_GetR, GPixel_GetG, GPixel_GetB, GPixel_PackARGB,
      Div255_mul_255 _ ha, Div255_mul_255 _ hr, Div255_mul_255 _ hg, Div255_mul_255 _ hb]
  exact ⟨h, by rw [modulate_comm]; exact h⟩

theorem ComposeShader.compose_shadeRow_getD (colorRow gradientRow : Int → Int → Nat → List GPixel)
    (x y : Int) (count i : Nat) (hi : i < count) (d : GPixel) :
    (ComposeShader.shadeRow colorRow gradientRow x y count).getD i d =
      modulate ((colorRow x y count).getD i (GPixel_PackARGB 0 0 0 0))
        ((gradientRow x y count).getD i (GPixel_PackARGB 0 0 0 0)) := by
  unfold ComposeShader.shadeRow
  simp only
  rw [List.getD_eq_getElem?_getD, List.getElem?_map, List.getElem?_range hi]
  rfl

theorem ComposeShader.compose_shadeRow_comm (colorRow gradientRow : Int → Int → Nat → List GPixel)
    (x y : Int) (count : Nat) :
    ComposeShader.shadeRow colorRow gradientRow x y count =
      ComposeShader.shadeRow gradientRow colorRow x y count := by
  unfold ComposeShader.shadeRow
  simp only [modulate_comm]

theorem ComposeShader.compose_shadeRow_length (colorRow gradientRow : Int → Int → Nat → List GPixel)
    (x y : Int) (count : Nat) :
    (ComposeShader.shadeRow colorRow gradientRow x y count).length = count := by
  simp [ComposeShader.shadeRow]

theorem TriColorShader.setContext_colors (self : TriColorShader) (ctm : GMatrix) :
    (self.setContext ctm).2.colors = self.colors := by
  unfold TriColorShader.setContext
  by_cases h : ctm.SX * ctm.SY - ctm.KX * ctm.KY = 0
  · simp [h]
  · simp [h]

theorem TriColorShader.triColor_shadeRow_spec (self : TriColorShader) (ctm : GMatrix)
    (hctx : (self.setContext ctm).1 = true) (x y : Int) (count i : Nat) (hi : i < count) :
    ((self.setContext ctm).2.shadeRow x y count).getD i (GPixel_PackARGB 0 0 0 0) =
        color_to_pixel ((self.setContext ctm).2.barycentric
          ((self.setContext ctm).2.inverse_matrix.mapPoint
            ⟨(x : ℚ) + (i : ℚ) + 1 / 2, (y : ℚ) + 1 / 2⟩)) ∧
      ((self.colors.getD 0 default).unit → (self.colors.getD 1 default).unit →
        (self.colors.getD 2 default).unit →
        0 ≤ ((self.setContext ctm).2.inverse_matrix.mapPoint
            ⟨(x : ℚ) + (i : ℚ) + 1 / 2, (y : ℚ) + 1 / 2⟩).fX →
        0 ≤ ((self.setContext ctm).2.inverse_matrix.mapPoint
            ⟨(x : ℚ) + (i : ℚ) + 1 / 2, (y : ℚ) + 1 / 2⟩).fY →
        ((self.setContext ctm).2.inverse_matrix.mapPoint
            ⟨(x : ℚ) + (i : ℚ) + 1 / 2, (y : ℚ) + 1 / 2⟩).fX +
          ((self.setContext ctm).2.inverse_matrix.mapPoint
            ⟨(x : ℚ) + (i : ℚ) + 1 / 2, (y : ℚ) + 1 / 2⟩).fY ≤ 1 →
        (((self.setContext ctm).2.shadeRow x y count).getD i
          (GPixel_PackARGB 0 0 0 0)).premul) := by
  have h := TriColorShader.triColor_shadeRow_getD self ctm hctx x y count i hi
    (GPixel_PackARGB 0 0 0 0)
  refine ⟨h, ?_⟩
  intro h0 h1 h2 hx hy hxy
  rw [h]
  apply color_to_pixel_premul_of_unit
  apply TriColorShader.barycentric_unit
  · rw [TriColorShader.setContext_colors]; exact h0
  · rw [TriColorShader.setContext_colors]; exact h1
  · rw [TriColorShader.setContext_colors]; exact h2
  · exact hx
  · exact hy
  · exact hxy

theorem mirrorGradient_claimed :
    (CanvasGradient.inverseMatrix
        ((CanvasGradient.make ⟨0, 0⟩ ⟨4, 0⟩ [⟨1, 1, 0, 0⟩, ⟨1, 0, 0, 1⟩] 2
          TileMode.kMirror).setContext GMatrix.identity).2).mapPoint
        ⟨((2 : Int) : ℚ) + 1 / 2, ((0 : Int) : ℚ) + 1 / 2⟩ = ⟨5 / 8, 1 / 8⟩ ∧
      (CanvasGradient.inverseMatrix
        ((CanvasGradient.make ⟨0, 0⟩ ⟨4, 0⟩ [⟨1, 1, 0, 0⟩, ⟨1, 0, 0, 1⟩] 2
          TileMode.kMirror).setContext GMatrix.identity).2).mapPoint
        ⟨((3 : Int) : ℚ) + 1 / 2, ((0 : Int) : ℚ) + 1 / 2⟩ = ⟨7 / 8, 1 / 8⟩ ∧
      color_to_pixel (CanvasGradient.mixColors (1 - 5 / 8) (5 / 8) ⟨1, 1, 0, 0⟩ ⟨1, 0, 0, 1⟩) =
        GPixel_PackARGB 255 96 0 159 ∧
      color_to_pixel (CanvasGradient.mixColors (1 - 7 / 8) (7 / 8) ⟨1, 1, 0, 0⟩ ⟨1, 0, 0, 1⟩) =
        GPixel_PackARGB 255 32 0 223 := by
  rw [mirrorGradient_eq, mirrorGradient_inverseMatrix]
  refine ⟨?_, ?_, ?_, ?_⟩
  · norm_num [GMatrix.mapPoint]
  · norm_num [GMatrix.mapPoint]
  · exact color_to_pixel_eq _ 255 96 0 159
      (by norm_num [CanvasGradient.mixColors]) (by norm_num [CanvasGradient.mixColors])
      (by norm_num [CanvasGradient.mixColors]) (by norm_num [CanvasGradient.mixColors])
  · exact color_to_pixel_eq _ 255 32 0 223
      (by norm_num [CanvasGradient.mixColors]) (by norm_num [CanvasGradient.mixColors])
      (by norm_num [CanvasGradient.mixColors]) (by norm_num [CanvasGradient.mixColors])

/-! # The claims: edges, circles and shaders -/

/-- C21: for every centre `c`, radius `r ≥ 0` and direction, `addCircle` (over the reals,
with the constants `tan(π/8)` and `sqrt(2) * 0.5` of the source) appends exactly one `kMove`
followed by eight `kQuad` verbs and 17 points; the first and the last of these points are
`c + (r, 0)`, and each of the nine on-curve points (the even positions) is at Euclidean
distance exactly `r` from `c`. -/
theorem addCircle_closed_contour (self : GPathOver ℝ) (c : GPointOver ℝ) (r : ℝ)
    (hr : 0 ≤ r) (direction : Direction) :
    ∃ pts : List (GPointOver ℝ),
      (self.addCircle c r direction (Real.tan (Real.pi / 8)) (Real.sqrt 2 * (1 / 2))).fVerbs =
          self.fVerbs ++ GPathVerb.kMove :: List.replicate 8 GPathVerb.kQuad ∧
      (self.addCircle c r direction (Real.tan (Real.pi / 8)) (Real.sqrt 2 * (1 / 2))).fPts =
          self.fPts ++ pts ∧
      pts.length = 17 ∧
      pts.head? = some ⟨c.fX + r, c.fY⟩ ∧
      pts.getLast? = some ⟨c.fX + r, c.fY⟩ ∧
      ∀ k : Nat, k ≤ 8 → ∃ p : GPointOver ℝ, pts.get? (2 * k) = some p ∧
        Real.sqrt ((p.fX - c.fX) ^ 2 + (p.fY - c.fY) ^ 2) = r :=
  addCircle_spec self c r hr direction

/-- Witness of C21: the counter-clockwise circle of radius 2 around (4, 4), appended to
the empty path. -/
theorem addCircle_closed_contour_witness :
    (0 : ℝ) ≤ 2 ∧
    ∃ pts : List (GPointOver ℝ),
      ((⟨[], []⟩ : GPathOver ℝ).addCircle ⟨4, 4⟩ 2 Direction.kCCW_Direction
          (Real.tan (Real.pi / 8)) (Real.sqrt 2 * (1 / 2))).fVerbs =
          [] ++ GPathVerb.kMove :: List.replicate 8 GPathVerb.kQuad ∧
      ((⟨[], []⟩ : GPathOver ℝ).addCircle ⟨4, 4⟩ 2 Direction.kCCW_Direction
          (Real.tan (Real.pi / 8)) (Real.sqrt 2 * (1 / 2))).fPts = [] ++ pts ∧
      pts.length = 17 ∧
      pts.head? = some ⟨4 + 2, 4⟩ ∧
      pts.getLast? = some ⟨4 + 2, 4⟩ ∧
      ∀ k : Nat, k ≤ 8 → ∃ p : GPointOver ℝ, pts.get? (2 * k) = some p ∧
        Real.sqrt ((p.fX - 4) ^ 2 + (p.fY - 4) ^ 2) = 2 :=
  ⟨by norm_num,
    addCircle_closed_contour ⟨[], []⟩ ⟨4, 4⟩ 2 (by norm_num) Direction.kCCW_Direction⟩

/-- C22: for every polyline, every bitmap of width and height at least 1 and either value
of `connect_end`, each edge that `find_edges` appends (to the empty vector) satisfies
`0 ≤ min_y < max_y ≤ height` and `0 ≤ x ≤ width`: the three assertions of the constructor
of `Edge` hold for it. -/
theorem find_edges_edges_pass_assertions (pts : List GPoint) (count : Nat)
    (bit_map : GBitmap) (connect_end : Bool)
    (hW : 1 ≤ bit_map.width) (hH : 1 ≤ bit_map.height) :
    ∀ e ∈ find_edges [] pts count bit_map connect_end,
      (0 ≤ e.min_y ∧ e.min_y < e.max_y ∧ e.max_y ≤ bit_map.height) ∧
        (0 ≤ e.x ∧ e.x ≤ (bit_map.width : ℚ)) := by
  intro e he
  obtain ⟨h1, ⟨h2, h3⟩, h4⟩ := find_edges_asserts pts count bit_map connect_end
    (by omega) (by omega) [] (by simp) e he
  exact ⟨⟨h2, h1, h3⟩, h4⟩

/-- Witness of C22: the rectangle (1,1)-(4,4) on the cleared 8x8 bitmap gives the two
vertical edges at `x = 4` and `x = 1`, both within the bitmap. -/
theorem find_edges_edges_pass_assertions_witness :
    find_edges []
        [⟨((1 : Int) : ℚ), ((1 : Int) : ℚ)⟩, ⟨((4 : Int) : ℚ), ((1 : Int) : ℚ)⟩,
         ⟨((4 : Int) : ℚ), ((4 : Int) : ℚ)⟩, ⟨((1 : Int) : ℚ), ((4 : Int) : ℚ)⟩] 4
        (GBitmap.cleared 8 8) true =
      [{ min_y := 1, max_y := 4, w := 1, m := 0, x := ((4 : Int) : ℚ) },
       { min_y := 1, max_y := 4, w := -1, m := 0, x := ((1 : Int) : ℚ) }] ∧
    ∀ e ∈ find_edges []
        [⟨((1 : Int) : ℚ), ((1 : Int) : ℚ)⟩, ⟨((4 : Int) : ℚ), ((1 : Int) : ℚ)⟩,
         ⟨((4 : Int) : ℚ), ((4 : Int) : ℚ)⟩, ⟨((1 : Int) : ℚ), ((4 : Int) : ℚ)⟩] 4
        (GBitmap.cleared 8 8) true,
      (0 ≤ e.min_y ∧ e.min_y < e.max_y ∧ e.max_y ≤ (GBitmap.cleared 8 8).height) ∧
        (0 ≤ e.x ∧ e.x ≤ ((GBitmap.cleared 8 8).width : ℚ)) :=
  ⟨find_edges_rect (GBitmap.cleared 8 8) 1 1 4 4 (by decide) (by decide) (by decide)
      (by decide) (by decide) (by decide),
   find_edges_edges_pass_assertions _ 4 (GBitmap.cleared 8 8) true (by decide) (by decide)⟩

/-- C23: `sortEdges(e1, e2)` holds exactly when the key `(min_y, x, m)` of `e1` is
strictly smaller than the key of `e2` in lexicographic order; so `sortEdges` is
irreflexive, asymmetric and transitive, and its incomparability (neither edge before the
other, which is equality of the keys) is transitive: a strict weak ordering. -/
theorem sortEdges_strict_weak_order :
    (∀ e1 e2 : Edge, sortEdges e1 e2 = true ↔
      (e1.min_y < e2.min_y ∨
        (e1.min_y = e2.min_y ∧ (e1.x < e2.x ∨ (e1.x = e2.x ∧ e1.m < e2.m))))) ∧
    (∀ e1 e2 : Edge, sortEdges e1 e2 = true ↔
      toLex (e1.min_y, toLex (e1.x, e1.m)) < toLex (e2.min_y, toLex (e2.x, e2.m))) ∧
    (∀ e : Edge, sortEdges e e = false) ∧
    (∀ e1 e2 : Edge, sortEdges e1 e2 = true → sortEdges e2 e1 = false) ∧
    (∀ e1 e2 e3 : Edge, sortEdges e1 e2 = true → sortEdges e2 e3 = true →
      sortEdges e1 e3 = true) ∧
    (∀ e1 e2 e3 : Edge, (sortEdges e1 e2 = false ∧ sortEdges e2 e1 = false) →
      (sortEdges e2 e3 = false ∧ sortEdges e3 e2 = false) →
      (sortEdges e1 e3 = false ∧ sortEdges e3 e1 = false)) := by
  refine ⟨sortEdges_iff, sortEdges_iff_lex, ?_, ?_, ?_, ?_⟩
  · intro e
    rw [← Bool.not_eq_true, sortEdges_iff_lex]
    exact lt_irrefl _
  · intro e1 e2 h
    rw [← Bool.not_eq_true, sortEdges_iff_lex]
    rw [sortEdges_iff_lex] at h
    exact not_lt.mpr h.le
  · intro e1 e2 e3 h1 h2
    rw [sortEdges_iff_lex] at h1 h2 ⊢
    exact lt_trans h1 h2
  · intro e1 e2 e3 h1 h2
    rw [sortEdges_incomparable_iff] at h1 h2 ⊢
    obtain ⟨a1, a2, a3⟩ := h1
    obtain ⟨b1, b2, b3⟩ := h2
    exact ⟨a1.trans b1, a2.trans b2, a3.trans b3⟩

/-- Witness of C23: three edges with the keys `(0, 0, 0) < (0, 0, 1) < (0, 1, 0)`: the
first is before the second by the slope, the second before the third by `x`, hence the
first before the third, and not the other way round. -/
theorem sortEdges_strict_weak_order_witness :
    sortEdges ⟨0, 1, 1, 0, 0⟩ ⟨0, 1, 1, 1, 0⟩ = true ∧
      sortEdges ⟨0, 1, 1, 1, 0⟩ ⟨0, 2, 1, 0, 1⟩ = true ∧
      sortEdges ⟨0, 1, 1, 0, 0⟩ ⟨0, 2, 1, 0, 1⟩ = true ∧
      sortEdges ⟨0, 2, 1, 0, 1⟩ ⟨0, 1, 1, 0, 0⟩ = false := by
  have h := sortEdges_strict_weak_order
  have h12 : sortEdges ⟨0, 1, 1, 0, 0⟩ ⟨0, 1, 1, 1, 0⟩ = true := (h.1 _ _).mpr (by norm_num)
  have h23 : sortEdges ⟨0, 1, 1, 1, 0⟩ ⟨0, 2, 1, 0, 1⟩ = true := (h.1 _ _).mpr (by norm_num)
  have h13 := h.2.2.2.2.1 _ _ _ h12 h23
  exact ⟨h12, h23, h13, h.2.2.2.1 _ _ h13⟩

/-- C24: `setContext` does not test the effective transform.  With the identity as CTM it
returns true for a gradient whose two end points coincide, for a tri-colour shader whose
three points coincide and for a bitmap shader whose local matrix is `Scale(0, 0)`, although
in each case the effective transform `CTM * local_matrix` has determinant 0 and `invert`,
whose result the shaders do not look at, returns false for it.  All values are whole
numbers, so exact and `float` arithmetic agree here. -/
theorem setContext_true_for_singular_local_matrix :
    (((CanvasGradient.make ⟨0, 0⟩ ⟨0, 0⟩ [⟨1, 1, 0, 0⟩, ⟨1, 0, 0, 1⟩] 2
          TileMode.kClamp).setContext GMatrix.identity).1 = true ∧
      ((GMatrix.Concat GMatrix.identity
          (CanvasGradient.make ⟨0, 0⟩ ⟨0, 0⟩ [⟨1, 1, 0, 0⟩, ⟨1, 0, 0, 1⟩] 2
            TileMode.kClamp).local_matrix).invert GMatrix.identity).1 = false) ∧
    (((TriColorShader.make [⟨0, 0⟩, ⟨0, 0⟩, ⟨0, 0⟩]
          [⟨1, 1, 0, 0⟩, ⟨1, 0, 1, 0⟩, ⟨1, 0, 0, 1⟩]).setContext GMatrix.identity).1 = true ∧
      ((GMatrix.Concat GMatrix.identity
          (TriColorShader.make [⟨0, 0⟩, ⟨0, 0⟩, ⟨0, 0⟩]
            [⟨1, 1, 0, 0⟩, ⟨1, 0, 1, 0⟩, ⟨1, 0, 0, 1⟩]).local_matrix).invert
          GMatrix.identity).1 = false) ∧
    (((CanvasShader.make (GBitmap.cleared 2 2) (GMatrix.Scale 0 0)
          TileMode.kClamp).setContext GMatrix.identity).1 = true ∧
      ((GMatrix.Concat GMatrix.identity
          (CanvasShader.make (GBitmap.cleared 2 2) (GMatrix.Scale 0 0)
            TileMode.kClamp).local_matrix).invert GMatrix.identity).1 = false) := by
  refine ⟨⟨?_, ?_⟩, ⟨?_, ?_⟩, ⟨?_, ?_⟩⟩
  · rw [CanvasGradient.gradient_setContext_iff]; norm_num [GMatrix.identity]
  · rw [← Bool.not_eq_true, GMatrix.invert_Concat_fst_iff]
    norm_num [CanvasGradient.make]
  · rw [TriColorShader.triColor_setContext_iff]; norm_num [GMatrix.identity]
  · rw [← Bool.not_eq_true, GMatrix.invert_Concat_fst_iff]
    norm_num [TriColorShader.make, GPoint.sub_def]
  · rw [CanvasShader.bitmap_setContext_iff]; norm_num [GMatrix.identity]
  · rw [← Bool.not_eq_true, GMatrix.invert_Concat_fst_iff]
    norm_num [CanvasShader.make, GMatrix.Scale]

/-- C25 (defect in the code): in mirror mode a parameter `t` in `[1/2, 1)` is replaced by
`1 - t`, because `mirror` of `CanvasGradient.cpp` tests the parity of `GRoundToInt(x)`
after `x` was reduced to its fractional part.  For the gradient from red at (0,0) to blue
at (4,0), `setContext(identity)` and the row `x = 0..3`, `y = 0`, the parameters are `1/8,
3/8, 5/8, 7/8`; the code emits the pixels of `1/8, 3/8, 3/8, 1/8`, whereas the mix of
`colors[0]` and `colors[1]` by `(1 - t, t)` is (255, 96, 0, 159) at `t = 5/8` and
(255, 32, 0, 223) at `t = 7/8`. -/
theorem gradient_mirror_folds_upper_half (oob : Int → GColor) :
    ((CanvasGradient.make ⟨0, 0⟩ ⟨4, 0⟩ [⟨1, 1, 0, 0⟩, ⟨1, 0, 0, 1⟩] 2
        TileMode.kMirror).setContext GMatrix.identity).2.shadeRow oob 0 0 4 =
      [GPixel_PackARGB 255 223 0 32, GPixel_PackARGB 255 159 0 96,
       GPixel_PackARGB 255 159 0 96, GPixel_PackARGB 255 223 0 32] ∧
    (CanvasGradient.inverseMatrix
        ((CanvasGradient.make ⟨0, 0⟩ ⟨4, 0⟩ [⟨1, 1, 0, 0⟩, ⟨1, 0, 0, 1⟩] 2
          TileMode.kMirror).setContext GMatrix.identity).2).mapPoint
        ⟨((2 : Int) : ℚ) + 1 / 2, ((0 : Int) : ℚ) + 1 / 2⟩ = ⟨5 / 8, 1 / 8⟩ ∧
    (CanvasGradient.inverseMatrix
        ((CanvasGradient.make ⟨0, 0⟩ ⟨4, 0⟩ [⟨1, 1, 0, 0⟩, ⟨1, 0, 0, 1⟩] 2
          TileMode.kMirror).setContext GMatrix.identity).2).mapPoint
        ⟨((3 : Int) : ℚ) + 1 / 2, ((0 : Int) : ℚ) + 1 / 2⟩ = ⟨7 / 8, 1 / 8⟩ ∧
    color_to_pixel (CanvasGradient.mixColors (1 - 5 / 8) (5 / 8) ⟨1, 1, 0, 0⟩ ⟨1, 0, 0, 1⟩) =
      GPixel_PackARGB 255 96 0 159 ∧
    color_to_pixel (CanvasGradient.mixColors (1 - 7 / 8) (7 / 8) ⟨1, 1, 0, 0⟩ ⟨1, 0, 0, 1⟩) =
      GPixel_PackARGB 255 32 0 223 :=
  ⟨mirrorGradient_row oob, mirrorGradient_claimed⟩

/-- C26 (defect in the code): for a gradient of one colour `c`, whatever the end points,
the tile mode, the CTM and the row, every pixel is `color_to_pixel` of
`mixColors(1, 0, colors[0], colors[1])`, where `colors[1]` is read past the end of the
array of one element (here the unspecified value `oob 1`); under checked array accesses
the body of the loop faults at every pixel.  In exact arithmetic the factor 0 removes the
foreign value and the pixel is `color_to_pixel(c)`. -/
theorem gradient_single_colour_reads_past_array (p0 p1 : GPoint) (c : GColor)
    (mode : TileMode) (ctm : GMatrix) (oob : Int → GColor) (x y : Int) (count : Nat) :
    ((CanvasGradient.make p0 p1 [c] 1 mode).setContext ctm).2.shadeRow oob x y count =
        List.replicate count (color_to_pixel (CanvasGradient.mixColors 1 0 c (oob 1))) ∧
      (∀ fx fy : ℚ,
        ((CanvasGradient.make p0 p1 [c] 1 mode).setContext ctm).2.shadePixelChecked
          ((CanvasGradient.make p0 p1 [c] 1 mode).setContext ctm).2.inverseMatrix fx fy =
          none) ∧
      color_to_pixel (CanvasGradient.mixColors 1 0 c (oob 1)) = color_to_pixel c :=
  gradient_single_colour p0 p1 c mode ctm oob x y count

/-- C27 (defect in the code): `isOpaque` only looks for an alpha equal to 0.  The
gradient from (0,0) to (1,0) with the colours (0.5, 1, 0, 0) and (0.5, 0, 0, 1) answers
true and shades pixel (0, 0) with alpha 128; the tri-colour shader on (0,0), (4,0), (0,4)
with three colours of alpha 0.5 answers true and shades pixel (1, 1) with alpha 128. -/
theorem isOpaque_true_for_translucent_colours (oob : Int → GColor) :
    ((CanvasGradient.make ⟨0, 0⟩ ⟨1, 0⟩ [⟨1 / 2, 1, 0, 0⟩, ⟨1 / 2, 0, 0, 1⟩] 2
        TileMode.kClamp).isOpaque = true ∧
      ((CanvasGradient.make ⟨0, 0⟩ ⟨1, 0⟩ [⟨1 / 2, 1, 0, 0⟩, ⟨1 / 2, 0, 0, 1⟩] 2
        TileMode.kClamp).setContext GMatrix.identity).2.isOpaque = true ∧
      ((CanvasGradient.make ⟨0, 0⟩ ⟨1, 0⟩ [⟨1 / 2, 1, 0, 0⟩, ⟨1 / 2, 0, 0, 1⟩] 2
        TileMode.kClamp).setContext GMatrix.identity).2.shadeRow oob 0 0 1 =
        [GPixel_PackARGB 128 64 0 64]) ∧
    ((TriColorShader.make [⟨0, 0⟩, ⟨4, 0⟩, ⟨0, 4⟩]
        [⟨1 / 2, 1, 0, 0⟩, ⟨1 / 2, 0, 1, 0⟩, ⟨1 / 2, 0, 0, 1⟩]).isOpaque = true ∧
      ((TriColorShader.make [⟨0, 0⟩, ⟨4, 0⟩, ⟨0, 4⟩]
        [⟨1 / 2, 1, 0, 0⟩, ⟨1 / 2, 0, 1, 0⟩, ⟨1 / 2, 0, 0, 1⟩]).setContext
          GMatrix.identity).2.isOpaque = true ∧
      ((TriColorShader.make [⟨0, 0⟩, ⟨4, 0⟩, ⟨0, 4⟩]
        [⟨1 / 2, 1, 0, 0⟩, ⟨1 / 2, 0, 1, 0⟩, ⟨1 / 2, 0, 0, 1⟩]).setContext
          GMatrix.identity).2.shadeRow 1 1 1 = [GPixel_PackARGB 128 32 48 48]) :=
  ⟨halfGradient_row oob, halfTriColor_row⟩

/-- C28: `TriColorShader::shadeRow` clamps nothing and hands `GPixel_PackARGB` arguments
outside its contract.  For the tri-colour shader on (0,0), (1,0), (0,1) with the vertex
colours (1, 0, 0, 0), (1, 1, 0, 0), (0, 0, 0, 0), all in `[0, 1]`, after
`setContext(identity)`, the pixels `x = 1, 2` of row 0 lie outside the triangle; the
interpolated colours are (A, R) = (1/2, 3/2) and (1/2, 5/2), and the calls are
`GPixel_PackARGB(128, 191, 0, 0)` and `GPixel_PackARGB(128, 319, 0, 0)`: red exceeds alpha,
and then 255.  All values are multiples of 1/4 below 512, exact in `float`. -/
theorem triColor_row_not_clamped :
    ((TriColorShader.make [⟨0, 0⟩, ⟨1, 0⟩, ⟨0, 1⟩]
        [⟨1, 0, 0, 0⟩, ⟨1, 1, 0, 0⟩, ⟨0, 0, 0, 0⟩]).setContext GMatrix.identity).1 = true ∧
    ((TriColorShader.make [⟨0, 0⟩, ⟨1, 0⟩, ⟨0, 1⟩]
        [⟨1, 0, 0, 0⟩, ⟨1, 1, 0, 0⟩, ⟨0, 0, 0, 0⟩]).setContext GMatrix.identity).2.shadeRow
        1 0 2 = [GPixel_PackARGB 128 191 0 0, GPixel_PackARGB 128 319 0 0] ∧
    ¬ (GPixel_PackARGB 128 191 0 0).premul ∧ ¬ (GPixel_PackARGB 128 319 0 0).premul :=
  ⟨(TriColorShader.triColor_setContext_iff _ _).mpr (by norm_num [GMatrix.identity]),
    outsideTriColor_row, by decide, by decide⟩

/-- C29: for a CTM with nonzero determinant and texture coordinates whose matrix `S` has a
nonzero determinant, `ProxyShader::setContext` returns what the real shader's `setContext`
returns for `M = CTM * P * S'`, where `S'` is the matrix `invert` computes from `S` and is
the inverse of `S` on both sides; and `M * coords[k] = CTM * pts[k]` for `k = 0, 1, 2`. -/
theorem proxy_setContext_maps_coords_to_pts (self : ProxyShader) (ctm : GMatrix)
    (hctm : ctm.SX * ctm.SY - ctm.KX * ctm.KY ≠ 0)
    (hS : self.matrixS.SX * self.matrixS.SY - self.matrixS.KX * self.matrixS.KY ≠ 0) :
    self.setContext ctm =
        self.realShader.setContext
          (GMatrix.Concat (GMatrix.Concat ctm self.matrixP)
            (self.matrixS.invert self.matrixS).2) ∧
      GMatrix.Concat (self.matrixS.invert self.matrixS).2 self.matrixS = GMatrix.identity ∧
      GMatrix.Concat self.matrixS (self.matrixS.invert self.matrixS).2 = GMatrix.identity ∧
      ∀ k : Nat, k < 3 →
        (GMatrix.Concat (GMatrix.Concat ctm self.matrixP)
            (self.matrixS.invert self.matrixS).2).mapPoint (self.coords.getD k default) =
          ctm.mapPoint (self.pts.getD k default) :=
  ProxyShader.proxy_setContext_spec self ctm hctm hS

/-- Witness of C29: the triangle (1,1), (5,1), (1,5) with the texture coordinates (0,0),
(2,0), (0,2) under the CTM `Scale(2, 2)`: the matrix handed to the real shader maps the
texture point (2, 0) to `CTM * (5, 1) = (10, 2)`. -/
theorem proxy_setContext_maps_coords_to_pts_witness :
    (GMatrix.Concat
        (GMatrix.Concat (GMatrix.Scale 2 2)
          (ProxyShader.matrixP
            { realShader := ⟨true, fun _ => none⟩, pts := [⟨1, 1⟩, ⟨5, 1⟩, ⟨1, 5⟩],
              coords := [⟨0, 0⟩, ⟨2, 0⟩, ⟨0, 2⟩] }))
        ((ProxyShader.matrixS
            { realShader := ⟨true, fun _ => none⟩, pts := [⟨1, 1⟩, ⟨5, 1⟩, ⟨1, 5⟩],
              coords := [⟨0, 0⟩, ⟨2, 0⟩, ⟨0, 2⟩] }).invert
          (ProxyShader.matrixS
            { realShader := ⟨true, fun _ => none⟩, pts := [⟨1, 1⟩, ⟨5, 1⟩, ⟨1, 5⟩],
              coords := [⟨0, 0⟩, ⟨2, 0⟩, ⟨0, 2⟩] })).2).mapPoint ⟨2, 0⟩ =
      ⟨10, 2⟩ := by
  have h := (proxy_setContext_maps_coords_to_pts
    { realShader := ⟨true, fun _ => none⟩, pts := [⟨1, 1⟩, ⟨5, 1⟩, ⟨1, 5⟩],
      coords := [⟨0, 0⟩, ⟨2, 0⟩, ⟨0, 2⟩] } (GMatrix.Scale 2 2)
    (by norm_num [GMatrix.Scale])
    (by norm_num [ProxyShader.matrixS, GPoint.sub_def])).2.2.2 1 (by decide)
  refine h.trans ?_
  norm_num [GMatrix.mapPoint, GMatrix.Scale]

/-- C30: at each index `i < count`, `ComposeShader::shadeRow` emits the pixel whose
channels are `Div255(a[i].ch * b[i].ch)` for the rows `a`, `b` of the two sub-shaders; the
row is the same when the two sub-shaders are exchanged; and modulating a pixel of 8-bit
channels with opaque white (255, 255, 255, 255), on either side, gives the pixel back. -/
theorem compose_shadeRow_modulates (colorRow gradientRow : Int → Int → Nat → List GPixel)
    (x y : Int) (count i : Nat) (hi : i < count) :
    (ComposeShader.shadeRow colorRow gradientRow x y count).getD i (GPixel_PackARGB 0 0 0 0) =
        GPixel_PackARGB
          (Div255 (((colorRow x y count).getD i (GPixel_PackARGB 0 0 0 0)).a *
            ((gradientRow x y count).getD i (GPixel_PackARGB 0 0 0 0)).a))
          (Div255 (((colorRow x y count).getD i (GPixel_PackARGB 0 0 0 0)).r *
            ((gradientRow x y count).getD i (GPixel_PackARGB 0 0 0 0)).r))
          (Div255 (((colorRow x y count).getD i (GPixel_PackARGB 0 0 0 0)).g *
            ((gradientRow x y count).getD i (GPixel_PackARGB 0 0 0 0)).g))
          (Div255 (((colorRow x y count).getD i (GPixel_PackARGB 0 0 0 0)).b *
            ((gradientRow x y count).getD i (GPixel_PackARGB 0 0 0 0)).b)) ∧
      ComposeShader.shadeRow colorRow gradientRow x y count =
        ComposeShader.shadeRow gradientRow colorRow x y count ∧
      (ComposeShader.shadeRow colorRow gradientRow x y count).length = count ∧
      ∀ p : GPixel, p.a ≤ 255 → p.r ≤ 255 → p.g ≤ 255 → p.b ≤ 255 →
        modulate (GPixel_PackARGB 255 255 255 255) p = p ∧
          modulate p (GPixel_PackARGB 255 255 255 255) = p :=
  ⟨ComposeShader.compose_shadeRow_getD colorRow gradientRow x y count i hi _,
    ComposeShader.compose_shadeRow_comm colorRow gradientRow x y count,
    ComposeShader.compose_shadeRow_length colorRow gradientRow x y count,
    fun p ha hr hg hb => modulate_white p ha hr hg hb⟩

/-- Witness of C30: a row of opaque white modulated with a row of (128, 64, 0, 64) is the
second row again, here at index 1 of 2. -/
theorem compose_shadeRow_modulates_witness :
    (ComposeShader.shadeRow (fun _ _ n => List.replicate n (GPixel_PackARGB 255 255 255 255))
        (fun _ _ n => List.replicate n (GPixel_PackARGB 128 64 0 64)) 0 0 2).getD 1
        (GPixel_PackARGB 0 0 0 0) = GPixel_PackARGB 128 64 0 64 := by
  have h := (compose_shadeRow_modulates
    (fun _ _ n => List.replicate n (GPixel_PackARGB 255 255 255 255))
    (fun _ _ n => List.replicate n (GPixel_PackARGB 128 64 0 64)) 0 0 2 1 (by decide)).1
  rw [h]
  decide

/-! # Meshes, the scanline loop, blending and the bitmap shader -/

/-! ## The bitmap shader -/

theorem floor_eq_of_bounds (q : ℚ) (k : Int) (h0 : (k : ℚ) ≤ q) (h1 : q < k + 1) : ⌊q⌋ = k := by
  rw [Int.floor_eq_iff]
  exact ⟨h0, h1⟩

theorem ceil_eq_of_bounds (q : ℚ) (k : Int) (h0 : (k : ℚ) - 1 < q) (h1 : q ≤ k) : ⌈q⌉ = k := by
  rw [Int.ceil_eq_iff]
  exact ⟨h0, h1⟩

namespace CanvasShader

theorem mirror_of_unit (c d : ℚ) (hd : 0 < d) (h0 : 0 ≤ c) (h1 : c < d) :
    mirror c (1 / d) d = c := by
  have ht0 : 0 ≤ c * (1 / d) := mul_nonneg h0 (by positivity)
  have ht1 : c * (1 / d) < 1 := by
    rw [mul_one_div, div_lt_one hd]
    exact h1
  have hf : ⌊c * (1 / d)⌋ = 0 := floor_eq_of_bounds _ 0 (by simpa using ht0) (by simpa using ht1)
  have htr : truncToInt (c * (1 / d)) = 0 := by
    simp only [truncToInt, ht0, if_true, hf]
  simp only [mirror, htr, hf, Int.cast_zero, sub_zero]
  rw [if_neg (by decide)]
  field_simp

theorem mirror_eval_one : mirror 1 (1 / 4) 4 = 1 := by
  have := mirror_of_unit 1 4 (by norm_num) (by norm_num) (by norm_num)
  exact this

theorem mirror_eval_neg_one : mirror (-1) (1 / 4) 4 = 3 := by
  have hc : ((-1 : ℚ) * (1 / 4)) = -1 / 4 := by norm_num
  have htr : truncToInt (-1 / 4 : ℚ) = 0 := by
    have : ¬ (0 : ℚ) ≤ -1 / 4 := by norm_num
    simp only [truncToInt, this, if_false]
    exact ceil_eq_of_bounds _ 0 (by norm_num) (by norm_num)
  have hf1 : ⌊(-1 / 4 : ℚ)⌋ = -1 := floor_eq_of_bounds _ (-1) (by norm_num) (by norm_num)
  have hf2 : ⌊(-1 / 4 : ℚ) - ((-1 : Int) : ℚ)⌋ = 0 :=
    floor_eq_of_bounds _ 0 (by norm_num) (by norm_num)
  simp only [mirror, hc, htr, hf1, hf2]
  rw [if_neg (by decide)]
  norm_num

theorem mirror_eval_seven : mirror (-1 + 2 * 4) (1 / 4) 4 = 1 := by
  have hc : ((-1 + 2 * 4 : ℚ) * (1 / 4)) = 7 / 4 := by norm_num
  have htr : truncToInt (7 / 4 : ℚ) = 1 := by
    have : (0 : ℚ) ≤ 7 / 4 := by norm_num
    simp only [truncToInt, this, if_true]
    exact floor_eq_of_bounds _ 1 (by norm_num) (by norm_num)
  have hf1 : ⌊(7 / 4 : ℚ)⌋ = 1 := floor_eq_of_bounds _ 1 (by norm_num) (by norm_num)
  have hf2 : ⌊(7 / 4 : ℚ) - ((1 : Int) : ℚ)⌋ = 0 :=
    floor_eq_of_bounds _ 0 (by norm_num) (by norm_num)
  simp only [mirror, hc, htr, hf1, hf2]
  rw [if_pos (by decide)]
  norm_num

end CanvasShader

/-! ## The Porter-Duff operators keep pixels premultiplied -/

theorem Div255_le_of_le_mul (p u : Nat) (hu : u ≤ 255) (hp : p ≤ 255 * u) : Div255 p ≤ u := by
  rw [Div255_eq_div]; omega

theorem Div255_mono {x y : Nat} (h : x ≤ y) : Div255 x ≤ Div255 y := by
  rw [Div255_eq_div, Div255_eq_div]; omega

theorem blendOp_premul (mode : GBlendMode) (src dst : GPixel) (hs : src.premul)
    (hd : dst.premul) : (blendOp mode src dst).premul := by
  obtain ⟨sa, sr, sg, sb⟩ := src
  obtain ⟨da, dr, dg, db⟩ := dst
  simp only [GPixel.premul] at hs hd
  obtain ⟨hs1, hs2, hs3, hs4⟩ := hs
  obtain ⟨hd1, hd2, hd3, hd4⟩ := hd
  have m1 := Nat.mul_le_mul_left (255 - sa) hd2
  have m2 := Nat.mul_le_mul_left (255 - sa) hd3
  have m3 := Nat.mul_le_mul_left (255 - sa) hd4
  have m4 := Nat.mul_le_mul_left (255 - sa) hd1
  have n1 := Nat.mul_le_mul_left (255 - da) hs2
  have n2 := Nat.mul_le_mul_left (255 - da) hs3
  have n3 := Nat.mul_le_mul_left (255 - da) hs4
  have n4 := Nat.mul_le_mul_left (255 - da) hs1
  have p1 := Nat.mul_le_mul_left da hs2
  have p2 := Nat.mul_le_mul_left da hs3
  have p3 := Nat.mul_le_mul_left da hs4
  have p4 := Nat.mul_le_mul_left da hs1
  have q1 := Nat.mul_le_mul_left sa hd2
  have q2 := Nat.mul_le_mul_left sa hd3
  have q3 := Nat.mul_le_mul_left sa hd4
  have q4 := Nat.mul_le_mul_left sa hd1
  have r1 : da * sa + (255 - sa) * da = 255 * da := by
    rw [Nat.mul_comm da sa, ← Nat.add_mul]
    congr 1
    omega
  have r2 : sa * da + (255 - da) * sa = 255 * sa := by
    rw [Nat.mul_comm sa da, ← Nat.add_mul]
    congr 1
    omega
  cases mode <;>
    simp only [blendOp, kClear, kSrc, kDst, kSrcOver, kDstOver, kSrcIn, kDstIn, kSrcOut,
      kDstOut, kSrcATop, kDstATop, kXor, GPixel_PackARGB, GPixel_GetA, GPixel_GetR,
      GPixel_GetG, GPixel_GetB, GPixel.premul, Div255_eq_div] <;>
    refine ⟨?_, ?_, ?_, ?_⟩ <;> omega

theorem get_blendmode_pixel_premul (mode : GBlendMode) (src dst : GPixel) (hs : src.premul)
    (hd : dst.premul) : (get_blendmode_pixel src dst mode).premul := by
  rw [get_blendmode_pixel_blendOp mode src dst hs hd]
  exact blendOp_premul mode src dst hs hd

/-! ## The cached blend function against the closed forms -/

theorem blend_switch_blendOp (f1 f0 : Bool) (mode : GBlendMode) (src dst : GPixel)
    (hs : src.premul) (hd : dst.premul)
    (h1 : f1 = true → GPixel_GetA src = 255) (h0 : f0 = true → GPixel_GetA src = 0) :
    blend_switch f1 f0 (decide (GPixel_GetA dst = 255)) (decide (GPixel_GetA dst = 0)) mode
      src dst = blendOp mode src dst := by
  obtain ⟨sa, sr, sg, sb⟩ := src
  obtain ⟨da, dr, dg, db⟩ := dst
  simp only [GPixel.premul] at hs hd
  obtain ⟨hs1, hs2, hs3, hs4⟩ := hs
  obtain ⟨hd1, hd2, hd3, hd4⟩ := hd
  simp only [GPixel_GetA] at h1 h0
  cases f1 <;> cases f0 <;>
    simp only [Bool.false_eq_true, false_implies, true_implies] at h1 h0 <;>
    cases mode <;>
    simp only [blend_switch, blendOp, GPixel_GetA, GPixel_GetR,
      GPixel_GetG, GPixel_GetB, Bool.and_eq_true, Bool.or_eq_true, decide_eq_true_eq,
      Bool.false_eq_true, false_and, and_false, false_or, or_false, if_false, if_true,
      true_and, and_true, true_or, or_true] <;>
    (try split_ifs) <;>
    (try subst_vars) <;>
    (try simp only [Nat.le_zero_eq] at hs2 hs3 hs4 hd2 hd3 hd4) <;>
    (try subst_vars) <;>
    (try omega) <;>
    simp only [kClear, kSrc, kDst, kSrcOver, kDstOver, kSrcIn, kDstIn, kSrcOut, kDstOut,
      kSrcATop, kDstATop, kXor, GPixel_PackARGB, GPixel_GetA, GPixel_GetR,
      GPixel_GetG, GPixel_GetB, GPixel.mk.injEq, Nat.sub_self, Nat.zero_mul, Nat.mul_zero,
      Nat.sub_zero, Nat.add_zero, Nat.zero_add, Div255_zero, Div255_eq_div] <;>
    (try (refine ⟨?_, ?_, ?_, ?_⟩ <;> first | trivial | omega))

theorem constBlend_blendOp (src : GPaint) (dst : GPixel) (hc : src.fColor.unit)
    (hd : dst.premul) :
    constBlend src dst = blendOp src.fMode (color_to_pixel src.fColor) dst := by
  have hs := color_to_pixel_premul_of_unit src.fColor hc
  unfold constBlend get_blendmode
  simp only [GPaint.getBlendMode, GPaint.getAlpha]
  apply blend_switch_blendOp _ _ _ _ _ hs hd
  · intro h
    have h' : src.fColor.fA = 1 := by simpa using h
    exact color_to_pixel_alpha_one _ h'
  · intro h
    have h' : src.fColor.fA = 0 := by simpa using h
    rw [color_to_pixel_alpha_zero _ h']
    rfl

theorem Blitter.blit_isSome (self : Blitter) (bit_map : GBitmap) (y start_x end_x : Int)
    (h : self.coherent) :
    ∃ self1 bit_map1, self.blit bit_map y start_x end_x = some (self1, bit_map1) ∧
      self1.coherent ∧ self1.local_src = self.local_src ∧ self1.ctm = self.ctm := by
  unfold Blitter.blit
  cases hsr : self.shaderRow with
  | some shadeRow => exact ⟨self, _, rfl, h, rfl, rfl⟩
  | none =>
    obtain ⟨s1, bm1, hb, hc, hs, hm, _⟩ :=
      Blitter.blitConst_spec y (end_x - start_x).toNat start_x self bit_map h
    exact ⟨s1, bm1, hb, hc, hs, hm⟩

theorem Blitter.blit_blitSpec (self : Blitter) (bit_map : GBitmap) (y start_x end_x : Int)
    (h : self.coherent) (hsh : self.local_src.fShader = none)
    (hc : self.local_src.fColor.unit) (hp : bit_map.premul) :
    ∃ self1 bit_map1, self.blit bit_map y start_x end_x = some (self1, bit_map1) ∧
      self1.coherent ∧ self1.local_src = self.local_src ∧ self1.ctm = self.ctm ∧
      bit_map1.premul ∧
      bit_map1.width = bit_map.width ∧ bit_map1.height = bit_map.height ∧
      ∀ x1 y1, bit_map1.pix x1 y1 =
        (blitSpec self.local_src.fMode (color_to_pixel self.local_src.fColor) bit_map y
          start_x end_x).pix x1 y1 := by
  obtain ⟨s1, bm1, hb, hc1, hs, hm, hw, hh, hpix⟩ :=
    self.blit_spec bit_map y start_x end_x h hsh
  have hpix' : ∀ x1 y1, bm1.pix x1 y1 =
      (blitSpec self.local_src.fMode (color_to_pixel self.local_src.fColor) bit_map y
        start_x end_x).pix x1 y1 := by
    intro x1 y1
    rw [hpix x1 y1]
    simp only [blitSpec]
    by_cases hcond : y1 = y ∧ start_x ≤ x1 ∧ x1 < end_x
    · rw [if_pos hcond, if_pos hcond, constBlend_blendOp _ _ hc (hp x1 y1)]
    · rw [if_neg hcond, if_neg hcond]
  refine ⟨s1, bm1, hb, hc1, hs, hm, ?_, hw, hh, hpix'⟩
  intro x1 y1
  rw [hpix' x1 y1]
  simp only [blitSpec]
  by_cases hcond : y1 = y ∧ start_x ≤ x1 ∧ x1 < end_x
  · rw [if_pos hcond]
    exact blendOp_premul _ _ _ (color_to_pixel_premul_of_unit _ hc) (hp x1 y1)
  · rw [if_neg hcond]
    exact hp x1 y1

theorem blitsSpec_congr (mode : GBlendMode) (src : GPixel) (calls : List (Int × Int × Int)) :
    ∀ (a b : GBitmap), (∀ x y, a.pix x y = b.pix x y) →
      ∀ x y, (blitsSpec mode src calls a).pix x y = (blitsSpec mode src calls b).pix x y := by
  induction calls with
  | nil => intro a b h; exact h
  | cons call calls ih =>
    obtain ⟨y0, sx, ex⟩ := call
    intro a b h
    apply ih
    intro x y
    simp only [blitSpec, h]

theorem Blitter.blits_blitsSpec (calls : List (Int × Int × Int)) :
    ∀ (self : Blitter) (bit_map : GBitmap), self.coherent →
      self.local_src.fShader = none → self.local_src.fColor.unit → bit_map.premul →
    ∃ self1 bit_map1, Blitter.blits calls self bit_map = some (self1, bit_map1) ∧
      self1.coherent ∧ self1.local_src = self.local_src ∧
      bit_map1.premul ∧
      ∀ x1 y1, bit_map1.pix x1 y1 =
        (blitsSpec self.local_src.fMode (color_to_pixel self.local_src.fColor) calls
          bit_map).pix x1 y1 := by
  induction calls with
  | nil =>
    intro self bit_map h _ _ hp
    exact ⟨self, bit_map, rfl, h, rfl, hp, fun _ _ => rfl⟩
  | cons call calls ih =>
    obtain ⟨y0, sx, ex⟩ := call
    intro self bit_map h hsh hc hp
    obtain ⟨s1, bm1, hb, hc1, hs, _, hp1, _, _, hpix⟩ :=
      self.blit_blitSpec bit_map y0 sx ex h hsh hc hp
    obtain ⟨s2, bm2, hb2, hc2, hs2, hp2, hpix2⟩ :=
      ih s1 bm1 hc1 (by rw [hs]; exact hsh) (by rw [hs]; exact hc) hp1
    refine ⟨s2, bm2, ?_, hc2, hs2.trans hs, hp2, ?_⟩
    · simp only [Blitter.blits, hb, hb2]
    · intro x1 y1
      rw [hpix2 x1 y1, hs]
      exact blitsSpec_congr _ _ calls _ _ hpix x1 y1

/-! ## The incremental colour of the tri-colour shader -/

theorem TriColorShader.loopColor_eq (delta_color : GColor) (i : Nat) (c : GColor) :
    TriColorShader.loopColor delta_color i c =
      ⟨c.fA + i * delta_color.fA, c.fR + i * delta_color.fR, c.fG + i * delta_color.fG,
        c.fB + i * delta_color.fB⟩ := by
  induction i generalizing c with
  | zero => simp [TriColorShader.loopColor]
  | succ i ih =>
    simp only [TriColorShader.loopColor, ih, GColor.mk.injEq]
    push_cast
    refine ⟨?_, ?_, ?_, ?_⟩ <;> ring

theorem TriColorShader.shadeLoop_loopColor (delta_color : GColor) (k : Nat) (c : GColor)
    (i : Nat) (hi : i < k) (d : GPixel) :
    (TriColorShader.shadeLoop delta_color k c).getD i d =
      color_to_pixel (TriColorShader.loopColor delta_color i c) := by
  rw [TriColorShader.triColor_shadeLoop_getD delta_color k c i hi d,
    TriColorShader.loopColor_eq]

theorem TriColorShader.setContext_inverse_matrix (self : TriColorShader) (ctm : GMatrix)
    (hctm : ctm.SX * ctm.SY - ctm.KX * ctm.KY ≠ 0) :
    (self.setContext ctm).2.inverse_matrix =
      ((GMatrix.Concat ctm self.local_matrix).invert
        (GMatrix.Concat ctm self.local_matrix)).2 := by
  simp only [TriColorShader.setContext, hctm, if_false]

theorem TriColorShader.loopColor_barycentric (self : TriColorShader) (ctm : GMatrix)
    (hdet : (GMatrix.Concat ctm self.local_matrix).SX * (GMatrix.Concat ctm self.local_matrix).SY -
      (GMatrix.Concat ctm self.local_matrix).KX * (GMatrix.Concat ctm self.local_matrix).KY ≠ 0)
    (x y : Int) (count i : Nat) (hi : i < count) :
    (self.setContext ctm).1 = true ∧
    ((self.setContext ctm).2.shadeRow x y count).getD i (GPixel_PackARGB 0 0 0 0) =
      color_to_pixel (TriColorShader.loopColor (self.setContext ctm).2.delta_color i
        ((self.setContext ctm).2.initialColor x y)) ∧
    TriColorShader.loopColor (self.setContext ctm).2.delta_color i
        ((self.setContext ctm).2.initialColor x y) =
      barycentricSpec (self.colors.getD 0 default) (self.colors.getD 1 default)
        (self.colors.getD 2 default)
        (((GMatrix.Concat ctm self.local_matrix).invert
          (GMatrix.Concat ctm self.local_matrix)).2.mapPoint
          ⟨(x : ℚ) + (i : ℚ) + 1 / 2, (y : ℚ) + 1 / 2⟩).fX
        (((GMatrix.Concat ctm self.local_matrix).invert
          (GMatrix.Concat ctm self.local_matrix)).2.mapPoint
          ⟨(x : ℚ) + (i : ℚ) + 1 / 2, (y : ℚ) + 1 / 2⟩).fY ∧
    (GMatrix.Concat ctm self.local_matrix).mapPoint
        (((GMatrix.Concat ctm self.local_matrix).invert
          (GMatrix.Concat ctm self.local_matrix)).2.mapPoint
          ⟨(x : ℚ) + (i : ℚ) + 1 / 2, (y : ℚ) + 1 / 2⟩) =
      ⟨(x : ℚ) + (i : ℚ) + 1 / 2, (y : ℚ) + 1 / 2⟩ := by
  have hdet' := hdet
  rw [GMatrix.det_Concat, mul_ne_zero_iff] at hdet'
  obtain ⟨hctm, _⟩ := hdet'
  obtain ⟨_, _, hinv⟩ := GMatrix.invert_of_det_ne_zero (GMatrix.Concat ctm self.local_matrix)
    (GMatrix.Concat ctm self.local_matrix) hdet
  refine ⟨(TriColorShader.triColor_setContext_iff self ctm).mpr hctm, ?_, ?_, ?_⟩
  · unfold TriColorShader.shadeRow
    exact TriColorShader.shadeLoop_loopColor _ _ _ _ hi _
  · rw [TriColorShader.loopColor_eq, ← TriColorShader.setContext_inverse_matrix self ctm hctm]
    simp only [TriColorShader.setContext, hctm, if_false, TriColorShader.initialColor,
      barycentricSpec, GMatrix.mapPoint, GColor.mk.injEq]
    refine ⟨?_, ?_, ?_, ?_⟩ <;> ring
  · rw [← GMatrix.mapPoint_Concat, hinv, GMatrix.mapPoint_identity]

/-! ## The reads of the edge vector in `drawConvexPolygon` -/

theorem EmptyCanvas.convexRows_final (edges : List Edge) (oob : Nat → Edge) (n : Nat) :
    ∀ (y : Int) (s : EmptyCanvas.ConvexLoop), s.blitter.coherent →
      s.e0.max_y = y + (n + 1 : Nat) → s.e0.min_y ≤ y →
      s.e1.max_y = y + (n + 1 : Nat) → s.e1.min_y ≤ y →
    ∃ s1, EmptyCanvas.convexRows edges oob (n + 1) y s = some s1 ∧
      s1.i = s.i + 2 ∧ s1.e0 = edgeAt edges oob (s.i + 1) ∧
      s1.e1 = edgeAt edges oob (s.i + 2) := by
  induction n with
  | zero =>
    intro y s hc h0 _ h1 _
    obtain ⟨b1, bm1, hb, _⟩ :=
      s.blitter.blit_isSome s.bit_map y (GRoundToInt s.e0.x) (GRoundToInt s.e1.x) hc
    have hl0 : s.e0.legal_y (y + 1) = false := by
      simp only [Edge.legal_y, h0]
      simp
    have hl1 : s.e1.legal_y (y + 1) = false := by
      simp only [Edge.legal_y, h1]
      simp
    refine ⟨(⟨edgeAt edges oob (s.i + 1), edgeAt edges oob (s.i + 1 + 1), s.i + 1 + 1, b1,
      bm1⟩ : EmptyCanvas.ConvexLoop), ?_, rfl, rfl, rfl⟩
    simp only [EmptyCanvas.convexRows, EmptyCanvas.convexRow, hb, hl0, hl1]
    rfl
  | succ n ih =>
    intro y s hc h0 h0' h1 h1'
    obtain ⟨b1, bm1, hb, hc1, _⟩ :=
      s.blitter.blit_isSome s.bit_map y (GRoundToInt s.e0.x) (GRoundToInt s.e1.x) hc
    have hl0 : s.e0.legal_y (y + 1) = true := by
      simp only [Edge.legal_y, h0, Bool.and_eq_true, decide_eq_true_eq]
      push_cast
      omega
    have hl1 : s.e1.legal_y (y + 1) = true := by
      simp only [Edge.legal_y, h1, Bool.and_eq_true, decide_eq_true_eq]
      push_cast
      omega
    obtain ⟨s2, hr, hi, he0, he1⟩ := ih (y + 1)
      { e0 := { s.e0 with x := s.e0.x + s.e0.m }, e1 := { s.e1 with x := s.e1.x + s.e1.m },
        i := s.i, blitter := b1, bit_map := bm1 } hc1
      (by simp only [h0]; push_cast; omega) (by simp only; omega)
      (by simp only [h1]; push_cast; omega) (by simp only; omega)
    refine ⟨s2, ?_, hi, he0, he1⟩
    rw [← hr]
    simp only [EmptyCanvas.convexRows, EmptyCanvas.convexRow, hb, hl0, hl1, if_true]

/-! ## `drawMesh` -/

theorem EmptyCanvas.convexRows_isSome (edges : List Edge) (oob : Nat → Edge) (n : Nat) :
    ∀ (y : Int) (s : EmptyCanvas.ConvexLoop), s.blitter.coherent →
    ∃ s1, EmptyCanvas.convexRows edges oob n y s = some s1 := by
  induction n with
  | zero => intro y s _; exact ⟨s, rfl⟩
  | succ n ih =>
    intro y s hc
    obtain ⟨b1, bm1, hb, hc1, _⟩ :=
      s.blitter.blit_isSome s.bit_map y (GRoundToInt s.e0.x) (GRoundToInt s.e1.x) hc
    simp only [EmptyCanvas.convexRows, EmptyCanvas.convexRow, hb]
    exact ih (y + 1) _ hc1

theorem EmptyCanvas.drawConvexPolygon_isSome (c : EmptyCanvas) (pts : List GPoint)
    (count : Nat) (src : GPaint) (oob : Nat → Edge) (h : c.ctm ≠ []) :
    ∃ c1, c.drawConvexPolygon pts count src oob = some c1 ∧ c1.ctm = c.ctm := by
  unfold EmptyCanvas.drawConvexPolygon
  by_cases hw : (willReturnDst src.getBlendMode src.getAlpha && src.fShader.isNone) = true
  · rw [if_pos hw]; exact ⟨c, rfl, rfl⟩
  · rw [if_neg hw]
    cases hctm : c.ctm with
    | nil => exact absurd hctm h
    | cons top rest =>
      simp only
      by_cases he : (sortEdgeList (find_edges [] (top.mapPoints pts count) count c.bit_map
          true)).isEmpty = true
      · rw [if_pos he]; exact ⟨c, rfl, hctm⟩
      · rw [if_neg he]
        obtain ⟨s1, hs1⟩ := EmptyCanvas.convexRows_isSome
          (sortEdgeList (find_edges [] (top.mapPoints pts count) count c.bit_map true)) oob
          (((edgeAt (sortEdgeList (find_edges [] (top.mapPoints pts count) count c.bit_map
              true)) oob
            ((sortEdgeList (find_edges [] (top.mapPoints pts count) count c.bit_map
              true)).length - 1)).max_y -
            GRoundToInt (edgeAt (sortEdgeList (find_edges [] (top.mapPoints pts count) count
              c.bit_map true)) oob 0).min_y).toNat)
          (GRoundToInt (edgeAt (sortEdgeList (find_edges [] (top.mapPoints pts count) count
              c.bit_map true)) oob 0).min_y)
          { e0 := edgeAt (sortEdgeList (find_edges [] (top.mapPoints pts count) count
              c.bit_map true)) oob 0,
            e1 := edgeAt (sortEdgeList (find_edges [] (top.mapPoints pts count) count
              c.bit_map true)) oob 1,
            i := 1, blitter := Blitter.make src top, bit_map := c.bit_map }
          (Blitter.make_coherent src top)
        rw [hs1]
        exact ⟨_, rfl, rfl⟩

theorem EmptyCanvas.drawMeshLoop_colors_isSome (verts : List GPoint) (colors : List GColor)
    (indices : List Int) (orig_paint : GPaint) (oob : Nat → Edge) (k : Nat) :
    ∀ (n : Nat) (paint : GPaint) (c : EmptyCanvas), c.ctm ≠ [] →
    ∃ c1, EmptyCanvas.drawMeshLoop verts (some colors) none indices orig_paint oob k n paint
      c = some c1 ∧ c1.ctm = c.ctm := by
  induction k with
  | zero => intro n paint c _; exact ⟨c, rfl, rfl⟩
  | succ k ih =>
    intro n paint c h
    simp only [EmptyCanvas.drawMeshLoop, EmptyCanvas.meshPaint]
    obtain ⟨c1, h1, h2⟩ := EmptyCanvas.drawConvexPolygon_isSome c
      [meshAt verts indices (n + 0), meshAt verts indices (n + 1), meshAt verts indices (n + 2)]
      3 { paint with fShader := some (TriColorShader.make
        [meshAt verts indices (n + 0), meshAt verts indices (n + 1),
          meshAt verts indices (n + 2)]
        [meshAt colors indices (n + 0), meshAt colors indices (n + 1),
          meshAt colors indices (n + 2)]).toGShader } oob h
    rw [h1]
    simp only
    obtain ⟨c2, h3, h4⟩ := ih (n + 3) _ c1 (by rw [h2]; exact h)
    exact ⟨c2, h3, h4.trans h2⟩

theorem EmptyCanvas.drawMesh_colors_isSome (c : EmptyCanvas) (verts : List GPoint)
    (colors : List GColor) (count : Nat) (indices : List Int) (orig_paint : GPaint)
    (oob : Nat → Edge) (h : c.ctm ≠ []) :
    ∃ c1, c.drawMesh verts (some colors) none count indices orig_paint oob = some c1 := by
  unfold EmptyCanvas.drawMesh
  simp only [Option.isNone_some, Bool.false_and, Bool.false_eq_true, if_false]
  obtain ⟨c1, h1, _⟩ := EmptyCanvas.drawMeshLoop_colors_isSome verts colors indices
    orig_paint oob count 0 orig_paint c h
  exact ⟨c1, h1⟩

theorem EmptyCanvas.drawMesh_texs_without_shader (c : EmptyCanvas) (verts : List GPoint)
    (colors : Option (List GColor)) (texs : List GPoint) (count : Nat) (indices : List Int)
    (orig_paint : GPaint) (oob : Nat → Edge) (hsh : orig_paint.fShader = none) :
    c.drawMesh verts colors (some texs) (count + 1) indices orig_paint oob = none := by
  unfold EmptyCanvas.drawMesh
  cases colors with
  | none =>
    simp only [Option.isNone_none, Option.isNone_some, Bool.and_false, Bool.false_eq_true,
      if_false, EmptyCanvas.drawMeshLoop, EmptyCanvas.meshPaint, hsh]
  | some colors =>
    simp only [Option.isNone_some, Bool.and_false, Bool.false_eq_true,
      if_false, EmptyCanvas.drawMeshLoop, EmptyCanvas.meshPaint, hsh]

/-! ## The tessellation of `drawQuad` -/

namespace EmptyCanvas

theorem drawQuadRow_spec (fl fd : ℚ → ℚ) (verts : List GPoint) (colors : Option (List GColor))
    (texs : Option (List GPoint)) (level v : Nat) (k : Nat) (s : QuadArrays) :
    ((List.range k).foldl (fun s u => drawQuadBody fl fd verts colors texs level v u s) s).i =
        s.i + k ∧
    ((List.range k).foldl (fun s u => drawQuadBody fl fd verts colors texs level v u s) s).indices =
        s.indices ++ (List.range k).flatMap
          (fun u => if u ≠ 0 ∧ v ≠ level + 1 then quadIndices ((level : Int) + 2) (s.i + u)
            else []) ∧
    ((List.range k).foldl (fun s u => drawQuadBody fl fd verts colors texs level v u s) s).newVerts =
        s.newVerts ++ (List.range k).map (fun u => quadVertex fl fd verts level v u) := by
  induction k with
  | zero => simp
  | succ k ih =>
    obtain ⟨h1, h2, h3⟩ := ih
    rw [List.range_succ k, List.foldl_append, List.foldl_cons, List.foldl_nil]
    generalize (List.range k).foldl (fun s u => drawQuadBody fl fd verts colors texs level v u s) s =
      S at h1 h2 h3 ⊢
    refine ⟨?_, ?_, ?_⟩
    · simp only [drawQuadBody, h1]
      push_cast
      ring
    · simp only [drawQuadBody, h1, h2, List.flatMap_append, List.flatMap_cons,
        List.flatMap_nil, List.append_nil]
      have hu : ((k : ℚ) ≠ 0) ↔ (k ≠ 0) := by
        simp only [ne_eq, Nat.cast_eq_zero]
      have hv : ((v : ℚ) ≠ ((((level : Int) + 1 : Int)) : ℚ)) ↔ (v ≠ level + 1) := by
        have h' : ((((level : Int) + 1 : Int)) : ℚ) = ((level + 1 : Nat) : ℚ) := by push_cast; ring
        rw [h']
        simp only [ne_eq, Nat.cast_inj]
      simp only [hu, hv]
      by_cases hc : k ≠ 0 ∧ v ≠ level + 1
      · rw [if_pos hc, if_pos hc]
        simp only [quadIndices, List.append_assoc]
      · rw [if_neg hc, if_neg hc]
        simp
    · simp only [drawQuadBody, h3, List.map_append, List.map_cons, List.map_nil, quadVertex,
        List.append_assoc]

theorem drawQuadRows_spec (fl fd : ℚ → ℚ) (verts : List GPoint) (colors : Option (List GColor))
    (texs : Option (List GPoint)) (level : Nat) (k : Nat) :
    ((List.range k).foldl
      (fun s v =>
        (List.range (level + 2)).foldl
          (fun s u => drawQuadBody fl fd verts colors texs level v u s) s)
      { i := 0, indices := [], newVerts := [], vertColors := [], vertTexs := [] }).i =
        ((k * (level + 2) : Nat) : Int) ∧
    ((List.range k).foldl
      (fun s v =>
        (List.range (level + 2)).foldl
          (fun s u => drawQuadBody fl fd verts colors texs level v u s) s)
      { i := 0, indices := [], newVerts := [], vertColors := [], vertTexs := [] }).indices =
        (List.range k).flatMap (fun v => (List.range (level + 2)).flatMap
          (fun u => if u ≠ 0 ∧ v ≠ level + 1 then
            quadIndices ((level : Int) + 2) (((v * (level + 2) + u : Nat) : Int)) else [])) ∧
    ((List.range k).foldl
      (fun s v =>
        (List.range (level + 2)).foldl
          (fun s u => drawQuadBody fl fd verts colors texs level v u s) s)
      { i := 0, indices := [], newVerts := [], vertColors := [], vertTexs := [] }).newVerts =
        (List.range k).flatMap (fun v => (List.range (level + 2)).map
          (fun u => quadVertex fl fd verts level v u)) := by
  induction k with
  | zero => simp
  | succ k ih =>
    obtain ⟨h1, h2, h3⟩ := ih
    rw [List.range_succ k, List.foldl_append, List.foldl_cons, List.foldl_nil]
    obtain ⟨r1, r2, r3⟩ := drawQuadRow_spec fl fd verts colors texs level k (level + 2)
      ((List.range k).foldl
        (fun s v =>
          (List.range (level + 2)).foldl
            (fun s u => drawQuadBody fl fd verts colors texs level v u s) s)
        { i := 0, indices := [], newVerts := [], vertColors := [], vertTexs := [] })
    refine ⟨?_, ?_, ?_⟩
    · rw [r1, h1]
      push_cast
      ring
    · rw [r2, h2, h1]
      simp only [List.flatMap_append, List.flatMap_cons, List.flatMap_nil, List.append_nil]
      congr 1
    · rw [r3, h3]
      simp only [List.flatMap_append, List.flatMap_cons, List.flatMap_nil, List.append_nil]

theorem flatMap_range_succ_skip_zero {α : Type} (n : Nat) (P : Prop) [Decidable P]
    (f : Nat → List α) :
    (List.range (n + 1)).flatMap (fun u => if u ≠ 0 ∧ P then f u else []) =
      if P then (List.range n).flatMap (fun a => f (a + 1)) else [] := by
  rw [List.range_succ_eq_map, List.flatMap_cons, List.flatMap_map]
  by_cases hP : P
  · simp [hP]
  · simp [hP]

theorem flatMap_range_succ_skip_last {α : Type} (n : Nat) (g : Nat → List α) :
    (List.range (n + 1)).flatMap (fun v => if v ≠ n then g v else []) =
      (List.range n).flatMap g := by
  rw [List.range_succ, List.flatMap_append]
  simp only [List.flatMap_cons, List.flatMap_nil, ne_eq, not_true_eq_false, if_false,
    List.append_nil]
  apply List.flatMap_congr
  intro v hv
  have : v ≠ n := by
    rw [List.mem_range] at hv
    omega
  rw [if_pos this]

theorem length_flatMap_range_const {α : Type} (n c : Nat) (f : Nat → List α)
    (h : ∀ v, (f v).length = c) : ((List.range n).flatMap f).length = n * c := by
  induction n with
  | zero => simp
  | succ n ih =>
    rw [List.range_succ, List.flatMap_append, List.length_append, ih]
    simp only [List.flatMap_cons, List.flatMap_nil, List.append_nil, h]
    ring

theorem getD_flatMap_range_map {α : Type} (f : Nat → Nat → α) (m : Nat) (d : α) (n : Nat) :
    ∀ v u, v < n → u < m →
      ((List.range n).flatMap (fun v => (List.range m).map (f v))).getD (v * m + u) d =
        f v u := by
  induction n with
  | zero => intro v u hv; omega
  | succ n ih =>
    intro v u hv hu
    have hlen : ((List.range n).flatMap (fun v => (List.range m).map (f v))).length = n * m :=
      length_flatMap_range_const n m _ (by intro v; simp)
    rw [List.range_succ, List.flatMap_append]
    by_cases hvn : v < n
    · have hlt : v * m + u < n * m := by
        have : (v + 1) * m ≤ n * m := Nat.mul_le_mul_right m hvn
        rw [Nat.add_mul, Nat.one_mul] at this
        omega
      rw [List.getD_append _ _ _ _ (by rw [hlen]; exact hlt)]
      exact ih v u hvn hu
    · have hv' : v = n := by omega
      subst hv'
      rw [List.getD_append_right _ _ _ _ (by rw [hlen]; omega), hlen]
      simp only [List.flatMap_cons, List.flatMap_nil, List.append_nil, Nat.add_sub_cancel_left]
      rw [List.getD_eq_getElem?_getD, List.getElem?_map, List.getElem?_range hu]
      rfl

theorem quadIndices_eq_quadTriangles (level b a : Nat) :
    quadIndices ((level : Int) + 2) (((b * (level + 2) + (a + 1) : Nat) : Int)) =
      quadTriangles level b a := by
  simp only [quadIndices, quadTriangles, List.cons.injEq, and_true]
  push_cast
  refine ⟨trivial, ?_, ?_, trivial, ?_, ?_⟩ <;> ring

theorem drawQuadArrays_indices (fl fd : ℚ → ℚ) (verts : List GPoint) (colors : Option (List GColor))
    (texs : Option (List GPoint)) (level : Nat) :
    (drawQuadArrays fl fd verts colors texs level).indices =
      (List.range (level + 1)).flatMap (fun b =>
        (List.range (level + 1)).flatMap (fun a => quadTriangles level b a)) := by
  unfold drawQuadArrays
  rw [(drawQuadRows_spec fl fd verts colors texs level (level + 2)).2.1]
  have h1 : ∀ v, (List.range (level + 1 + 1)).flatMap
      (fun u => if u ≠ 0 ∧ v ≠ level + 1 then
        quadIndices ((level : Int) + 2) (((v * (level + 2) + u : Nat) : Int)) else []) =
      if v ≠ level + 1 then
        (List.range (level + 1)).flatMap (fun a => quadTriangles level v a) else [] := by
    intro v
    rw [flatMap_range_succ_skip_zero (level + 1) (v ≠ level + 1)
      (fun u => quadIndices ((level : Int) + 2) (((v * (level + 2) + u : Nat) : Int)))]
    simp only [quadIndices_eq_quadTriangles]
  have h2 : (List.range (level + 2)).flatMap (fun v => (List.range (level + 2)).flatMap
      (fun u => if u ≠ 0 ∧ v ≠ level + 1 then
        quadIndices ((level : Int) + 2) (((v * (level + 2) + u : Nat) : Int)) else [])) =
      (List.range (level + 1 + 1)).flatMap (fun v => if v ≠ level + 1 then
        (List.range (level + 1)).flatMap (fun a => quadTriangles level v a) else []) := by
    apply List.flatMap_congr
    intro v _
    exact h1 v
  rw [h2, flatMap_range_succ_skip_last]

theorem drawQuadArrays_newVerts (fl fd : ℚ → ℚ) (verts : List GPoint) (colors : Option (List GColor))
    (texs : Option (List GPoint)) (level : Nat) :
    (drawQuadArrays fl fd verts colors texs level).newVerts =
      (List.range (level + 2)).flatMap (fun v =>
        (List.range (level + 2)).map (fun u => quadVertex fl fd verts level v u)) := by
  unfold drawQuadArrays
  rw [(drawQuadRows_spec fl fd verts colors texs level (level + 2)).2.2]

theorem pointAt_id (A B C D : GPoint) (u v : ℚ) :
    pointAt id A B C D u v =
      ((1 - u) * (1 - v)) • A + (u * (1 - v)) • B + (u * v) • C + (v * (1 - u)) • D := rfl

theorem quadVertex_id (verts : List GPoint) (level v u : Nat) :
    quadVertex id id verts level v u =
      pointAt id (verts.getD 0 default) (verts.getD 1 default) (verts.getD 2 default)
        (verts.getD 3 default) ((u : ℚ) / ((level : ℚ) + 1)) ((v : ℚ) / ((level : ℚ) + 1)) := by
  unfold quadVertex
  simp only [id]
  push_cast
  rw [mul_one_div, mul_one_div]

theorem pointAt_corners (A B C D : GPoint) :
    pointAt id A B C D 0 0 = A ∧ pointAt id A B C D 1 0 = B ∧ pointAt id A B C D 1 1 = C ∧
      pointAt id A B C D 0 1 = D := by
  obtain ⟨ax, ay⟩ := A
  obtain ⟨bx, by_⟩ := B
  obtain ⟨cx, cy⟩ := C
  obtain ⟨dx, dy⟩ := D
  simp [pointAt, GPoint.addRounded, GPoint.scaleRounded]

theorem mem_quadTriangles_bounds (level b a : Nat) (hb : b < level + 1) (ha : a < level + 1)
    (idx : Int) (h : idx ∈ quadTriangles level b a) :
    0 ≤ idx ∧ idx < (((level + 2) ^ 2 : Nat) : Int) := by
  have h1 : b * (level + 2) ≤ level * (level + 2) := Nat.mul_le_mul_right _ (by omega)
  have h2 : (level + 2) ^ 2 = level * (level + 2) + 2 * (level + 2) := by ring
  have h3 : (b + 1) * (level + 2) = b * (level + 2) + (level + 2) := by ring
  simp only [quadTriangles, List.mem_cons, List.mem_singleton, List.not_mem_nil, or_false] at h
  rw [h2]
  rw [h3] at h
  rcases h with h | h | h | h | h | h <;> subst h <;> constructor <;> omega

end EmptyCanvas

/-! ## The corner of the grid of `drawQuad` under `float` arithmetic -/

theorem roundF64_inverse_41 : roundF64 (1 / 41) = 7030009174431994 * (2 : ℚ) ^ (-58 : Int) := by
  have h := roundF64_eq (1 / 41) (-6) 7030009174431994 (by norm_num) (by norm_num)
    (Or.inr (by norm_num [abs_of_pos])) (by norm_num [abs_of_pos]) (by norm_num) (by norm_num)
  rw [h]
  norm_num

theorem roundF32_inverse_41 :
    roundF32 (7030009174431994 * (2 : ℚ) ^ (-58 : Int)) = 13094412 * (2 : ℚ) ^ (-29 : Int) := by
  have h := roundF32_eq (7030009174431994 * (2 : ℚ) ^ (-58 : Int)) (-6) 13094412 (by norm_num)
    (by norm_num) (Or.inr (by norm_num [abs_of_pos])) (by norm_num [abs_of_pos])
    (by norm_num) (by norm_num)
  rw [h]
  norm_num

/-- The `float` of `1 / 41` does not depend on the accuracy of `pow`: every value within
`2^-40` of `1 / 41` is rounded to the same `float`. -/
theorem roundF32_near_inverse_41 (d : ℚ) (h : |d - 1 / 41| ≤ (2 : ℚ) ^ (-40 : Int)) :
    roundF32 d = 13094412 * (2 : ℚ) ^ (-29 : Int) := by
  have h40 : (2 : ℚ) ^ (-40 : Int) = 1 / 1099511627776 := by norm_num
  rw [h40] at h
  obtain ⟨hl, hr⟩ := abs_le.mp h
  have hd : 0 < d := by linarith
  have h := roundF32_eq d (-6) 13094412 (ne_of_gt hd) (by norm_num)
    (Or.inr (by rw [abs_of_pos hd]; norm_num; linarith))
    (by rw [abs_of_pos hd]; norm_num; linarith)
    (by norm_num; linarith) (by norm_num; linarith)
  rw [h]
  norm_num

theorem roundF32_last_parameter_41 :
    roundF32 (41 * (13094412 * (2 : ℚ) ^ (-29 : Int))) = 16777215 / 16777216 := by
  have h := roundF32_eq (41 * (13094412 * (2 : ℚ) ^ (-29 : Int))) (-1) 16777215 (by norm_num)
    (by norm_num) (Or.inr (by norm_num [abs_of_pos])) (by norm_num [abs_of_pos])
    (by norm_num) (by norm_num)
  rw [h]
  norm_num

theorem roundF32_one : roundF32 1 = 1 := by
  have h := roundF32_eq 1 0 (2 ^ 23) (by norm_num) (by norm_num)
    (Or.inr (by norm_num)) (by norm_num) (by norm_num) (by norm_num)
  rw [h]
  norm_num

theorem roundF32_ulp_below_one : roundF32 (1 / 16777216) = 1 / 16777216 := by
  have h := roundF32_eq (1 / 16777216) (-24) (2 ^ 23) (by norm_num) (by norm_num)
    (Or.inr (by norm_num [abs_of_pos])) (by norm_num [abs_of_pos]) (by norm_num) (by norm_num)
  rw [h]
  norm_num

theorem roundF32_pred_one : roundF32 (16777215 / 16777216) = 16777215 / 16777216 := by
  have h := roundF32_eq (16777215 / 16777216) (-1) 16777215 (by norm_num) (by norm_num)
    (Or.inr (by norm_num [abs_of_pos])) (by norm_num [abs_of_pos]) (by norm_num) (by norm_num)
  rw [h]
  norm_num

theorem roundF32_pred_255 : roundF32 (16711679 / 65536) = 16711679 / 65536 := by
  have h := roundF32_eq (16711679 / 65536) 7 16711679 (by norm_num) (by norm_num)
    (Or.inr (by norm_num [abs_of_pos])) (by norm_num [abs_of_pos]) (by norm_num) (by norm_num)
  rw [h]
  norm_num

theorem roundF32_pred_one_mul_255 :
    roundF32 (16777215 / 16777216 * 255) = 16711679 / 65536 := by
  have h := roundF32_eq (16777215 / 16777216 * 255) 7 16711679 (by norm_num) (by norm_num)
    (Or.inr (by norm_num [abs_of_pos])) (by norm_num [abs_of_pos]) (by norm_num) (by norm_num)
  rw [h]
  norm_num

theorem pointAt_float_corner :
    pointAt roundF32 ⟨0, 0⟩ ⟨255, 0⟩ ⟨255, 255⟩ ⟨0, 255⟩ (16777215 / 16777216) 0 =
      ⟨16711679 / 65536, 0⟩ := by
  have h1 : (1 : ℚ) - 16777215 / 16777216 = 1 / 16777216 := by norm_num
  simp only [pointAt, GPoint.addRounded, GPoint.scaleRounded, sub_zero, mul_zero, zero_mul,
    mul_one, zero_add, add_zero, h1, roundF32_zero, roundF32_one, roundF32_ulp_below_one,
    roundF32_pred_one, roundF32_pred_one_mul_255, roundF32_pred_255]

/-! ## The scanline loop of `drawPath` -/

theorem insertEdgeByX_perm (e : Edge) (l : List Edge) : (insertEdgeByX e l).Perm (e :: l) := by
  induction l with
  | nil => exact List.Perm.refl _
  | cons f fs ih =>
    unfold insertEdgeByX
    split_ifs
    · exact List.Perm.refl _
    · exact ((List.Perm.cons f ih).trans (List.Perm.swap e f fs))

theorem sortEdgeListByX_perm (l : List Edge) : (sortEdgeListByX l).Perm l := by
  induction l with
  | nil => exact List.Perm.refl _
  | cons e es ih =>
    unfold sortEdgeListByX
    exact (insertEdgeByX_perm e _).trans (List.Perm.cons e ih)

theorem insertEdgeByX_sorted (e : Edge) (l : List Edge)
    (hl : l.Pairwise (fun a b => a.x ≤ b.x)) :
    (insertEdgeByX e l).Pairwise (fun a b => a.x ≤ b.x) := by
  induction l with
  | nil => simp [insertEdgeByX]
  | cons f fs ih =>
    rw [List.pairwise_cons] at hl
    unfold insertEdgeByX
    by_cases hef : e.x < f.x
    · rw [if_pos (by simpa [sortEdgesByX] using hef)]
      refine List.pairwise_cons.mpr ⟨?_, List.pairwise_cons.mpr hl⟩
      intro a ha
      rcases List.mem_cons.mp ha with h | h
      · rw [h]; exact le_of_lt hef
      · exact le_trans (le_of_lt hef) (hl.1 a h)
    · rw [if_neg (by simpa [sortEdgesByX] using hef)]
      refine List.pairwise_cons.mpr ⟨?_, ih hl.2⟩
      intro a ha
      rw [(insertEdgeByX_perm e fs).mem_iff] at ha
      rcases List.mem_cons.mp ha with h | h
      · rw [h]; exact not_lt.mp hef
      · exact hl.1 a h

theorem sortEdgeListByX_sorted (l : List Edge) :
    (sortEdgeListByX l).Pairwise (fun a b => a.x ≤ b.x) := by
  induction l with
  | nil => simp [sortEdgeListByX]
  | cons e es ih =>
    unfold sortEdgeListByX
    exact insertEdgeByX_sorted e _ ih

namespace EmptyCanvas

theorem scanActive_spec (y : Int) (A : List Edge) :
    ∀ (B : List Edge) (s : ScanLoop), (∀ e ∈ A, e.min_y ≤ y) → (∀ e ∈ B, y < e.min_y) →
      s.blitter.coherent → A.Pairwise (fun a b => a.x ≤ b.x) →
      (∀ e ∈ A, s.w ≠ 0 → s.start_x ≤ GRoundToInt e.x) →
    ∃ s1, scanActive y (A ++ B) s = some (s1, B) ∧
      s1.done = s.done ++ A.flatMap (scanStep y) ∧ s1.blitter.coherent := by
  induction A with
  | nil =>
    intro B s _ hB hc _ _
    refine ⟨s, ?_, by simp, hc⟩
    cases B with
    | nil => rfl
    | cons e rest =>
      have : ¬ e.min_y ≤ y := not_le.mpr (hB e (List.mem_cons_self _ _))
      simp only [List.nil_append, scanActive, this, if_false]
  | cons e A ih =>
    intro B s hA hB hc hx hst
    have he : e.min_y ≤ y := hA e (List.mem_cons_self _ _)
    have hA' : ∀ e ∈ A, e.min_y ≤ y := fun e' h' => hA e' (List.mem_cons_of_mem _ h')
    rw [List.pairwise_cons] at hx
    have hle : (if s.w = 0 then GRoundToInt e.x else s.start_x) ≤ GRoundToInt e.x := by
      by_cases h0 : s.w = 0
      · rw [if_pos h0]
      · rw [if_neg h0]; exact hst e (List.mem_cons_self _ _) h0
    have hst' : ∀ (w1 : Int), ∀ e1 ∈ A, w1 ≠ 0 →
        (if s.w = 0 then GRoundToInt e.x else s.start_x) ≤ GRoundToInt e1.x := by
      intro w1 e1 he1 _
      by_cases h0 : s.w = 0
      · rw [if_pos h0]; exact GRoundToInt_mono (hx.1 e1 he1)
      · rw [if_neg h0]; exact hst e1 (List.mem_cons_of_mem _ he1) h0
    simp only [List.cons_append, scanActive, he, if_true]
    by_cases hw : s.w + e.w = 0
    · obtain ⟨b1, bm1, hb, hc1, _⟩ := s.blitter.blit_isSome s.bit_map y
        (if s.w = 0 then GRoundToInt e.x else s.start_x) (GRoundToInt e.x) hc
      simp only [hw, if_true, hle, hb]
      by_cases hy : y + 1 = e.max_y
      · simp only [hy, if_true]
        obtain ⟨s1, h1, h2, h3⟩ := ih B
          { done := s.done, w := 0, start_x := if s.w = 0 then GRoundToInt e.x else s.start_x,
            blitter := b1, bit_map := bm1 } hA' hB hc1 hx.2 (hst' 0)
        refine ⟨s1, h1, ?_, h3⟩
        rw [h2]
        simp [scanStep, hy]
      · simp only [hy, if_false]
        obtain ⟨s1, h1, h2, h3⟩ := ih B
          { done := s.done ++ [{ e with x := e.x + e.m }], w := 0,
            start_x := if s.w = 0 then GRoundToInt e.x else s.start_x,
            blitter := b1, bit_map := bm1 } hA' hB hc1 hx.2 (hst' 0)
        refine ⟨s1, h1, ?_, h3⟩
        rw [h2]
        simp [scanStep, hy]
    · simp only [hw, if_false]
      by_cases hy : y + 1 = e.max_y
      · simp only [hy, if_true]
        obtain ⟨s1, h1, h2, h3⟩ := ih B
          { done := s.done, w := s.w + e.w,
            start_x := if s.w = 0 then GRoundToInt e.x else s.start_x,
            blitter := s.blitter, bit_map := s.bit_map } hA' hB hc hx.2 (hst' (s.w + e.w))
        refine ⟨s1, h1, ?_, h3⟩
        rw [h2]
        simp [scanStep, hy]
      · simp only [hy, if_false]
        obtain ⟨s1, h1, h2, h3⟩ := ih B
          { done := s.done ++ [{ e with x := e.x + e.m }], w := s.w + e.w,
            start_x := if s.w = 0 then GRoundToInt e.x else s.start_x,
            blitter := s.blitter, bit_map := s.bit_map } hA' hB hc hx.2 (hst' (s.w + e.w))
        refine ⟨s1, h1, ?_, h3⟩
        rw [h2]
        simp [scanStep, hy]

theorem dropWhile_min_y (y : Int) (B : List Edge)
    (hs : B.Pairwise (fun a b => a.min_y ≤ b.min_y)) :
    ∀ e ∈ B.dropWhile (fun e => decide (e.min_y ≤ y)), y < e.min_y := by
  induction B with
  | nil => intro e he; simp at he
  | cons b B ih =>
    intro e he
    rw [List.pairwise_cons] at hs
    by_cases hb : b.min_y ≤ y
    · rw [List.dropWhile_cons_of_pos (by simpa using hb)] at he
      exact ih hs.2 e he
    · rw [List.dropWhile_cons_of_neg (by simpa using hb)] at he
      rcases List.mem_cons.mp he with h | h
      · rw [h]; omega
      · have := hs.1 e h
        omega

theorem scanSplit_of_sorted (e0 : Edge) (es : List Edge)
    (hsorted : (e0 :: es).Pairwise (fun a b => sortEdges b a = false)) :
    scanSplit e0.min_y (e0 :: es) := by
  have himp : ∀ a b : Edge, sortEdges b a = false →
      a.min_y ≤ b.min_y ∧ (a.min_y = b.min_y → a.x ≤ b.x) := by
    intro a b hab
    have hn : ¬ (sortEdges b a = true) := by rw [hab]; simp
    rw [sortEdges_iff] at hn
    refine ⟨?_, ?_⟩
    · by_contra hlt
      exact hn (Or.inl (not_le.mp hlt))
    · intro heq
      by_contra hlt
      exact hn (Or.inr ⟨heq.symm, Or.inl (not_le.mp hlt)⟩)
  have hs : (e0 :: es).Pairwise (fun a b => a.min_y ≤ b.min_y) :=
    List.Pairwise.imp (fun h => (himp _ _ h).1) hsorted
  have hfirst : ∀ e ∈ e0 :: es, e0.min_y ≤ e.min_y := by
    intro e he
    rcases List.mem_cons.mp he with h1 | h1
    · rw [h1]
    · exact (List.pairwise_cons.mp hs).1 e h1
  have htake : ∀ e ∈ (e0 :: es).takeWhile (fun e => decide (e.min_y ≤ e0.min_y)),
      e.min_y = e0.min_y := by
    intro e he
    have h1 : e.min_y ≤ e0.min_y := by simpa using List.mem_takeWhile_imp he
    have h2 := hfirst e ((List.takeWhile_sublist _).subset he)
    omega
  refine ⟨(e0 :: es).takeWhile (fun e => decide (e.min_y ≤ e0.min_y)),
    (e0 :: es).dropWhile (fun e => decide (e.min_y ≤ e0.min_y)),
    (List.takeWhile_append_dropWhile _ (e0 :: es)).symm, ?_, dropWhile_min_y e0.min_y _ hs,
    List.Pairwise.sublist (List.dropWhile_suffix _).sublist hs, ?_⟩
  · intro e he
    rw [htake e he]
  · have hsub := List.Pairwise.sublist (List.takeWhile_sublist
      (fun e : Edge => decide (e.min_y ≤ e0.min_y))) hsorted
    refine List.Pairwise.imp_of_mem ?_ hsub
    intro a b ha hb hab
    exact (himp a b hab).2 (by rw [htake a ha, htake b hb])

theorem scanRow_spec (y : Int) (L : List Edge) (blitter : Blitter) (bit_map : GBitmap)
    (hL : scanSplit y L) (hc : blitter.coherent) :
    ∃ L1 b1 bm1, scanRow y L blitter bit_map = some (L1, b1, bm1) ∧ b1.coherent ∧
      scanSplit (y + 1) L1 ∧
      L1.Perm (L.flatMap (fun e => if e.min_y ≤ y then scanStep y e else [e])) := by
  obtain ⟨A, B, hAB, hA, hB, hs, hx⟩ := hL
  obtain ⟨s1, h1, h2, h3⟩ := scanActive_spec y A B
    { done := [], w := 0, start_x := 0, blitter := blitter, bit_map := bit_map } hA hB hc hx
    (fun _ _ h0 => absurd rfl h0)
  simp only [List.nil_append] at h2
  refine ⟨sortEdgeListByX (s1.done ++ B.takeWhile (fun e => decide (e.min_y ≤ y + 1))) ++
    B.dropWhile (fun e => decide (e.min_y ≤ y + 1)), s1.blitter, s1.bit_map, ?_, h3, ?_, ?_⟩
  · unfold scanRow
    rw [hAB, h1]
  · refine ⟨sortEdgeListByX (s1.done ++ B.takeWhile (fun e => decide (e.min_y ≤ y + 1))),
      B.dropWhile (fun e => decide (e.min_y ≤ y + 1)), rfl, ?_, dropWhile_min_y (y + 1) B hs,
      List.Pairwise.sublist (List.dropWhile_suffix _).sublist hs, sortEdgeListByX_sorted _⟩
    intro e he
    rw [(sortEdgeListByX_perm _).mem_iff, h2, List.mem_append] at he
    rcases he with he | he
    · rw [List.mem_flatMap] at he
      obtain ⟨a, ha, hea⟩ := he
      have hay := hA a ha
      unfold scanStep at hea
      split_ifs at hea
      · simp at hea
      · simp only [List.mem_singleton] at hea
        rw [hea]
        simp only
        omega
    · simpa using List.mem_takeWhile_imp he
  · have hflat : L.flatMap (fun e => if e.min_y ≤ y then scanStep y e else [e]) =
        A.flatMap (scanStep y) ++ B := by
      rw [hAB, List.flatMap_append]
      congr 1
      · apply List.flatMap_congr
        intro e he
        rw [if_pos (hA e he)]
      · have : ∀ l : List Edge, (∀ e ∈ l, y < e.min_y) →
            l.flatMap (fun e => if e.min_y ≤ y then scanStep y e else [e]) = l := by
          intro l
          induction l with
          | nil => intro _; rfl
          | cons b l ih =>
            intro hl
            have hb : ¬ b.min_y ≤ y := not_le.mpr (hl b (List.mem_cons_self _ _))
            rw [List.flatMap_cons, if_neg hb, ih (fun e he => hl e (List.mem_cons_of_mem _ he))]
            rfl
        exact this B hB
    rw [hflat, h2]
    have hB12 := List.takeWhile_append_dropWhile (fun e : Edge => decide (e.min_y ≤ y + 1)) B
    have hp := List.Perm.append_right (B.dropWhile (fun e => decide (e.min_y ≤ y + 1)))
      (sortEdgeListByX_perm
        (A.flatMap (scanStep y) ++ B.takeWhile (fun e => decide (e.min_y ≤ y + 1))))
    rw [List.append_assoc, hB12] at hp
    exact hp

theorem edgesAtRow_step (L0 : List Edge) (y : Int) (h : ∀ e ∈ L0, e.min_y < e.max_y) :
    (edgesAtRow L0 y).flatMap (fun e => if e.min_y ≤ y then scanStep y e else [e]) =
      edgesAtRow L0 (y + 1) := by
  induction L0 with
  | nil => rfl
  | cons e L0 ih =>
    have he := h e (List.mem_cons_self _ _)
    have ih' := ih (fun e' h' => h e' (List.mem_cons_of_mem _ h'))
    unfold edgesAtRow at ih' ⊢
    by_cases h1 : y < e.max_y
    · rw [List.filter_cons_of_pos (by simpa using h1), List.map_cons, List.flatMap_cons, ih']
      by_cases h2 : e.min_y ≤ y
      · have h2' : (Edge.advanceTo y e).min_y ≤ y := h2
        rw [if_pos h2']
        by_cases h3 : y + 1 = e.max_y
        · have h3' : y + 1 = (Edge.advanceTo y e).max_y := h3
          have h4 : ¬ (y + 1 < e.max_y) := by omega
          rw [scanStep, if_pos h3', List.filter_cons_of_neg (by simpa using h4)]
          rfl
        · have h3' : ¬ y + 1 = (Edge.advanceTo y e).max_y := h3
          have h4 : y + 1 < e.max_y := by omega
          rw [scanStep, if_neg h3', List.filter_cons_of_pos (by simpa using h4), List.map_cons]
          simp only [List.singleton_append, List.cons.injEq, and_true]
          simp only [Edge.advanceTo, Edge.mk.injEq, true_and]
          have m1 : max (y - e.min_y) 0 = y - e.min_y := max_eq_left (by omega)
          have m2 : max (y + 1 - e.min_y) 0 = y + 1 - e.min_y := max_eq_left (by omega)
          rw [m1, m2]
          push_cast
          ring
      · have h2' : ¬ (Edge.advanceTo y e).min_y ≤ y := h2
        have h4 : y + 1 < e.max_y := by omega
        rw [if_neg h2', List.filter_cons_of_pos (by simpa using h4), List.map_cons]
        simp only [List.singleton_append, List.cons.injEq, and_true]
        simp only [Edge.advanceTo, Edge.mk.injEq, true_and]
        have m1 : max (y - e.min_y) 0 = 0 := max_eq_right (by omega)
        have m2 : max (y + 1 - e.min_y) 0 = 0 := max_eq_right (by omega)
        rw [m1, m2]
    · have h4 : ¬ (y + 1 < e.max_y) := by omega
      rw [List.filter_cons_of_neg (by simpa using h1), List.filter_cons_of_neg (by simpa using h4)]
      exact ih'

theorem edgesAtRow_of_le (L0 : List Edge) (y : Int) (h : ∀ e ∈ L0, e.min_y < e.max_y)
    (hy : ∀ e ∈ L0, y ≤ e.min_y) : edgesAtRow L0 y = L0 := by
  induction L0 with
  | nil => rfl
  | cons e L0 ih =>
    have he := h e (List.mem_cons_self _ _)
    have hye := hy e (List.mem_cons_self _ _)
    have ih' := ih (fun e' h' => h e' (List.mem_cons_of_mem _ h'))
      (fun e' h' => hy e' (List.mem_cons_of_mem _ h'))
    unfold edgesAtRow at ih' ⊢
    have h1 : y < e.max_y := by omega
    rw [List.filter_cons_of_pos (by simpa using h1), List.map_cons, ih']
    congr 1
    have m1 : max (y - e.min_y) 0 = 0 := max_eq_right (by omega)
    simp [Edge.advanceTo, m1]

theorem edgesAtRow_eq_nil (L0 : List Edge) (y : Int) (h : ∀ e ∈ L0, e.max_y ≤ y) :
    edgesAtRow L0 y = [] := by
  unfold edgesAtRow
  rw [List.map_eq_nil_iff, List.filter_eq_nil_iff]
  intro e he
  have := h e he
  simp only [decide_eq_true_eq]
  omega

theorem edgesAtRow_ne_nil (L0 : List Edge) (y : Int) (e : Edge) (he : e ∈ L0)
    (h : y < e.max_y) : edgesAtRow L0 y ≠ [] := by
  unfold edgesAtRow
  intro hnil
  rw [List.map_eq_nil_iff, List.filter_eq_nil_iff] at hnil
  exact hnil e he (by simpa using h)

theorem scanRows_spec (L0 : List Edge) (h : ∀ e ∈ L0, e.min_y < e.max_y) (d : Nat) :
    ∀ (y : Int) (L : List Edge) (blitter : Blitter) (bit_map : GBitmap),
      scanSplit y L → L.Perm (edgesAtRow L0 y) → blitter.coherent →
      (∀ e ∈ L0, e.max_y ≤ y + d) → (0 < d → ∃ e ∈ L0, e.max_y = y + d) →
    ∃ trace b1 bm1, (∀ fuel, d ≤ fuel →
        scanRows fuel y L blitter bit_map = some (trace, b1, bm1)) ∧
      trace.length = d ∧
      ∀ k, k < d → (trace.getD k []).Perm (edgesAtRow L0 (y + k)) ∧
        scanSplit (y + k) (trace.getD k []) := by
  induction d with
  | zero =>
    intro y L blitter bit_map _ hperm _ hmax _
    have hnil : L = [] := by
      rw [edgesAtRow_eq_nil L0 y (by simpa using hmax)] at hperm
      exact List.perm_nil.mp hperm
    subst hnil
    refine ⟨[], blitter, bit_map, ?_, rfl, ?_⟩
    · intro fuel _
      cases fuel <;> rfl
    · intro k hk; omega
  | succ d ih =>
    intro y L blitter bit_map hsplit hperm hc hmax hex
    obtain ⟨e0, he0, he0max⟩ := hex (Nat.succ_pos d)
    have hne : L ≠ [] := by
      intro hnil
      rw [hnil] at hperm
      exact edgesAtRow_ne_nil L0 y e0 he0 (by rw [he0max]; push_cast; omega)
        (List.perm_nil.mp hperm.symm)
    obtain ⟨L1, b1, bm1, hrow, hc1, hsplit1, hperm1⟩ :=
      scanRow_spec y L blitter bit_map hsplit hc
    have hperm1' : L1.Perm (edgesAtRow L0 (y + 1)) := by
      rw [← edgesAtRow_step L0 y h]
      exact hperm1.trans (List.Perm.flatMap_right _ hperm)
    obtain ⟨trace, b2, bm2, hrows, hlen, htr⟩ := ih (y + 1) L1 b1 bm1 hsplit1 hperm1' hc1
      (by intro e he; have := hmax e he; push_cast at this ⊢; omega)
      (by intro _; exact ⟨e0, he0, by rw [he0max]; push_cast; omega⟩)
    refine ⟨L :: trace, b2, bm2, ?_, by simp [hlen], ?_⟩
    · intro fuel hfuel
      obtain ⟨f, rfl⟩ : ∃ f, fuel = f + 1 := ⟨fuel - 1, by omega⟩
      cases L with
      | nil => exact absurd rfl hne
      | cons e es =>
        simp only [scanRows, hrow, hrows f (by omega)]
    · intro k hk
      cases k with
      | zero => exact ⟨by simpa using hperm, by simpa using hsplit⟩
      | succ k =>
        simp only [List.getD_cons_succ]
        have := htr k (by omega)
        have hy : y + 1 + (k : Int) = y + ((k + 1 : Nat) : Int) := by push_cast; ring
        rw [hy] at this
        exact this

theorem exists_max_max_y (e0 : Edge) (es : List Edge) :
    ∃ e ∈ e0 :: es, ∀ e1 ∈ e0 :: es, e1.max_y ≤ e.max_y := by
  induction es with
  | nil => exact ⟨e0, List.mem_cons_self _ _, by simp⟩
  | cons a es ih =>
    obtain ⟨e, he, hmax⟩ := ih
    by_cases ha : a.max_y ≤ e.max_y
    · refine ⟨e, ?_, ?_⟩
      · rcases List.mem_cons.mp he with h | h
        · rw [h]; exact List.mem_cons_self _ _
        · exact List.mem_cons_of_mem _ (List.mem_cons_of_mem _ h)
      · intro e1 he1
        rcases List.mem_cons.mp he1 with h | h
        · rw [h]; exact hmax e0 (List.mem_cons_self _ _)
        · rcases List.mem_cons.mp h with h | h
          · rw [h]; exact ha
          · exact hmax e1 (List.mem_cons_of_mem _ h)
    · refine ⟨a, List.mem_cons_of_mem _ (List.mem_cons_self _ _), ?_⟩
      intro e1 he1
      have hae : e.max_y ≤ a.max_y := by omega
      rcases List.mem_cons.mp he1 with h | h
      · rw [h]; exact le_trans (hmax e0 (List.mem_cons_self _ _)) hae
      · rcases List.mem_cons.mp h with h | h
        · rw [h]
        · exact le_trans (hmax e1 (List.mem_cons_of_mem _ h)) hae

theorem scanRows_terminates (e0 : Edge) (es : List Edge) (blitter : Blitter)
    (bit_map : GBitmap)
    (hsorted : (e0 :: es).Pairwise (fun a b => sortEdges b a = false))
    (h : ∀ e ∈ e0 :: es, e.min_y < e.max_y) (hc : blitter.coherent) :
    ∃ rows trace b1 bm1,
      (∀ fuel, rows ≤ fuel →
        scanRows fuel (GRoundToInt e0.min_y) (e0 :: es) blitter bit_map =
          some (trace, b1, bm1)) ∧
      trace.length = rows ∧
      (∀ e ∈ e0 :: es, e0.min_y ≤ e.min_y ∧ e.max_y ≤ e0.min_y + rows) ∧
      (∃ e ∈ e0 :: es, e.max_y = e0.min_y + rows) ∧
      ∀ k, k < rows → (trace.getD k []).Perm (edgesAtRow (e0 :: es) (e0.min_y + k)) ∧
        scanSplit (e0.min_y + k) (trace.getD k []) := by
  have hmin : (e0 :: es).Pairwise (fun a b => a.min_y ≤ b.min_y) := by
    apply List.Pairwise.imp _ hsorted
    intro a b hab
    have hn : ¬ (sortEdges b a = true) := by rw [hab]; simp
    rw [sortEdges_iff] at hn
    by_contra hlt
    exact hn (Or.inl (not_le.mp hlt))
  have hfirst : ∀ e ∈ e0 :: es, e0.min_y ≤ e.min_y := by
    intro e he
    rcases List.mem_cons.mp he with h1 | h1
    · rw [h1]
    · exact (List.pairwise_cons.mp hmin).1 e h1
  obtain ⟨em, hem, hmax⟩ := exists_max_max_y e0 es
  have hpos : e0.min_y < em.max_y := lt_of_le_of_lt (hfirst em hem) (h em hem)
  obtain ⟨trace, b1, bm1, hrows, hlen, htr⟩ := scanRows_spec (e0 :: es) h
    (em.max_y - e0.min_y).toNat e0.min_y (e0 :: es) blitter bit_map
    (scanSplit_of_sorted e0 es hsorted)
    (by rw [edgesAtRow_of_le _ _ h hfirst])
    hc
    (by intro e he; have := hmax e he; omega)
    (by intro _; exact ⟨em, hem, by omega⟩)
  refine ⟨(em.max_y - e0.min_y).toNat, trace, b1, bm1, ?_, hlen, ?_, ⟨em, hem, by omega⟩, htr⟩
  · rw [GRoundToInt_intCast]
    exact hrows
  · intro e he
    exact ⟨hfirst e he, by have := hmax e he; omega⟩

end EmptyCanvas

/-! ## The winding count of `find_edges` -/

theorem windingAt_append (y : Int) (l1 l2 : List Edge) :
    windingAt y (l1 ++ l2) = windingAt y l1 + windingAt y l2 := by
  simp [windingAt, List.filter_append, List.map_append, List.sum_append]

theorem windingAt_make (y : Int) (a b m x : ℚ) (w : Int) (h : a ≤ b) :
    windingAt y [Edge.make a b m x w] = w * (rowReached a y - rowReached b y) := by
  have hab := GRoundToInt_mono h
  unfold windingAt rowReached
  by_cases h1 : GRoundToInt a ≤ y
  · by_cases h2 : GRoundToInt b ≤ y
    · have h3 : ¬ (y < GRoundToInt b) := by omega
      simp [List.filter, Edge.legal_y, Edge.make, h1, h2, h3]
    · have h3 : y < GRoundToInt b := by omega
      simp [List.filter, Edge.legal_y, Edge.make, h1, h2, h3]
  · have h2 : ¬ GRoundToInt b ≤ y := by omega
    simp [List.filter, Edge.legal_y, Edge.make, h1, h2]

theorem rowReached_congr (a c : ℚ) (y : Int) (h : GRoundToInt a = GRoundToInt c) :
    rowReached a y = rowReached c y := by
  unfold rowReached
  rw [h]

theorem spanRows_comm (a c : ℚ) (y : Int) : spanRows a c y = spanRows c a y := by
  unfold spanRows
  rw [min_comm, max_comm]

theorem spanRows_of_le (a c : ℚ) (y : Int) (h : a ≤ c) :
    spanRows a c y = rowReached a y - rowReached c y := by
  unfold spanRows
  rw [min_eq_left h, max_eq_right h]

theorem spanRows_between (a b c : ℚ) (y : Int) (h1 : min a b ≤ c) (h2 : c ≤ max a b) :
    spanRows a c y + spanRows c b y = spanRows a b y := by
  rcases le_total a b with hab | hab
  · rw [min_eq_left hab] at h1
    rw [max_eq_right hab] at h2
    rw [spanRows_of_le a c y h1, spanRows_of_le c b y h2, spanRows_of_le a b y hab]
    ring
  · rw [min_eq_right hab] at h1
    rw [max_eq_left hab] at h2
    rw [spanRows_comm a c, spanRows_comm c b, spanRows_comm a b,
      spanRows_of_le c a y h2, spanRows_of_le b c y h1, spanRows_of_le b a y hab]
    ring

theorem spanRows_of_horizontal (a c : ℚ) (y : Int)
    (h : is_horizontal (min a c) (max a c) = true) : spanRows a c y = 0 := by
  unfold spanRows
  rw [rowReached_congr (min a c) (max a c) y (by simpa [is_horizontal] using h)]
  ring

theorem border_edge_winding (y : Int) (edges : List Edge) (ya yb x : ℚ) (w : Int) :
    windingAt y (if (!is_horizontal (min ya yb) (max ya yb)) = true then
          edges ++ [Edge.make (min ya yb) (max ya yb) 0 x w] else edges) =
      windingAt y edges + w * spanRows ya yb y := by
  by_cases hh : is_horizontal (min ya yb) (max ya yb) = true
  · rw [if_neg (by simp [hh]), spanRows_of_horizontal ya yb y hh]
    ring
  · rw [if_pos (by simpa using hh), windingAt_append,
      windingAt_make y _ _ 0 x w (min_le_max)]
    rfl

theorem final_edge_winding (y : Int) (edges : List Edge) (m : ℚ) (w : Int) (L R : GPoint) :
    windingAt y (if is_horizontal (min L.fY R.fY) (max L.fY R.fY) = true then edges
        else edges ++ [Edge.make (min L.fY R.fY) (max L.fY R.fY) m
          (calculate_x m (if L.fY = min L.fY R.fY then L else R)) w]) =
      windingAt y edges + w * spanRows L.fY R.fY y := by
  by_cases hh : is_horizontal (min L.fY R.fY) (max L.fY R.fY) = true
  · rw [if_pos hh, spanRows_of_horizontal L.fY R.fY y hh]
    ring
  · rw [if_neg hh, windingAt_append, windingAt_make y _ _ m _ w (min_le_max)]
    rfl

theorem find_edges_sorted_winding (y : Int) (edges : List Edge) (bit_map : GBitmap)
    (m b : ℚ) (w : Int) (L R : GPoint) (hW : 0 ≤ bit_map.width)
    (hL : L.fX = m * L.fY + b) (hR : R.fX = m * R.fY + b)
    (hR0 : 0 ≤ R.fX) (hLW : L.fX ≤ bit_map.width) :
    windingAt y (find_edges_sorted edges m b w L R bit_map) =
      windingAt y edges + w * spanRows L.fY R.fY y := by
  have hW' : (0 : ℚ) ≤ bit_map.width := by exact_mod_cast hW
  -- the crossing with the left border lies between the two points
  have hleft : L.fX < 0 → m ≠ 0 ∧ m * (-b / m) + b = 0 ∧
      spanRows L.fY (-b / m) y + spanRows (-b / m) R.fY y = spanRows L.fY R.fY y := by
    intro hl
    have hm : m ≠ 0 := slope_ne_zero_of_ne m b L R hL hR (by linarith)
    have hc := crossing_between m b 0 L.fY R.fY hm (by rw [← hL]; exact hl.le)
      (by rw [← hR]; exact hR0)
    rw [zero_sub] at hc
    exact ⟨hm, by field_simp; ring, spanRows_between _ _ _ y hc.1 hc.2⟩
  by_cases hl : L.fX < 0
  · obtain ⟨hm, hl1, hl2⟩ := hleft hl
    by_cases hr : (bit_map.width : ℚ) < R.fX
    · have hc := crossing_between m b bit_map.width (-b / m) R.fY hm
        (by rw [hl1]; exact hW') (by rw [← hR]; exact hr.le)
      have hr2 := spanRows_between _ _ _ y hc.1 hc.2
      simp only [find_edges_sorted, hl, hr, if_true, gt_iff_lt]
      refine (final_edge_winding y _ m w ⟨0, -b / m⟩
        ⟨bit_map.width, ((bit_map.width : ℚ) - b) / m⟩).trans ?_
      rw [border_edge_winding y _ R.fY (((bit_map.width : ℚ) - b) / m) bit_map.width w,
        border_edge_winding y _ L.fY (-b / m) 0 w,
        spanRows_comm R.fY (((bit_map.width : ℚ) - b) / m)]
      simp only
      rw [← hl2, ← hr2]
      ring
    · simp only [find_edges_sorted, hl, hr, if_true, if_false, gt_iff_lt]
      refine (final_edge_winding y _ m w ⟨0, -b / m⟩ R).trans ?_
      rw [border_edge_winding y _ L.fY (-b / m) 0 w]
      simp only
      rw [← hl2]
      ring
  · by_cases hr : (bit_map.width : ℚ) < R.fX
    · have hm : m ≠ 0 := slope_ne_zero_of_ne m b L R hL hR (by linarith)
      have hc := crossing_between m b bit_map.width L.fY R.fY hm (by rw [← hL]; exact hLW)
        (by rw [← hR]; exact hr.le)
      have hr2 := spanRows_between _ _ _ y hc.1 hc.2
      simp only [find_edges_sorted, hl, hr, if_true, if_false, gt_iff_lt]
      refine (final_edge_winding y _ m w L
        ⟨bit_map.width, ((bit_map.width : ℚ) - b) / m⟩).trans ?_
      rw [border_edge_winding y _ R.fY (((bit_map.width : ℚ) - b) / m) bit_map.width w,
        spanRows_comm R.fY (((bit_map.width : ℚ) - b) / m)]
      simp only
      rw [← hr2]
      ring
    · simp only [find_edges_sorted, hl, hr, if_false, gt_iff_lt]
      exact final_edge_winding y _ m w L R

theorem find_edges_clipped_winding (y : Int) (edges : List Edge) (bit_map : GBitmap)
    (m b : ℚ) (w : Int) (T B : GPoint) (hW : 0 ≤ bit_map.width)
    (hT : T.fX = m * T.fY + b) (hB : B.fX = m * B.fY + b) (hTB : T.fY ≤ B.fY) :
    windingAt y (find_edges_clipped edges m b w T B bit_map) =
      windingAt y edges + w * (rowReached T.fY y - rowReached B.fY y) := by
  unfold find_edges_clipped
  simp only [gt_iff_lt]
  by_cases hoob : (T.fX < 0 ∧ B.fX < 0) ∨
      ((bit_map.width : ℚ) < T.fX ∧ (bit_map.width : ℚ) < B.fX)
  · rw [if_pos hoob, windingAt_append, windingAt_make y _ _ 0 _ w hTB]
  · rw [if_neg hoob]
    by_cases hsw : B.fX < T.fX
    · simp only [hsw, if_true]
      have hR0 : 0 ≤ T.fX := by
        by_contra h
        push_neg at h
        exact hoob (Or.inl ⟨h, lt_trans hsw h⟩)
      have hLW : B.fX ≤ bit_map.width := by
        by_contra h
        push_neg at h
        exact hoob (Or.inr ⟨lt_trans h hsw, h⟩)
      rw [find_edges_sorted_winding y edges bit_map m b w B T hW hB hT hR0 hLW,
        spanRows_comm, spanRows_of_le _ _ y hTB]
    · simp only [hsw, if_false]
      have hle : T.fX ≤ B.fX := not_lt.mp hsw
      have hR0 : 0 ≤ B.fX := by
        by_contra h
        push_neg at h
        exact hoob (Or.inl ⟨lt_of_le_of_lt hle h, h⟩)
      have hLW : T.fX ≤ bit_map.width := by
        by_contra h
        push_neg at h
        exact hoob (Or.inr ⟨h, lt_of_lt_of_le h hle⟩)
      rw [find_edges_sorted_winding y edges bit_map m b w T B hW hT hB hR0 hLW,
        spanRows_of_le _ _ y hTB]

theorem rowReached_of_nonpos (a : ℚ) (y : Int) (ha : a ≤ 0) (hy : 0 ≤ y) :
    rowReached a y = 1 := by
  unfold rowReached
  have := GRoundToInt_mono ha
  rw [GRoundToInt_zero] at this
  rw [if_pos (by omega)]

theorem rowReached_of_height_le (a : ℚ) (y H : Int) (ha : (H : ℚ) ≤ a) (hy : y < H) :
    rowReached a y = 0 := by
  unfold rowReached
  have := GRoundToInt_mono ha
  rw [GRoundToInt_intCast] at this
  rw [if_neg (by omega)]

theorem find_edges_yclip_winding (y : Int) (edges : List Edge) (bit_map : GBitmap)
    (m b : ℚ) (w : Int) (T B : GPoint) (hW : 0 ≤ bit_map.width)
    (hT : T.fX = m * T.fY + b) (hB : B.fX = m * B.fY + b) (hTB : T.fY ≤ B.fY)
    (hy0 : 0 ≤ y) (hy1 : y < bit_map.height) :
    windingAt y (if (T.fY < 0 ∧ B.fY < 0) ∨
          (T.fY > (bit_map.height : ℚ) ∧ B.fY > (bit_map.height : ℚ)) then edges
        else if is_horizontal (if T.fY < 0 then (⟨b, 0⟩ : GPoint) else T).fY
            (if B.fY > (bit_map.height : ℚ) then
              (⟨m * (bit_map.height : ℚ) + b, bit_map.height⟩ : GPoint) else B).fY = true
          then edges
        else find_edges_clipped edges m b w (if T.fY < 0 then (⟨b, 0⟩ : GPoint) else T)
          (if B.fY > (bit_map.height : ℚ) then
            (⟨m * (bit_map.height : ℚ) + b, bit_map.height⟩ : GPoint) else B) bit_map) =
      windingAt y edges + w * (rowReached T.fY y - rowReached B.fY y) := by
  have hH' : (0 : ℚ) ≤ bit_map.height := by exact_mod_cast (by omega : (0 : Int) ≤ bit_map.height)
  by_cases hskip : (T.fY < 0 ∧ B.fY < 0) ∨
      (T.fY > (bit_map.height : ℚ) ∧ B.fY > (bit_map.height : ℚ))
  · rw [if_pos hskip]
    rcases hskip with ⟨h1, h2⟩ | ⟨h1, h2⟩
    · rw [rowReached_of_nonpos T.fY y h1.le hy0, rowReached_of_nonpos B.fY y h2.le hy0]
      ring
    · rw [rowReached_of_height_le T.fY y _ h1.le hy1, rowReached_of_height_le B.fY y _ h2.le hy1]
      ring
  rw [if_neg hskip]
  -- the clipped points: on the same line, in the same order, reached on the same rows
  have hT' : (if T.fY < 0 then (⟨b, 0⟩ : GPoint) else T).fX =
      m * (if T.fY < 0 then (⟨b, 0⟩ : GPoint) else T).fY + b := by
    split_ifs
    · simp
    · exact hT
  have hB' : (if B.fY > (bit_map.height : ℚ) then
        (⟨m * (bit_map.height : ℚ) + b, bit_map.height⟩ : GPoint) else B).fX =
      m * (if B.fY > (bit_map.height : ℚ) then
        (⟨m * (bit_map.height : ℚ) + b, bit_map.height⟩ : GPoint) else B).fY + b := by
    split_ifs
    · rfl
    · exact hB
  have hTB' : (if T.fY < 0 then (⟨b, 0⟩ : GPoint) else T).fY ≤
      (if B.fY > (bit_map.height : ℚ) then
        (⟨m * (bit_map.height : ℚ) + b, bit_map.height⟩ : GPoint) else B).fY := by
    by_cases ht : T.fY < 0
    · have hB0 : 0 ≤ B.fY := by
        by_contra h
        push_neg at h
        exact hskip (Or.inl ⟨ht, h⟩)
      by_cases hb : B.fY > (bit_map.height : ℚ)
      · rw [if_pos ht, if_pos hb]; exact hH'
      · rw [if_pos ht, if_neg hb]; exact hB0
    · by_cases hb : B.fY > (bit_map.height : ℚ)
      · rw [if_neg ht, if_pos hb]
        by_contra h
        push_neg at h
        exact hskip (Or.inr ⟨h, hb⟩)
      · rw [if_neg ht, if_neg hb]; exact hTB
  have hrT : rowReached (if T.fY < 0 then (⟨b, 0⟩ : GPoint) else T).fY y =
      rowReached T.fY y := by
    by_cases ht : T.fY < 0
    · rw [if_pos ht, rowReached_of_nonpos T.fY y ht.le hy0,
        rowReached_of_nonpos _ y (le_refl _) hy0]
    · rw [if_neg ht]
  have hrB : rowReached (if B.fY > (bit_map.height : ℚ) then
        (⟨m * (bit_map.height : ℚ) + b, bit_map.height⟩ : GPoint) else B).fY y =
      rowReached B.fY y := by
    by_cases hb : B.fY > (bit_map.height : ℚ)
    · rw [if_pos hb, rowReached_of_height_le B.fY y _ hb.le hy1,
        rowReached_of_height_le _ y _ (le_refl _) hy1]
    · rw [if_neg hb]
  by_cases hhor : is_horizontal (if T.fY < 0 then (⟨b, 0⟩ : GPoint) else T).fY
      (if B.fY > (bit_map.height : ℚ) then
        (⟨m * (bit_map.height : ℚ) + b, bit_map.height⟩ : GPoint) else B).fY = true
  · rw [if_pos hhor, ← hrT, ← hrB,
      rowReached_congr _ _ y (by simpa [is_horizontal] using hhor)]
    ring
  · rw [if_neg hhor, find_edges_clipped_winding y edges bit_map m b w _ _ hW hT' hB' hTB',
      hrT, hrB]

theorem find_edges_body_winding (y : Int) (edges : List Edge) (pts : List GPoint)
    (count : Nat) (bit_map : GBitmap) (connect_end : Bool) (i : Nat)
    (hW : 0 ≤ bit_map.width) (hy0 : 0 ≤ y) (hy1 : y < bit_map.height) :
    windingAt y (find_edges_body edges pts count bit_map connect_end i) =
      windingAt y edges +
        (rowReached (pts.getD i default).fY y -
          rowReached (pts.getD (if i + 1 ≥ count ∧ connect_end = true then 0 else i + 1)
            default).fY y) := by
  rw [find_edges_body_eq]
  simp only
  generalize pts.getD i default = p
  generalize pts.getD (if i + 1 ≥ count ∧ connect_end = true then 0 else i + 1) default = q
  by_cases hhor : is_horizontal p.fY q.fY = true
  · rw [if_pos hhor, rowReached_congr p.fY q.fY y (by simpa [is_horizontal] using hhor)]
    ring
  · rw [if_neg hhor]
    have hne : p.fY ≠ q.fY := by
      intro h
      apply hhor
      simp [is_horizontal, h]
    have hd : q.fY - p.fY ≠ 0 := sub_ne_zero.mpr (Ne.symm hne)
    have hp : p.fX = (q.fX - p.fX) / (q.fY - p.fY) * p.fY +
        (p.fX - (q.fX - p.fX) / (q.fY - p.fY) * p.fY) := by ring
    have hq : q.fX = (q.fX - p.fX) / (q.fY - p.fY) * q.fY +
        (p.fX - (q.fX - p.fX) / (q.fY - p.fY) * p.fY) := by
      field_simp
      ring
    by_cases hlt : p.fY < q.fY
    · simp only [hlt, if_true, gt_iff_lt]
      rw [find_edges_yclip_winding y edges bit_map _ _ _ p q hW hp hq hlt.le hy0 hy1]
      ring
    · simp only [hlt, if_false, gt_iff_lt]
      rw [find_edges_yclip_winding y edges bit_map _ _ _ q p hW hq hp (not_lt.mp hlt) hy0 hy1]
      ring

theorem find_edges_winding_fold (y : Int) (pts : List GPoint) (count : Nat)
    (bit_map : GBitmap) (connect_end : Bool)
    (hW : 0 ≤ bit_map.width) (hy0 : 0 ≤ y) (hy1 : y < bit_map.height) (l : List Nat) :
    ∀ edges : List Edge,
      windingAt y (l.foldl
        (fun acc i => find_edges_body acc pts count bit_map connect_end i) edges) =
      windingAt y edges + (l.map (fun i =>
        rowReached (pts.getD i default).fY y -
          rowReached (pts.getD (if i + 1 ≥ count ∧ connect_end = true then 0 else i + 1)
            default).fY y)).sum := by
  induction l with
  | nil => intro edges; simp
  | cons i l ih =>
    intro edges
    rw [List.foldl_cons, ih, find_edges_body_winding y edges pts count bit_map connect_end i
      hW hy0 hy1, List.map_cons, List.sum_cons]
    ring

theorem sum_range_telescope (f : Nat → Int) (n : Nat) :
    ((List.range n).map (fun i => f i - f (i + 1))).sum = f 0 - f n := by
  induction n with
  | zero => simp
  | succ n ih =>
    rw [List.range_succ, List.map_append, List.sum_append, ih]
    simp

theorem sum_range_cycle (f : Nat → Int) (count : Nat) :
    ((List.range count).map (fun i =>
      f i - f (if i + 1 ≥ count ∧ true = true then 0 else i + 1))).sum = 0 := by
  cases count with
  | zero => simp
  | succ n =>
    rw [List.range_succ, List.map_append, List.sum_append]
    have h1 : (List.range n).map (fun i =>
        f i - f (if i + 1 ≥ n + 1 ∧ true = true then 0 else i + 1)) =
        (List.range n).map (fun i => f i - f (i + 1)) := by
      apply List.map_congr_left
      intro i hi
      have hi' : ¬ (i + 1 ≥ n + 1 ∧ true = true) := by
        rw [List.mem_range] at hi
        intro h
        omega
      rw [if_neg hi']
    rw [h1, sum_range_telescope]
    simp

theorem windingAt_eq_zero_of_asserts (y : Int) (edges : List Edge) (bit_map : GBitmap)
    (h : ∀ e ∈ edges, e.assertsHold bit_map) (hy : y < 0 ∨ bit_map.height ≤ y) :
    windingAt y edges = 0 := by
  unfold windingAt
  have : edges.filter (fun e => e.legal_y y) = [] := by
    rw [List.filter_eq_nil_iff]
    intro e he
    obtain ⟨_, ⟨h2, h3⟩, _⟩ := h e he
    simp only [Edge.legal_y, Bool.and_eq_true, decide_eq_true_eq, not_and, not_lt]
    intro h4
    omega
  rw [this]
  rfl

theorem find_edges_closed_winding (pts : List GPoint) (count : Nat) (bit_map : GBitmap)
    (hW : 0 ≤ bit_map.width) (hH : 0 ≤ bit_map.height) (y : Int) :
    windingAt y (find_edges [] pts count bit_map true) = 0 := by
  by_cases hy : 0 ≤ y ∧ y < bit_map.height
  · unfold find_edges
    rw [find_edges_winding_fold y pts count bit_map true hW hy.1 hy.2]
    rw [sum_range_cycle (fun i => rowReached (pts.getD i default).fY y) count]
    rfl
  · apply windingAt_eq_zero_of_asserts y _ bit_map
    · exact find_edges_asserts pts count bit_map true hW hH [] (by simp)
    · omega

/-! # The claims: meshes, the scanline loop, blending and the bitmap shader -/

/-- C31: `drawMesh` does not ignore `texs[]` for a paint without a shader.  For the single
triangle (0,0), (4,0), (0,4) on the cleared 4x4 bitmap, with three colours, three texture
coordinates and a shader-less paint, the call stops at `assert(paint.getShader() != nullptr)`
(the failure `none`), whereas the same call with `texs = null` completes. -/
theorem drawMesh_texs_need_shader (oob : Nat → Edge) :
    (EmptyCanvas.make (GBitmap.cleared 4 4)).drawMesh [⟨0, 0⟩, ⟨4, 0⟩, ⟨0, 4⟩]
        (some [⟨1, 1, 0, 0⟩, ⟨1, 0, 1, 0⟩, ⟨1, 0, 0, 1⟩])
        (some [⟨0, 0⟩, ⟨1, 0⟩, ⟨0, 1⟩]) 1 [0, 1, 2]
        ⟨⟨1, 1, 1, 1⟩, GBlendMode.kSrcOver, none⟩ oob = none ∧
    ∃ c1, (EmptyCanvas.make (GBitmap.cleared 4 4)).drawMesh [⟨0, 0⟩, ⟨4, 0⟩, ⟨0, 4⟩]
        (some [⟨1, 1, 0, 0⟩, ⟨1, 0, 1, 0⟩, ⟨1, 0, 0, 1⟩])
        none 1 [0, 1, 2]
        ⟨⟨1, 1, 1, 1⟩, GBlendMode.kSrcOver, none⟩ oob = some c1 :=
  ⟨EmptyCanvas.drawMesh_texs_without_shader _ _ _ _ 0 _ _ oob rfl,
   EmptyCanvas.drawMesh_colors_isSome _ _ _ 1 _ _ oob (by simp [EmptyCanvas.make])⟩

/-- C32 (counterexample): under `float` arithmetic the top-right corner of the grid of
`drawQuad` is not `verts[1]`.  For the square (0,0), (255,0), (255,255), (0,255) and
`level = 40` the parameter of the last column is `fl(41 * fl(1/41)) = 1 - 2^-24`, not 1, and
the vertex of row 0 and column 41 (position 41 of `newVerts`) is `(255 - 2^-16, 0)`, not
`(255, 0)`. -/
theorem drawQuad_corner_inexact_in_float :
    roundF32 (41 * roundF32 (roundF64 (1 / 41))) = 16777215 / 16777216 ∧
    (EmptyCanvas.drawQuadArrays roundF32 roundF64 [⟨0, 0⟩, ⟨255, 0⟩, ⟨255, 255⟩, ⟨0, 255⟩]
        (some [⟨1, 1, 0, 0⟩, ⟨1, 0, 1, 0⟩, ⟨1, 0, 0, 1⟩, ⟨1, 1, 1, 1⟩]) none 40).newVerts.getD 41
        default = ⟨16711679 / 65536, 0⟩ ∧
    (⟨16711679 / 65536, 0⟩ : GPoint) ≠
      ([⟨0, 0⟩, ⟨255, 0⟩, ⟨255, 255⟩, ⟨0, 255⟩] : List GPoint).getD 1 default := by
  have hp : roundF32 (41 * roundF32 (roundF64 (1 / 41))) = 16777215 / 16777216 := by
    rw [roundF64_inverse_41, roundF32_inverse_41, roundF32_last_parameter_41]
  refine ⟨hp, ?_, ?_⟩
  · rw [EmptyCanvas.drawQuadArrays_newVerts]
    have h := EmptyCanvas.getD_flatMap_range_map
      (fun v u => EmptyCanvas.quadVertex roundF32 roundF64
        [⟨0, 0⟩, ⟨255, 0⟩, ⟨255, 255⟩, ⟨0, 255⟩] 40 v u) (40 + 2) default (40 + 2) 0 41
      (by decide) (by decide)
    rw [show (0 * (40 + 2) + 41 : Nat) = 41 from rfl] at h
    rw [h]
    have hv : roundF32 (((0 : Nat) : ℚ) *
        roundF32 (roundF64 (1 / ((((40 : Nat) : Int) + 1 : Int) : ℚ)))) = 0 := by
      rw [Nat.cast_zero, zero_mul, roundF32_zero]
    have hu : roundF32 (((41 : Nat) : ℚ) *
        roundF32 (roundF64 (1 / ((((40 : Nat) : Int) + 1 : Int) : ℚ)))) =
        16777215 / 16777216 := by
      rw [← hp]
      norm_num
    simp only [EmptyCanvas.quadVertex, hv, hu]
    exact pointAt_float_corner
  · intro h
    have := congrArg GPoint.fX h
    norm_num at this

/-- C32 (amended): for every `level ≥ 0` with `colors` or `texs` non-null, and whatever the
rounding `fl`, `fd` of the floating point operations is, `drawQuad` is the call of `drawMesh`
with `2 * (level + 1)^2` triangles on the arrays it filled; `indices` has three entries per
triangle and `newVerts` has `(level + 2)^2` vertices; every index lies in
`[0, (level + 2)^2)`; `indices` lists, sub-quad by sub-quad, the triangles (top-right,
bottom-left, top-left) and (top-right, bottom-right, bottom-left); and the vertex of row `v`
and column `u` of the grid, at position `v * (level + 2) + u`, is `pointAt` of `verts` at
the parameters `fl(u * fl(1 / (level + 1)))` and `fl(v * fl(1 / (level + 1)))`, evaluated
with rounded operations.  Over exact arithmetic (`fl = fd = id`) this vertex is the bilinear
point `pointAt(verts, u / (level + 1), v / (level + 1))` and the four corners of the grid
are `verts[0]`, `verts[1]`, `verts[2]`, `verts[3]`. -/
theorem drawQuad_tessellation_rounded (fl fd : ℚ → ℚ) (c : EmptyCanvas) (verts : List GPoint)
    (colors : Option (List GColor)) (texs : Option (List GPoint)) (level : Nat)
    (paint : GPaint) (oob : Nat → Edge) (hne : ¬ (colors = none ∧ texs = none)) :
    c.drawQuad fl fd verts colors texs level paint oob =
      c.drawMesh (EmptyCanvas.drawQuadArrays fl fd verts colors texs level).newVerts
        (colors.map
          (fun _ => (EmptyCanvas.drawQuadArrays fl fd verts colors texs level).vertColors))
        (texs.map
          (fun _ => (EmptyCanvas.drawQuadArrays fl fd verts colors texs level).vertTexs))
        (2 * (level + 1) ^ 2)
        (EmptyCanvas.drawQuadArrays fl fd verts colors texs level).indices paint oob ∧
    (EmptyCanvas.drawQuadArrays fl fd verts colors texs level).indices.length =
      3 * (2 * (level + 1) ^ 2) ∧
    (EmptyCanvas.drawQuadArrays fl fd verts colors texs level).newVerts.length =
      (level + 2) ^ 2 ∧
    (∀ idx ∈ (EmptyCanvas.drawQuadArrays fl fd verts colors texs level).indices,
      0 ≤ idx ∧ idx < (((level + 2) ^ 2 : Nat) : Int)) ∧
    (EmptyCanvas.drawQuadArrays fl fd verts colors texs level).indices =
      (List.range (level + 1)).flatMap (fun b =>
        (List.range (level + 1)).flatMap (fun a => EmptyCanvas.quadTriangles level b a)) ∧
    (∀ v u, v < level + 2 → u < level + 2 →
      (EmptyCanvas.drawQuadArrays fl fd verts colors texs level).newVerts.getD
          (v * (level + 2) + u) default =
        pointAt fl (verts.getD 0 default) (verts.getD 1 default) (verts.getD 2 default)
          (verts.getD 3 default) (fl ((u : ℚ) * fl (fd (1 / ((level : ℚ) + 1)))))
          (fl ((v : ℚ) * fl (fd (1 / ((level : ℚ) + 1)))))) ∧
    (∀ v u, v < level + 2 → u < level + 2 →
      (EmptyCanvas.drawQuadArrays id id verts colors texs level).newVerts.getD
          (v * (level + 2) + u) default =
        ((1 - (u : ℚ) / ((level : ℚ) + 1)) * (1 - (v : ℚ) / ((level : ℚ) + 1))) •
            verts.getD 0 default +
          ((u : ℚ) / ((level : ℚ) + 1) * (1 - (v : ℚ) / ((level : ℚ) + 1))) •
            verts.getD 1 default +
          ((u : ℚ) / ((level : ℚ) + 1) * ((v : ℚ) / ((level : ℚ) + 1))) •
            verts.getD 2 default +
          ((v : ℚ) / ((level : ℚ) + 1) * (1 - (u : ℚ) / ((level : ℚ) + 1))) •
            verts.getD 3 default) ∧
    ((EmptyCanvas.drawQuadArrays id id verts colors texs level).newVerts.getD 0 default =
        verts.getD 0 default ∧
      (EmptyCanvas.drawQuadArrays id id verts colors texs level).newVerts.getD (level + 1)
        default = verts.getD 1 default ∧
      (EmptyCanvas.drawQuadArrays id id verts colors texs level).newVerts.getD
          ((level + 1) * (level + 2) + (level + 1)) default = verts.getD 2 default ∧
      (EmptyCanvas.drawQuadArrays id id verts colors texs level).newVerts.getD
          ((level + 1) * (level + 2)) default = verts.getD 3 default) := by
  have hgen : ∀ (fl fd : ℚ → ℚ) v u, v < level + 2 → u < level + 2 →
      (EmptyCanvas.drawQuadArrays fl fd verts colors texs level).newVerts.getD
          (v * (level + 2) + u) default =
        EmptyCanvas.quadVertex fl fd verts level v u := by
    intro fl fd v u hv hu
    rw [EmptyCanvas.drawQuadArrays_newVerts,
      EmptyCanvas.getD_flatMap_range_map
        (fun v u => EmptyCanvas.quadVertex fl fd verts level v u)
        (level + 2) default (level + 2) v u hv hu]
  have hvert : ∀ v u, v < level + 2 → u < level + 2 →
      (EmptyCanvas.drawQuadArrays id id verts colors texs level).newVerts.getD
          (v * (level + 2) + u) default =
        pointAt id (verts.getD 0 default) (verts.getD 1 default) (verts.getD 2 default)
          (verts.getD 3 default) ((u : ℚ) / ((level : ℚ) + 1))
          ((v : ℚ) / ((level : ℚ) + 1)) := by
    intro v u hv hu
    rw [hgen id id v u hv hu, EmptyCanvas.quadVertex_id]
  have hl : ((level : ℚ) + 1) ≠ 0 := by positivity
  have hone : (((level + 1 : Nat) : ℚ)) / ((level : ℚ) + 1) = 1 := by
    push_cast
    exact div_self hl
  obtain ⟨hc0, hc1, hc2, hc3⟩ := EmptyCanvas.pointAt_corners (verts.getD 0 default)
    (verts.getD 1 default) (verts.getD 2 default) (verts.getD 3 default)
  refine ⟨?_, ?_, ?_, ?_, EmptyCanvas.drawQuadArrays_indices _ _ _ _ _ _, ?_, ?_,
    ⟨?_, ?_, ?_, ?_⟩⟩
  · have h : (colors.isNone && texs.isNone) = false := by
      cases colors <;> cases texs <;> simp at hne ⊢
    unfold EmptyCanvas.drawQuad
    rw [if_neg (by rw [h]; simp)]
    simp only [EmptyCanvas.drawQuadNumOfTri]
    rw [Nat.mul_comm]
  · rw [EmptyCanvas.drawQuadArrays_indices,
      EmptyCanvas.length_flatMap_range_const (level + 1) ((level + 1) * 6)]
    · ring
    · intro b
      exact EmptyCanvas.length_flatMap_range_const (level + 1) 6 _ (by intro a; rfl)
  · rw [EmptyCanvas.drawQuadArrays_newVerts,
      EmptyCanvas.length_flatMap_range_const (level + 2) (level + 2) _ (by intro v; simp)]
    ring
  · intro idx hidx
    rw [EmptyCanvas.drawQuadArrays_indices, List.mem_flatMap] at hidx
    obtain ⟨b, hb, hidx⟩ := hidx
    rw [List.mem_flatMap] at hidx
    obtain ⟨a, ha, hidx⟩ := hidx
    exact EmptyCanvas.mem_quadTriangles_bounds level b a (List.mem_range.mp hb)
      (List.mem_range.mp ha) idx hidx
  · intro v u hv hu
    rw [hgen fl fd v u hv hu]
    unfold EmptyCanvas.quadVertex
    push_cast
    rfl
  · intro v u hv hu
    rw [hvert v u hv hu, EmptyCanvas.pointAt_id]
  · have := hvert 0 0 (by omega) (by omega)
    simp only [Nat.zero_mul, Nat.add_zero, Nat.cast_zero, zero_div] at this
    rw [hc0] at this
    exact this
  · have := hvert 0 (level + 1) (by omega) (by omega)
    rw [hone] at this
    simp only [Nat.zero_mul, Nat.zero_add, Nat.cast_zero, zero_div] at this
    rw [hc1] at this
    exact this
  · have := hvert (level + 1) (level + 1) (by omega) (by omega)
    rw [hone] at this
    rw [hc2] at this
    exact this
  · have := hvert (level + 1) 0 (by omega) (by omega)
    rw [hone] at this
    simp only [Nat.add_zero, Nat.cast_zero, zero_div] at this
    rw [hc3] at this
    exact this

/-- Witness of C32 (amended): the square (0,0), (4,0), (4,4), (0,4) with four colours and
`level = 1`, over exact arithmetic: a grid of 3 x 3 vertices and 8 triangles; the sub-quad
of the top-left corner gives the triangles (1, 3, 0) and (1, 4, 3), the vertex in the
middle of the grid is (2, 2), and the vertex at position 2 is `verts[1]`. -/
theorem drawQuad_tessellation_rounded_witness :
    ¬ ((some [⟨1, 1, 0, 0⟩, ⟨1, 0, 1, 0⟩, ⟨1, 0, 0, 1⟩, ⟨1, 1, 1, 1⟩] : Option (List GColor)) =
        none ∧ (none : Option (List GPoint)) = none) ∧
    (EmptyCanvas.drawQuadArrays id id [⟨0, 0⟩, ⟨4, 0⟩, ⟨4, 4⟩, ⟨0, 4⟩]
        (some [⟨1, 1, 0, 0⟩, ⟨1, 0, 1, 0⟩, ⟨1, 0, 0, 1⟩, ⟨1, 1, 1, 1⟩]) none 1).indices =
      [1, 3, 0, 1, 4, 3, 2, 4, 1, 2, 5, 4, 4, 6, 3, 4, 7, 6, 5, 7, 4, 5, 8, 7] ∧
    (EmptyCanvas.drawQuadArrays id id [⟨0, 0⟩, ⟨4, 0⟩, ⟨4, 4⟩, ⟨0, 4⟩]
        (some [⟨1, 1, 0, 0⟩, ⟨1, 0, 1, 0⟩, ⟨1, 0, 0, 1⟩, ⟨1, 1, 1, 1⟩]) none
        1).newVerts.length = 9 ∧
    (EmptyCanvas.drawQuadArrays id id [⟨0, 0⟩, ⟨4, 0⟩, ⟨4, 4⟩, ⟨0, 4⟩]
        (some [⟨1, 1, 0, 0⟩, ⟨1, 0, 1, 0⟩, ⟨1, 0, 0, 1⟩, ⟨1, 1, 1, 1⟩]) none 1).newVerts.getD 4
        default = ⟨2, 2⟩ ∧
    (EmptyCanvas.drawQuadArrays id id [⟨0, 0⟩, ⟨4, 0⟩, ⟨4, 4⟩, ⟨0, 4⟩]
        (some [⟨1, 1, 0, 0⟩, ⟨1, 0, 1, 0⟩, ⟨1, 0, 0, 1⟩, ⟨1, 1, 1, 1⟩]) none 1).newVerts.getD 2
        default = ⟨4, 0⟩ := by
  have h := drawQuad_tessellation_rounded id id (EmptyCanvas.make (GBitmap.cleared 4 4))
    [⟨0, 0⟩, ⟨4, 0⟩, ⟨4, 4⟩, ⟨0, 4⟩]
    (some [⟨1, 1, 0, 0⟩, ⟨1, 0, 1, 0⟩, ⟨1, 0, 0, 1⟩, ⟨1, 1, 1, 1⟩]) none 1
    ⟨⟨1, 1, 1, 1⟩, GBlendMode.kSrcOver, none⟩ (fun _ => ⟨0, 1, 0, 0, 0⟩) (by simp)
  refine ⟨by simp, h.2.2.2.2.1.trans (by decide), h.2.2.1, ?_, h.2.2.2.2.2.2.2.2.1⟩
  have h4 := h.2.2.2.2.2.2.1 1 1 (by decide) (by decide)
  rw [show (1 * (1 + 2) + 1 : Nat) = 4 from rfl] at h4
  rw [h4]
  simp only [GPoint.smul_def, GPoint.add_def, List.getD_cons_zero, List.getD_cons_succ]
  norm_num

/-- C33: for every polyline closed by `connect_end = true`, every bitmap (of width and height
at least 0) and every integer row `y`, the windings `w` of the edges that `find_edges` emits
and that are active on row `y` (`min_y ≤ y < max_y`) sum to 0. -/
theorem closed_polyline_winding_balanced (pts : List GPoint) (count : Nat)
    (bit_map : GBitmap) (hW : 0 ≤ bit_map.width) (hH : 0 ≤ bit_map.height) (y : Int) :
    (((find_edges [] pts count bit_map true).filter (fun e => e.legal_y y)).map
      (fun e => e.w)).sum = 0 :=
  find_edges_closed_winding pts count bit_map hW hH y

/-- Witness of C33: the triangle (-2, 1), (6, 3), (2, 9), which leaves the 4x4 bitmap on the
left, on the right and at the bottom, on row 2. -/
theorem closed_polyline_winding_balanced_witness :
    (0 : Int) ≤ (GBitmap.cleared 4 4).width ∧ (0 : Int) ≤ (GBitmap.cleared 4 4).height ∧
    (((find_edges [] [⟨-2, 1⟩, ⟨6, 3⟩, ⟨2, 9⟩] 3 (GBitmap.cleared 4 4) true).filter
      (fun e => e.legal_y 2)).map (fun e => e.w)).sum = 0 :=
  ⟨by decide, by decide,
    closed_polyline_winding_balanced [⟨-2, 1⟩, ⟨6, 3⟩, ⟨2, 9⟩] 3 (GBitmap.cleared 4 4)
      (by decide) (by decide) 2⟩

/-- C34: for every tri-colour shader and every CTM with `CTM * P` invertible, all `x`, `y`,
`count` and `i < count`: `setContext` succeeds, `row[i]` of `shadeRow` is the pixel of the
colour that the loop reaches from the colour at `(x + 0.5, y + 0.5)` by adding `delta_color`
`i` times, and this colour is the direct evaluation `c0 + u*(c1 - c0) + v*(c2 - c0)` at the
point `(u, v)` that `(CTM * P)^-1` (as `invert` computes it) gives for
`(x + i + 0.5, y + 0.5)`, the point that `CTM * P` maps to `(x + i + 0.5, y + 0.5)`. -/
theorem triColor_incremental_is_barycentric (self : TriColorShader) (ctm : GMatrix)
    (hdet : (GMatrix.Concat ctm self.local_matrix).SX * (GMatrix.Concat ctm self.local_matrix).SY -
      (GMatrix.Concat ctm self.local_matrix).KX * (GMatrix.Concat ctm self.local_matrix).KY ≠ 0)
    (x y : Int) (count i : Nat) (hi : i < count) :
    (self.setContext ctm).1 = true ∧
    ((self.setContext ctm).2.shadeRow x y count).getD i (GPixel_PackARGB 0 0 0 0) =
      color_to_pixel (TriColorShader.loopColor (self.setContext ctm).2.delta_color i
        ((self.setContext ctm).2.initialColor x y)) ∧
    TriColorShader.loopColor (self.setContext ctm).2.delta_color i
        ((self.setContext ctm).2.initialColor x y) =
      barycentricSpec (self.colors.getD 0 default) (self.colors.getD 1 default)
        (self.colors.getD 2 default)
        (((GMatrix.Concat ctm self.local_matrix).invert
          (GMatrix.Concat ctm self.local_matrix)).2.mapPoint
          ⟨(x : ℚ) + (i : ℚ) + 1 / 2, (y : ℚ) + 1 / 2⟩).fX
        (((GMatrix.Concat ctm self.local_matrix).invert
          (GMatrix.Concat ctm self.local_matrix)).2.mapPoint
          ⟨(x : ℚ) + (i : ℚ) + 1 / 2, (y : ℚ) + 1 / 2⟩).fY ∧
    (GMatrix.Concat ctm self.local_matrix).mapPoint
        (((GMatrix.Concat ctm self.local_matrix).invert
          (GMatrix.Concat ctm self.local_matrix)).2.mapPoint
          ⟨(x : ℚ) + (i : ℚ) + 1 / 2, (y : ℚ) + 1 / 2⟩) =
      ⟨(x : ℚ) + (i : ℚ) + 1 / 2, (y : ℚ) + 1 / 2⟩ :=
  TriColorShader.loopColor_barycentric self ctm hdet x y count i hi

/-- Witness of C34: the triangle (0,0), (4,0), (0,4) with the colours red, green and blue
under the identity CTM; the second pixel of the row of two pixels that starts at (1, 1) has
the centre (2.5, 1.5), that is `(u, v) = (5/8, 3/8)`. -/
theorem triColor_incremental_is_barycentric_witness :
    (GMatrix.Concat GMatrix.identity
        (TriColorShader.make [⟨0, 0⟩, ⟨4, 0⟩, ⟨0, 4⟩]
          [⟨1, 1, 0, 0⟩, ⟨1, 0, 1, 0⟩, ⟨1, 0, 0, 1⟩]).local_matrix).SX *
      (GMatrix.Concat GMatrix.identity
        (TriColorShader.make [⟨0, 0⟩, ⟨4, 0⟩, ⟨0, 4⟩]
          [⟨1, 1, 0, 0⟩, ⟨1, 0, 1, 0⟩, ⟨1, 0, 0, 1⟩]).local_matrix).SY -
      (GMatrix.Concat GMatrix.identity
        (TriColorShader.make [⟨0, 0⟩, ⟨4, 0⟩, ⟨0, 4⟩]
          [⟨1, 1, 0, 0⟩, ⟨1, 0, 1, 0⟩, ⟨1, 0, 0, 1⟩]).local_matrix).KX *
      (GMatrix.Concat GMatrix.identity
        (TriColorShader.make [⟨0, 0⟩, ⟨4, 0⟩, ⟨0, 4⟩]
          [⟨1, 1, 0, 0⟩, ⟨1, 0, 1, 0⟩, ⟨1, 0, 0, 1⟩]).local_matrix).KY ≠ 0 ∧
    1 < 2 ∧
    (((TriColorShader.make [⟨0, 0⟩, ⟨4, 0⟩, ⟨0, 4⟩]
        [⟨1, 1, 0, 0⟩, ⟨1, 0, 1, 0⟩, ⟨1, 0, 0, 1⟩]).setContext GMatrix.identity).2.shadeRow
        1 1 2).getD 1 (GPixel_PackARGB 0 0 0 0) =
      color_to_pixel
        (barycentricSpec ⟨1, 1, 0, 0⟩ ⟨1, 0, 1, 0⟩ ⟨1, 0, 0, 1⟩ (5 / 8) (3 / 8)) := by
  have hdet : (GMatrix.Concat GMatrix.identity
        (TriColorShader.make [⟨0, 0⟩, ⟨4, 0⟩, ⟨0, 4⟩]
          [⟨1, 1, 0, 0⟩, ⟨1, 0, 1, 0⟩, ⟨1, 0, 0, 1⟩]).local_matrix).SX *
      (GMatrix.Concat GMatrix.identity
        (TriColorShader.make [⟨0, 0⟩, ⟨4, 0⟩, ⟨0, 4⟩]
          [⟨1, 1, 0, 0⟩, ⟨1, 0, 1, 0⟩, ⟨1, 0, 0, 1⟩]).local_matrix).SY -
      (GMatrix.Concat GMatrix.identity
        (TriColorShader.make [⟨0, 0⟩, ⟨4, 0⟩, ⟨0, 4⟩]
          [⟨1, 1, 0, 0⟩, ⟨1, 0, 1, 0⟩, ⟨1, 0, 0, 1⟩]).local_matrix).KX *
      (GMatrix.Concat GMatrix.identity
        (TriColorShader.make [⟨0, 0⟩, ⟨4, 0⟩, ⟨0, 4⟩]
          [⟨1, 1, 0, 0⟩, ⟨1, 0, 1, 0⟩, ⟨1, 0, 0, 1⟩]).local_matrix).KY ≠ 0 := by
    norm_num [GMatrix.Concat, GMatrix.identity, TriColorShader.make, GPoint.sub_def]
  have h := triColor_incremental_is_barycentric
    (TriColorShader.make [⟨0, 0⟩, ⟨4, 0⟩, ⟨0, 4⟩] [⟨1, 1, 0, 0⟩, ⟨1, 0, 1, 0⟩, ⟨1, 0, 0, 1⟩])
    GMatrix.identity hdet 1 1 2 1 (by decide)
  refine ⟨hdet, by decide, ?_⟩
  rw [h.2.1, h.2.2.1]
  congr 1
  norm_num [GMatrix.Concat, GMatrix.identity, TriColorShader.make, GPoint.sub_def,
    GMatrix.invert, GMatrix.mapPoint, barycentricSpec]

/-- C35: for every non-empty edge vector sorted by `sortEdges` in which each edge has
`min_y < max_y`, the scanline loop of `drawPath` (started with a new blitter) returns with
the empty vector after exactly `rows` turns, whatever fuel of at least `rows` turns it is
given, where `rows = max(max_y) - min(min_y)`: the first edge has the least `min_y`, no edge
ends after row `min_y + rows` and one ends there, and no assertion fails.  At the beginning
of the turn of row `y` the vector holds, up to the order, exactly the edges with
`y < max_y` (each advanced to row `y`), so an edge is erased in the turn of row `max_y - 1`;
and it is split into the edges with `min_y ≤ y`, which the first `while` loop visits, and
the ones with `y < min_y`, so an edge is active exactly on the rows `min_y .. max_y - 1`. -/
theorem scanline_loop_terminates (e0 : Edge) (es : List Edge) (src : GPaint) (ctm : GMatrix)
    (bit_map : GBitmap)
    (hsorted : (e0 :: es).Pairwise (fun a b => sortEdges b a = false))
    (h : ∀ e ∈ e0 :: es, e.min_y < e.max_y) :
    ∃ rows trace b1 bm1,
      (∀ fuel, rows ≤ fuel →
        EmptyCanvas.scanRows fuel (GRoundToInt e0.min_y) (e0 :: es) (Blitter.make src ctm)
          bit_map = some (trace, b1, bm1)) ∧
      trace.length = rows ∧
      (∀ e ∈ e0 :: es, e0.min_y ≤ e.min_y ∧ e.max_y ≤ e0.min_y + rows) ∧
      (∃ e ∈ e0 :: es, e.max_y = e0.min_y + rows) ∧
      ∀ k, k < rows → (trace.getD k []).Perm (edgesAtRow (e0 :: es) (e0.min_y + k)) ∧
        EmptyCanvas.scanSplit (e0.min_y + k) (trace.getD k []) :=
  EmptyCanvas.scanRows_terminates e0 es (Blitter.make src ctm) bit_map hsorted h
    (Blitter.make_coherent src ctm)

/-- Witness of C35: the two vertical edges of the rectangle (1,1)-(4,4), at `x = 1` and
`x = 4`, take three turns (rows 1, 2 and 3). -/
theorem scanline_loop_terminates_witness :
    ([⟨1, 4, -1, 0, 1⟩, ⟨1, 4, 1, 0, 4⟩] : List Edge).Pairwise
      (fun a b => sortEdges b a = false) ∧
    (∀ e ∈ ([⟨1, 4, -1, 0, 1⟩, ⟨1, 4, 1, 0, 4⟩] : List Edge), e.min_y < e.max_y) ∧
    ∃ trace b1 bm1,
      EmptyCanvas.scanRows 3 (GRoundToInt ((1 : Int) : ℚ)) [⟨1, 4, -1, 0, 1⟩, ⟨1, 4, 1, 0, 4⟩]
        (Blitter.make ⟨⟨1, 1, 0, 0⟩, GBlendMode.kSrcOver, none⟩ GMatrix.identity)
        (GBitmap.cleared 8 8) = some (trace, b1, bm1) ∧
      trace.length = 3 := by
  have hs : ([⟨1, 4, -1, 0, 1⟩, ⟨1, 4, 1, 0, 4⟩] : List Edge).Pairwise
      (fun a b => sortEdges b a = false) := by
    refine List.pairwise_cons.mpr ⟨?_, List.pairwise_singleton _ _⟩
    intro b hb
    rw [List.mem_singleton] at hb
    subst hb
    norm_num [sortEdges]
  have hm : ∀ e ∈ ([⟨1, 4, -1, 0, 1⟩, ⟨1, 4, 1, 0, 4⟩] : List Edge), e.min_y < e.max_y := by
    intro e he
    simp only [List.mem_cons, List.mem_singleton, List.not_mem_nil, or_false] at he
    rcases he with he | he <;> subst he <;> decide
  obtain ⟨rows, trace, b1, bm1, hrun, hlen, _, ⟨e, he, hmax⟩, _⟩ :=
    scanline_loop_terminates ⟨1, 4, -1, 0, 1⟩ [⟨1, 4, 1, 0, 4⟩]
      ⟨⟨1, 1, 0, 0⟩, GBlendMode.kSrcOver, none⟩ GMatrix.identity (GBitmap.cleared 8 8) hs hm
  have hrows : rows = 3 := by
    simp only [List.mem_cons, List.mem_singleton, List.not_mem_nil, or_false] at he
    rcases he with he | he <;> subst he <;> simp only at hmax <;> omega
  subst hrows
  exact ⟨hs, hm, trace, b1, bm1, hrun 3 (le_refl _), hlen⟩

/-- C36: for every paint without a shader whose colour channels lie in [0, 1], every blend
mode, every bitmap of premultiplied pixels and every sequence of calls `blit(y, start_x,
end_x)` handled by one new blitter, the calls complete, the cache of the blitter stays
coherent (`blend_ptr` is what `get_blendmode` picks for the cached destination), and every
pixel of the resulting bitmap is what the closed-form operator of the mode, applied to
`color_to_pixel(paint)` and the old destination, gives span by span. -/
theorem blitter_constant_path_is_closed_form (src : GPaint) (ctm : GMatrix)
    (bit_map : GBitmap) (calls : List (Int × Int × Int))
    (hsh : src.fShader = none) (hc : src.fColor.unit) (hp : bit_map.premul) :
    ∃ self1 bit_map1,
      Blitter.blits calls (Blitter.make src ctm) bit_map = some (self1, bit_map1) ∧
      self1.coherent ∧ bit_map1.premul ∧
      ∀ x y, bit_map1.pix x y =
        (blitsSpec src.fMode (color_to_pixel src.fColor) calls bit_map).pix x y := by
  obtain ⟨self1, bit_map1, h1, h2, _, h4, h5⟩ :=
    Blitter.blits_blitsSpec calls (Blitter.make src ctm) bit_map (Blitter.make_coherent src ctm)
      hsh hc hp
  exact ⟨self1, bit_map1, h1, h2, h4, h5⟩

/-- Witness of C36: a half-transparent red blended with `kSrcOver` over the cleared 4x4
bitmap, by two overlapping spans of row 0. -/
theorem blitter_constant_path_is_closed_form_witness :
    (⟨⟨1 / 2, 1, 0, 0⟩, GBlendMode.kSrcOver, none⟩ : GPaint).fShader = none ∧
    (⟨⟨1 / 2, 1, 0, 0⟩, GBlendMode.kSrcOver, none⟩ : GPaint).fColor.unit ∧
    (GBitmap.cleared 4 4).premul ∧
    ∃ self1 bit_map1,
      Blitter.blits [(0, 0, 2), (0, 1, 3)]
        (Blitter.make ⟨⟨1 / 2, 1, 0, 0⟩, GBlendMode.kSrcOver, none⟩ GMatrix.identity)
        (GBitmap.cleared 4 4) = some (self1, bit_map1) ∧
      self1.coherent ∧ bit_map1.premul ∧
      ∀ x y, bit_map1.pix x y =
        (blitsSpec GBlendMode.kSrcOver (color_to_pixel ⟨1 / 2, 1, 0, 0⟩) [(0, 0, 2), (0, 1, 3)]
          (GBitmap.cleared 4 4)).pix x y :=
  ⟨rfl, by norm_num [GColor.unit], fun _ _ => (by decide : (GPixel_PackARGB 0 0 0 0).premul),
    blitter_constant_path_is_closed_form ⟨⟨1 / 2, 1, 0, 0⟩, GBlendMode.kSrcOver, none⟩
      GMatrix.identity (GBitmap.cleared 4 4) [(0, 0, 2), (0, 1, 3)] rfl
      (by norm_num [GColor.unit]) (fun _ _ => (by decide : (GPixel_PackARGB 0 0 0 0).premul))⟩

/-- C37: `CanvasShader::mirror` is not the reflect-tiling map on negative coordinates,
because `(int)(coord)` truncates towards zero where `floorf` rounds down.  For the
dimension 4: `mirror(1) = 1`, but `mirror(-1) = 3`, so `mirror(-c) = mirror(c)` fails for
`c = 1`; and `mirror(-1 + 2 * 4) = 1`, so `mirror(c + 2d) = mirror(c)` fails for `c = -1`. -/
theorem mirror_wrong_for_negative_coordinates :
    CanvasShader.mirror 1 (1 / 4) 4 = 1 ∧ CanvasShader.mirror (-1) (1 / 4) 4 = 3 ∧
      CanvasShader.mirror (-1 + 2 * 4) (1 / 4) 4 = 1 :=
  ⟨CanvasShader.mirror_eval_one, CanvasShader.mirror_eval_neg_one,
    CanvasShader.mirror_eval_seven⟩

/-- C38: for every blend mode and all premultiplied pixels `src` and `dst`, the result of
the Porter-Duff operator of the mode, and the result of `get_blendmode_pixel`, is again a
premultiplied pixel: its alpha is at most 255 and its red, green and blue are at most its
alpha. -/
theorem porter_duff_keeps_premul (mode : GBlendMode) (src dst : GPixel)
    (hs : src.premul) (hd : dst.premul) :
    (blendOp mode src dst).premul ∧ (get_blendmode_pixel src dst mode).premul :=
  ⟨blendOp_premul mode src dst hs hd, get_blendmode_pixel_premul mode src dst hs hd⟩

/-- Witness of C38: `kXor` of two half-transparent pixels. -/
theorem porter_duff_keeps_premul_witness :
    (GPixel_PackARGB 128 128 0 0).premul ∧ (GPixel_PackARGB 200 0 100 50).premul ∧
    (blendOp GBlendMode.kXor (GPixel_PackARGB 128 128 0 0)
      (GPixel_PackARGB 200 0 100 50)).premul ∧
    (get_blendmode_pixel (GPixel_PackARGB 128 128 0 0) (GPixel_PackARGB 200 0 100 50)
      GBlendMode.kXor).premul :=
  ⟨by decide, by decide,
    porter_duff_keeps_premul GBlendMode.kXor (GPixel_PackARGB 128 128 0 0)
      (GPixel_PackARGB 200 0 100 50) (by decide) (by decide)⟩

/-- C39: `drawConvexPolygon` reads past the end of the edge vector on the last scanline.
For the rectangle (1,1)-(4,4) on the cleared 8x8 bitmap (identity CTM) the sorted vector has
the two elements `edges[0]`, `edges[1]`; the loop runs for the rows 1, 2, 3, and in its last
turn both `e0` and `e1` run out of rows, so `i` becomes 2 and then 3 and the elements
`edges[2]` and `edges[3]` are fetched: the loop ends with `i = 3`, `e0 = edges[2]` and
`e1 = edges[3]`, two values from outside the vector. -/
theorem convex_loop_reads_past_edge_vector (src : GPaint) (oob : Nat → Edge) :
    sortEdgeList (find_edges []
        [⟨((1 : Int) : ℚ), ((1 : Int) : ℚ)⟩, ⟨((4 : Int) : ℚ), ((1 : Int) : ℚ)⟩,
         ⟨((4 : Int) : ℚ), ((4 : Int) : ℚ)⟩, ⟨((1 : Int) : ℚ), ((4 : Int) : ℚ)⟩] 4
        (GBitmap.cleared 8 8) true) =
      [{ min_y := 1, max_y := 4, w := -1, m := 0, x := ((1 : Int) : ℚ) },
       { min_y := 1, max_y := 4, w := 1, m := 0, x := ((4 : Int) : ℚ) }] ∧
    ∃ s1,
      EmptyCanvas.convexRows
        [{ min_y := 1, max_y := 4, w := -1, m := 0, x := ((1 : Int) : ℚ) },
         { min_y := 1, max_y := 4, w := 1, m := 0, x := ((4 : Int) : ℚ) }] oob 3 1
        { e0 := EmptyCanvas.edgeAt
            [{ min_y := 1, max_y := 4, w := -1, m := 0, x := ((1 : Int) : ℚ) },
             { min_y := 1, max_y := 4, w := 1, m := 0, x := ((4 : Int) : ℚ) }] oob 0,
          e1 := EmptyCanvas.edgeAt
            [{ min_y := 1, max_y := 4, w := -1, m := 0, x := ((1 : Int) : ℚ) },
             { min_y := 1, max_y := 4, w := 1, m := 0, x := ((4 : Int) : ℚ) }] oob 1,
          i := 1, blitter := Blitter.make src GMatrix.identity,
          bit_map := GBitmap.cleared 8 8 } = some s1 ∧
      s1.i = 3 ∧ s1.e0 = oob 2 ∧ s1.e1 = oob 3 := by
  constructor
  · rw [find_edges_rect (GBitmap.cleared 8 8) 1 1 4 4 (by decide) (by decide) (by decide)
      (by decide) (by decide) (by decide)]
    exact sortEdgeList_pair_swap _ _ rfl (by norm_num)
  · obtain ⟨s1, h1, h2, h3, h4⟩ := EmptyCanvas.convexRows_final
      [{ min_y := 1, max_y := 4, w := -1, m := 0, x := ((1 : Int) : ℚ) },
       { min_y := 1, max_y := 4, w := 1, m := 0, x := ((4 : Int) : ℚ) }] oob 2 1
      { e0 := EmptyCanvas.edgeAt
          [{ min_y := 1, max_y := 4, w := -1, m := 0, x := ((1 : Int) : ℚ) },
           { min_y := 1, max_y := 4, w := 1, m := 0, x := ((4 : Int) : ℚ) }] oob 0,
        e1 := EmptyCanvas.edgeAt
          [{ min_y := 1, max_y := 4, w := -1, m := 0, x := ((1 : Int) : ℚ) },
           { min_y := 1, max_y := 4, w := 1, m := 0, x := ((4 : Int) : ℚ) }] oob 1,
        i := 1, blitter := Blitter.make src GMatrix.identity,
        bit_map := GBitmap.cleared 8 8 }
      (Blitter.make_coherent src GMatrix.identity) (by rfl)
      (show (1 : Int) ≤ 1 by decide) (by rfl) (show (1 : Int) ≤ 1 by decide)
    exact ⟨s1, h1, h2, h3, h4⟩

end GraphicsEngine
